import Mathlib

/-! GIGA reference CPU backend: tensor memory model and fixed-point kernels.

A shallow embedding of the reference (non `ENABLE_OPTIMIZATION`) build of
`giga_soft/cpu`.  Conventions of the embedding:

* `uint32_t` values are naturals; every `uint32_t` operation of the source is
  followed by `% 2 ^ 32`; `size_t` arithmetic is taken modulo `2 ^ 64`.
* device memory is one flat byte-addressed store `Mem`; a pointer is a byte
  address; `get_ptr<T>(t) + k` is `get_ptr t + k * sizeof(T)`.
* multi-byte elements are little-endian.
* `uint32_t dims[4]` and `uint32_t strides[4]` are functions of the index.
* the compute type `int_fast32_t` is a two's-complement integer of `w` bits,
  `w` being a parameter of the kernels.
* `RETURN_ERROR` returns its code (exceptions are disabled by default).
-/

namespace Giga

/-! ## giga.h -/

/-- Error codes, in the order of `enum GIGA_error`. -/
inductive GIGA_error
  | GIGA_Success
  | GIGA_Unknown_Error
  | GIGA_Incorrect_Parameter
  | GIGA_Out_Of_Host_Memory
  | GIGA_Out_Of_Device_Memory
  | GIGA_Inconsistent_Tensor_Sizes
  | GIGA_Inconsistent_Number_Of_Dimensions
  | GIGA_Unimplemented_Type
  | GIGA_Unknown_tensor
  | GIGA_Inconsistent_Tensor_Types
  | GIGA_Bad_Alloc
  | GIGA_Device_Not_Initialized
  | GIGA_Bad_Memory_Alignment
  | GIGA_Not_Implemented
  | GIGA_Device_Error
  | GIGA_Inconsistent_Device
  | GIGA_Process_Mapped_Tensor
  | GIGA_Memory_Alignement_Error
  | GIGA_Memory_Layout_Error
  deriving DecidableEq, Repr

/-- Element kinds, in the order of `enum GIGA_data_type` (values 0 to 7). -/
inductive GIGA_data_type
  | GIGA_Float16
  | GIGA_Float32
  | GIGA_SFixed4
  | GIGA_SFixed8
  | GIGA_SFixed16
  | GIGA_UFixed4
  | GIGA_UFixed8
  | GIGA_UFixed16
  deriving DecidableEq, Repr

open GIGA_error GIGA_data_type

/-- Numeric value of the enumerator (`static_cast<int>(type)`). -/
def GIGA_data_type.toNat : GIGA_data_type → Nat
  | GIGA_Float16 => 0
  | GIGA_Float32 => 1
  | GIGA_SFixed4 => 2
  | GIGA_SFixed8 => 3
  | GIGA_SFixed16 => 4
  | GIGA_UFixed4 => 5
  | GIGA_UFixed8 => 6
  | GIGA_UFixed16 => 7

/-- Internal record behind `GIGA_tensor_t::data` (giga_cpu.h); pointers are byte addresses. -/
structure Tensor_data_t where
  is_allocated : Bool := false
  is_mapped : Bool := false
  id : Nat := 0
  memory_zone_id : Nat := 0
  data_ptr : Nat := 0
  data_start : Nat := 0
  view_of : Nat := 0

/-- Tensor descriptor of giga.h; `data = none` is the NULL handle. -/
structure GIGA_tensor_t where
  device_id : Nat
  nb_dims : Nat
  type : GIGA_data_type
  dims : Nat → Nat
  strides : Nat → Nat
  fp_shift : Nat
  data : Option Tensor_data_t

/-- Allocation parameters of giga.h. -/
structure GIGA_allocate_t where
  memory_zone_id : Nat
  offset : Nat

/-- View parameters of giga.h: `uint32_t offset[4]`. -/
structure GIGA_view_t where
  offset : Nat → Nat

/-- Convolution parameters of giga.h; `padding` is `int32_t[2][2]`, `bias = none` is NULL. -/
structure GIGA_conv2d_t where
  padding : Nat → Nat → Int
  stride : Nat → Nat
  dilation : Nat → Nat
  b_ReLU : Bool
  kernel : GIGA_tensor_t
  bias : Option GIGA_tensor_t

/-- Dense parameters of giga.h; `bias = none` is NULL. -/
structure GIGA_dense_t where
  b_ReLU : Bool
  kernel : GIGA_tensor_t
  bias : Option GIGA_tensor_t

/-- Upsampling parameters of giga.h. -/
structure GIGA_upsample_t where
  factor : Nat

/-! ## giga_cpu.cpp -/

/-- Predicate `is_float` of giga_cpu.cpp. -/
def is_float (type : GIGA_data_type) : Bool := decide (type.toNat ≤ 1)

/-- Predicate `is_signed` of giga_cpu.cpp. -/
def is_signed (type : GIGA_data_type) : Bool := decide (type.toNat ≤ 4)

/-- Function `element_size_in_bits` of giga_cpu.cpp. -/
def element_size_in_bits : GIGA_data_type → Nat
  | GIGA_SFixed4 => 4
  | GIGA_UFixed4 => 4
  | GIGA_SFixed8 => 8
  | GIGA_UFixed8 => 8
  | GIGA_Float16 => 16
  | GIGA_SFixed16 => 16
  | GIGA_UFixed16 => 16
  | GIGA_Float32 => 32

/-- Function `check_tensor_exists` of giga_cpu.cpp. -/
def check_tensor_exists (tensor : GIGA_tensor_t) : Bool :=
  match tensor.data with
  | none => false
  | some d => d.is_allocated

/-- The `sizeof` of `GIGA_C_Type<type>::CType` (giga_cpu.h): `half` 2, `float` 4,
`int8_t` and `uint8_t` 1 (also for the 4-bit kinds), `int16_t` and `uint16_t` 2. -/
def sizeof_CType : GIGA_data_type → Nat
  | GIGA_Float16 => 2
  | GIGA_Float32 => 4
  | GIGA_SFixed4 => 1
  | GIGA_SFixed8 => 1
  | GIGA_SFixed16 => 2
  | GIGA_UFixed4 => 1
  | GIGA_UFixed8 => 1
  | GIGA_UFixed16 => 2

/-- Accessor `get_ptr` and `get_cptr` of giga_cpu.h: the `data_start` of the handle.  Dereferencing
a NULL handle is undefined in the source; the embedding then reads address 0. -/
def get_ptr (tensor : GIGA_tensor_t) : Nat :=
  match tensor.data with
  | none => 0
  | some d => d.data_start

/-! ## giga_cpu_memory.cpp: zones and allocation -/

/-- Class `MemoryPool`: `ptr` and `size` stand for `m_data.data()` and `m_data.size()`; the bytes of
`m_data` are the cells `ptr .. ptr + size - 1` of the byte store. -/
structure MemoryPool where
  nb_tensors : Nat := 0
  ptr : Nat
  size : Nat

/-- File-scope state of giga_cpu_memory.cpp: the zone collection and the tensor-id counter. -/
structure GigaState where
  s_memory_zones : List MemoryPool
  current_tensor_id : Nat := 1

/-- The row-major loop of `giga_allocate_tensor_`: called with `k = nb_dims - 1` it runs
`i = nb_dims - 2` down to `0`, `strides[i] = strides[i + 1] * dims[i + 1]` in `uint32_t`. -/
def stride_loop (dims : Nat → Nat) : Nat → (Nat → Nat) → (Nat → Nat)
  | 0, s => s
  | k + 1, s => stride_loop dims k (Function.update s k ((s (k + 1) * dims (k + 1)) % 2 ^ 32))

/-- Increment of `nb_tensors` of zone `z` (`memory_zones[z].nb_tensors++`). -/
def bump_nb_tensors : List MemoryPool → Nat → List MemoryPool
  | [], _ => []
  | p :: ps, 0 => { p with nb_tensors := p.nb_tensors + 1 } :: ps
  | p :: ps, z + 1 => p :: bump_nb_tensors ps z

/-- Function `giga_allocate_tensor_`.  Returns the error code, the caller's descriptor as the call
leaves it, and the file-scope state. -/
def giga_allocate_tensor_ (st : GigaState) (tensor : GIGA_tensor_t) (params : GIGA_allocate_t) :
    GIGA_error × GIGA_tensor_t × GigaState :=
  if tensor.nb_dims > 4 ∨ tensor.nb_dims < 1 then
    (GIGA_Inconsistent_Number_Of_Dimensions, tensor, st)
  else
    match st.s_memory_zones[params.memory_zone_id]? with
    | none => (GIGA_Out_Of_Device_Memory, tensor, st)
    | some memory_pool =>
      let element_size := element_size_in_bits tensor.type / 8
      let strides :=
        stride_loop tensor.dims (tensor.nb_dims - 1)
          (Function.update tensor.strides (tensor.nb_dims - 1) (element_size % 2 ^ 32))
      let buffer_size := (strides 0 * tensor.dims 0) % 2 ^ 32
      if params.offset + buffer_size > memory_pool.size then
        (GIGA_Out_Of_Device_Memory,
          { tensor with strides := strides, data := some {} }, st)
      else
        let typed_data : Tensor_data_t :=
          { data_ptr := memory_pool.ptr
            data_start := memory_pool.ptr + params.offset
            memory_zone_id := params.memory_zone_id
            is_allocated := true
            id := st.current_tensor_id }
        (GIGA_Success,
          { tensor with strides := strides, data := some typed_data },
          { s_memory_zones := bump_nb_tensors st.s_memory_zones params.memory_zone_id
            current_tensor_id := st.current_tensor_id + 1 })


/-! ## Loops and the byte store -/

/-- A counted loop `for (i = 0; i < n; ++i) body`, as a state transformer. -/
def forLoop {σ : Type} (n : Nat) (body : Nat → σ → σ) (s : σ) : σ :=
  (List.range n).foldl (fun s i => body i s) s

/-- Byte store: the content of every byte address (device zones and host buffers alike). -/
abbrev Mem := Nat → Nat

/-- Little-endian read of `n` bytes at address `a` (a cell counts modulo 256). -/
def load_bytes (m : Mem) (a : Nat) : Nat → Nat
  | 0 => 0
  | n + 1 => m a % 256 + 256 * load_bytes m (a + 1) n

/-- Little-endian write of the low `n` bytes of `v` at address `a`. -/
def store_bytes (m : Mem) (a n v : Nat) : Mem :=
  fun x => if a ≤ x ∧ x < a + n then (v / 256 ^ (x - a)) % 256 else m x

/-- Call `memcpy(dst, src, n)` from the store `src_m` into the store `m` (regions assumed not to
overlap, as `memcpy` requires). -/
def memcpy (m : Mem) (dst : Nat) (src_m : Mem) (src n : Nat) : Mem :=
  fun x => if dst ≤ x ∧ x < dst + n then src_m (src + (x - dst)) else m x

/-! ## utils.h: integer types and the shift primitive -/

/-- A C integer type: width in bits and signedness. -/
structure CIntType where
  bits : Nat
  signed : Bool
  deriving DecidableEq, Repr

/-- Two's-complement reduction to `w` bits, signed. -/
def wrapS (w : Nat) (x : Int) : Int := (x + 2 ^ (w - 1)) % 2 ^ w - 2 ^ (w - 1)

/-- Conversion of an integer value to the C type `T` (modular for both signs). -/
def CIntType.wrap (T : CIntType) (x : Int) : Int :=
  if T.signed then wrapS T.bits x else x % 2 ^ T.bits

/-- Integral promotion: types narrower than `int` (32 bits) compute in `int`. -/
def promote (T : CIntType) : CIntType := if T.bits < 32 then ⟨32, true⟩ else T

/-- Template `shift<T>` of utils.h for an integer `T`: the operators act on the promoted operand
and the result is converted back to `T` by the `return`.  `value >> n` is the arithmetic shift
(floor division).  Shift counts are meant below the width of the promoted type. -/
def shift (T : CIntType) (value : Int) (s : Int) : Int :=
  let P := promote T
  if s > 0 then
    if value < 0 then
      T.wrap (P.wrap (-(P.wrap (P.wrap (-value) * 2 ^ s.toNat))))
    else
      T.wrap (P.wrap (value * 2 ^ s.toNat))
  else
    T.wrap (value / 2 ^ (-s).toNat)

/-- C type of the 8- and 16-bit fixed-point kinds (`GIGA_C_Type`), the kinds of the integer
instantiations of the kernels; `none` for the float kinds and the 4-bit kinds. -/
def fixed_CType : GIGA_data_type → Option CIntType
  | GIGA_SFixed8 => some ⟨8, true⟩
  | GIGA_SFixed16 => some ⟨16, true⟩
  | GIGA_UFixed8 => some ⟨8, false⟩
  | GIGA_UFixed16 => some ⟨16, false⟩
  | _ => none

/-- Value of the stored bit pattern `u` read as the C type `T`. -/
def CIntType.ofBits (T : CIntType) (u : Nat) : Int :=
  if T.signed ∧ 2 ^ (T.bits - 1) ≤ u then (u : Int) - 2 ^ T.bits else u

/-- Read `*(const T *)a`. -/
def load_int (T : CIntType) (m : Mem) (a : Nat) : Int :=
  T.ofBits (load_bytes m a (T.bits / 8))

/-- Write `*(T *)a = T(v)`: the conversion to `T` keeps the low `bits` bits. -/
def store_int (T : CIntType) (m : Mem) (a : Nat) (v : Int) : Mem :=
  store_bytes m a (T.bits / 8) (v % 2 ^ T.bits).toNat

/-! ## giga_cpu_memory.cpp: view and reshape -/

/-- The loop of `giga_view_` over `dim < nb_dims`, on the pair (strides of the view, `data_start`
of the view): `out->strides[dim] = in->strides[dim]` and
`data_start += offset[dim] * in->strides[dim]`, the product being a `uint32_t` one. -/
def view_loop (offset strides_in : Nat → Nat) (r : Nat) (init : (Nat → Nat) × Nat) :
    (Nat → Nat) × Nat :=
  forLoop r
    (fun dim acc =>
      (Function.update acc.1 dim (strides_in dim),
        acc.2 + (offset dim * strides_in dim) % 2 ^ 32))
    init

/-- Function `giga_view_`. -/
def giga_view_ (st : GigaState) (params : GIGA_view_t) (inT out : GIGA_tensor_t) :
    GIGA_error × GIGA_tensor_t × GigaState :=
  if !check_tensor_exists inT then (GIGA_Unknown_tensor, out, st)
  else if inT.type ≠ out.type then (GIGA_Inconsistent_Tensor_Types, out, st)
  else if inT.fp_shift ≠ out.fp_shift then (GIGA_Inconsistent_Tensor_Types, out, st)
  else if inT.nb_dims ≠ out.nb_dims then (GIGA_Inconsistent_Number_Of_Dimensions, out, st)
  else
    match inT.data with
    | none => (GIGA_Unknown_tensor, out, st)
    | some data_in =>
      let walk := view_loop params.offset inT.strides inT.nb_dims (out.strides, data_in.data_start)
      let data_out : Tensor_data_t :=
        { id := st.current_tensor_id
          memory_zone_id := data_in.memory_zone_id
          data_ptr := data_in.data_ptr
          data_start := walk.2
          is_allocated := true
          view_of := data_in.id }
      (GIGA_Success,
        { out with strides := walk.1, data := some data_out },
        { s_memory_zones := bump_nb_tensors st.s_memory_zones data_in.memory_zone_id
          current_tensor_id := st.current_tensor_id + 1 })

/-- The `unsigned int` product of the first `r` dims, as computed by `giga_reshape_`. -/
def total_size_u32 (dims : Nat → Nat) (r : Nat) : Nat :=
  forLoop r (fun i acc => (acc * dims i) % 2 ^ 32) 1

/-- Function `giga_reshape_`: it only rewrites the two pointers of the output handle. -/
def giga_reshape_ (inT out : GIGA_tensor_t) : GIGA_error × GIGA_tensor_t :=
  if !check_tensor_exists inT || !check_tensor_exists out then (GIGA_Unknown_tensor, out)
  else if inT.type ≠ out.type then (GIGA_Inconsistent_Tensor_Types, out)
  else if inT.fp_shift ≠ out.fp_shift then (GIGA_Inconsistent_Tensor_Types, out)
  else if total_size_u32 inT.dims inT.nb_dims ≠ total_size_u32 out.dims out.nb_dims then
    (GIGA_Inconsistent_Tensor_Sizes, out)
  else
    match inT.data, out.data with
    | some data_in, some data_out =>
      (GIGA_Success,
        { out with data := some { data_out with data_ptr := data_in.data_ptr
                                                data_start := data_in.data_start } })
    | _, _ => (GIGA_Unknown_tensor, out)

/-! ## Addressing through a descriptor -/

/-- Byte offset `Σ idx[i] * strides[i]`, `i < r`, of a multi-index, in exact arithmetic. -/
def elem_offset (strides idx : Nat → Nat) : Nat → Nat
  | 0 => 0
  | r + 1 => elem_offset strides idx r + idx r * strides r

/-- A multi-index given by the list of its coordinates. -/
def idx_of (l : List Nat) : Nat → Nat := fun k => l.getD k 0

/-- Address of the element of multi-index `idx`: the base of the tensor plus the byte strides. -/
def elem_addr (t : GIGA_tensor_t) (idx : Nat → Nat) : Nat :=
  get_ptr t + elem_offset t.strides idx t.nb_dims

/-- Product `dims[j] * ... * dims[j + n - 1]`. -/
def prod_from (dims : Nat → Nat) : Nat → Nat → Nat
  | 0, _ => 1
  | n + 1, j => dims j * prod_from dims n (j + 1)

/-- Multi-index of the `k`-th element in row-major order of a shape `dims` of rank `r`. -/
def unravel (dims : Nat → Nat) (r k : Nat) : Nat → Nat :=
  fun i => (k / prod_from dims (r - (i + 1)) (i + 1)) % dims i

/-- Row-major strides without padding for an element of `es` bytes, in exact arithmetic. -/
def RowMajor (es : Nat) (t : GIGA_tensor_t) : Prop :=
  ∀ i, i < t.nb_dims → t.strides i = es * prod_from t.dims (t.nb_dims - (i + 1)) (i + 1)

/-! ## giga_cpu_memory.cpp: host copies -/

/-- The local `dims[4]` of the copy functions after `switch (tensor->nb_dims)`: initialised to 1,
the entries below the rank are taken from the tensor when the rank is 1 to 4. -/
def copy_dims (tensor : GIGA_tensor_t) : Nat → Nat :=
  fun i => if 1 ≤ tensor.nb_dims ∧ tensor.nb_dims ≤ 4 ∧ i < tensor.nb_dims then tensor.dims i else 1

/-- The integer to integer overloads of `cast_to<T>`: `shift<int32_t>` for a signed target,
`shift<uint32_t>` for an unsigned one, then conversion to the target type. -/
def cast_to (dst : CIntType) (x : Int) (fp_shift : Int) : Int :=
  let S : CIntType := ⟨32, dst.signed⟩
  dst.wrap (shift S (S.wrap x) fp_shift)

/-- True for the 4-bit kinds, which the `switch`es of the copy functions send to `default`. -/
def is_4bit (type : GIGA_data_type) : Bool :=
  decide (type = GIGA_SFixed4) || decide (type = GIGA_UFixed4)

/-- Function `giga_copy_to_tensor_`; `user` is the host buffer behind `user_ptr` (byte 0 is
`user_ptr[0]`).  The per-element path is given for the integer kinds; the result is `none` when a
float kind is involved, a path which `giga_copy_to_tensor_all` gives with the float operations as
parameters. -/
def giga_copy_to_tensor_ (user : Mem) (source_type : GIGA_data_type) (fp_shift : Nat)
    (tensor : GIGA_tensor_t) (m : Mem) : Option (GIGA_error × Mem) :=
  let dims := copy_dims tensor
  if source_type = tensor.type ∧ fp_shift = tensor.fp_shift then
    let tensor_size :=
      (element_size_in_bits tensor.type / 8 * dims 0 * dims 1 * dims 2 * dims 3) % 2 ^ 64
    some (GIGA_Success, memcpy m (get_ptr tensor) user 0 tensor_size)
  else if is_4bit source_type || is_4bit tensor.type then
    some (GIGA_Unimplemented_Type, m)
  else
    match fixed_CType source_type, fixed_CType tensor.type with
    | some S, some T =>
      let delta_fp_shift : Int := (tensor.fp_shift : Int) - (fp_shift : Int)
      let tensor_size := (dims 0 * dims 1 * dims 2 * dims 3) % 2 ^ 32
      some (GIGA_Success,
        forLoop tensor_size
          (fun i mem =>
            store_int T mem (get_ptr tensor + i * (T.bits / 8))
              (cast_to T (load_int S user (i * (S.bits / 8))) delta_fp_shift))
          m)
    | _, _ => none

/-- Function `giga_copy_from_tensor_`; `user` is the host buffer behind `user_ptr` before the
call, the result holds it after the call. -/
def giga_copy_from_tensor_ (user : Mem) (target_type : GIGA_data_type) (fp_shift : Nat)
    (tensor : GIGA_tensor_t) (m : Mem) : Option (GIGA_error × Mem) :=
  let dims := copy_dims tensor
  if target_type = tensor.type ∧ fp_shift = tensor.fp_shift then
    let tensor_size :=
      (element_size_in_bits tensor.type / 8 * dims 0 * dims 1 * dims 2 * dims 3) % 2 ^ 64
    some (GIGA_Success, memcpy user 0 m (get_ptr tensor) tensor_size)
  else if is_4bit target_type || is_4bit tensor.type then
    some (GIGA_Unimplemented_Type, user)
  else
    match fixed_CType target_type, fixed_CType tensor.type with
    | some T, some S =>
      let delta_fp_shift : Int := (fp_shift : Int) - (tensor.fp_shift : Int)
      let tensor_size := (dims 0 * dims 1 * dims 2 * dims 3) % 2 ^ 32
      some (GIGA_Success,
        forLoop tensor_size
          (fun i buf =>
            store_int T buf (i * (T.bits / 8))
              (cast_to T (load_int S m (get_ptr tensor + i * (S.bits / 8))) delta_fp_shift))
          user)
    | _, _ => none

/-! ## giga_cpu_add.cpp -/

/-- Conversion of an `int` expression to `uint32_t`. -/
def u32 (x : Int) : Nat := (x % 2 ^ 32).toNat

/-- The loop of `_add_impl` over the dims: `none` when it returns
`GIGA_Inconsistent_Tensor_Sizes`, else the `unsigned int` product `nb_elements`. -/
def add_dims_loop (a b out : GIGA_tensor_t) : Option Nat :=
  forLoop a.nb_dims
    (fun i acc =>
      match acc with
      | none => none
      | some n =>
        if a.dims i ≠ b.dims i ∨ a.dims i ≠ out.dims i then none
        else some ((n * out.dims i) % 2 ^ 32))
    (some 1)

/-- The element loop of `_add_impl`: the three pointers advance by one element per step. -/
def add_loop (w : Nat) (a_T b_T o_T : CIntType) (ashift bshift : Int)
    (a_base b_base out_base : Nat) (elt_i_end : Nat) (m : Mem) : Mem :=
  forLoop elt_i_end
    (fun elt_i mem =>
      store_int o_T mem (out_base + elt_i * (o_T.bits / 8))
        (CIntType.wrap ⟨w, true⟩
          (shift ⟨w, true⟩
              (CIntType.wrap ⟨w, true⟩ (load_int a_T mem (a_base + elt_i * (a_T.bits / 8)))) ashift
            + shift ⟨w, true⟩
              (CIntType.wrap ⟨w, true⟩ (load_int b_T mem (b_base + elt_i * (b_T.bits / 8))))
              bshift)))
    m

/-- Template `_add_impl<a_GT, b_GT, o_GT>` for integer element types; the compute type is the
signed `w`-bit integer. -/
def _add_impl (w : Nat) (a_T b_T o_T : CIntType) (a b out : GIGA_tensor_t) (m : Mem) :
    GIGA_error × Mem :=
  let ashift : Int := (out.fp_shift : Int) - (a.fp_shift : Int)
  let bshift : Int := (out.fp_shift : Int) - (b.fp_shift : Int)
  if a.nb_dims ≠ b.nb_dims ∨ a.nb_dims ≠ out.nb_dims then (GIGA_Inconsistent_Tensor_Sizes, m)
  else
    match add_dims_loop a b out with
    | none => (GIGA_Inconsistent_Tensor_Sizes, m)
    | some nb_elements =>
      let elt_i_end : Int := wrapS 32 nb_elements
      (GIGA_Success,
        add_loop w a_T b_T o_T ashift bshift (get_ptr a) (get_ptr b) (get_ptr out)
          elt_i_end.toNat m)

/-- Function `giga_add_` (dispatch `GIGA_CALL_TEMPLATED_FUNC_ON_3_TENSORS`) on the integer
instantiations of the 8- and 16-bit kinds: `none` stands for the instantiations with a float or
4-bit kind, which `giga_add_all` gives with the float operations as parameters. -/
def giga_add_ (w : Nat) (a b out : GIGA_tensor_t) (m : Mem) : Option (GIGA_error × Mem) :=
  if !check_tensor_exists a || !check_tensor_exists b || !check_tensor_exists out then
    some (GIGA_Unknown_tensor, m)
  else
    match fixed_CType a.type, fixed_CType b.type, fixed_CType out.type with
    | some a_T, some b_T, some o_T => some (_add_impl w a_T b_T o_T a b out m)
    | _, _, _ => none

/-! ## giga_cpu_upsample.cpp -/

/-- The reference loop nest of `_giga_upsample_impl`; strides are in elements of `sz` bytes and
the offsets are `uint32_t`. -/
def upsample_loops (sz : Nat) (in_base out_base : Nat)
    (batch_end nb_channels out_y_end out_x_end : Nat)
    (out_stride_B out_stride_C out_stride_H out_stride_W : Nat)
    (in_stride_B in_stride_C in_stride_H in_stride_W : Nat) (m : Mem) : Mem :=
  forLoop batch_end (fun batch =>
    forLoop nb_channels (fun channel =>
      forLoop out_y_end (fun out_y =>
        forLoop out_x_end (fun out_x mem =>
          let out_offset :=
            (batch * out_stride_B + channel * out_stride_C + out_y * out_stride_H
              + out_x * out_stride_W) % 2 ^ 32
          let in_offset :=
            (batch * in_stride_B + channel * in_stride_C + (out_y / 2) * in_stride_H
              + (out_x / 2) * in_stride_W) % 2 ^ 32
          store_bytes mem (out_base + out_offset * sz) sz
            (load_bytes mem (in_base + in_offset * sz) sz))))) m

/-- Template `_giga_upsample_impl<i_GT>`, `sz` being `sizeof(i_T)`. -/
def _giga_upsample_impl (sz : Nat) (params : GIGA_upsample_t) (inT out : GIGA_tensor_t)
    (m : Mem) : GIGA_error × Mem :=
  if params.factor ≠ 2 then (GIGA_Incorrect_Parameter, m)
  else if inT.nb_dims ≠ out.nb_dims then (GIGA_Inconsistent_Number_Of_Dimensions, m)
  else if inT.nb_dims < 2 then (GIGA_Inconsistent_Number_Of_Dimensions, m)
  else if inT.nb_dims = 4 ∧ inT.dims 0 ≠ out.dims 0 then (GIGA_Inconsistent_Tensor_Sizes, m)
  else if inT.nb_dims = 4 ∧ inT.dims 1 ≠ out.dims 1 then (GIGA_Inconsistent_Tensor_Sizes, m)
  else if inT.nb_dims = 3 ∧ inT.dims 0 ≠ out.dims 0 then (GIGA_Inconsistent_Tensor_Sizes, m)
  else
    let nb_batch := if inT.nb_dims = 4 then inT.dims 0 else 1
    let batch_stride_in := if inT.nb_dims = 4 then inT.strides 0 else 0
    let batch_stride_out := if inT.nb_dims = 4 then out.strides 0 else 0
    let nb_channels := if out.nb_dims = 2 then 1 else out.dims (out.nb_dims - 3)
    let chan_stride_in := if inT.nb_dims = 2 then 1 else inT.strides (inT.nb_dims - 3)
    let chan_stride_out := if out.nb_dims = 2 then 1 else out.strides (out.nb_dims - 3)
    let H_dim := inT.nb_dims - 2
    let W_dim := H_dim + 1
    if out.dims H_dim ≠ (inT.dims H_dim * 2) % 2 ^ 32 then (GIGA_Inconsistent_Tensor_Sizes, m)
    else if out.dims W_dim ≠ (inT.dims W_dim * 2) % 2 ^ 32 then
      (GIGA_Inconsistent_Tensor_Sizes, m)
    else
      (GIGA_Success,
        upsample_loops sz (get_ptr inT) (get_ptr out) nb_batch nb_channels (out.dims H_dim)
          (out.dims W_dim)
          (batch_stride_out / sz) (chan_stride_out / sz) (out.strides H_dim / sz)
          (out.strides W_dim / sz)
          (batch_stride_in / sz) (chan_stride_in / sz) (inT.strides H_dim / sz)
          (inT.strides W_dim / sz) m)

/-- Function `giga_upsample_`: the dispatch is on `in->type` alone and covers the eight kinds. -/
def giga_upsample_ (params : GIGA_upsample_t) (inT out : GIGA_tensor_t) (m : Mem) :
    GIGA_error × Mem :=
  if !check_tensor_exists inT || !check_tensor_exists out then (GIGA_Unknown_tensor, m)
  else _giga_upsample_impl (sizeof_CType inT.type) params inT out m

/-! ## giga_cpu_dense.cpp -/

/-- The checks of `_dense_impl` and `_conv2d_impl` on a non-NULL bias, `some` error or `none`;
`conv` selects the rank test of the convolution, which also accepts the shape (1, Co). -/
def bias_check (conv : Bool) (kernel bias : GIGA_tensor_t) (nb_out : Nat) : Option GIGA_error :=
  let bias_dimension := u32 ((bias.nb_dims : Int) - 1)
  if !check_tensor_exists bias then some GIGA_Incorrect_Parameter
  else if kernel.type ≠ bias.type then some GIGA_Incorrect_Parameter
  else if conv then
    if ¬ (bias.nb_dims = 1 ∨ (bias.nb_dims = 2 ∧ bias.dims 0 = 1)) then
      some GIGA_Incorrect_Parameter
    else if bias.dims bias_dimension ≠ nb_out then some GIGA_Inconsistent_Tensor_Sizes
    else none
  else
    if bias.nb_dims ≠ 1 then some GIGA_Incorrect_Parameter
    else if bias.dims 0 ≠ nb_out then some GIGA_Inconsistent_Tensor_Sizes
    else none

/-- The store at the end of one output element of conv2d and dense:
`b_ReLU ? (acc > 0 ? o_T(shift(acc, out_shift)) : o_T(0)) : o_T(shift(acc, out_shift))`. -/
def store_result (w : Nat) (o_T : CIntType) (b_ReLU : Bool) (acc : Int) (out_shift : Int)
    (mem : Mem) (out_ptr : Nat) : Mem :=
  if b_ReLU then
    if acc > 0 then store_int o_T mem out_ptr (shift ⟨w, true⟩ acc out_shift)
    else store_int o_T mem out_ptr 0
  else store_int o_T mem out_ptr (shift ⟨w, true⟩ acc out_shift)

/-- The body of the `out_i` loop of the reference nest of `_dense_impl`: one output element.  The
bias is shifted by `shift<k_T>`: the argument `bias_ptr[out_i]` has type `k_T`, so the template is
instantiated at the kernel's element type and its result is converted to `k_T` before it is
widened into `acc`. -/
def dense_element (w : Nat) (i_T o_T k_T : CIntType) (b_ReLU : Bool) (bias_ptr : Option Nat)
    (in_base out_base k_base : Nat) (nb_in_elts : Nat)
    (out_shift bias_reshift : Int)
    (out_stride0 out_stride1 in_stride0 in_stride1 kernel_stride0 kernel_stride1 : Nat)
    (batch out_i : Nat) (mem : Mem) : Mem :=
  let acc0 : Int :=
    match bias_ptr with
    | some bp =>
      CIntType.wrap ⟨w, true⟩ (shift k_T (load_int k_T mem (bp + out_i * (k_T.bits / 8)))
        bias_reshift)
    | none => 0
  let out_offset := (batch * out_stride0 + out_i * out_stride1) % 2 ^ 32
  let out_ptr := out_base + out_offset * (o_T.bits / 8)
  let mem1 := store_int o_T mem out_ptr 0
  let acc := forLoop nb_in_elts
    (fun in_i acc =>
      let in_offset := (batch * in_stride0 + in_i * in_stride1) % 2 ^ 32
      let k_offset := (out_i * kernel_stride0 + in_i * kernel_stride1) % 2 ^ 32
      CIntType.wrap ⟨w, true⟩
        (acc + CIntType.wrap ⟨w, true⟩
          (CIntType.wrap ⟨w, true⟩ (load_int k_T mem1 (k_base + k_offset * (k_T.bits / 8)))
            * CIntType.wrap ⟨w, true⟩
              (load_int i_T mem1 (in_base + in_offset * (i_T.bits / 8))))))
    acc0
  store_result w o_T b_ReLU acc out_shift mem1 out_ptr

/-- The reference loop nest of `_dense_impl`. -/
def dense_loops (w : Nat) (i_T o_T k_T : CIntType) (b_ReLU : Bool) (bias_ptr : Option Nat)
    (in_base out_base k_base : Nat) (batch_end nb_out_elts nb_in_elts : Nat)
    (out_shift bias_reshift : Int)
    (out_stride0 out_stride1 in_stride0 in_stride1 kernel_stride0 kernel_stride1 : Nat)
    (m : Mem) : Mem :=
  forLoop batch_end (fun batch =>
    forLoop nb_out_elts (fun out_i mem =>
      dense_element w i_T o_T k_T b_ReLU bias_ptr in_base out_base k_base nb_in_elts
        out_shift bias_reshift out_stride0 out_stride1 in_stride0 in_stride1
        kernel_stride0 kernel_stride1 batch out_i mem)) m

/-- Template `_dense_impl<i_GT, o_GT, k_GT>` for integer element types. -/
def _dense_impl (w : Nat) (i_T o_T k_T : CIntType) (params : GIGA_dense_t)
    (inT out : GIGA_tensor_t) (m : Mem) : GIGA_error × Mem :=
  if inT.nb_dims > 2 then (GIGA_Inconsistent_Number_Of_Dimensions, m)
  else if inT.nb_dims = 2 ∧ inT.dims 0 ≠ out.dims 0 then (GIGA_Inconsistent_Tensor_Sizes, m)
  else
    let nb_batch : Int := if inT.nb_dims = 2 then wrapS 32 (inT.dims 0) else 1
    let nb_out_elts := out.dims 1
    let nb_in_elts := inT.dims 1
    let kernel := params.kernel
    if kernel.nb_dims ≠ 2 then (GIGA_Incorrect_Parameter, m)
    else if kernel.dims 0 ≠ nb_out_elts then (GIGA_Inconsistent_Tensor_Sizes, m)
    else if kernel.dims 1 ≠ nb_in_elts then (GIGA_Inconsistent_Tensor_Sizes, m)
    else
      match (match params.bias with
             | some bias => bias_check false kernel bias nb_out_elts
             | none => none) with
      | some e => (e, m)
      | none =>
        let out_shift : Int :=
          (out.fp_shift : Int) - ((inT.fp_shift : Int) + (kernel.fp_shift : Int))
        let bias_reshift : Int :=
          match params.bias with
          | some bias => -(bias.fp_shift : Int) + ((inT.fp_shift : Int) + (kernel.fp_shift : Int))
          | none => 0
        (GIGA_Success,
          dense_loops w i_T o_T k_T params.b_ReLU (params.bias.map get_ptr)
            (get_ptr inT) (get_ptr out) (get_ptr kernel) (u32 nb_batch) nb_out_elts nb_in_elts
            out_shift bias_reshift
            (out.strides 0 / (o_T.bits / 8)) (out.strides 1 / (o_T.bits / 8))
            (inT.strides 0 / (i_T.bits / 8)) (inT.strides 1 / (i_T.bits / 8))
            (kernel.strides 0 / (k_T.bits / 8)) (kernel.strides 1 / (k_T.bits / 8)) m)

/-- The checks of `_dense_impl`, in the order of the source: `some` error at the first check that
fails, `none` when the loop nest is reached. -/
def dense_checks (params : GIGA_dense_t) (inT out : GIGA_tensor_t) : Option GIGA_error :=
  if inT.nb_dims > 2 then some GIGA_Inconsistent_Number_Of_Dimensions
  else if inT.nb_dims = 2 ∧ inT.dims 0 ≠ out.dims 0 then some GIGA_Inconsistent_Tensor_Sizes
  else
    let nb_out_elts := out.dims 1
    let nb_in_elts := inT.dims 1
    let kernel := params.kernel
    if kernel.nb_dims ≠ 2 then some GIGA_Incorrect_Parameter
    else if kernel.dims 0 ≠ nb_out_elts then some GIGA_Inconsistent_Tensor_Sizes
    else if kernel.dims 1 ≠ nb_in_elts then some GIGA_Inconsistent_Tensor_Sizes
    else
      match params.bias with
      | some bias => bias_check false kernel bias nb_out_elts
      | none => none

/-- Function `giga_dense_` (dispatch `GIGA_CALL_TEMPLATED_FUNC_ON_3_TENSORS`).  Of the
instantiations with a float or 4-bit kind the checks are embedded (`dense_checks`: they are the
same text in every instantiation and each returns before the loop nest), the arithmetic of the
loop nest is not: `none` stands for the run of that nest, after which the function returns
`GIGA_Success`. -/
def giga_dense_ (w : Nat) (params : GIGA_dense_t) (inT out : GIGA_tensor_t) (m : Mem) :
    Option (GIGA_error × Mem) :=
  if !check_tensor_exists inT || !check_tensor_exists out || !check_tensor_exists params.kernel
  then some (GIGA_Unknown_tensor, m)
  else
    match fixed_CType inT.type, fixed_CType out.type, fixed_CType params.kernel.type with
    | some i_T, some o_T, some k_T => some (_dense_impl w i_T o_T k_T params inT out m)
    | _, _, _ =>
      match dense_checks params inT out with
      | some e => some (e, m)
      | none => none

/-! ## giga_cpu_conv2d.cpp -/

/-- The output size the shape checks of `_conv2d_impl` compare with:
`(dim + pad_lo + pad_hi - (KERNEL_SIZE - 1) - 1) / stride + 1` in `uint32_t`. -/
def conv2d_out_dim (dim : Nat) (pad_lo pad_hi : Int) (stride : Nat) : Nat :=
  (u32 ((dim : Int) + pad_lo + pad_hi - 2 - 1) / stride + 1) % 2 ^ 32

/-- The three inner loops of the reference nest of `_conv2d_impl`: the accumulator of one output
element before the bias is added. -/
def conv2d_acc (w : Nat) (i_T k_T : CIntType) (mem : Mem) (in_base k_base : Nat)
    (H W nb_in_channels : Nat) (stride0 stride1 : Nat) (pad_y pad_x : Int)
    (in_stride_B in_stride_C in_stride_H in_stride_W : Nat)
    (kernel_stride0 kernel_stride1 kernel_stride2 kernel_stride3 : Nat)
    (batch out_ch out_y out_x : Nat) : Int :=
  forLoop 3 (fun ker_y acc =>
    let in_y_offset := u32 ((((out_y * stride0 : Nat) : Int)) - pad_y + (ker_y : Int))
    if in_y_offset ≥ H then acc
    else
      forLoop 3 (fun ker_x acc =>
        let in_x_offset := u32 ((((out_x * stride1 : Nat) : Int)) - pad_x + (ker_x : Int))
        if in_x_offset ≥ W then acc
        else
          forLoop nb_in_channels (fun c_in acc =>
            let in_offset :=
              (batch * in_stride_B + c_in * in_stride_C + in_y_offset * in_stride_H
                + in_x_offset * in_stride_W) % 2 ^ 32
            let k_offset :=
              (out_ch * kernel_stride0 + c_in * kernel_stride1 + ker_y * kernel_stride2
                + ker_x * kernel_stride3) % 2 ^ 32
            CIntType.wrap ⟨w, true⟩
              (acc + CIntType.wrap ⟨w, true⟩
                (CIntType.wrap ⟨w, true⟩ (load_int k_T mem (k_base + k_offset * (k_T.bits / 8)))
                  * CIntType.wrap ⟨w, true⟩
                    (load_int i_T mem (in_base + in_offset * (i_T.bits / 8))))))
            acc) acc) 0

/-- The load `bias = *bias_ptr` at the head of the `out_ch` loop of `_conv2d_impl`, converted to
the compute type; 0 without bias. -/
def conv2d_bias_load (w : Nat) (k_T : CIntType) (bias_ptr : Option Nat)
    (bias_stride out_ch : Nat) (mem : Mem) : Int :=
  match bias_ptr with
  | some bp =>
    CIntType.wrap ⟨w, true⟩
      (load_int k_T mem (bp + ((out_ch * bias_stride) % 2 ^ 32) * (k_T.bits / 8)))
  | none => 0

/-- The body of the `out_x` loop of `_conv2d_impl`: one output element. -/
def conv2d_element (w : Nat) (i_T o_T k_T : CIntType) (b_ReLU : Bool)
    (in_base out_base k_base : Nat)
    (H W nb_in_channels : Nat) (stride0 stride1 : Nat) (pad_y pad_x : Int)
    (out_shift bias_reshift : Int)
    (out_stride_B out_stride_C out_stride_H out_stride_W : Nat)
    (in_stride_B in_stride_C in_stride_H in_stride_W : Nat)
    (kernel_stride0 kernel_stride1 kernel_stride2 kernel_stride3 : Nat)
    (bias : Int) (batch out_ch out_y out_x : Nat) (mem : Mem) : Mem :=
  let out_offset :=
    (batch * out_stride_B + out_ch * out_stride_C + out_y * out_stride_H
      + out_x * out_stride_W) % 2 ^ 32
  let out_ptr := out_base + out_offset * (o_T.bits / 8)
  let acc := conv2d_acc w i_T k_T mem in_base k_base H W nb_in_channels stride0 stride1
    pad_y pad_x in_stride_B in_stride_C in_stride_H in_stride_W
    kernel_stride0 kernel_stride1 kernel_stride2 kernel_stride3 batch out_ch out_y out_x
  let acc := CIntType.wrap ⟨w, true⟩ (acc + shift ⟨w, true⟩ bias bias_reshift)
  store_result w o_T b_ReLU acc out_shift mem out_ptr

/-- The reference loop nest of `_conv2d_impl` (the `#else` branch). -/
def conv2d_loops (w : Nat) (i_T o_T k_T : CIntType) (b_ReLU : Bool) (bias_ptr : Option Nat)
    (in_base out_base k_base : Nat)
    (batch_end nb_out_channels out_y_end out_x_end : Nat)
    (H W nb_in_channels : Nat) (stride0 stride1 : Nat) (pad_y pad_x : Int)
    (out_shift bias_reshift : Int) (bias_stride : Nat)
    (out_stride_B out_stride_C out_stride_H out_stride_W : Nat)
    (in_stride_B in_stride_C in_stride_H in_stride_W : Nat)
    (kernel_stride0 kernel_stride1 kernel_stride2 kernel_stride3 : Nat) (m : Mem) : Mem :=
  forLoop batch_end (fun batch =>
    forLoop nb_out_channels (fun out_ch mem0 =>
      forLoop out_y_end (fun out_y =>
        forLoop out_x_end (fun out_x mem =>
          conv2d_element w i_T o_T k_T b_ReLU in_base out_base k_base H W nb_in_channels
            stride0 stride1 pad_y pad_x out_shift bias_reshift
            out_stride_B out_stride_C out_stride_H out_stride_W
            in_stride_B in_stride_C in_stride_H in_stride_W
            kernel_stride0 kernel_stride1 kernel_stride2 kernel_stride3
            (conv2d_bias_load w k_T bias_ptr bias_stride out_ch mem0)
            batch out_ch out_y out_x mem)) mem0)) m

/-- Template `_conv2d_impl<i_GT, o_GT, k_GT>` for integer element types, reference build. -/
def _conv2d_impl (w : Nat) (i_T o_T k_T : CIntType) (params : GIGA_conv2d_t)
    (inT out : GIGA_tensor_t) (m : Mem) : GIGA_error × Mem :=
  if inT.nb_dims ≠ out.nb_dims then (GIGA_Inconsistent_Tensor_Sizes, m)
  else if inT.nb_dims < 2 then (GIGA_Inconsistent_Number_Of_Dimensions, m)
  else if inT.nb_dims = 4 ∧ inT.dims 0 ≠ out.dims 0 then (GIGA_Inconsistent_Tensor_Sizes, m)
  else
    let nb_batch := if inT.nb_dims = 4 then inT.dims 0 else 1
    let batch_stride_in := if inT.nb_dims = 4 then inT.strides 0 else 0
    let batch_stride_out := if inT.nb_dims = 4 then out.strides 0 else 0
    let nb_out_channels := if out.nb_dims = 2 then 1 else out.dims (out.nb_dims - 3)
    let nb_in_channels := if inT.nb_dims = 2 then 1 else inT.dims (inT.nb_dims - 3)
    let kernel := params.kernel
    if kernel.nb_dims ≠ 4 then (GIGA_Incorrect_Parameter, m)
    else if kernel.dims 0 ≠ nb_out_channels then (GIGA_Inconsistent_Tensor_Sizes, m)
    else if kernel.dims 1 ≠ nb_in_channels then (GIGA_Inconsistent_Tensor_Sizes, m)
    else if kernel.dims 2 ≠ 3 then (GIGA_Inconsistent_Tensor_Sizes, m)
    else if kernel.dims 3 ≠ 3 then (GIGA_Inconsistent_Tensor_Sizes, m)
    else if params.stride 0 > 2 ∨ params.stride 0 < 1 then (GIGA_Incorrect_Parameter, m)
    else if params.stride 1 > 2 ∨ params.stride 1 < 1 then (GIGA_Incorrect_Parameter, m)
    else if params.dilation 0 ≠ 1 ∨ params.dilation 1 ≠ 1 then (GIGA_Incorrect_Parameter, m)
    else
      match (match params.bias with
             | some bias => bias_check true kernel bias nb_out_channels
             | none => none) with
      | some e => (e, m)
      | none =>
        let H_dim_in := inT.nb_dims - 2
        let W_dim_in := H_dim_in + 1
        let H_dim_out := out.nb_dims - 2
        let W_dim_out := H_dim_out + 1
        if out.dims H_dim_out ≠ conv2d_out_dim (inT.dims H_dim_in) (params.padding 0 0)
            (params.padding 0 1) (params.stride 0) then (GIGA_Inconsistent_Tensor_Sizes, m)
        else if out.dims W_dim_out ≠ conv2d_out_dim (inT.dims W_dim_in) (params.padding 1 0)
            (params.padding 1 1) (params.stride 1) then (GIGA_Inconsistent_Tensor_Sizes, m)
        else
          let in_stride_C :=
            if inT.nb_dims = 2 then 1 else inT.strides (inT.nb_dims - 3) / (i_T.bits / 8)
          let out_stride_C :=
            if out.nb_dims = 2 then 1 else out.strides (out.nb_dims - 3) / (o_T.bits / 8)
          let out_shift : Int :=
            (out.fp_shift : Int) - ((inT.fp_shift : Int) + (kernel.fp_shift : Int))
          let bias_reshift : Int :=
            match params.bias with
            | some bias =>
              -(bias.fp_shift : Int) + ((inT.fp_shift : Int) + (kernel.fp_shift : Int))
            | none => 0
          let bias_stride :=
            match params.bias with
            | some bias => bias.strides (u32 ((bias.nb_dims : Int) - 1)) / (k_T.bits / 8)
            | none => 0
          (GIGA_Success,
            conv2d_loops w i_T o_T k_T params.b_ReLU (params.bias.map get_ptr)
              (get_ptr inT) (get_ptr out) (get_ptr kernel)
              nb_batch nb_out_channels (out.dims H_dim_out) (out.dims W_dim_out)
              (inT.dims H_dim_in) (inT.dims W_dim_in) nb_in_channels
              (params.stride 0) (params.stride 1) (params.padding 0 0) (params.padding 1 0)
              out_shift bias_reshift bias_stride
              (batch_stride_out / (o_T.bits / 8)) out_stride_C
              (out.strides H_dim_out / (o_T.bits / 8)) (out.strides W_dim_out / (o_T.bits / 8))
              (batch_stride_in / (i_T.bits / 8)) in_stride_C
              (inT.strides H_dim_in / (i_T.bits / 8)) (inT.strides W_dim_in / (i_T.bits / 8))
              (kernel.strides 0 / (k_T.bits / 8)) (kernel.strides 1 / (k_T.bits / 8))
              (kernel.strides 2 / (k_T.bits / 8)) (kernel.strides 3 / (k_T.bits / 8)) m)

/-- The checks of `_conv2d_impl`, in the order of the source: `some` error at the first check that
fails, `none` when the loop nest is reached.  They read the descriptors and the parameters only,
so they are the same in every instantiation of the template. -/
def conv2d_checks (params : GIGA_conv2d_t) (inT out : GIGA_tensor_t) : Option GIGA_error :=
  if inT.nb_dims ≠ out.nb_dims then some GIGA_Inconsistent_Tensor_Sizes
  else if inT.nb_dims < 2 then some GIGA_Inconsistent_Number_Of_Dimensions
  else if inT.nb_dims = 4 ∧ inT.dims 0 ≠ out.dims 0 then some GIGA_Inconsistent_Tensor_Sizes
  else
    let nb_out_channels := if out.nb_dims = 2 then 1 else out.dims (out.nb_dims - 3)
    let nb_in_channels := if inT.nb_dims = 2 then 1 else inT.dims (inT.nb_dims - 3)
    let kernel := params.kernel
    if kernel.nb_dims ≠ 4 then some GIGA_Incorrect_Parameter
    else if kernel.dims 0 ≠ nb_out_channels then some GIGA_Inconsistent_Tensor_Sizes
    else if kernel.dims 1 ≠ nb_in_channels then some GIGA_Inconsistent_Tensor_Sizes
    else if kernel.dims 2 ≠ 3 then some GIGA_Inconsistent_Tensor_Sizes
    else if kernel.dims 3 ≠ 3 then some GIGA_Inconsistent_Tensor_Sizes
    else if params.stride 0 > 2 ∨ params.stride 0 < 1 then some GIGA_Incorrect_Parameter
    else if params.stride 1 > 2 ∨ params.stride 1 < 1 then some GIGA_Incorrect_Parameter
    else if params.dilation 0 ≠ 1 ∨ params.dilation 1 ≠ 1 then some GIGA_Incorrect_Parameter
    else
      match (match params.bias with
             | some bias => bias_check true kernel bias nb_out_channels
             | none => none) with
      | some e => some e
      | none =>
        let H_dim_in := inT.nb_dims - 2
        let W_dim_in := H_dim_in + 1
        let H_dim_out := out.nb_dims - 2
        let W_dim_out := H_dim_out + 1
        if out.dims H_dim_out ≠ conv2d_out_dim (inT.dims H_dim_in) (params.padding 0 0)
            (params.padding 0 1) (params.stride 0) then some GIGA_Inconsistent_Tensor_Sizes
        else if out.dims W_dim_out ≠ conv2d_out_dim (inT.dims W_dim_in) (params.padding 1 0)
            (params.padding 1 1) (params.stride 1) then some GIGA_Inconsistent_Tensor_Sizes
        else none

/-- Function `giga_conv2d_` (dispatch `GIGA_CALL_TEMPLATED_FUNC_ON_3_TENSORS`).  Of the
instantiations with a float or 4-bit kind the checks are embedded (`conv2d_checks`: they are the
same text in every instantiation and each returns before the loop nest), the arithmetic of the
loop nest is not: `none` stands for the run of that nest, after which the function returns
`GIGA_Success`. -/
def giga_conv2d_ (w : Nat) (params : GIGA_conv2d_t) (inT out : GIGA_tensor_t) (m : Mem) :
    Option (GIGA_error × Mem) :=
  if !check_tensor_exists inT || !check_tensor_exists out || !check_tensor_exists params.kernel
  then some (GIGA_Unknown_tensor, m)
  else
    match fixed_CType inT.type, fixed_CType out.type, fixed_CType params.kernel.type with
    | some i_T, some o_T, some k_T => some (_conv2d_impl w i_T o_T k_T params inT out m)
    | _, _, _ =>
      match conv2d_checks params inT out with
      | some e => some (e, m)
      | none => none

/-! ## Conv2d as the specification words it -/

/-- Input coordinate `o * stride - pad_lo + k` of an output coordinate `o` and a kernel tap `k`,
as an integer (it is negative or too large in the padding). -/
def conv2d_in_coord (o stride : Nat) (pad : Int) (k : Nat) : Int :=
  (o : Int) * (stride : Int) - pad + (k : Int)

/-- Specification side: `Σ kernel[co,ci,ky,kx] * in[n,ci,iy,ix]` over `ci < C_in`, `ky < 3`,
`kx < 3`, the terms whose input coordinate is outside `[0,H) × [0,W)` being zero; the tensors are
read in the store `m` through their descriptors. -/
def conv2d_sum (i_T k_T : CIntType) (params : GIGA_conv2d_t) (inT : GIGA_tensor_t) (m : Mem)
    (n co y x : Nat) : Int :=
  Finset.sum (Finset.range (inT.dims 1)) fun ci =>
    Finset.sum (Finset.range 3) fun ky =>
      Finset.sum (Finset.range 3) fun kx =>
        if 0 ≤ conv2d_in_coord y (params.stride 0) (params.padding 0 0) ky ∧
            conv2d_in_coord y (params.stride 0) (params.padding 0 0) ky < inT.dims 2 ∧
            0 ≤ conv2d_in_coord x (params.stride 1) (params.padding 1 0) kx ∧
            conv2d_in_coord x (params.stride 1) (params.padding 1 0) kx < inT.dims 3 then
          load_int k_T m (elem_addr params.kernel (idx_of [co, ci, ky, kx]))
            * load_int i_T m (elem_addr inT (idx_of [n, ci,
                (conv2d_in_coord y (params.stride 0) (params.padding 0 0) ky).toNat,
                (conv2d_in_coord x (params.stride 1) (params.padding 1 0) kx).toNat]))
        else 0

/-- Specification side: `shift(bias[co], fp_in + fp_k - fp_b)`, 0 without bias. -/
def conv2d_bias_term (w : Nat) (k_T : CIntType) (params : GIGA_conv2d_t) (inT : GIGA_tensor_t)
    (m : Mem) (co : Nat) : Int :=
  match params.bias with
  | some b =>
    shift ⟨w, true⟩ (load_int k_T m (elem_addr b (idx_of [co])))
      ((inT.fp_shift : Int) + (params.kernel.fp_shift : Int) - (b.fp_shift : Int))
  | none => 0

/-- Specification side: the accumulator `A`, held in the signed `w`-bit compute type. -/
def conv2d_A (w : Nat) (i_T k_T : CIntType) (params : GIGA_conv2d_t) (inT : GIGA_tensor_t)
    (m : Mem) (n co y x : Nat) : Int :=
  wrapS w (conv2d_sum i_T k_T params inT m n co y x + conv2d_bias_term w k_T params inT m co)

/-- Specification side: the stored value `narrow(shift(A, fp_out - fp_in - fp_k))`, and 0 under
ReLU when `A ≤ 0`. -/
def conv2d_claimed (w : Nat) (i_T o_T k_T : CIntType) (params : GIGA_conv2d_t)
    (inT out : GIGA_tensor_t) (m : Mem) (n co y x : Nat) : Int :=
  if params.b_ReLU = true ∧ conv2d_A w i_T k_T params inT m n co y x ≤ 0 then 0
  else
    o_T.wrap (shift ⟨w, true⟩ (conv2d_A w i_T k_T params inT m n co y x)
      ((out.fp_shift : Int) - (inT.fp_shift : Int) - (params.kernel.fp_shift : Int)))

/-- Specification side of dense: the stored value `narrow(shift(A, fp_out - fp_in - fp_k))` with
`A = shift(bias[j], fp_in + fp_k - fp_b) + Σ_i kernel[j,i] * in[n,i]` in the signed `w`-bit compute
type (0 for the bias term without bias), and 0 under ReLU when `A ≤ 0`. -/
def dense_claimed (w : Nat) (i_T o_T k_T : CIntType) (params : GIGA_dense_t)
    (inT out : GIGA_tensor_t) (m : Mem) (n j : Nat) : Int :=
  let A := wrapS w
    ((match params.bias with
      | some b =>
        shift ⟨w, true⟩ (load_int k_T m (elem_addr b (idx_of [j])))
          ((inT.fp_shift : Int) + (params.kernel.fp_shift : Int) - (b.fp_shift : Int))
      | none => 0)
    + Finset.sum (Finset.range (inT.dims 1)) fun i =>
        load_int k_T m (elem_addr params.kernel (idx_of [j, i]))
          * load_int i_T m (elem_addr inT (idx_of [n, i])))
  if params.b_ReLU = true ∧ A ≤ 0 then 0
  else
    o_T.wrap (shift ⟨w, true⟩ A
      ((out.fp_shift : Int) - (inT.fp_shift : Int) - (params.kernel.fp_shift : Int)))

/-- The triple sum of conv2d over addresses in canonical row-major form: `pk` and `pi` are the
bases of the kernel (C_out, C_in, 3, 3) and of the input (N, C_in, H, W). -/
def conv2d_sum_flat (i_T k_T : CIntType) (m : Mem) (pi pk H W C_in s0 s1 : Nat) (p_y p_x : Int)
    (n co y x : Nat) : Int :=
  Finset.sum (Finset.range C_in) (fun ci =>
    Finset.sum (Finset.range 3) (fun ky =>
      Finset.sum (Finset.range 3) (fun kx =>
        if 0 ≤ conv2d_in_coord y s0 p_y ky ∧ conv2d_in_coord y s0 p_y ky < H ∧
            0 ≤ conv2d_in_coord x s1 p_x kx ∧ conv2d_in_coord x s1 p_x kx < W then
          load_int k_T m (pk + (((co * C_in + ci) * 3 + ky) * 3 + kx) * (k_T.bits / 8))
            * load_int i_T m
              (pi + (((n * C_in + ci) * H + (conv2d_in_coord y s0 p_y ky).toNat) * W
                + (conv2d_in_coord x s1 p_x kx).toNat) * (i_T.bits / 8))
        else 0)))

/-- The rescaled bias of output channel `co` read at the bias base, 0 without bias. -/
def bias_term_flat (w : Nat) (k_T : CIntType) (m : Mem) (bias_ptr : Option Nat)
    (bias_reshift : Int) (co : Nat) : Int :=
  match bias_ptr with
  | some bp => shift ⟨w, true⟩ (load_int k_T m (bp + co * (k_T.bits / 8))) bias_reshift
  | none => 0

/-- The value handed to the final conversion to `o_T` by `store_result`. -/
def relu_value (w : Nat) (b_ReLU : Bool) (acc : Int) (out_shift : Int) : Int :=
  if b_ReLU = true ∧ acc ≤ 0 then 0 else shift ⟨w, true⟩ acc out_shift

/-! ## Preconditions of the kernel theorems -/

/-- The stores `m` and `m0` agree on the addresses in `R`. -/
def Agree (R : Nat → Prop) (m m0 : Mem) : Prop := ∀ a, R a → m a = m0 a

/-- Started from a store that agrees with `m0` on `R`, the transformer `F` writes the byte `v a`
to every address `a` of `D` and leaves the other addresses as they are. -/
def Writes (R : Nat → Prop) (m0 : Mem) (F : Mem → Mem) (D : Nat → Prop) (v : Nat → Nat) : Prop :=
  ∀ m, Agree R m m0 → ∀ a, (D a → F m a = v a) ∧ (¬ D a → F m a = m a)

/-- The bytes `base .. base + es * Π dims - 1` of a tensor without padding. -/
def region (t : GIGA_tensor_t) (a : Nat) : Prop :=
  get_ptr t ≤ a ∧
    a < get_ptr t + element_size_in_bits t.type / 8 * prod_from t.dims t.nb_dims 0

/-- A tensor as `giga_allocate_tensor_` makes it: declared to the API, of rank 1 to 4, with exact
row-major strides, and of less than 2 GiB, so that the `uint32_t` and `int` index arithmetic of the
kernels is exact. -/
def Contiguous (t : GIGA_tensor_t) : Prop :=
  check_tensor_exists t = true ∧ 1 ≤ t.nb_dims ∧ t.nb_dims ≤ 4 ∧
    RowMajor (element_size_in_bits t.type / 8) t ∧
    element_size_in_bits t.type / 8 * prod_from t.dims t.nb_dims 0 < 2 ^ 31 ∧
    ∀ i, i < t.nb_dims → t.dims i < 2 ^ 32

/-- No byte of `t` is a byte of `u`. -/
def Separate (t u : GIGA_tensor_t) : Prop := ∀ a, region t a → ¬ region u a

/-- Batch size of a tensor of rank 2 to 4 (the local `nb_batch` of the kernels). -/
def dimN (t : GIGA_tensor_t) : Nat := if t.nb_dims = 4 then t.dims 0 else 1

/-- Channel count of a tensor of rank 2 to 4 (the local `nb_channels` of the kernels). -/
def dimC (t : GIGA_tensor_t) : Nat := if t.nb_dims = 2 then 1 else t.dims (t.nb_dims - 3)

/-- Height of a tensor of rank 2 to 4. -/
def dimH (t : GIGA_tensor_t) : Nat := t.dims (t.nb_dims - 2)

/-- Width of a tensor of rank 2 to 4. -/
def dimW (t : GIGA_tensor_t) : Nat := t.dims (t.nb_dims - 1)

/-- Batch coordinate of a multi-index of a tensor of rank 2 to 4 (0 below rank 4). -/
def idxN (t : GIGA_tensor_t) (idx : Nat → Nat) : Nat := if t.nb_dims = 4 then idx 0 else 0

/-- Channel coordinate of a multi-index of a tensor of rank 2 to 4 (0 at rank 2). -/
def idxC (t : GIGA_tensor_t) (idx : Nat → Nat) : Nat :=
  if t.nb_dims = 2 then 0 else idx (t.nb_dims - 3)

/-- Row-major strides of a shape in elements: the stride of axis `i` is `Π dims[l]`, `i < l < r`. -/
def unit_strides (dims : Nat → Nat) (r : Nat) : Nat → Nat :=
  fun i => prod_from dims (r - (i + 1)) (i + 1)

/-! ## Concrete inputs -/

/-- A descriptor with the given rank, kind and dims, before allocation (strides unset). -/
def mk_descriptor (r : Nat) (type : GIGA_data_type) (dims : List Nat) (fp_shift : Nat) :
    GIGA_tensor_t :=
  { device_id := 0, nb_dims := r, type := type, dims := fun i => dims.getD i 0,
    strides := fun _ => 0, fp_shift := fp_shift, data := none }

/-- The default zone collection (`"128M"`): one pool of `128 * 1024 * 1024` bytes. -/
def default_state (base : Nat) : GigaState :=
  { s_memory_zones := [{ ptr := base, size := 134217728 }] }

/-- Allocation parameters: zone 0 at the given offset. -/
def in_zone0 (offset : Nat) : GIGA_allocate_t := ⟨0, offset⟩

/-- A rank-3 `SFixed8` request of dims (1, 65536, 65536): `2 ^ 32` bytes. -/
def request_1x65536x65536 : GIGA_tensor_t := mk_descriptor 3 GIGA_SFixed8 [1, 65536, 65536] 0

/-- A rank-2 `SFixed8` request of dims (65536, 65536): `2 ^ 32` bytes. -/
def request_65536x65536 : GIGA_tensor_t := mk_descriptor 2 GIGA_SFixed8 [65536, 65536] 0

/-- A host buffer or a store holding the listed bytes from address 0 on, 0 elsewhere. -/
def bytes_of (l : List Nat) : Mem := fun j => l.getD j 0

/-- A fresh `UFixed8` tensor of dims (2,4) at offset 0 of the default zone based at 4096. -/
def parent_2x4 : GIGA_tensor_t :=
  (giga_allocate_tensor_ (default_state 4096) (mk_descriptor 2 GIGA_UFixed8 [2, 4] 0)
    (in_zone0 0)).2.1

/-- The view of dims (2,2) at offsets (0,1) of `parent_2x4`: a non-contiguous tensor whose
elements lie at 4097, 4098, 4101 and 4102. -/
def view_2x2 : GIGA_tensor_t :=
  (giga_view_ (default_state 4096) ⟨idx_of [0, 1]⟩ parent_2x4
    (mk_descriptor 2 GIGA_UFixed8 [2, 2] 0)).2.1

/-- A store whose bytes 4096 to 4103 (the elements of `parent_2x4`) hold 1 to 8. -/
def store_1_to_8 : Mem := fun a => if 4096 ≤ a ∧ a < 4104 then a - 4095 else 0

/-- A fresh tensor: the descriptor of the given rank, kind, dims and `fp_shift` after
`giga_allocate_tensor_` at the given offset of zone 0 of the default state based at 4096. -/
def fresh (r : Nat) (type : GIGA_data_type) (dims : List Nat) (fp_shift offset : Nat) :
    GIGA_tensor_t :=
  (giga_allocate_tensor_ (default_state 4096) (mk_descriptor r type dims fp_shift)
    (in_zone0 offset)).2.1

/-- Dense input: `SFixed8` (1,1) with `fp_shift` 1, at 4096. -/
def dense_in : GIGA_tensor_t := fresh 2 GIGA_SFixed8 [1, 1] 1 0

/-- Dense kernel: `SFixed8` (1,1) with `fp_shift` 0, at 4097. -/
def dense_kernel : GIGA_tensor_t := fresh 2 GIGA_SFixed8 [1, 1] 0 1

/-- Dense bias: `SFixed8` (1) with `fp_shift` 0, at 4098. -/
def dense_bias : GIGA_tensor_t := fresh 1 GIGA_SFixed8 [1] 0 2

/-- Dense output: `SFixed8` (1,1) with `fp_shift` 0, at 4099. -/
def dense_out : GIGA_tensor_t := fresh 2 GIGA_SFixed8 [1, 1] 0 3

/-- Dense parameters: no ReLU, `dense_kernel`, `dense_bias`. -/
def dense_params : GIGA_dense_t := ⟨false, dense_kernel, some dense_bias⟩

/-- A store with input 0, kernel 0 and bias 64 for the dense tensors above. -/
def dense_store : Mem := fun a => if a = 4098 then 64 else 0

/-- Conv2d input: `SFixed8` (1,1,3,3) with `fp_shift` 0, at 4096. -/
def conv_in : GIGA_tensor_t := fresh 4 GIGA_SFixed8 [1, 1, 3, 3] 0 0

/-- Conv2d kernel: `SFixed8` (1,1,3,3) with `fp_shift` 0, at 4112. -/
def conv_kernel : GIGA_tensor_t := fresh 4 GIGA_SFixed8 [1, 1, 3, 3] 0 16

/-- Conv2d bias: `SFixed8` (1) with `fp_shift` 0, at 4128. -/
def conv_bias : GIGA_tensor_t := fresh 1 GIGA_SFixed8 [1] 0 32

/-- Conv2d output: `SFixed16` (1,1,3,3) with `fp_shift` 0, at 4144. -/
def conv_out : GIGA_tensor_t := fresh 4 GIGA_SFixed16 [1, 1, 3, 3] 0 48

/-- Conv2d parameters: padding 1 on every side, stride 1, dilation 1, ReLU, `conv_kernel`,
`conv_bias`. -/
def conv_params : GIGA_conv2d_t :=
  { padding := fun _ _ => 1, stride := fun _ => 1, dilation := fun _ => 1, b_ReLU := true,
    kernel := conv_kernel, bias := some conv_bias }

/-- A store with input 1 to 9, a kernel of ones and bias 5 for the conv2d tensors above. -/
def conv_store : Mem := fun a =>
  if 4096 ≤ a ∧ a < 4105 then a - 4095
  else if 4112 ≤ a ∧ a < 4121 then 1
  else if a = 4128 then 5 else 0

/-- Addition operand a: `SFixed16` (2,3) with `fp_shift` 1, at 4096. -/
def add_a : GIGA_tensor_t := fresh 2 GIGA_SFixed16 [2, 3] 1 0

/-- Addition operand b: `SFixed16` (2,3) with `fp_shift` 2, at 4112. -/
def add_b : GIGA_tensor_t := fresh 2 GIGA_SFixed16 [2, 3] 2 16

/-- Addition output: `SFixed16` (2,3) with `fp_shift` 0, at 4128. -/
def add_out : GIGA_tensor_t := fresh 2 GIGA_SFixed16 [2, 3] 0 32

/-- Upsample input: `UFixed8` (1,2,2), at 4096. -/
def up_in : GIGA_tensor_t := fresh 3 GIGA_UFixed8 [1, 2, 2] 0 0

/-- Upsample output: `UFixed8` (1,4,4), at 4112. -/
def up_out : GIGA_tensor_t := fresh 3 GIGA_UFixed8 [1, 4, 4] 0 16

/-! ## giga_cpu_memory.cpp: the zone collection, release, map and unmap -/

/-- One step of the second loop of `GetMemoryZoneCollection` over the characters of the
configuration, on the pair (`zone_size`, sizes of the zones emplaced so far); `zone_size` is a
`size_t`. -/
def zone_scan_step (acc : Nat × List Nat) (c : Char) : Nat × List Nat :=
  if c = ';' then (0, acc.2 ++ [acc.1])
  else if c = 'G' then ((acc.1 * (1024 * 1024 * 1024)) % 2 ^ 64, acc.2)
  else if c = 'M' then ((acc.1 * (1024 * 1024)) % 2 ^ 64, acc.2)
  else if c = 'K' then ((acc.1 * 1024) % 2 ^ 64, acc.2)
  else if '0' ≤ c ∧ c ≤ '9' then ((acc.1 * 10 + (c.toNat - '0'.toNat)) % 2 ^ 64, acc.2)
  else acc

/-- The first loop of `GetMemoryZoneCollection`: `nb_zones`, one more than the number of `;`
(the `int` counter is taken exact). -/
def count_zones (cfg : List Char) : Nat :=
  cfg.foldl (fun n c => n + (if c = ';' then 1 else 0)) 1

/-- The sizes of the zones `GetMemoryZoneCollection` builds from a configuration, in order: a zone
at every `;`, and a last one when `zone_size > 0` or fewer than `nb_zones` zones exist. -/
def zone_sizes (cfg : List Char) : List Nat :=
  let r := cfg.foldl zone_scan_step (0, [])
  if r.1 > 0 ∨ r.2.length < count_zones cfg then r.2 ++ [r.1] else r.2

/-- Function `GetMemoryZoneCollection` on its first call: `env` is the value of `GIGA_CPU_MEMORY`
(`none` when unset, then `"128M"` is used) and `ptrs i` the address of the buffer the `i`-th
vector obtains. -/
def GetMemoryZoneCollection (env : Option String) (ptrs : Nat → Nat) : List MemoryPool :=
  (zone_sizes (env.getD "128M").data).enum.map (fun z => ⟨0, ptrs z.1, z.2⟩)

/-- Decrement of `nb_tensors` of zone `z` (`--memory_zones[z].nb_tensors`). -/
def drop_nb_tensors : List MemoryPool → Nat → List MemoryPool
  | [], _ => []
  | p :: ps, 0 => { p with nb_tensors := p.nb_tensors - 1 } :: ps
  | p :: ps, z + 1 => p :: drop_nb_tensors ps z

/-- Function `giga_release_tensor_`: the error code and the file-scope state (the internal record
is deleted, the caller's descriptor is not written). -/
def giga_release_tensor_ (st : GigaState) (tensor : GIGA_tensor_t) : GIGA_error × GigaState :=
  if !check_tensor_exists tensor then (GIGA_Unknown_tensor, st)
  else
    match tensor.data with
    | none => (GIGA_Unknown_tensor, st)
    | some data_ptr =>
      if data_ptr.is_allocated = false then (GIGA_Unknown_tensor, st)
      else if data_ptr.view_of ≠ 0 then (GIGA_Success, st)
      else
        match st.s_memory_zones[data_ptr.memory_zone_id]? with
        | none => (GIGA_Unknown_tensor, st)
        | some zone =>
          if zone.nb_tensors > 1 then
            (GIGA_Success,
              { st with s_memory_zones :=
                  drop_nb_tensors st.s_memory_zones data_ptr.memory_zone_id })
          else (GIGA_Success, st)

/-- Function `giga_map_tensor_`; `flags` is the integer value of the `GIGA_memory_flag` argument
(`GIGA_Memory_Discard` 0, `GIGA_Memory_Sync` 1).  Returns the error code, the descriptor with its
internal record as the call leaves it, and `*ptr` when it is written. -/
def giga_map_tensor_ (tensor : GIGA_tensor_t) (flags : Nat) :
    GIGA_error × GIGA_tensor_t × Option Nat :=
  if !check_tensor_exists tensor then (GIGA_Unknown_tensor, tensor, none)
  else if flags ≠ 0 ∧ flags ≠ 1 then (GIGA_Incorrect_Parameter, tensor, none)
  else
    match tensor.data with
    | none => (GIGA_Unknown_tensor, tensor, none)
    | some data_ptr =>
      (GIGA_Success, { tensor with data := some { data_ptr with is_mapped := true } },
        some data_ptr.data_start)

/-- Function `giga_unmap_tensor_`. -/
def giga_unmap_tensor_ (tensor : GIGA_tensor_t) (flags : Nat) : GIGA_error × GIGA_tensor_t :=
  if !check_tensor_exists tensor then (GIGA_Unknown_tensor, tensor)
  else if flags ≠ 0 ∧ flags ≠ 1 then (GIGA_Incorrect_Parameter, tensor)
  else
    match tensor.data with
    | none => (GIGA_Unknown_tensor, tensor)
    | some data_ptr =>
      (GIGA_Success, { tensor with data := some { data_ptr with is_mapped := false } })

/-- A call that touches the file-scope state of giga_cpu_memory.cpp. -/
inductive MemOp
  | allocate (tensor : GIGA_tensor_t) (params : GIGA_allocate_t)
  | release (tensor : GIGA_tensor_t)
  | view (params : GIGA_view_t) (inT out : GIGA_tensor_t)

/-- The file-scope state after one call. -/
def MemOp.run (st : GigaState) : MemOp → GigaState
  | MemOp.allocate tensor params => (giga_allocate_tensor_ st tensor params).2.2
  | MemOp.release tensor => (giga_release_tensor_ st tensor).2
  | MemOp.view params inT out => (giga_view_ st params inT out).2.2

/-- The file-scope state after a history of calls, oldest first. -/
def run_history (st : GigaState) (ops : List MemOp) : GigaState := ops.foldl MemOp.run st

/-! ## The configuration grammar as the specification words it -/

/-- Specification side: the unit suffix of a zone size, `K`, `M`, `G` or absent. -/
inductive ZoneUnit
  | absent
  | K
  | M
  | G
  deriving DecidableEq, Repr

/-- Specification side: the multiplier `m(u)` of a unit. -/
def ZoneUnit.factor : ZoneUnit → Nat
  | ZoneUnit.absent => 1
  | ZoneUnit.K => 1024
  | ZoneUnit.M => 1024 ^ 2
  | ZoneUnit.G => 1024 ^ 3

/-- Specification side: the characters of a unit suffix. -/
def ZoneUnit.chars : ZoneUnit → List Char
  | ZoneUnit.absent => []
  | ZoneUnit.K => ['K']
  | ZoneUnit.M => ['M']
  | ZoneUnit.G => ['G']

/-- Specification side: the character of a decimal digit `d < 10`. -/
def digit_char (d : Nat) : Char := Char.ofNat (48 + d)

/-- Specification side: the number a string of decimal digits denotes. -/
def decimal_value (ds : List Nat) : Nat := ds.foldl (fun a d => a * 10 + d) 0

/-- Specification side: the text `n[u]` of one zone, `n` given by its decimal digits. -/
def render_zone (e : List Nat × ZoneUnit) : List Char := e.1.map digit_char ++ e.2.chars

/-- Specification side: the text `n1[u1];n2[u2];…;nk[uk]`. -/
def render_config : List (List Nat × ZoneUnit) → List Char
  | [] => []
  | [e] => render_zone e
  | e :: es => render_zone e ++ ';' :: render_config es

/-- Specification side: the size `n · m(u)` claimed for a zone. -/
def claimed_zone_size (e : List Nat × ZoneUnit) : Nat := decimal_value e.1 * e.2.factor

/-- The base address and size of every zone, in order: what the calls of giga_cpu_memory.cpp
never change. -/
def zone_geometry (st : GigaState) : List (Nat × Nat) :=
  st.s_memory_zones.map (fun p => (p.ptr, p.size))

/-! ## Error codes of conv2d and dense for every kind, and the dispatch tables -/

/-- The error code `giga_conv2d_` returns, for every triple of kinds (reference build, whose
dispatch has an instantiation of `_conv2d_impl` for each triple). -/
def giga_conv2d_status (params : GIGA_conv2d_t) (inT out : GIGA_tensor_t) : GIGA_error :=
  if !check_tensor_exists inT || !check_tensor_exists out || !check_tensor_exists params.kernel
  then GIGA_Unknown_tensor
  else (conv2d_checks params inT out).getD GIGA_Success

/-- The error code `giga_dense_` returns, for every triple of kinds (reference build). -/
def giga_dense_status (params : GIGA_dense_t) (inT out : GIGA_tensor_t) : GIGA_error :=
  if !check_tensor_exists inT || !check_tensor_exists out || !check_tensor_exists params.kernel
  then GIGA_Unknown_tensor
  else (dense_checks params inT out).getD GIGA_Success

/-- The case labels of each level of `GIGA_CALL_TEMPLATED_FUNC_ON_3_TENSORS` (utils.h). -/
def templated_cases : List GIGA_data_type :=
  [GIGA_Float16, GIGA_Float32, GIGA_SFixed4, GIGA_SFixed8, GIGA_SFixed16, GIGA_UFixed4,
    GIGA_UFixed8, GIGA_UFixed16]

/-- Macro `GIGA_CALL_TEMPLATED_FUNC_ON_3_TENSORS`: `true` when the three nested switches reach a
template instance, `false` when one of them falls to `default` (`GIGA_Unimplemented_Type`). -/
def dispatch_on_3_tensors (type1 type2 type3 : GIGA_data_type) : Bool :=
  templated_cases.contains type1 && templated_cases.contains type2 &&
    templated_cases.contains type3

/-- Macro `TYPES3` of utils.h on the enumerator values. -/
def TYPES3 (T0 T1 T2 : Nat) : Nat := ((T0 <<< 16) ||| (T1 <<< 8)) ||| T2

/-- The case labels of `GIGA_CALL_TEMPLATED_FUNC_ON_3_TENSORS_SIGNED_KERNELS`, in the order of
utils.h. -/
def signed_kernels_cases : List (GIGA_data_type × GIGA_data_type × GIGA_data_type) :=
  [(GIGA_Float16, GIGA_Float16, GIGA_Float16),
    (GIGA_Float32, GIGA_Float32, GIGA_Float32),
    (GIGA_SFixed8, GIGA_SFixed8, GIGA_SFixed8),
    (GIGA_SFixed16, GIGA_SFixed16, GIGA_SFixed16),
    (GIGA_UFixed8, GIGA_UFixed8, GIGA_UFixed8),
    (GIGA_UFixed16, GIGA_UFixed16, GIGA_UFixed16),
    (GIGA_UFixed8, GIGA_UFixed8, GIGA_SFixed8),
    (GIGA_UFixed16, GIGA_UFixed16, GIGA_SFixed16),
    (GIGA_UFixed8, GIGA_SFixed8, GIGA_SFixed8),
    (GIGA_UFixed16, GIGA_SFixed16, GIGA_SFixed16)]

/-- Macro `GIGA_CALL_TEMPLATED_FUNC_ON_3_TENSORS_SIGNED_KERNELS`: `true` when
`TYPES3(type1, type2, type3)` is one of the case labels, `false` at `default`
(`GIGA_Unimplemented_Type`). -/
def dispatch_signed_kernels (type1 type2 type3 : GIGA_data_type) : Bool :=
  (signed_kernels_cases.map (fun c => TYPES3 c.1.toNat c.2.1.toNat c.2.2.toNat)).contains
    (TYPES3 type1.toNat type2.toNat type3.toNat)

/-- The dispatch of `giga_conv2d_` and `giga_dense_` on `(in->type, out->type, kernel->type)`:
the signed-kernels table when `ENABLE_OPTIMIZATION` is defined (`optimized`), the full table
otherwise. -/
def conv_dense_dispatch (optimized : Bool) (in_type out_type kernel_type : GIGA_data_type) :
    Bool :=
  if optimized then dispatch_signed_kernels in_type out_type kernel_type
  else dispatch_on_3_tensors in_type out_type kernel_type

/-- Specification side: the shape law of conv2d as the specification words it,
`(dim + pad_lo + pad_hi - 2) / stride + 1` with integer division. -/
def claimed_out_dim (dim : Nat) (pad_lo pad_hi : Int) (stride : Nat) : Int :=
  ((dim : Int) + pad_lo + pad_hi - 2) / (stride : Int) + 1

/-- A 8- or 16-bit fixed-point kind. -/
def is_fixed_8_16 (type : GIGA_data_type) : Bool :=
  !is_float type && (element_size_in_bits type == 8 || element_size_in_bits type == 16)

/-- The view of dims (3,4,5) at the origin of a fresh `UFixed8` tensor of dims (3,5,6): a
non-contiguous tensor with strides 30, 6, 1. -/
def holed_3x4x5 : GIGA_tensor_t :=
  (giga_view_ (default_state 4096) ⟨idx_of [0, 0, 0]⟩ (fresh 3 GIGA_UFixed8 [3, 5, 6] 0 0)
    (mk_descriptor 3 GIGA_UFixed8 [3, 4, 5] 0)).2.1

/-- Rank-1 dense input: `SFixed8` (3), at 4096; the entries `dims[1..3]` are 0. -/
def dense1_in : GIGA_tensor_t := fresh 1 GIGA_SFixed8 [3] 0 0

/-- Rank-1 dense output: `SFixed8` (2), at 4112; the entries `dims[1..3]` are 0. -/
def dense1_out : GIGA_tensor_t := fresh 1 GIGA_SFixed8 [2] 0 16

/-- Dense kernel for the rank-1 case: `SFixed8` (2,3), at 4128. -/
def dense1_kernel : GIGA_tensor_t := fresh 2 GIGA_SFixed8 [2, 3] 0 32

/-- Dense parameters for the rank-1 case: no ReLU, `dense1_kernel`, no bias. -/
def dense1_params : GIGA_dense_t := ⟨false, dense1_kernel, none⟩

/-- A history of calls: an allocation at offset 0 of zone 0, a view of the tensor it makes, the
release of that tensor. -/
def history_three_calls : List MemOp :=
  [MemOp.allocate (mk_descriptor 2 GIGA_UFixed8 [2, 4] 0) (in_zone0 0),
    MemOp.view ⟨idx_of [0, 1]⟩ parent_2x4 (mk_descriptor 2 GIGA_UFixed8 [2, 2] 0),
    MemOp.release parent_2x4]

/-- The conv2d parameters `conv_params` with stride 3 in both directions. -/
def conv_params_stride3 : GIGA_conv2d_t := { conv_params with stride := fun _ => 3 }

/-- Dense parameters whose bias is the rank-2 tensor `dense_in`. -/
def dense_params_bias_2d : GIGA_dense_t := ⟨false, dense_kernel, some dense_in⟩

/-! ## The claimed fractional-bit delta and the integer cast -/

/-- Specification side: `Δ = (dst_is_float ? 0 : dst_fp_shift) − (src_is_float ? 0 :
src_fp_shift)`. -/
def claimed_delta (dst_is_float : Bool) (dst_fp_shift : Nat) (src_is_float : Bool)
    (src_fp_shift : Nat) : Int :=
  (if dst_is_float then 0 else (dst_fp_shift : Int))
    - (if src_is_float then 0 else (src_fp_shift : Int))

/-- Specification side: the value `x · 2^Δ` for `Δ ≥ 0` and `floor(x / 2^(−Δ))` for `Δ < 0`. -/
def scaled (x : Int) (delta : Int) : Int :=
  if 0 ≤ delta then x * 2 ^ delta.toNat else ⌊(x : ℚ) / 2 ^ (-delta).toNat⌋

/-- The conv2d parameters `conv_params` without padding. -/
def conv_params_nopad : GIGA_conv2d_t := { conv_params with padding := fun _ _ => 0 }

/-! ## Concrete tensors of the identity convolution -/

/-- Identity kernel: `SFixed8` (1,1,3,3) with `fp_shift` 2, at 4112. -/
def ident_kernel : GIGA_tensor_t := fresh 4 GIGA_SFixed8 [1, 1, 3, 3] 2 16

/-- Conv2d parameters of the identity: padding 1 on every side, stride 1, dilation 1, no ReLU,
`ident_kernel`, no bias. -/
def ident_params : GIGA_conv2d_t :=
  { padding := fun _ _ => 1, stride := fun _ => 1, dilation := fun _ => 1, b_ReLU := false,
    kernel := ident_kernel, bias := none }

/-- A store with input 1 to 9 for `conv_in` and the value `2 ^ 2` at the centre of
`ident_kernel`. -/
def ident_store : Mem := fun a =>
  if 4096 ≤ a ∧ a < 4105 then a - 4095 else if a = 4116 then 4 else 0

/-! ## Concrete tensors of the average pooling -/

/-- Average-pooling kernel: `SFixed8` (1,1,3,3) with `fp_shift` 2, at 4128. -/
def avg_kernel : GIGA_tensor_t := fresh 4 GIGA_SFixed8 [1, 1, 3, 3] 2 32

/-- Conv2d parameters of the 2×2 average pooling: padding 0 before and 1 after on both axes,
stride 2, dilation 1, no ReLU, `avg_kernel`, no bias. -/
def avg_params : GIGA_conv2d_t :=
  { padding := fun _ j => if j = 0 then 0 else 1, stride := fun _ => 2, dilation := fun _ => 1,
    b_ReLU := false, kernel := avg_kernel, bias := none }

/-- A store with the values 1 to 4 at 4096 (a (1,1,2,2) image) and the value `2 ^ 0` at the four
taps `[0, 0, ky, kx]`, `ky, kx < 2`, of `avg_kernel`. -/
def avg_store : Mem := fun a =>
  if 4096 ≤ a ∧ a < 4100 then a - 4095
  else if a = 4128 ∨ a = 4129 ∨ a = 4131 ∨ a = 4132 then 1 else 0

/-! ## giga_cpu_softmax.cpp -/

/-- Softmax parameters of giga.h. -/
structure GIGA_softmax_t where
  __empty__ : Nat

/-- The `float` operations of `_softmax_impl`, which belong to the C++ library and to the
hardware and are taken as parameters: `F` stands for the values of `float`, `exp` for `std::exp`,
`max` for `std::max`; `toFloat k u` is the `float` converted from the element of kind `k` stored
with the bytes `u`, and `ofFloat k v` the bytes of `v` converted to the C type of kind `k`. -/
structure FloatOps (F : Type) where
  zero : F
  one : F
  add : F → F → F
  sub : F → F → F
  mul : F → F → F
  div : F → F → F
  max : F → F → F
  exp : F → F
  toFloat : GIGA_data_type → Nat → F
  ofFloat : GIGA_data_type → F → Nat

/-- First loop on a slice of `_softmax_impl` (ranks 2 and more): `max_value` starts from the
element at `in_offset1` and takes the elements `in_i = 1 .. in_i_end - 1`; the offsets are
`uint32_t`. -/
def softmax_max {F : Type} (ops : FloatOps F) (i_GT : GIGA_data_type) (mem : Mem)
    (in_base in_offset1 in_stride1 in_i_end : Nat) : F :=
  forLoop (in_i_end - 1)
    (fun k max_value =>
      let in_i := k + 1
      let in_offset2 := (in_offset1 + in_i * in_stride1) % 2 ^ 32
      ops.max max_value
        (ops.toFloat i_GT
          (load_bytes mem (in_base + in_offset2 * sizeof_CType i_GT) (sizeof_CType i_GT))))
    (ops.toFloat i_GT
      (load_bytes mem (in_base + in_offset1 * sizeof_CType i_GT) (sizeof_CType i_GT)))

/-- Second loop on a slice: `accs[in_i] = value; sum += value` with
`value = std::exp(float(in) - max_value)`, on the pair (`accs`, `sum`), `sum` starting at `0.f`. -/
def softmax_accs {F : Type} (ops : FloatOps F) (i_GT : GIGA_data_type) (mem : Mem)
    (in_base in_offset1 in_stride1 in_i_end : Nat) (max_value : F) (accs : Nat → F) :
    (Nat → F) × F :=
  forLoop in_i_end
    (fun in_i s =>
      let in_offset2 := (in_offset1 + in_i * in_stride1) % 2 ^ 32
      let value := ops.exp (ops.sub
        (ops.toFloat i_GT
          (load_bytes mem (in_base + in_offset2 * sizeof_CType i_GT) (sizeof_CType i_GT)))
        max_value)
      (Function.update s.1 in_i value, ops.add s.2 value))
    (accs, ops.zero)

/-- Third loop on a slice: `out_ptr0[out_offset2] = o_T(accs[out_i] * _sum)`. -/
def softmax_store {F : Type} (ops : FloatOps F) (o_GT : GIGA_data_type)
    (out_base out_offset1 out_stride1 out_i_end : Nat) (accs : Nat → F) (_sum : F) (mem : Mem) :
    Mem :=
  forLoop out_i_end
    (fun out_i mem =>
      let out_offset2 := (out_offset1 + out_i * out_stride1) % 2 ^ 32
      store_bytes mem (out_base + out_offset2 * sizeof_CType o_GT) (sizeof_CType o_GT)
        (ops.ofFloat o_GT (ops.mul (accs out_i) _sum)))
    mem

/-- The three loops on one slice, which the rank-2 branch and the last branch of `_softmax_impl`
have in common, on the pair (store, `accs`): the vector `accs` is allocated once, before the
loops over the slices. -/
def softmax_slice {F : Type} (ops : FloatOps F) (i_GT o_GT : GIGA_data_type)
    (in_base out_base in_offset1 out_offset1 in_stride1 out_stride1 in_i_end out_i_end : Nat)
    (s : Mem × (Nat → F)) : Mem × (Nat → F) :=
  let max_value := softmax_max ops i_GT s.1 in_base in_offset1 in_stride1 in_i_end
  let r := softmax_accs ops i_GT s.1 in_base in_offset1 in_stride1 in_i_end max_value s.2
  let _sum := ops.div ops.one r.2
  (softmax_store ops o_GT out_base out_offset1 out_stride1 out_i_end r.1 _sum s.1, r.1)

/-- The loop nest of the last branch of `_softmax_impl` (`nb_dims >= 3`): over `batch` and
`elt_i`, then the three loops on the slice. -/
def softmax_loops {F : Type} (ops : FloatOps F) (i_GT o_GT : GIGA_data_type)
    (in_base out_base batch_end nb_elements in_i_end out_i_end : Nat)
    (in_stride0 in_stride1 in_strideL out_stride0 out_stride1 out_strideL : Nat)
    (s : Mem × (Nat → F)) : Mem × (Nat → F) :=
  forLoop batch_end
    (fun batch =>
      forLoop nb_elements (fun elt_i s =>
        let in_offset0 := (batch * in_stride0) % 2 ^ 32
        let out_offset0 := (batch * out_stride0) % 2 ^ 32
        let in_offset1 := (in_offset0 + elt_i * in_strideL) % 2 ^ 32
        let out_offset1 := (out_offset0 + elt_i * out_strideL) % 2 ^ 32
        softmax_slice ops i_GT o_GT in_base out_base in_offset1 out_offset1 in_stride1
          out_stride1 in_i_end out_i_end s))
    s

/-- The loop of the rank-2 branch of `_softmax_impl` over `batch`, then the three loops on the
slice. -/
def softmax_rows {F : Type} (ops : FloatOps F) (i_GT o_GT : GIGA_data_type)
    (in_base out_base batch_end in_i_end out_i_end : Nat)
    (in_stride0 in_stride1 out_stride0 out_stride1 : Nat)
    (s : Mem × (Nat → F)) : Mem × (Nat → F) :=
  forLoop batch_end
    (fun batch s =>
      let in_offset0 := (batch * in_stride0) % 2 ^ 32
      let out_offset0 := (batch * out_stride0) % 2 ^ 32
      softmax_slice ops i_GT o_GT in_base out_base in_offset0 out_offset0 in_stride1
        out_stride1 in_i_end out_i_end s)
    s

/-- The local `max_value` of the rank-1 branch of `_softmax_impl` after its first loop, which
starts from the first element and runs `in_i1` to `in->dims[1]`; `max_value` is held in `i_T`,
whose conversion to `float` is exact and monotone, so that it is taken here on the converted
values. -/
def softmax_rank1_max {F : Type} (ops : FloatOps F) (i_GT : GIGA_data_type)
    (inT : GIGA_tensor_t) (m : Mem) : F :=
  let in_stride0 := (inT.strides 0 / sizeof_CType i_GT) % 2 ^ 32
  let in_i1_end := inT.dims 1
  forLoop in_i1_end
    (fun in_i1 max_value =>
      ops.max max_value
        (ops.toFloat i_GT
          (load_bytes m (get_ptr inT + in_i1 * in_stride0 * sizeof_CType i_GT)
            (sizeof_CType i_GT))))
    (ops.toFloat i_GT (load_bytes m (get_ptr inT) (sizeof_CType i_GT)))

/-- The rank-1 branch of `_softmax_impl`.  The pointers `in_ptr` and `out_ptr` advance by the
stride at every step. -/
def softmax_rank1 {F : Type} (ops : FloatOps F) (i_GT o_GT : GIGA_data_type)
    (inT out : GIGA_tensor_t) (m : Mem) : Mem :=
  let in_stride0 := (inT.strides 0 / sizeof_CType i_GT) % 2 ^ 32
  let out_stride0 := (out.strides 0 / sizeof_CType o_GT) % 2 ^ 32
  let max_value := softmax_rank1_max ops i_GT inT m
  let in_i0_end := inT.dims 0
  let r : (Nat → F) × F :=
    forLoop in_i0_end
      (fun in_i0 s =>
        let value := ops.exp (ops.sub
          (ops.toFloat i_GT
            (load_bytes m (get_ptr inT + in_i0 * in_stride0 * sizeof_CType i_GT)
              (sizeof_CType i_GT)))
          max_value)
        (Function.update s.1 in_i0 value, ops.add s.2 value))
      (fun _ => ops.zero, ops.zero)
  let out_i_end := out.dims 0
  let _sum := ops.div ops.one r.2
  forLoop out_i_end
    (fun out_i mem =>
      store_bytes mem (get_ptr out + out_i * out_stride0 * sizeof_CType o_GT)
        (sizeof_CType o_GT) (ops.ofFloat o_GT (ops.mul (r.1 out_i) _sum)))
    m

/-- The loop of `_softmax_impl` over the dims: `true` when it returns
`GIGA_Inconsistent_Tensor_Sizes`. -/
def softmax_dims_differ (inT out : GIGA_tensor_t) : Bool :=
  (List.range inT.nb_dims).any (fun i => decide (inT.dims i ≠ out.dims i))

/-- Template `_softmax_impl<i_GT, o_GT>`; the vector `accs` is zero-initialised. -/
def _softmax_impl {F : Type} (ops : FloatOps F) (i_GT o_GT : GIGA_data_type)
    (inT out : GIGA_tensor_t) (m : Mem) : GIGA_error × Mem :=
  if inT.nb_dims ≠ out.nb_dims then (GIGA_Inconsistent_Number_Of_Dimensions, m)
  else if softmax_dims_differ inT out then (GIGA_Inconsistent_Tensor_Sizes, m)
  else if inT.nb_dims = 1 then (GIGA_Success, softmax_rank1 ops i_GT o_GT inT out m)
  else if inT.nb_dims = 2 then
    (GIGA_Success,
      (softmax_rows ops i_GT o_GT (get_ptr inT) (get_ptr out) (inT.dims 0) (inT.dims 1)
        (out.dims 1)
        ((inT.strides 0 / sizeof_CType i_GT) % 2 ^ 32)
        ((inT.strides 1 / sizeof_CType i_GT) % 2 ^ 32)
        ((out.strides 0 / sizeof_CType o_GT) % 2 ^ 32)
        ((out.strides 1 / sizeof_CType o_GT) % 2 ^ 32)
        (m, fun _ => ops.zero)).1)
  else
    let nb_elements :=
      if inT.nb_dims = 3 then inT.dims 2 else (inT.dims 3 * inT.dims 2) % 2 ^ 32
    (GIGA_Success,
      (softmax_loops ops i_GT o_GT (get_ptr inT) (get_ptr out) (inT.dims 0) nb_elements
        (inT.dims 1) (out.dims 1)
        ((inT.strides 0 / sizeof_CType i_GT) % 2 ^ 32)
        ((inT.strides 1 / sizeof_CType i_GT) % 2 ^ 32)
        ((inT.strides (inT.nb_dims - 1) / sizeof_CType i_GT) % 2 ^ 32)
        ((out.strides 0 / sizeof_CType o_GT) % 2 ^ 32)
        ((out.strides 1 / sizeof_CType o_GT) % 2 ^ 32)
        ((out.strides (out.nb_dims - 1) / sizeof_CType o_GT) % 2 ^ 32)
        (m, fun _ => ops.zero)).1)

/-- Function `giga_softmax_` (dispatch `GIGA_CALL_TEMPLATED_FUNC_ON_2_TENSORS`, which covers the
eight kinds on both sides). -/
def giga_softmax_ {F : Type} (ops : FloatOps F) (_params : GIGA_softmax_t)
    (inT out : GIGA_tensor_t) (m : Mem) : GIGA_error × Mem :=
  if !check_tensor_exists inT || !check_tensor_exists out then (GIGA_Unknown_tensor, m)
  else _softmax_impl ops inT.type out.type inT out m

/-! ## Softmax on one slice -/

/-- The maximum of the slice `xs 0 .. xs (C - 1)`, folded from `xs 0` in index order. -/
def slice_max {F : Type} (ops : FloatOps F) (xs : Nat → F) (C : Nat) : F :=
  forLoop (C - 1) (fun k max_value => ops.max max_value (xs (k + 1))) (xs 0)

/-- The sum `Σ exp(xs c - m)` over the slice, `m` its maximum, added to `0` in index order. -/
def slice_sum {F : Type} (ops : FloatOps F) (xs : Nat → F) (C : Nat) : F :=
  forLoop C (fun c sum => ops.add sum (ops.exp (ops.sub (xs c) (slice_max ops xs C)))) ops.zero

/-- The softmax of the element `c` of the slice `xs 0 .. xs (C - 1)`:
`exp(xs c - m) / Σ exp(xs c' - m)` with `m` the maximum of the slice, the quotient being formed as
the product with `1 / Σ`. -/
def softmax_value {F : Type} (ops : FloatOps F) (xs : Nat → F) (C c : Nat) : F :=
  ops.mul (ops.exp (ops.sub (xs c) (slice_max ops xs C))) (ops.div ops.one (slice_sum ops xs C))

/-- Number of positions after the softmax axis (axis 1) of a tensor of rank 2 to 4. -/
def slice_len (t : GIGA_tensor_t) : Nat :=
  if t.nb_dims = 2 then 1 else if t.nb_dims = 3 then t.dims 2 else t.dims 2 * t.dims 3

/-- Row-major position of a multi-index among the positions after axis 1. -/
def slice_pos (t : GIGA_tensor_t) (idx : Nat → Nat) : Nat :=
  if t.nb_dims = 2 then 0 else if t.nb_dims = 3 then idx 2 else idx 2 * t.dims 3 + idx 3

/-- Single-precision pattern of a rational among 0, 1/2, 1 and 2 (a NaN pattern for the others,
which are not met here). -/
def f32_bits (v : ℚ) : Nat :=
  if v = 0 then 0 else if v = 1 / 2 then 1056964608 else if v = 1 then 1065353216
  else if v = 2 then 1073741824 else 2143289344

/-- Value of the single-precision patterns of 0, 1/2, 1 and 2 (0 for the others, which are not
met here). -/
def f32_value (u : Nat) : ℚ :=
  if u = 1056964608 then 1 / 2 else if u = 1065353216 then 1 else if u = 1073741824 then 2
  else 0

/-- Exact arithmetic on the rationals, which is the arithmetic of `float` on the values met when
every element of the input is `0.f` (0, 1/2, 1 and 2): `exp` is given at 0, where it is 1, and
the elements are `Float32` patterns. -/
def exact_ops : FloatOps ℚ :=
  { zero := 0, one := 1, add := fun a b => a + b, sub := fun a b => a - b,
    mul := fun a b => a * b, div := fun a b => a / b, max := fun a b => max a b,
    exp := fun x => if x = 0 then 1 else 0,
    toFloat := fun _ u => f32_value u, ofFloat := fun _ v => f32_bits v }

/-- The store that holds 0 everywhere. -/
def zero_store : Mem := fun _ => 0

/-! ## float16.h -/

/-- Struct `half` of float16.h: the 16 bits `data`. -/
structure half where
  data : Nat
deriving DecidableEq

/-- Constructor `half::half(const float &v)`; `i` stands for `u.i`, the 32 bits of `v`. -/
def half.of_float (i : Nat) : half :=
  let e : Int := (((i >>> 23) &&& 0xFF : Nat) : Int)
  if e = 0 then ⟨0⟩
  else
    let e := e - 127
    if e < -14 then ⟨0⟩
    else
      let e : Int := if e > 15 then 31 else e + 15
      let data := ((i >>> 16) &&& 0x8000) % 2 ^ 16
      let data := if e ≠ 31 then (data ||| ((i >>> 13) &&& 0x3FF)) % 2 ^ 16 else data
      ⟨(data ||| ((u32 e <<< 10) % 2 ^ 32)) % 2 ^ 16⟩

/-- Conversion `half::operator float`; the result is `u.i`, the 32 bits of the `float`
(`0.f` is the pattern 0). -/
def half.operator_float (h : half) : Nat :=
  if h.data = 0 then 0
  else
    let v := h.data
    let i := ((v &&& 0x8000) <<< 16) % 2 ^ 32
    let e := (((v >>> 10) &&& 0x1F) + (127 - 15)) % 2 ^ 32
    if e = 31 + (127 - 15) then
      let e := 0xFF
      i ||| ((e <<< 23) % 2 ^ 32)
    else
      let i := i ||| ((e <<< 23) % 2 ^ 32)
      let m := v &&& 0x3FF
      i ||| ((m <<< 13) % 2 ^ 32)

/-- A store with the `Float32` elements `0.f` at 4096 and `1.f` at 4100. -/
def store_f32_0_1 : Mem := fun a => if a = 4102 then 128 else if a = 4103 then 63 else 0

/-- A store that holds 0 but for the `Float32` pattern of `2.f` at 4104. -/
def store_f32_2_at_4104 : Mem := fun a => if a = 4107 then 64 else 0

/-- The result of a kernel is a success, or its store is the store `m` it was called with. -/
def ValidatesFirst (m : Mem) (r : GIGA_error × Mem) : Prop := r.1 = GIGA_Success ∨ r.2 = m

/-- Conv2d input for the ReLU example: `SFixed8` (1,1,1,1) with `fp_shift` 0, at 4096. -/
def relu_in : GIGA_tensor_t := fresh 4 GIGA_SFixed8 [1, 1, 1, 1] 0 0

/-- Conv2d output for the ReLU example: `SFixed8` (1,1,1,1) with `fp_shift` 0, at 4144. -/
def relu_out : GIGA_tensor_t := fresh 4 GIGA_SFixed8 [1, 1, 1, 1] 0 48

/-- Conv2d parameters for the ReLU example: padding 1 on every side, stride 1, dilation 1, ReLU,
`conv_kernel`, no bias. -/
def relu_params : GIGA_conv2d_t :=
  { padding := fun _ _ => 1, stride := fun _ => 1, dilation := fun _ => 1, b_ReLU := true,
    kernel := conv_kernel, bias := none }

/-- A store with the value 100 at 4096 and 4097 (the inputs of the ReLU examples) and the value 2
at 4112, 4113 and 4116 (the kernels: the first two entries of the dense one and the centre of the
convolution one). -/
def relu_store : Mem := fun a =>
  if a = 4096 ∨ a = 4097 then 100 else if a = 4112 ∨ a = 4113 ∨ a = 4116 then 2 else 0

/-- Dense input for the ReLU example: `SFixed8` (1,2) with `fp_shift` 0, at 4096. -/
def relu_dense_in : GIGA_tensor_t := fresh 2 GIGA_SFixed8 [1, 2] 0 0

/-- Dense kernel for the ReLU example: `SFixed8` (1,2) with `fp_shift` 0, at 4112. -/
def relu_dense_kernel : GIGA_tensor_t := fresh 2 GIGA_SFixed8 [1, 2] 0 16

/-- Dense output for the ReLU example: `SFixed8` (1,1) with `fp_shift` 0, at 4144. -/
def relu_dense_out : GIGA_tensor_t := fresh 2 GIGA_SFixed8 [1, 1] 0 48

/-- Dense parameters for the ReLU example: ReLU, `relu_dense_kernel`, no bias. -/
def relu_dense_params : GIGA_dense_t := ⟨true, relu_dense_kernel, none⟩

/-- Specification side: `Σ k_real · in_real + bias_real` of integer-valued data, `I`, `K` and `B`
being the integers the elements of `in`, the kernel and the bias represent; the sum is over
`ci < C_in`, `ky < 3`, `kx < 3`, the terms whose input coordinate is in the padding being zero,
and the bias term is 0 without bias. -/
def conv2d_integer_sum (params : GIGA_conv2d_t) (inT : GIGA_tensor_t)
    (I K : Nat → Nat → Nat → Nat → Int) (B : Nat → Int) (n co y x : Nat) : Int :=
  (Finset.sum (Finset.range (inT.dims 1)) fun ci =>
    Finset.sum (Finset.range 3) fun ky =>
      Finset.sum (Finset.range 3) fun kx =>
        if 0 ≤ conv2d_in_coord y (params.stride 0) (params.padding 0 0) ky ∧
            conv2d_in_coord y (params.stride 0) (params.padding 0 0) ky < inT.dims 2 ∧
            0 ≤ conv2d_in_coord x (params.stride 1) (params.padding 1 0) kx ∧
            conv2d_in_coord x (params.stride 1) (params.padding 1 0) kx < inT.dims 3 then
          K co ci ky kx
            * I n ci (conv2d_in_coord y (params.stride 0) (params.padding 0 0) ky).toNat
                (conv2d_in_coord x (params.stride 1) (params.padding 1 0) kx).toNat
        else 0)
    + (match params.bias with
       | some _ => B co
       | none => 0)

/-- Input of the integer-valued example: `SFixed8` (1,1,1,1) with `fp_shift` 1, at 4096. -/
def int_in : GIGA_tensor_t := fresh 4 GIGA_SFixed8 [1, 1, 1, 1] 1 0

/-- Kernel of the integer-valued example: `SFixed8` (1,1,3,3) with `fp_shift` 1, at 4112. -/
def int_kernel : GIGA_tensor_t := fresh 4 GIGA_SFixed8 [1, 1, 3, 3] 1 16

/-- Bias of the integer-valued example: `SFixed8` (1) with `fp_shift` 1, at 4128. -/
def int_bias : GIGA_tensor_t := fresh 1 GIGA_SFixed8 [1] 1 32

/-- Output of the integer-valued example: `SFixed16` (1,1,1,1) with `fp_shift` 3, at 4144. -/
def int_out : GIGA_tensor_t := fresh 4 GIGA_SFixed16 [1, 1, 1, 1] 3 48

/-- Parameters of the integer-valued example: padding 1 on every side, stride 1, dilation 1, no
ReLU, `int_kernel`, `int_bias`. -/
def int_params : GIGA_conv2d_t :=
  { padding := fun _ _ => 1, stride := fun _ => 1, dilation := fun _ => 1, b_ReLU := false,
    kernel := int_kernel, bias := some int_bias }

/-- A store with the input 4 (the integer 2), the centre tap 6 (the integer 3) and the bias 2 (the
integer 1) for the tensors of the integer-valued example. -/
def int_store : Mem := fun a => if a = 4096 then 4 else if a = 4116 then 6 else if a = 4128 then 2
  else 0

/-- The integers the kernel of the example represents: 3 at the centre tap. -/
def int_K : Nat → Nat → Nat → Nat → Int := fun _ _ ky kx => if ky = 1 ∧ kx = 1 then 3 else 0

/-- The `ker_x` loop of the optimized nest of `_conv2d_impl` (the `ENABLE_OPTIMIZATION` branch),
on the triple (`acc`, `k_ptr`, `in_ptr3`): the header of the loop increments both pointers, also
on `continue`.  Pointers are byte addresses; the input pointers are integers, since
`in_ptr1 = in_ptr0 + in_x_offset0` lies before the tensor when the `int32_t` offset
`in_x_offset0` is negative. -/
def conv2d_opt_ker_x (w : Nat) (i_T k_T : CIntType) (mem : Mem) (W : Nat) (in_x_offset0 : Int)
    (st : Int × Nat × Int) : Int × Nat × Int :=
  forLoop 3 (fun ker_x (s : Int × Nat × Int) =>
    let in_x_offset1 := u32 (in_x_offset0 + (ker_x : Int))
    if in_x_offset1 ≥ W then
      (s.1, s.2.1 + k_T.bits / 8, s.2.2 + ((i_T.bits / 8 : Nat) : Int))
    else
      (CIntType.wrap ⟨w, true⟩
        (s.1 + CIntType.wrap ⟨w, true⟩
          (CIntType.wrap ⟨w, true⟩ (load_int k_T mem s.2.1)
            * CIntType.wrap ⟨w, true⟩ (load_int i_T mem s.2.2.toNat))),
        s.2.1 + k_T.bits / 8, s.2.2 + ((i_T.bits / 8 : Nat) : Int))) st

/-- The `ker_y` loop of the optimized nest of `_conv2d_impl`, on the pair (`acc`, `k_ptr`): a
row outside the input advances `k_ptr` by `kernel_stride2`.  The `uint32_t` product
`in_y_offset1 * in_stride_H` is reduced modulo `2 ^ 32` before it is added to the pointer. -/
def conv2d_opt_ker_y (w : Nat) (i_T k_T : CIntType) (mem : Mem) (H W : Nat)
    (in_stride_H kernel_stride2 : Nat) (in_y_offset0 : Nat) (in_x_offset0 : Int) (in_ptr2 : Int)
    (st : Int × Nat) : Int × Nat :=
  forLoop 3 (fun ker_y (st : Int × Nat) =>
    let in_y_offset1 := (in_y_offset0 + ker_y) % 2 ^ 32
    if in_y_offset1 ≥ H then (st.1, st.2 + kernel_stride2 * (k_T.bits / 8))
    else
      let in_ptr3 :=
        in_ptr2 + (((in_y_offset1 * in_stride_H) % 2 ^ 32 * (i_T.bits / 8) : Nat) : Int)
      let r := conv2d_opt_ker_x w i_T k_T mem W in_x_offset0 (st.1, st.2, in_ptr3)
      (r.1, r.2.1)) st

/-- The three inner loops of the optimized nest of `_conv2d_impl`, on the pair (`acc`, `k_ptr`),
with `c_in` outermost. -/
def conv2d_acc_opt (w : Nat) (i_T k_T : CIntType) (mem : Mem) (in_ptr0 : Int) (k_ptr0 : Nat)
    (H W nb_in_channels : Nat) (stride0 stride1 : Nat) (padding_y padding_x : Int)
    (in_stride_C in_stride_H kernel_stride2 : Nat) (out_y out_x : Nat) : Int × Nat :=
  let in_y_offset0 := u32 (((out_y * stride0 : Nat) : Int) - padding_y)
  let in_x_offset0 := wrapS 32 (((out_x * stride1 : Nat) : Int) - padding_x)
  let in_ptr1 := in_ptr0 + in_x_offset0 * ((i_T.bits / 8 : Nat) : Int)
  forLoop nb_in_channels (fun c_in st =>
    let in_ptr2 := in_ptr1 + (((c_in * in_stride_C) % 2 ^ 32 * (i_T.bits / 8) : Nat) : Int)
    conv2d_opt_ker_y w i_T k_T mem H W in_stride_H kernel_stride2 in_y_offset0 in_x_offset0
      in_ptr2 st) (0, k_ptr0)

/-- The body of the `out_x` loop of the optimized nest of `_conv2d_impl`: one output element,
written through `out_ptr3 = out_ptr2 + out_x`. -/
def conv2d_element_opt (w : Nat) (i_T o_T k_T : CIntType) (b_ReLU : Bool)
    (H W nb_in_channels : Nat) (stride0 stride1 : Nat) (padding_y padding_x : Int)
    (out_shift bias_reshift : Int) (in_stride_C in_stride_H kernel_stride2 : Nat)
    (bias : Int) (in_ptr0 : Int) (k_ptr0 out_ptr2 : Nat) (out_y out_x : Nat) (mem : Mem) : Mem :=
  let out_ptr3 := out_ptr2 + out_x * (o_T.bits / 8)
  let acc := (conv2d_acc_opt w i_T k_T mem in_ptr0 k_ptr0 H W nb_in_channels stride0 stride1
    padding_y padding_x in_stride_C in_stride_H kernel_stride2 out_y out_x).1
  let acc := CIntType.wrap ⟨w, true⟩ (acc + shift ⟨w, true⟩ bias bias_reshift)
  store_result w o_T b_ReLU acc out_shift mem out_ptr3

/-- The optimized loop nest of `_conv2d_impl` (the `ENABLE_OPTIMIZATION` branch), run
sequentially.  The `out_ch` loop carries `bias_ptr`, which is set again for every batch and
advanced by `bias_stride` after each load; the strides `out_stride_W`, `in_stride_W` and
`kernel_stride3` are not used (the code assumes they are 1), nor is `kernel_stride1`. -/
def conv2d_loops_opt (w : Nat) (i_T o_T k_T : CIntType) (b_ReLU : Bool) (bias_ptr : Option Nat)
    (in_base out_base k_base : Nat)
    (batch_end nb_out_channels out_y_end out_x_end : Nat)
    (H W nb_in_channels : Nat) (stride0 stride1 : Nat) (padding_y padding_x : Int)
    (out_shift bias_reshift : Int) (bias_stride : Nat)
    (out_stride_B out_stride_C out_stride_H : Nat)
    (in_stride_B in_stride_C in_stride_H : Nat)
    (kernel_stride0 kernel_stride2 : Nat) (m : Mem) : Mem :=
  forLoop batch_end (fun batch m1 =>
    let in_ptr0 : Int := ((in_base + (batch * in_stride_B) % 2 ^ 32 * (i_T.bits / 8) : Nat) : Int)
    let out_ptr0 := out_base + (batch * out_stride_B) % 2 ^ 32 * (o_T.bits / 8)
    (forLoop nb_out_channels (fun out_ch (st : Mem × Option Nat) =>
      let k_ptr0 := k_base + (out_ch * kernel_stride0) % 2 ^ 32 * (k_T.bits / 8)
      let out_ptr1 := out_ptr0 + (out_ch * out_stride_C) % 2 ^ 32 * (o_T.bits / 8)
      let bias : Int :=
        match st.2 with
        | some bp => CIntType.wrap ⟨w, true⟩ (load_int k_T st.1 bp)
        | none => 0
      let bias_ptr1 := st.2.map (fun bp => bp + bias_stride * (k_T.bits / 8))
      (forLoop out_y_end (fun out_y =>
        let out_ptr2 := out_ptr1 + (out_y * out_stride_H) % 2 ^ 32 * (o_T.bits / 8)
        forLoop out_x_end (fun out_x mem =>
          conv2d_element_opt w i_T o_T k_T b_ReLU H W nb_in_channels stride0 stride1
            padding_y padding_x out_shift bias_reshift in_stride_C in_stride_H kernel_stride2
            bias in_ptr0 k_ptr0 out_ptr2 out_y out_x mem)) st.1, bias_ptr1))
      (m1, bias_ptr)).1) m

/-- The optimized nest of `_conv2d_impl` on the locals the function computes before the nest,
for tensors that have passed its checks. -/
def conv2d_optimized_nest (w : Nat) (i_T o_T k_T : CIntType) (params : GIGA_conv2d_t)
    (inT out : GIGA_tensor_t) (m : Mem) : Mem :=
  let nb_batch := if inT.nb_dims = 4 then inT.dims 0 else 1
  let batch_stride_in := if inT.nb_dims = 4 then inT.strides 0 else 0
  let batch_stride_out := if inT.nb_dims = 4 then out.strides 0 else 0
  let nb_out_channels := if out.nb_dims = 2 then 1 else out.dims (out.nb_dims - 3)
  let nb_in_channels := if inT.nb_dims = 2 then 1 else inT.dims (inT.nb_dims - 3)
  let kernel := params.kernel
  let H_dim_in := inT.nb_dims - 2
  let W_dim_in := H_dim_in + 1
  let H_dim_out := out.nb_dims - 2
  let W_dim_out := H_dim_out + 1
  let in_stride_C :=
    if inT.nb_dims = 2 then 1 else inT.strides (inT.nb_dims - 3) / (i_T.bits / 8)
  let out_stride_C :=
    if out.nb_dims = 2 then 1 else out.strides (out.nb_dims - 3) / (o_T.bits / 8)
  let out_shift : Int :=
    (out.fp_shift : Int) - ((inT.fp_shift : Int) + (kernel.fp_shift : Int))
  let bias_reshift : Int :=
    match params.bias with
    | some bias =>
      -(bias.fp_shift : Int) + ((inT.fp_shift : Int) + (kernel.fp_shift : Int))
    | none => 0
  let bias_stride :=
    match params.bias with
    | some bias => bias.strides (u32 ((bias.nb_dims : Int) - 1)) / (k_T.bits / 8)
    | none => 0
  conv2d_loops_opt w i_T o_T k_T params.b_ReLU (params.bias.map get_ptr)
    (get_ptr inT) (get_ptr out) (get_ptr kernel)
    nb_batch nb_out_channels (out.dims H_dim_out) (out.dims W_dim_out)
    (inT.dims H_dim_in) (inT.dims W_dim_in) nb_in_channels
    (params.stride 0) (params.stride 1) (params.padding 0 0) (params.padding 1 0)
    out_shift bias_reshift bias_stride
    (batch_stride_out / (o_T.bits / 8)) out_stride_C (out.strides H_dim_out / (o_T.bits / 8))
    (batch_stride_in / (i_T.bits / 8)) in_stride_C (inT.strides H_dim_in / (i_T.bits / 8))
    (kernel.strides 0 / (k_T.bits / 8)) (kernel.strides 2 / (k_T.bits / 8)) m

/-- The term the reference nest of `_conv2d_impl` adds to the accumulator for the input channel
`ci` and the tap (`ky`, `kx`): 0 when one of the two boundary tests skips the tap. -/
def conv2d_tap (i_T k_T : CIntType) (mem : Mem) (in_base k_base : Nat)
    (H W : Nat) (stride0 stride1 : Nat) (pad_y pad_x : Int)
    (in_stride_B in_stride_C in_stride_H in_stride_W : Nat)
    (kernel_stride0 kernel_stride1 kernel_stride2 kernel_stride3 : Nat)
    (batch out_ch out_y out_x : Nat) (ci ky kx : Nat) : Int :=
  if u32 ((((out_y * stride0 : Nat) : Int)) - pad_y + (ky : Int)) ≥ H then 0
  else if u32 ((((out_x * stride1 : Nat) : Int)) - pad_x + (kx : Int)) ≥ W then 0
  else
    load_int k_T mem (k_base
        + (out_ch * kernel_stride0 + ci * kernel_stride1 + ky * kernel_stride2
            + kx * kernel_stride3) % 2 ^ 32 * (k_T.bits / 8))
      * load_int i_T mem (in_base
        + (batch * in_stride_B + ci * in_stride_C
            + u32 ((((out_y * stride0 : Nat) : Int)) - pad_y + (ky : Int)) * in_stride_H
            + u32 ((((out_x * stride1 : Nat) : Int)) - pad_x + (kx : Int)) * in_stride_W)
          % 2 ^ 32 * (i_T.bits / 8))

/-- The four tensors the conv2d nest touches. -/
inductive Operand where
  | input
  | kernel
  | bias
  | output
  deriving DecidableEq

/-- One element access of the conv2d nest: the tensor and the coordinates that the nest
multiplies with the strides of this tensor (`batch, c, y, x` for `in` and `out`,
`out_ch, c_in, ker_y, ker_x` for the kernel, `out_ch` for the bias). -/
structure Access where
  operand : Operand
  index : List Nat
  deriving DecidableEq

/-- The three inner loops of the reference nest of `_conv2d_impl` as in `conv2d_acc`, on the
pair of the accumulator and the log of the elements read: each `acc += c_T(*k_ptr) *
c_T(*in_ptr)` logs the kernel element and the input element of the offsets it computes. -/
def conv2d_acc_traced (w : Nat) (i_T k_T : CIntType) (mem : Mem) (in_base k_base : Nat)
    (H W nb_in_channels : Nat) (stride0 stride1 : Nat) (pad_y pad_x : Int)
    (in_stride_B in_stride_C in_stride_H in_stride_W : Nat)
    (kernel_stride0 kernel_stride1 kernel_stride2 kernel_stride3 : Nat)
    (batch out_ch out_y out_x : Nat) : Int × List Access :=
  forLoop 3 (fun ker_y (st : Int × List Access) =>
    let in_y_offset := u32 ((((out_y * stride0 : Nat) : Int)) - pad_y + (ker_y : Int))
    if in_y_offset ≥ H then st
    else
      forLoop 3 (fun ker_x (st : Int × List Access) =>
        let in_x_offset := u32 ((((out_x * stride1 : Nat) : Int)) - pad_x + (ker_x : Int))
        if in_x_offset ≥ W then st
        else
          forLoop nb_in_channels (fun c_in (st : Int × List Access) =>
            let in_offset :=
              (batch * in_stride_B + c_in * in_stride_C + in_y_offset * in_stride_H
                + in_x_offset * in_stride_W) % 2 ^ 32
            let k_offset :=
              (out_ch * kernel_stride0 + c_in * kernel_stride1 + ker_y * kernel_stride2
                + ker_x * kernel_stride3) % 2 ^ 32
            (CIntType.wrap ⟨w, true⟩
              (st.1 + CIntType.wrap ⟨w, true⟩
                (CIntType.wrap ⟨w, true⟩ (load_int k_T mem (k_base + k_offset * (k_T.bits / 8)))
                  * CIntType.wrap ⟨w, true⟩
                    (load_int i_T mem (in_base + in_offset * (i_T.bits / 8))))),
              st.2 ++ [⟨Operand.kernel, [out_ch, c_in, ker_y, ker_x]⟩,
                ⟨Operand.input, [batch, c_in, in_y_offset, in_x_offset]⟩]))
            st) st) (0, [])

/-- The reference loop nest of `_conv2d_impl` as in `conv2d_loops`, on the pair of the store and
the log of the elements accessed: the bias element read at the head of the `out_ch` loop, the
elements read by the three inner loops, and the output element written. -/
def conv2d_loops_traced (w : Nat) (i_T o_T k_T : CIntType) (b_ReLU : Bool)
    (bias_ptr : Option Nat) (in_base out_base k_base : Nat)
    (batch_end nb_out_channels out_y_end out_x_end : Nat)
    (H W nb_in_channels : Nat) (stride0 stride1 : Nat) (pad_y pad_x : Int)
    (out_shift bias_reshift : Int) (bias_stride : Nat)
    (out_stride_B out_stride_C out_stride_H out_stride_W : Nat)
    (in_stride_B in_stride_C in_stride_H in_stride_W : Nat)
    (kernel_stride0 kernel_stride1 kernel_stride2 kernel_stride3 : Nat) (m : Mem) :
    Mem × List Access :=
  forLoop batch_end (fun batch =>
    forLoop nb_out_channels (fun out_ch (st0 : Mem × List Access) =>
      forLoop out_y_end (fun out_y =>
        forLoop out_x_end (fun out_x (st : Mem × List Access) =>
          (conv2d_element w i_T o_T k_T b_ReLU in_base out_base k_base H W nb_in_channels
            stride0 stride1 pad_y pad_x out_shift bias_reshift
            out_stride_B out_stride_C out_stride_H out_stride_W
            in_stride_B in_stride_C in_stride_H in_stride_W
            kernel_stride0 kernel_stride1 kernel_stride2 kernel_stride3
            (conv2d_bias_load w k_T bias_ptr bias_stride out_ch st0.1)
            batch out_ch out_y out_x st.1,
           st.2
            ++ (conv2d_acc_traced w i_T k_T st.1 in_base k_base H W nb_in_channels
                stride0 stride1 pad_y pad_x in_stride_B in_stride_C in_stride_H in_stride_W
                kernel_stride0 kernel_stride1 kernel_stride2 kernel_stride3
                batch out_ch out_y out_x).2
            ++ [⟨Operand.output, [batch, out_ch, out_y, out_x]⟩])))
        (st0.1, match bias_ptr with
                | some _ => st0.2 ++ [⟨Operand.bias, [out_ch]⟩]
                | none => st0.2))) (m, [])

/-- The reference nest of `_conv2d_impl` with its log, on the locals the function computes
before the nest. -/
def conv2d_nest_traced (w : Nat) (i_T o_T k_T : CIntType) (params : GIGA_conv2d_t)
    (inT out : GIGA_tensor_t) (m : Mem) : Mem × List Access :=
  let nb_batch := if inT.nb_dims = 4 then inT.dims 0 else 1
  let batch_stride_in := if inT.nb_dims = 4 then inT.strides 0 else 0
  let batch_stride_out := if inT.nb_dims = 4 then out.strides 0 else 0
  let nb_out_channels := if out.nb_dims = 2 then 1 else out.dims (out.nb_dims - 3)
  let nb_in_channels := if inT.nb_dims = 2 then 1 else inT.dims (inT.nb_dims - 3)
  let kernel := params.kernel
  let H_dim_in := inT.nb_dims - 2
  let W_dim_in := H_dim_in + 1
  let H_dim_out := out.nb_dims - 2
  let W_dim_out := H_dim_out + 1
  let in_stride_C :=
    if inT.nb_dims = 2 then 1 else inT.strides (inT.nb_dims - 3) / (i_T.bits / 8)
  let out_stride_C :=
    if out.nb_dims = 2 then 1 else out.strides (out.nb_dims - 3) / (o_T.bits / 8)
  let out_shift : Int :=
    (out.fp_shift : Int) - ((inT.fp_shift : Int) + (kernel.fp_shift : Int))
  let bias_reshift : Int :=
    match params.bias with
    | some bias =>
      -(bias.fp_shift : Int) + ((inT.fp_shift : Int) + (kernel.fp_shift : Int))
    | none => 0
  let bias_stride :=
    match params.bias with
    | some bias => bias.strides (u32 ((bias.nb_dims : Int) - 1)) / (k_T.bits / 8)
    | none => 0
  conv2d_loops_traced w i_T o_T k_T params.b_ReLU (params.bias.map get_ptr)
    (get_ptr inT) (get_ptr out) (get_ptr kernel)
    nb_batch nb_out_channels (out.dims H_dim_out) (out.dims W_dim_out)
    (inT.dims H_dim_in) (inT.dims W_dim_in) nb_in_channels
    (params.stride 0) (params.stride 1) (params.padding 0 0) (params.padding 1 0)
    out_shift bias_reshift bias_stride
    (batch_stride_out / (o_T.bits / 8)) out_stride_C
    (out.strides H_dim_out / (o_T.bits / 8)) (out.strides W_dim_out / (o_T.bits / 8))
    (batch_stride_in / (i_T.bits / 8)) in_stride_C
    (inT.strides H_dim_in / (i_T.bits / 8)) (inT.strides W_dim_in / (i_T.bits / 8))
    (kernel.strides 0 / (k_T.bits / 8)) (kernel.strides 1 / (k_T.bits / 8))
    (kernel.strides 2 / (k_T.bits / 8)) (kernel.strides 3 / (k_T.bits / 8)) m

/-- The coordinates `batch, c, y, x` are within the dims of a tensor of rank 2 to 4: the batch
coordinate is 0 below rank 4 and the channel coordinate is 0 at rank 2. -/
def coords_in_dims (t : GIGA_tensor_t) (n c y x : Nat) : Bool :=
  decide (n < dimN t ∧ c < dimC t ∧ y < t.dims (t.nb_dims - 2) ∧ x < t.dims (t.nb_dims - 1))

/-- The access has a multi-index within the dims of its tensor. -/
def access_in_dims (params : GIGA_conv2d_t) (inT out : GIGA_tensor_t) (a : Access) : Bool :=
  match a.operand, a.index with
  | Operand.input, [n, c, y, x] => coords_in_dims inT n c y x
  | Operand.output, [n, c, y, x] => coords_in_dims out n c y x
  | Operand.kernel, [co, ci, ky, kx] =>
    decide (co < params.kernel.dims 0 ∧ ci < params.kernel.dims 1 ∧ ky < params.kernel.dims 2 ∧
      kx < params.kernel.dims 3)
  | Operand.bias, [co] =>
    match params.bias with
    | some b => decide (co < b.dims (b.nb_dims - 1))
    | none => false
  | _, _ => false

/-- The start value of the accumulator of one output element of `_dense_impl`:
`shift(bias_ptr[out_i], bias_reshift)`, shifted in the kernel's type and widened to the compute
type; 0 without bias (the local `acc0` of `dense_element`). -/
def dense_bias_acc (w : Nat) (k_T : CIntType) (bias_ptr : Option Nat) (bias_reshift : Int)
    (out_i : Nat) (mem : Mem) : Int :=
  match bias_ptr with
  | some bp =>
    CIntType.wrap ⟨w, true⟩ (shift k_T (load_int k_T mem (bp + out_i * (k_T.bits / 8)))
      bias_reshift)
  | none => 0

/-- The `in_i` loop of the reference nest of `_dense_impl`, started from `acc0`: the accumulator
of one output element (the local `acc` of `dense_element`). -/
def dense_acc (w : Nat) (i_T k_T : CIntType) (mem : Mem) (in_base k_base nb_in_elts : Nat)
    (in_stride0 in_stride1 kernel_stride0 kernel_stride1 : Nat) (batch out_i : Nat)
    (acc0 : Int) : Int :=
  forLoop nb_in_elts
    (fun in_i acc =>
      let in_offset := (batch * in_stride0 + in_i * in_stride1) % 2 ^ 32
      let k_offset := (out_i * kernel_stride0 + in_i * kernel_stride1) % 2 ^ 32
      CIntType.wrap ⟨w, true⟩
        (acc + CIntType.wrap ⟨w, true⟩
          (CIntType.wrap ⟨w, true⟩ (load_int k_T mem (k_base + k_offset * (k_T.bits / 8)))
            * CIntType.wrap ⟨w, true⟩
              (load_int i_T mem (in_base + in_offset * (i_T.bits / 8))))))
    acc0

/-- The accumulator of the output element `(n, j)` of dense, as the reference nest computes it
from the tensors read in the store `m`: the bias term, then the products `kernel[j,i] * in[n,i]`
added in index order in the signed `w`-bit compute type. -/
def dense_A (w : Nat) (i_T k_T : CIntType) (params : GIGA_dense_t) (inT : GIGA_tensor_t)
    (m : Mem) (n j : Nat) : Int :=
  dense_acc w i_T k_T m (get_ptr inT) (get_ptr params.kernel) (inT.dims 1)
    (inT.strides 0 / (i_T.bits / 8)) (inT.strides 1 / (i_T.bits / 8))
    (params.kernel.strides 0 / (k_T.bits / 8)) (params.kernel.strides 1 / (k_T.bits / 8)) n j
    (dense_bias_acc w k_T (params.bias.map get_ptr)
      (match params.bias with
        | some bias =>
          -(bias.fp_shift : Int) + ((inT.fp_shift : Int) + (params.kernel.fp_shift : Int))
        | none => 0) j m)

/-- Dense output for the second ReLU example: `SFixed16` (1,1) with `fp_shift` 0, at 4144. -/
def relu_dense_out16 : GIGA_tensor_t := fresh 2 GIGA_SFixed16 [1, 1] 0 48

/-- The conversions between `float` and the C integer types, which belong to the hardware and are
taken as parameters: `ofInt` is `float(n)` for an `int` `n`, and `toInt` is the integer part of a
`float` (the conversion of a `float` to an integer type truncates toward zero). -/
structure FloatConv (F : Type) where
  ofInt : Int → F
  toInt : F → Int

/-- C type of the integer kinds (`GIGA_C_Type`): the 4-bit kinds are held in `int8_t` and
`uint8_t`; `none` for `half` and `float`. -/
def int_CType : GIGA_data_type → Option CIntType
  | GIGA_SFixed4 => some ⟨8, true⟩
  | GIGA_SFixed8 => some ⟨8, true⟩
  | GIGA_SFixed16 => some ⟨16, true⟩
  | GIGA_UFixed4 => some ⟨8, false⟩
  | GIGA_UFixed8 => some ⟨8, false⟩
  | GIGA_UFixed16 => some ⟨16, false⟩
  | _ => none

/-- Compute type of the integer kinds (`GIGA_Compute_Type`): `int_fast32_t`, the signed `w`-bit
integer, for the 8- and 16-bit kinds, and the C type itself for the 4-bit kinds, which have no
specialisation; `none` for the float kinds, whose compute type is `float`. -/
def compute_CType (w : Nat) : GIGA_data_type → Option CIntType
  | GIGA_SFixed4 => some ⟨8, true⟩
  | GIGA_UFixed4 => some ⟨8, false⟩
  | GIGA_SFixed8 => some ⟨w, true⟩
  | GIGA_SFixed16 => some ⟨w, true⟩
  | GIGA_UFixed8 => some ⟨w, true⟩
  | GIGA_UFixed16 => some ⟨w, true⟩
  | _ => none

/-- The operand `c_T(*ptr)` of `_add_impl` for an integer compute type `c_T`, the element being
of kind `k`: an integer element is converted to `c_T`, a `half` or `float` element is converted
to `float` and then to `c_T` (the integer part, reduced to the type). -/
def add_operand {F : Type} (ops : FloatOps F) (cv : FloatConv F) (c_T : CIntType)
    (k : GIGA_data_type) (mem : Mem) (base elt_i : Nat) : Int :=
  match int_CType k with
  | some T => c_T.wrap (load_int T mem (base + elt_i * (T.bits / 8)))
  | none =>
    c_T.wrap (cv.toInt
      (ops.toFloat k (load_bytes mem (base + elt_i * sizeof_CType k) (sizeof_CType k))))

/-- One step of the element loop of `_add_impl<a_GT, b_GT, o_GT>`:
`*out_ptr = o_T(shift(c_T(*a_ptr), ashift) + shift(c_T(*b_ptr), bshift))`.  For an integer output
kind the sum is formed after the integral promotion of the compute type; for a float output kind
the compute type is `float`, for which `shift` is the identity. -/
def add_element {F : Type} (ops : FloatOps F) (cv : FloatConv F) (w : Nat)
    (a_GT b_GT o_GT : GIGA_data_type) (ashift bshift : Int) (a_base b_base out_base : Nat)
    (elt_i : Nat) (mem : Mem) : Mem :=
  match compute_CType w o_GT, int_CType o_GT with
  | some c_T, some o_T =>
    store_int o_T mem (out_base + elt_i * (o_T.bits / 8))
      (CIntType.wrap (promote c_T)
        (shift c_T (add_operand ops cv c_T a_GT mem a_base elt_i) ashift
          + shift c_T (add_operand ops cv c_T b_GT mem b_base elt_i) bshift))
  | _, _ =>
    store_bytes mem (out_base + elt_i * sizeof_CType o_GT) (sizeof_CType o_GT)
      (ops.ofFloat o_GT
        (ops.add
          (ops.toFloat a_GT
            (load_bytes mem (a_base + elt_i * sizeof_CType a_GT) (sizeof_CType a_GT)))
          (ops.toFloat b_GT
            (load_bytes mem (b_base + elt_i * sizeof_CType b_GT) (sizeof_CType b_GT)))))

/-- Template `_add_impl<a_GT, b_GT, o_GT>` for every triple of kinds: the checks and the element
loop. -/
def _add_impl_all {F : Type} (ops : FloatOps F) (cv : FloatConv F) (w : Nat)
    (a_GT b_GT o_GT : GIGA_data_type) (a b out : GIGA_tensor_t) (m : Mem) : GIGA_error × Mem :=
  let ashift : Int := (out.fp_shift : Int) - (a.fp_shift : Int)
  let bshift : Int := (out.fp_shift : Int) - (b.fp_shift : Int)
  if a.nb_dims ≠ b.nb_dims ∨ a.nb_dims ≠ out.nb_dims then (GIGA_Inconsistent_Tensor_Sizes, m)
  else
    match add_dims_loop a b out with
    | none => (GIGA_Inconsistent_Tensor_Sizes, m)
    | some nb_elements =>
      let elt_i_end : Int := wrapS 32 nb_elements
      (GIGA_Success,
        forLoop elt_i_end.toNat
          (add_element ops cv w a_GT b_GT o_GT ashift bshift (get_ptr a) (get_ptr b)
            (get_ptr out))
          m)

/-- Function `giga_add_` with the dispatch `GIGA_CALL_TEMPLATED_FUNC_ON_3_TENSORS` over the eight
kinds of each of the three tensors. -/
def giga_add_all {F : Type} (ops : FloatOps F) (cv : FloatConv F) (w : Nat)
    (a b out : GIGA_tensor_t) (m : Mem) : GIGA_error × Mem :=
  if !check_tensor_exists a || !check_tensor_exists b || !check_tensor_exists out then
    (GIGA_Unknown_tensor, m)
  else _add_impl_all ops cv w a.type b.type out.type a b out m

/-- The conversions between the rationals and the integers: the integer as a rational, and the
integer part of a rational. -/
def exact_conv : FloatConv ℚ :=
  { ofInt := fun n => (n : ℚ), toInt := fun q => Int.tdiv q.num q.den }

/-- Addition operand a of kind `Float32`: dims (2) at 4096. -/
def add_f32_a : GIGA_tensor_t := fresh 1 GIGA_Float32 [2] 0 0

/-- Addition operand b of kind `Float32`: dims (2) at 4112. -/
def add_f32_b : GIGA_tensor_t := fresh 1 GIGA_Float32 [2] 0 16

/-- Addition output of kind `Float32`: dims (2) at 4128. -/
def add_f32_out : GIGA_tensor_t := fresh 1 GIGA_Float32 [2] 0 32

/-- Addition operand of kind `Float32` and dims (3), at 4112. -/
def add_f32_b3 : GIGA_tensor_t := fresh 1 GIGA_Float32 [3] 0 16

/-- Conv2d input of kind `Float32`: (1,1,3,3) at 4096. -/
def conv_f32_in : GIGA_tensor_t := fresh 4 GIGA_Float32 [1, 1, 3, 3] 0 0

/-- Conv2d output of kind `Float32`: (1,1,3,3) at 4224. -/
def conv_f32_out : GIGA_tensor_t := fresh 4 GIGA_Float32 [1, 1, 3, 3] 0 128

/-- Conv2d kernel of kind `Float32`: (1,1,3,3) at 4160. -/
def conv_f32_kernel : GIGA_tensor_t := fresh 4 GIGA_Float32 [1, 1, 3, 3] 0 64

/-- Conv2d parameters on `Float32` tensors with stride 3. -/
def conv_f32_params_stride3 : GIGA_conv2d_t :=
  { padding := fun _ _ => 1, stride := fun _ => 3, dilation := fun _ => 1, b_ReLU := false,
    kernel := conv_f32_kernel, bias := none }

/-- Dense parameters with the `Float32` kernel `conv_f32_kernel`, no bias and no ReLU. -/
def dense_f32_params : GIGA_dense_t := ⟨false, conv_f32_kernel, none⟩

/-- The expression `1 << n` on `int`; the shift count is meant from 0 to 30. -/
def shl_one (n : Int) : Int := wrapS 32 (2 ^ n.toNat)

/-- The bytes stored in `dst[i]` by `dst[i] = cast_to<T>(src[i], delta_fp_shift, f)`, every
overload of `cast_to`; `u` holds the bytes of `src[i]`.  Integer to integer: `shift<int32_t>` or
`shift<uint32_t>` (`cast_to`); `half` or `float` to `half` or `float`: `return x`; the other
pairs: `return x * f`, a product of `float`s converted to `T`. -/
def cast_to_all {F : Type} (ops : FloatOps F) (src dst : GIGA_data_type) (u : Nat)
    (delta_fp_shift : Int) (f : F) : Nat :=
  match int_CType src, int_CType dst with
  | some S, some T => ((cast_to T (S.ofBits u) delta_fp_shift) % 2 ^ T.bits).toNat
  | none, none => ops.ofFloat dst (ops.toFloat src u)
  | _, _ => ops.ofFloat dst (ops.mul (ops.toFloat src u) f)

/-- Function `giga_copy_to_tensor_` for every pair of kinds; `user` is the host buffer behind
`user_ptr` (byte 0 is `user_ptr[0]`). -/
def giga_copy_to_tensor_all {F : Type} (ops : FloatOps F) (cv : FloatConv F) (user : Mem)
    (source_type : GIGA_data_type) (fp_shift : Nat) (tensor : GIGA_tensor_t) (m : Mem) :
    GIGA_error × Mem :=
  let dims := copy_dims tensor
  let b_tensor_is_float :=
    decide (tensor.type = GIGA_Float32) || decide (tensor.type = GIGA_Float16)
  if source_type = tensor.type ∧ fp_shift = tensor.fp_shift then
    let tensor_size :=
      (element_size_in_bits tensor.type / 8 * dims 0 * dims 1 * dims 2 * dims 3) % 2 ^ 64
    (GIGA_Success, memcpy m (get_ptr tensor) user 0 tensor_size)
  else if is_4bit source_type || is_4bit tensor.type then
    (GIGA_Unimplemented_Type, m)
  else
    let delta_fp_shift : Int :=
      (if b_tensor_is_float then 0 else (tensor.fp_shift : Int)) - (fp_shift : Int)
    let f : F :=
      if b_tensor_is_float then ops.div ops.one (cv.ofInt (shl_one (-delta_fp_shift)))
      else cv.ofInt (shl_one delta_fp_shift)
    let tensor_size := (dims 0 * dims 1 * dims 2 * dims 3) % 2 ^ 32
    (GIGA_Success,
      forLoop tensor_size
        (fun i mem =>
          store_bytes mem (get_ptr tensor + i * sizeof_CType tensor.type)
            (sizeof_CType tensor.type)
            (cast_to_all ops source_type tensor.type
              (load_bytes user (i * sizeof_CType source_type) (sizeof_CType source_type))
              delta_fp_shift f))
        m)

/-- Function `giga_copy_from_tensor_` for every pair of kinds; `user` is the host buffer behind
`user_ptr` before the call, the result holds it after the call. -/
def giga_copy_from_tensor_all {F : Type} (ops : FloatOps F) (cv : FloatConv F) (user : Mem)
    (target_type : GIGA_data_type) (fp_shift : Nat) (tensor : GIGA_tensor_t) (m : Mem) :
    GIGA_error × Mem :=
  let dims := copy_dims tensor
  let b_target_is_float :=
    decide (target_type = GIGA_Float32) || decide (target_type = GIGA_Float16)
  if target_type = tensor.type ∧ fp_shift = tensor.fp_shift then
    let tensor_size :=
      (element_size_in_bits tensor.type / 8 * dims 0 * dims 1 * dims 2 * dims 3) % 2 ^ 64
    (GIGA_Success, memcpy user 0 m (get_ptr tensor) tensor_size)
  else if is_4bit target_type || is_4bit tensor.type then
    (GIGA_Unimplemented_Type, user)
  else
    let delta_fp_shift : Int :=
      (if b_target_is_float then 0 else (fp_shift : Int)) - (tensor.fp_shift : Int)
    let f : F :=
      if b_target_is_float then ops.div ops.one (cv.ofInt (shl_one (-delta_fp_shift)))
      else cv.ofInt (shl_one delta_fp_shift)
    let tensor_size := (dims 0 * dims 1 * dims 2 * dims 3) % 2 ^ 32
    (GIGA_Success,
      forLoop tensor_size
        (fun i buf =>
          store_bytes buf (i * sizeof_CType target_type) (sizeof_CType target_type)
            (cast_to_all ops tensor.type target_type
              (load_bytes m (get_ptr tensor + i * sizeof_CType tensor.type)
                (sizeof_CType tensor.type))
              delta_fp_shift f))
        user)

/-- Exact arithmetic on the rationals with the conversions of the elements of every kind: an
integer element is converted by value, a `float` is converted to an integer kind by its integer
part reduced to the width of the kind, and the elements of the float kinds are the `Float32`
patterns of 0, 1/2, 1 and 2. -/
def exact_kind_ops : FloatOps ℚ :=
  { exact_ops with
    toFloat := fun k u =>
      match int_CType k with
      | some T => (T.ofBits u : ℚ)
      | none => f32_value u,
    ofFloat := fun k v =>
      match int_CType k with
      | some T => ((exact_conv.toInt v) % 2 ^ T.bits).toNat
      | none => f32_bits v }

/-- A host buffer, or a store, whose only bytes other than 0 are those of the `Float32` pattern
of `1.f` at the address `a`. -/
def f32_one_at (a : Nat) : Mem := fun x => if x = a + 2 then 128 else if x = a + 3 then 63 else 0

/-- A `SFixed8` tensor of dims (1) with `fp_shift` 4, at 4096. -/
def copy_s8_fp4 : GIGA_tensor_t := fresh 1 GIGA_SFixed8 [1] 4 0

/-- A `Float32` tensor of dims (1) whose descriptor has `fp_shift` 1, at 4096. -/
def copy_f32_fp1 : GIGA_tensor_t := fresh 1 GIGA_Float32 [1] 1 0

/-- A `Float32` tensor of dims (1) whose descriptor has `fp_shift` 0, at 4096. -/
def copy_f32_fp0 : GIGA_tensor_t := fresh 1 GIGA_Float32 [1] 0 0

/-! ## Allocation: strides and the zone bound -/

/-- C5 (failing input): the rank-3 `SFixed8` request of dims (1, 65536, 65536) at offset 0 of the
default 128M zone returns `GIGA_Success`, and the stride it stores for axis 0 is 0, whereas
`strides[1] * dims[1]` is `2 ^ 32`: the 32-bit product wrapped. -/
theorem alloc_strides_wrap_at_65536 :
    (giga_allocate_tensor_ (default_state 4096) request_1x65536x65536 (in_zone0 0)).1
      = GIGA_Success ∧
    (giga_allocate_tensor_ (default_state 4096) request_1x65536x65536 (in_zone0 0)).2.1.strides 2
      = element_size_in_bits GIGA_SFixed8 / 8 ∧
    (giga_allocate_tensor_ (default_state 4096) request_1x65536x65536 (in_zone0 0)).2.1.strides 1
      = 65536 ∧
    (giga_allocate_tensor_ (default_state 4096) request_1x65536x65536 (in_zone0 0)).2.1.strides 0
      = 0 ∧
    (giga_allocate_tensor_ (default_state 4096) request_1x65536x65536 (in_zone0 0)).2.1.strides 1
      * (giga_allocate_tensor_ (default_state 4096) request_1x65536x65536 (in_zone0 0)).2.1.dims 1
      = 4294967296 := by
  decide

/-- C6 (failing input): the rank-2 `SFixed8` request of dims (65536, 65536), that is `2 ^ 32`
bytes, at offset 0 of the default zone of 134217728 bytes returns `GIGA_Success` instead of
`GIGA_Out_Of_Device_Memory`. -/
theorem alloc_oversize_accepted :
    (giga_allocate_tensor_ (default_state 4096) request_65536x65536 (in_zone0 0)).1
        = GIGA_Success ∧
      (default_state 4096).s_memory_zones.map MemoryPool.size = [134217728] ∧
      (in_zone0 0).offset + prod_from request_65536x65536.dims 2 0
          * (element_size_in_bits request_65536x65536.type / 8) > 134217728 := by
  decide

/-! ## Loops -/

theorem forLoop_zero {σ : Type} (body : Nat → σ → σ) (s : σ) : forLoop 0 body s = s := rfl

theorem forLoop_succ {σ : Type} (n : Nat) (body : Nat → σ → σ) (s : σ) :
    forLoop (n + 1) body s = body n (forLoop n body s) := by
  simp [forLoop, List.range_succ]

theorem forLoop_congr {σ : Type} (n : Nat) (f g : Nat → σ → σ) (s : σ)
    (h : ∀ i, i < n → ∀ x, f i x = g i x) : forLoop n f s = forLoop n g s := by
  induction n with
  | zero => rfl
  | succ n ih =>
    rw [forLoop_succ, forLoop_succ, ih (fun i hi x => h i (Nat.lt_succ_of_lt hi) x),
      h n (Nat.lt_succ_self n)]

/-! ## Views -/

theorem view_loop_spec (offset strides_in s0 : Nat → Nat) (p0 r : Nat)
    (hfit : ∀ k, k < r → offset k * strides_in k < 2 ^ 32) :
    (view_loop offset strides_in r (s0, p0)).2 = p0 + elem_offset strides_in offset r ∧
      ∀ k, k < r → (view_loop offset strides_in r (s0, p0)).1 k = strides_in k := by
  unfold view_loop
  induction r with
  | zero => exact ⟨rfl, fun k hk => absurd hk (Nat.not_lt_zero k)⟩
  | succ r ih =>
    obtain ⟨ih2, ih1⟩ := ih (fun k hk => hfit k (Nat.lt_succ_of_lt hk))
    rw [forLoop_succ]
    refine ⟨?_, ?_⟩
    · simp only [ih2, Nat.mod_eq_of_lt (hfit r (Nat.lt_succ_self r)), elem_offset, Nat.add_assoc]
    · intro k hk
      by_cases hkr : k = r
      · subst hkr; simp
      · simp only [Function.update_noteq hkr]
        exact ih1 k (by omega)

theorem view_loop_congr (o1 o2 strides_in : Nat → Nat) (r : Nat) (init : (Nat → Nat) × Nat)
    (h : ∀ k, k < r → o1 k = o2 k) :
    view_loop o1 strides_in r init = view_loop o2 strides_in r init :=
  forLoop_congr _ _ _ _ (fun i hi x => by simp only [h i hi])

theorem elem_offset_add (strides a b : Nat → Nat) (r : Nat) :
    elem_offset strides (fun k => a k + b k) r =
      elem_offset strides a r + elem_offset strides b r := by
  induction r with
  | zero => rfl
  | succ r ih => simp only [elem_offset, ih]; ring

theorem elem_offset_congr (s1 s2 idx : Nat → Nat) (r : Nat) (h : ∀ k, k < r → s1 k = s2 k) :
    elem_offset s1 idx r = elem_offset s2 idx r := by
  induction r with
  | zero => rfl
  | succ r ih =>
    simp only [elem_offset, ih (fun k hk => h k (Nat.lt_succ_of_lt hk)), h r (Nat.lt_succ_self r)]

theorem giga_view_success (st : GigaState) (params : GIGA_view_t) (inT out : GIGA_tensor_t)
    (hok : (giga_view_ st params inT out).1 = GIGA_Success) :
    out.nb_dims = inT.nb_dims ∧ ∃ data_in, inT.data = some data_in ∧
      ∀ p : GIGA_view_t, giga_view_ st p inT out =
        (GIGA_Success,
          { out with
            strides :=
              (view_loop p.offset inT.strides inT.nb_dims (out.strides, data_in.data_start)).1
            data := some
              { id := st.current_tensor_id
                memory_zone_id := data_in.memory_zone_id
                data_ptr := data_in.data_ptr
                data_start :=
                  (view_loop p.offset inT.strides inT.nb_dims (out.strides, data_in.data_start)).2
                is_allocated := true
                view_of := data_in.id } },
          { s_memory_zones := bump_nb_tensors st.s_memory_zones data_in.memory_zone_id
            current_tensor_id := st.current_tensor_id + 1 }) := by
  unfold giga_view_ at hok
  by_cases h1 : check_tensor_exists inT = true
  swap
  · simp [h1] at hok
  by_cases h2 : inT.type = out.type
  swap
  · simp [h1, h2] at hok
  by_cases h3 : inT.fp_shift = out.fp_shift
  swap
  · simp [h1, h2, h3] at hok
  by_cases h4 : inT.nb_dims = out.nb_dims
  swap
  · simp [h1, h2, h3, h4] at hok
  cases hd : inT.data with
  | none => simp [check_tensor_exists, hd] at h1
  | some data_in =>
    refine ⟨h4.symm, data_in, rfl, fun p => ?_⟩
    unfold giga_view_
    simp [h1, h2, h3, h4, hd]

/-- C7: a successful `giga_view_` whose per-axis byte displacements `offset[k] * strides[k]` fit the
32-bit product of the source (as they do for a view lying inside a parent of less than 4 GiB)
inherits the parent's byte strides on every axis, starts at
`parent_base + Σ offset[k] * parent_strides[k]`, places its element `idx` on the parent's element
`offset + idx`, and does not depend on the entries `offset[k]`, `k ≥ rank`. -/
theorem view_shares_parent_storage (st : GigaState) (params : GIGA_view_t)
    (inT out : GIGA_tensor_t)
    (hok : (giga_view_ st params inT out).1 = GIGA_Success)
    (hfit : ∀ k, k < inT.nb_dims → params.offset k * inT.strides k < 2 ^ 32) :
    (∀ k, k < inT.nb_dims → (giga_view_ st params inT out).2.1.strides k = inT.strides k) ∧
    get_ptr (giga_view_ st params inT out).2.1
        = get_ptr inT + elem_offset inT.strides params.offset inT.nb_dims ∧
    (∀ idx : Nat → Nat, elem_addr (giga_view_ st params inT out).2.1 idx
        = elem_addr inT (fun k => params.offset k + idx k)) ∧
    (∀ params2 : GIGA_view_t, (∀ k, k < inT.nb_dims → params2.offset k = params.offset k) →
        giga_view_ st params2 inT out = giga_view_ st params inT out) := by
  obtain ⟨hr, data_in, hd, heq⟩ := giga_view_success st params inT out hok
  obtain ⟨hw2, hw1⟩ := view_loop_spec params.offset inT.strides out.strides data_in.data_start
    inT.nb_dims hfit
  have hp : get_ptr inT = data_in.data_start := by simp [get_ptr, hd]
  refine ⟨?_, ?_, ?_, ?_⟩
  · intro k hk
    rw [heq params]
    exact hw1 k hk
  · rw [heq params, hp]
    exact hw2
  · intro idx
    rw [heq params]
    simp only [elem_addr, get_ptr, hd, hr, hw2]
    rw [elem_offset_add, elem_offset_congr _ inT.strides idx inT.nb_dims hw1]
    omega
  · intro params2 hp2
    rw [heq params2, heq params, view_loop_congr params2.offset params.offset _ _ _ hp2]

/-- C7 (witness): the view of tests/view.cpp, dims (2,2,2) at offsets (0,0,1,100) of a fresh
(2,5,5) `Float32` tensor, starts one element (4 bytes) after the parent. -/
theorem view_shares_parent_storage_witness :
    (giga_view_ (default_state 4096) ⟨fun k => [0, 0, 1, 100].getD k 0⟩
        (giga_allocate_tensor_ (default_state 4096) (mk_descriptor 3 GIGA_Float32 [2, 5, 5] 0)
          (in_zone0 0)).2.1
        (mk_descriptor 3 GIGA_Float32 [2, 2, 2] 0)).1 = GIGA_Success ∧
    get_ptr (giga_view_ (default_state 4096) ⟨fun k => [0, 0, 1, 100].getD k 0⟩
        (giga_allocate_tensor_ (default_state 4096) (mk_descriptor 3 GIGA_Float32 [2, 5, 5] 0)
          (in_zone0 0)).2.1
        (mk_descriptor 3 GIGA_Float32 [2, 2, 2] 0)).2.1 = 4096 + 4 :=
  ⟨by decide,
    (view_shares_parent_storage (default_state 4096) ⟨fun k => [0, 0, 1, 100].getD k 0⟩
      (giga_allocate_tensor_ (default_state 4096) (mk_descriptor 3 GIGA_Float32 [2, 5, 5] 0)
        (in_zone0 0)).2.1
      (mk_descriptor 3 GIGA_Float32 [2, 2, 2] 0) (by decide) (by decide)).2.1.trans (by decide)⟩

/-! ## Row-major order -/

theorem prod_from_snoc (dims : Nat → Nat) (n j : Nat) :
    prod_from dims (n + 1) j = prod_from dims n j * dims (j + n) := by
  induction n generalizing j with
  | zero => simp [prod_from]
  | succ n ih =>
    rw [prod_from, ih (j + 1)]
    simp only [prod_from]
    rw [show j + 1 + n = j + (n + 1) by omega]
    ring

theorem total_size_u32_eq (dims : Nat → Nat) (r : Nat) :
    total_size_u32 dims r = prod_from dims r 0 % 2 ^ 32 := by
  unfold total_size_u32
  induction r with
  | zero => rfl
  | succ r ih =>
    rw [forLoop_succ, ih, prod_from_snoc, Nat.zero_add, Nat.mod_mul_mod]

theorem prod_from_step (dims : Nat → Nat) (r j : Nat) (h : j < r) :
    prod_from dims (r - j) j = dims j * prod_from dims (r - (j + 1)) (j + 1) := by
  have : r - j = (r - (j + 1)) + 1 := by omega
  rw [this, prod_from]

theorem row_major_digits (dims strides : Nat → Nat) (es r k : Nat)
    (hrm : ∀ i, i < r → strides i = es * prod_from dims (r - (i + 1)) (i + 1)) :
    ∀ j, j ≤ r →
      elem_offset strides (unravel dims r k) j + es * (k % prod_from dims (r - j) j)
        = es * (k % prod_from dims r 0) := by
  intro j
  induction j with
  | zero => intro _; simp [elem_offset]
  | succ j ih =>
    intro hj
    have hjr : j < r := hj
    have h := ih (Nat.le_of_lt hjr)
    rw [prod_from_step dims r j hjr, Nat.mul_comm (dims j), Nat.mod_mul] at h
    simp only [elem_offset, unravel, hrm j hjr]
    rw [← h]
    ring

theorem row_major_offset (dims strides : Nat → Nat) (es r k : Nat)
    (hrm : ∀ i, i < r → strides i = es * prod_from dims (r - (i + 1)) (i + 1))
    (hk : k < prod_from dims r 0) :
    elem_offset strides (unravel dims r k) r = es * k := by
  have h := row_major_digits dims strides es r k hrm r (Nat.le_refl r)
  simpa [prod_from, Nat.mod_one, Nat.mod_eq_of_lt hk] using h

/-! ## Reshape -/

/-- C8: for an existing row-major (contiguous) input and an existing output descriptor with
row-major strides, of the same kind, `fp_shift` and element count, `giga_reshape_` returns
`GIGA_Success`, leaves the dims and strides of the output as they are (it has no access to the byte
store), and the `k`-th element of the output in row-major order has the address of the `k`-th
element of the input in row-major order, namely `base + es * k`; so both read the same bytes. -/
theorem reshape_aliases_flat_order (inT out : GIGA_tensor_t) (es : Nat)
    (hin : check_tensor_exists inT = true) (hout : check_tensor_exists out = true)
    (hty : inT.type = out.type) (hfp : inT.fp_shift = out.fp_shift)
    (hcount : prod_from inT.dims inT.nb_dims 0 = prod_from out.dims out.nb_dims 0)
    (hrm_in : RowMajor es inT) (hrm_out : RowMajor es out) :
    (giga_reshape_ inT out).1 = GIGA_Success ∧
    (giga_reshape_ inT out).2.dims = out.dims ∧
    (giga_reshape_ inT out).2.strides = out.strides ∧
    (giga_reshape_ inT out).2.nb_dims = out.nb_dims ∧
    ∀ k, k < prod_from out.dims out.nb_dims 0 →
      elem_addr (giga_reshape_ inT out).2 (unravel out.dims out.nb_dims k)
          = elem_addr inT (unravel inT.dims inT.nb_dims k) ∧
      elem_addr inT (unravel inT.dims inT.nb_dims k) = get_ptr inT + es * k ∧
      ∀ m : Mem, ∀ n,
        load_bytes m (elem_addr (giga_reshape_ inT out).2 (unravel out.dims out.nb_dims k)) n
          = load_bytes m (elem_addr inT (unravel inT.dims inT.nb_dims k)) n := by
  cases hdi : inT.data with
  | none => simp [check_tensor_exists, hdi] at hin
  | some data_in =>
    cases hdo : out.data with
    | none => simp [check_tensor_exists, hdo] at hout
    | some data_out =>
      have heq : giga_reshape_ inT out =
          (GIGA_Success,
            { out with data := some { data_out with data_ptr := data_in.data_ptr
                                                    data_start := data_in.data_start } }) := by
        unfold giga_reshape_
        simp [hin, hout, hty, hfp, total_size_u32_eq, hcount, hdi, hdo]
      rw [heq]
      refine ⟨rfl, rfl, rfl, rfl, fun k hk => ?_⟩
      have h_in : elem_addr inT (unravel inT.dims inT.nb_dims k) = get_ptr inT + es * k := by
        simp only [elem_addr]
        rw [row_major_offset inT.dims inT.strides es inT.nb_dims k hrm_in (hcount ▸ hk)]
      have h_out : elem_addr
          { out with data := some { data_out with data_ptr := data_in.data_ptr
                                                  data_start := data_in.data_start } }
          (unravel out.dims out.nb_dims k) = get_ptr inT + es * k := by
        simp only [elem_addr, get_ptr, hdi]
        rw [row_major_offset out.dims out.strides es out.nb_dims k hrm_out hk]
      refine ⟨by rw [h_out, h_in], h_in, fun m n => by rw [h_out, h_in]⟩

/-- C8 (witness): the case of tests/reshape.cpp, a fresh (2,5,5) `Float32` tensor reshaped to a
pre-allocated (2,25) one. -/
theorem reshape_aliases_flat_order_witness :
    (giga_reshape_
      (giga_allocate_tensor_ (default_state 4096) (mk_descriptor 3 GIGA_Float32 [2, 5, 5] 0)
        (in_zone0 0)).2.1
      (giga_allocate_tensor_ (default_state 4096) (mk_descriptor 2 GIGA_Float32 [2, 25] 0)
        (in_zone0 0)).2.1).1 = GIGA_Success :=
  (reshape_aliases_flat_order
    (giga_allocate_tensor_ (default_state 4096) (mk_descriptor 3 GIGA_Float32 [2, 5, 5] 0)
      (in_zone0 0)).2.1
    (giga_allocate_tensor_ (default_state 4096) (mk_descriptor 2 GIGA_Float32 [2, 25] 0)
      (in_zone0 0)).2.1
    4 (by decide) (by decide) (by decide) (by decide) (by decide)
    (by unfold RowMajor; decide) (by unfold RowMajor; decide)).1

/-! ## Host copies -/

theorem copy_dims_prod (t : GIGA_tensor_t) (hr : 1 ≤ t.nb_dims ∧ t.nb_dims ≤ 4) :
    copy_dims t 0 * copy_dims t 1 * copy_dims t 2 * copy_dims t 3
      = prod_from t.dims t.nb_dims 0 := by
  obtain ⟨h1, h4⟩ := hr
  have : t.nb_dims = 1 ∨ t.nb_dims = 2 ∨ t.nb_dims = 3 ∨ t.nb_dims = 4 := by omega
  rcases this with h | h | h | h <;> simp [copy_dims, h, prod_from, Nat.mul_assoc]

theorem copy_to_same_kind (user : Mem) (t : GIGA_tensor_t) (m : Mem) :
    giga_copy_to_tensor_ user t.type t.fp_shift t m =
      some (GIGA_Success, memcpy m (get_ptr t) user 0
        ((element_size_in_bits t.type / 8 * copy_dims t 0 * copy_dims t 1 * copy_dims t 2
          * copy_dims t 3) % 2 ^ 64)) := by
  simp [giga_copy_to_tensor_]

theorem copy_from_same_kind (user : Mem) (t : GIGA_tensor_t) (m : Mem) :
    giga_copy_from_tensor_ user t.type t.fp_shift t m =
      some (GIGA_Success, memcpy user 0 m (get_ptr t)
        ((element_size_in_bits t.type / 8 * copy_dims t 0 * copy_dims t 1 * copy_dims t 2
          * copy_dims t 3) % 2 ^ 64)) := by
  simp [giga_copy_from_tensor_]

/-- C9: for an existing tensor of rank 1 to 4 whose byte size `es * Π dims` is below `2 ^ 64`, copying a host
buffer in with the tensor's own kind and `fp_shift` and copying back out with the same kind and
`fp_shift` both return `GIGA_Success`, and the buffer read back has, byte for byte, the
`es * Π dims` bytes of the original buffer. -/
theorem copy_roundtrip_same_kind (t : GIGA_tensor_t) (user buf m : Mem)
    (hex : check_tensor_exists t = true) (hr : 1 ≤ t.nb_dims ∧ t.nb_dims ≤ 4)
    (hsize : element_size_in_bits t.type / 8 * prod_from t.dims t.nb_dims 0 < 2 ^ 64) :
    ∃ m2 buf2,
      giga_copy_to_tensor_ user t.type t.fp_shift t m = some (GIGA_Success, m2) ∧
      giga_copy_from_tensor_ buf t.type t.fp_shift t m2 = some (GIGA_Success, buf2) ∧
      ∀ j, j < element_size_in_bits t.type / 8 * prod_from t.dims t.nb_dims 0 →
        buf2 j = user j := by
  have hn : element_size_in_bits t.type / 8 * copy_dims t 0 * copy_dims t 1 * copy_dims t 2
      * copy_dims t 3 = element_size_in_bits t.type / 8 * prod_from t.dims t.nb_dims 0 := by
    rw [← copy_dims_prod t hr]; ring
  have _ := hex
  refine ⟨_, _, copy_to_same_kind user t m, copy_from_same_kind buf t _, ?_⟩
  intro j hj
  simp only [hn, Nat.mod_eq_of_lt hsize, memcpy]
  have h1 : (0 ≤ j ∧ j < 0 + element_size_in_bits t.type / 8 * prod_from t.dims t.nb_dims 0) :=
    ⟨Nat.zero_le j, by omega⟩
  rw [if_pos h1]
  have h2 : get_ptr t ≤ get_ptr t + (j - 0) ∧ get_ptr t + (j - 0)
      < get_ptr t + element_size_in_bits t.type / 8 * prod_from t.dims t.nb_dims 0 :=
    ⟨Nat.le_add_right _ _, by omega⟩
  rw [if_pos h2]
  simp

/-- C9 (witness): a fresh (2,4) `UFixed8` tensor. -/
theorem copy_roundtrip_same_kind_witness :
    ∃ m2 buf2,
      giga_copy_to_tensor_ (bytes_of [1, 2, 3, 4, 5, 6, 7, 8]) parent_2x4.type parent_2x4.fp_shift
        parent_2x4 (fun _ => 0) = some (GIGA_Success, m2) ∧
      giga_copy_from_tensor_ (fun _ => 0) parent_2x4.type parent_2x4.fp_shift parent_2x4 m2
        = some (GIGA_Success, buf2) ∧
      ∀ j, j < element_size_in_bits parent_2x4.type / 8
          * prod_from parent_2x4.dims parent_2x4.nb_dims 0 →
        buf2 j = bytes_of [1, 2, 3, 4, 5, 6, 7, 8] j :=
  copy_roundtrip_same_kind parent_2x4 (bytes_of [1, 2, 3, 4, 5, 6, 7, 8]) (fun _ => 0)
    (fun _ => 0) (by decide) (by decide) (by decide)

/-- C10 (failing input): on the non-contiguous view `view_2x2` (elements at 4097, 4098, 4101,
4102) `giga_copy_to_tensor_` writes the four buffer elements 10, 20, 30, 40 to the consecutive
bytes 4097 to 4100: buffer element 2, of multi-index (1,0), does not reach its address 4101, and
the bytes 4099 and 4100, which are not elements of the view, are overwritten; the per-element path
(here with `fp_shift` 1 against 0) walks the same consecutive bytes; and
`giga_copy_from_tensor_` reads the bytes 4097 to 4100 back instead of the elements of the view. -/
theorem copy_ignores_view_strides :
    elem_addr view_2x2 (idx_of [0, 0]) = 4097 ∧ elem_addr view_2x2 (idx_of [0, 1]) = 4098 ∧
    elem_addr view_2x2 (idx_of [1, 0]) = 4101 ∧ elem_addr view_2x2 (idx_of [1, 1]) = 4102 ∧
    (giga_copy_to_tensor_ (bytes_of [10, 20, 30, 40]) GIGA_UFixed8 0 view_2x2 (fun _ => 0)).map
        (fun r => (r.1, [r.2 4097, r.2 4098, r.2 4099, r.2 4100, r.2 4101, r.2 4102]))
      = some (GIGA_Success, [10, 20, 30, 40, 0, 0]) ∧
    (giga_copy_to_tensor_ (bytes_of [10, 20, 30, 40]) GIGA_UFixed8 1 view_2x2 (fun _ => 0)).map
        (fun r => (r.1, [r.2 4097, r.2 4098, r.2 4099, r.2 4100, r.2 4101, r.2 4102]))
      = some (GIGA_Success, [5, 10, 15, 20, 0, 0]) ∧
    (giga_copy_from_tensor_ (fun _ => 0) GIGA_UFixed8 0 view_2x2 store_1_to_8).map
        (fun r => (r.1, [r.2 0, r.2 1, r.2 2, r.2 3]))
      = some (GIGA_Success, [2, 3, 4, 5]) ∧
    [store_1_to_8 (elem_addr view_2x2 (idx_of [0, 0])),
      store_1_to_8 (elem_addr view_2x2 (idx_of [0, 1])),
      store_1_to_8 (elem_addr view_2x2 (idx_of [1, 0])),
      store_1_to_8 (elem_addr view_2x2 (idx_of [1, 1]))] = [2, 3, 6, 7] := by
  decide

/-! ## Byte store lemmas -/

theorem load_bytes_congr (m1 m2 : Mem) (n a : Nat) (h : ∀ j, j < n → m1 (a + j) = m2 (a + j)) :
    load_bytes m1 a n = load_bytes m2 a n := by
  induction n generalizing a with
  | zero => rfl
  | succ n ih =>
    simp only [load_bytes]
    have h0 := h 0 (Nat.succ_pos n)
    rw [Nat.add_zero] at h0
    rw [h0, ih (a + 1) (fun j hj => by
      have := h (j + 1) (Nat.succ_lt_succ hj)
      rwa [show a + (j + 1) = a + 1 + j by omega] at this)]

theorem load_bytes_of_bytes (m : Mem) (n a V : Nat)
    (h : ∀ j, j < n → m (a + j) = (V / 256 ^ j) % 256) : load_bytes m a n = V % 256 ^ n := by
  induction n generalizing a V with
  | zero => simp [load_bytes, Nat.mod_one]
  | succ n ih =>
    simp only [load_bytes]
    have h0 := h 0 (Nat.succ_pos n)
    simp only [Nat.add_zero, pow_zero, Nat.div_one] at h0
    rw [h0, ih (a + 1) (V / 256) (fun j hj => by
      have := h (j + 1) (Nat.succ_lt_succ hj)
      rw [show a + (j + 1) = a + 1 + j by omega] at this
      rw [this, Nat.div_div_eq_div_mul, pow_succ']), Nat.mod_mod, pow_succ', Nat.mod_mul]

theorem load_bytes_lt (m : Mem) (n a : Nat) : load_bytes m a n < 256 ^ n := by
  induction n generalizing a with
  | zero => simp [load_bytes]
  | succ n ih =>
    simp only [load_bytes, pow_succ']
    have := ih (a + 1)
    have h2 : m a % 256 < 256 := Nat.mod_lt _ (by decide)
    omega

theorem store_bytes_in (m : Mem) (a n v j : Nat) (hj : j < n) :
    store_bytes m a n v (a + j) = (v / 256 ^ j) % 256 := by
  simp only [store_bytes]
  rw [if_pos ⟨Nat.le_add_right a j, by omega⟩, Nat.add_sub_cancel_left]

theorem store_bytes_out (m : Mem) (a n v x : Nat) (hx : ¬ (a ≤ x ∧ x < a + n)) :
    store_bytes m a n v x = m x := by
  simp only [store_bytes]
  rw [if_neg hx]

/-! ## Write sets of loops -/

theorem writes_agree (R : Nat → Prop) (m0 : Mem) (F : Mem → Mem) (D : Nat → Prop)
    (v : Nat → Nat) (hW : Writes R m0 F D v) (hDR : ∀ a, D a → ¬ R a) (m : Mem)
    (hm : Agree R m m0) : Agree R (F m) m0 := by
  intro a ha
  rw [((hW m hm a).2 (fun hd => hDR a hd ha))]
  exact hm a ha

theorem writes_store (R : Nat → Prop) (m0 : Mem) (F : Mem → Mem) (A sz V : Nat) (v : Nat → Nat)
    (hF : ∀ m, Agree R m m0 → F m = store_bytes m A sz V)
    (hv : ∀ j, j < sz → v (A + j) = (V / 256 ^ j) % 256) :
    Writes R m0 F (fun a => A ≤ a ∧ a < A + sz) v := by
  intro m hm a
  rw [hF m hm]
  refine ⟨fun hd => ?_, fun hd => store_bytes_out m A sz V a hd⟩
  obtain ⟨h1, h2⟩ := hd
  have hj : a - A < sz := by omega
  have := store_bytes_in m A sz V (a - A) hj
  rw [show A + (a - A) = a by omega] at this
  rw [this, ← hv (a - A) hj, show A + (a - A) = a by omega]

theorem writes_of_eq (R : Nat → Prop) (m0 : Mem) (F G : Mem → Mem) (D : Nat → Prop)
    (v : Nat → Nat) (hFG : ∀ m, Agree R m m0 → F m = G m) (hG : Writes R m0 G D v) :
    Writes R m0 F D v := by
  intro m hm a
  rw [hFG m hm]
  exact hG m hm a

theorem writes_forLoop (R : Nat → Prop) (m0 : Mem) (n : Nat) (body : Nat → Mem → Mem)
    (D : Nat → Nat → Prop) (v : Nat → Nat)
    (hb : ∀ i, i < n → Writes R m0 (body i) (D i) v)
    (hDR : ∀ i, i < n → ∀ a, D i a → ¬ R a) :
    Writes R m0 (forLoop n body) (fun a => ∃ i, i < n ∧ D i a) v := by
  induction n with
  | zero =>
    intro m _ a
    exact ⟨fun ⟨i, hi, _⟩ => absurd hi (Nat.not_lt_zero i), fun _ => rfl⟩
  | succ n ih =>
    have ihn := ih (fun i hi => hb i (Nat.lt_succ_of_lt hi))
      (fun i hi => hDR i (Nat.lt_succ_of_lt hi))
    intro m hm a
    rw [forLoop_succ]
    have hM : Agree R (forLoop n body m) m0 :=
      writes_agree R m0 _ _ v ihn (fun a ⟨i, hi, hd⟩ => hDR i (Nat.lt_succ_of_lt hi) a hd) m hm
    have hn := hb n (Nat.lt_succ_self n) (forLoop n body m) hM a
    by_cases hdn : D n a
    · exact ⟨fun _ => hn.1 hdn, fun h => absurd ⟨n, Nat.lt_succ_self n, hdn⟩ h⟩
    · rw [hn.2 hdn]
      refine ⟨fun ⟨i, hi, hd⟩ => ?_, fun h => ?_⟩
      · have hin : i < n := by
          rcases Nat.lt_succ_iff_lt_or_eq.mp hi with h | h
          · exact h
          · subst h; exact absurd hd hdn
        exact (ihn m hm a).1 ⟨i, hin, hd⟩
      · exact (ihn m hm a).2 (fun ⟨i, hi, hd⟩ => h ⟨i, Nat.lt_succ_of_lt hi, hd⟩)

/-! ## Integer types -/

theorem wrapS_modEq (w : Nat) (x : Int) : wrapS w x ≡ x [ZMOD 2 ^ w] := by
  unfold wrapS
  have h : (x + 2 ^ (w - 1)) % 2 ^ w ≡ x + 2 ^ (w - 1) [ZMOD 2 ^ w] := Int.mod_modEq _ _
  have := Int.ModEq.sub_right ((2 : Int) ^ (w - 1)) h
  simpa using this

theorem wrapS_congr (w : Nat) (a b : Int) (h : a ≡ b [ZMOD 2 ^ w]) : wrapS w a = wrapS w b := by
  unfold wrapS
  have h2 : (a + 2 ^ (w - 1)) % 2 ^ w = (b + 2 ^ (w - 1)) % 2 ^ w :=
    Int.ModEq.add_right _ h
  rw [h2]

theorem wrapS_wrapS_add (w : Nat) (a b : Int) : wrapS w (wrapS w a + b) = wrapS w (a + b) :=
  wrapS_congr w _ _ (Int.ModEq.add_right b (wrapS_modEq w a))

theorem wrapS_of_range (w : Nat) (x : Int) (hw : 1 ≤ w) (h1 : -(2 ^ (w - 1)) ≤ x)
    (h2 : x < 2 ^ (w - 1)) : wrapS w x = x := by
  unfold wrapS
  have hp : (2 : Int) ^ w = 2 * 2 ^ (w - 1) := by
    rw [← pow_succ']
    congr 1
    omega
  rw [Int.emod_eq_of_lt (by omega) (by omega)]
  omega

theorem fixed_CType_cases (k : GIGA_data_type) (T : CIntType) (h : fixed_CType k = some T) :
    (T = ⟨8, true⟩ ∨ T = ⟨16, true⟩ ∨ T = ⟨8, false⟩ ∨ T = ⟨16, false⟩) ∧
      T.bits / 8 = element_size_in_bits k / 8 ∧ 0 < T.bits / 8 := by
  cases k <;> simp [fixed_CType] at h <;> subst h <;> simp [element_size_in_bits]

theorem ofBits_wrap (T : CIntType)
    (hT : T = ⟨8, true⟩ ∨ T = ⟨16, true⟩ ∨ T = ⟨8, false⟩ ∨ T = ⟨16, false⟩) (x : Int) :
    T.ofBits ((x % 2 ^ T.bits).toNat % 256 ^ (T.bits / 8)) = T.wrap x := by
  rcases hT with h | h | h | h <;> subst h <;>
    simp only [CIntType.ofBits, CIntType.wrap, wrapS] <;> norm_num <;> omega

theorem load_int_of_bytes (T : CIntType)
    (hT : T = ⟨8, true⟩ ∨ T = ⟨16, true⟩ ∨ T = ⟨8, false⟩ ∨ T = ⟨16, false⟩) (m : Mem)
    (a : Nat) (x : Int)
    (h : ∀ j, j < T.bits / 8 → m (a + j) = ((x % 2 ^ T.bits).toNat / 256 ^ j) % 256) :
    load_int T m a = T.wrap x := by
  unfold load_int
  rw [load_bytes_of_bytes m (T.bits / 8) a _ h, ofBits_wrap T hT x]

theorem load_int_congr (T : CIntType) (m1 m2 : Mem) (a : Nat)
    (h : ∀ j, j < T.bits / 8 → m1 (a + j) = m2 (a + j)) : load_int T m1 a = load_int T m2 a := by
  unfold load_int
  rw [load_bytes_congr m1 m2 (T.bits / 8) a h]

theorem load_int_range (T : CIntType)
    (hT : T = ⟨8, true⟩ ∨ T = ⟨16, true⟩ ∨ T = ⟨8, false⟩ ∨ T = ⟨16, false⟩) (m : Mem)
    (a : Nat) : -(2 ^ 15) ≤ load_int T m a ∧ load_int T m a < 2 ^ 16 := by
  unfold load_int
  have hlt := load_bytes_lt m (T.bits / 8) a
  rcases hT with h | h | h | h <;> subst h <;>
    simp only [CIntType.ofBits] at hlt ⊢ <;> norm_num at hlt ⊢ <;> (try split_ifs) <;> omega

theorem wrap_load_int (w : Nat) (hw : 32 ≤ w) (T : CIntType)
    (hT : T = ⟨8, true⟩ ∨ T = ⟨16, true⟩ ∨ T = ⟨8, false⟩ ∨ T = ⟨16, false⟩) (m : Mem)
    (a : Nat) : CIntType.wrap ⟨w, true⟩ (load_int T m a) = load_int T m a := by
  obtain ⟨h1, h2⟩ := load_int_range T hT m a
  have hp : (2 : Int) ^ 31 ≤ 2 ^ (w - 1) := by
    exact_mod_cast Nat.pow_le_pow_right (by decide) (by omega : 31 ≤ w - 1)
  simp only [CIntType.wrap, if_true]
  exact wrapS_of_range w _ (by omega) (by omega) (by omega)

/-! ## Row-major indexing -/

theorem mul_add_lt (a b A B : Nat) (ha : a < A) (hb : b < B) : a * B + b < A * B := by
  calc a * B + b < a * B + B := by omega
    _ = (a + 1) * B := by ring
    _ ≤ A * B := Nat.mul_le_mul_right B ha

theorem elem_offset_scale (s u idx : Nat → Nat) (es j : Nat) (h : ∀ i, i < j → s i = es * u i) :
    elem_offset s idx j = es * elem_offset u idx j := by
  induction j with
  | zero => rfl
  | succ j ih =>
    simp only [elem_offset, ih (fun i hi => h i (Nat.lt_succ_of_lt hi)), h j (Nat.lt_succ_self j)]
    ring

theorem ravel_bound (dims idx : Nat → Nat) (r : Nat) (hidx : ∀ i, i < r → idx i < dims i) :
    ∀ j, j ≤ r →
      elem_offset (unit_strides dims r) idx j + prod_from dims (r - j) j ≤ prod_from dims r 0 := by
  intro j
  induction j with
  | zero => intro _; simp [elem_offset]
  | succ j ih =>
    intro hj
    have hjr : j < r := hj
    have h := ih (Nat.le_of_lt hjr)
    rw [prod_from_step dims r j hjr] at h
    simp only [elem_offset, unit_strides]
    have h2 : (idx j + 1) * prod_from dims (r - (j + 1)) (j + 1)
        ≤ dims j * prod_from dims (r - (j + 1)) (j + 1) :=
      Nat.mul_le_mul_right _ (hidx j hjr)
    have h3 : (idx j + 1) * prod_from dims (r - (j + 1)) (j + 1)
        = idx j * prod_from dims (r - (j + 1)) (j + 1) + prod_from dims (r - (j + 1)) (j + 1) := by
      ring
    omega

theorem ravel_lt (dims idx : Nat → Nat) (r : Nat) (hidx : ∀ i, i < r → idx i < dims i) :
    elem_offset (unit_strides dims r) idx r < prod_from dims r 0 := by
  have h := ravel_bound dims idx r hidx r (Nat.le_refl r)
  simp only [Nat.sub_self, prod_from] at h
  omega

theorem prod_from_congr (d1 d2 : Nat → Nat) (r n j : Nat) (hn : j + n ≤ r)
    (h : ∀ i, i < r → d1 i = d2 i) : prod_from d1 n j = prod_from d2 n j := by
  induction n generalizing j with
  | zero => rfl
  | succ n ih =>
    simp only [prod_from]
    rw [h j (by omega), ih (j + 1) (by omega)]

theorem elem_addr_row_major (t : GIGA_tensor_t) (es : Nat) (hrm : RowMajor es t)
    (idx : Nat → Nat) :
    elem_addr t idx = get_ptr t + es * elem_offset (unit_strides t.dims t.nb_dims) idx t.nb_dims := by
  unfold elem_addr
  rw [elem_offset_scale t.strides (unit_strides t.dims t.nb_dims) idx es t.nb_dims
    (fun i hi => hrm i hi)]

theorem unit_strides_congr (d1 d2 idx : Nat → Nat) (r : Nat) (h : ∀ i, i < r → d1 i = d2 i) :
    elem_offset (unit_strides d1 r) idx r = elem_offset (unit_strides d2 r) idx r :=
  elem_offset_congr _ _ idx r (fun k hk => prod_from_congr d1 d2 r _ _ (by omega) h)

/-! ## Loops that store one element per step -/

theorem flat_decode (base k sz j : Nat) (hsz : 0 < sz) (hj : j < sz) :
    (base + k * sz + j - base) / sz = k ∧ (base + k * sz + j - base) % sz = j := by
  have h1 : base + k * sz + j - base = sz * k + j := by rw [Nat.mul_comm]; omega
  rw [h1, Nat.mul_add_div hsz, Nat.div_eq_of_lt hj, Nat.add_zero, Nat.mul_add_mod,
    Nat.mod_eq_of_lt hj]
  exact ⟨rfl, rfl⟩

theorem store_loop_flat (R : Nat → Prop) (m0 : Mem) (n sz base : Nat) (hsz : 0 < sz)
    (V : Nat → Nat) (body : Nat → Mem → Mem)
    (hbody : ∀ k, k < n → ∀ m, Agree R m m0 →
      body k m = store_bytes m (base + k * sz) sz (V k))
    (hR : ∀ a, base ≤ a → a < base + n * sz → ¬ R a) :
    ∀ k, k < n → ∀ j, j < sz →
      forLoop n body m0 (base + k * sz + j) = (V k / 256 ^ j) % 256 := by
  have hv : ∀ k j, j < sz →
      (fun a => (V ((a - base) / sz) / 256 ^ ((a - base) % sz)) % 256) (base + k * sz + j)
        = (V k / 256 ^ j) % 256 := by
    intro k j hj
    obtain ⟨h1, h2⟩ := flat_decode base k sz j hsz hj
    simp only [h1, h2]
  have hW : Writes R m0 (forLoop n body)
      (fun a => ∃ k, k < n ∧ (base + k * sz ≤ a ∧ a < base + k * sz + sz))
      (fun a => (V ((a - base) / sz) / 256 ^ ((a - base) % sz)) % 256) := by
    apply writes_forLoop
    · intro k hk
      exact writes_store R m0 (body k) (base + k * sz) sz (V k) _ (hbody k hk)
        (fun j hj => hv k j hj)
    · intro k hk a hd
      obtain ⟨h1, h2⟩ := hd
      have := Nat.mul_le_mul_right sz (Nat.succ_le_of_lt hk)
      rw [Nat.succ_mul] at this
      exact hR a (by omega) (by omega)
  intro k hk j hj
  rw [(hW m0 (fun a _ => rfl) (base + k * sz + j)).1 ⟨k, hk, by omega, by omega⟩]
  exact hv k j hj

/-! ## Addition -/

theorem add_dims_loop_ok (a b out : GIGA_tensor_t)
    (h : ∀ i, i < a.nb_dims → a.dims i = b.dims i ∧ a.dims i = out.dims i) :
    add_dims_loop a b out = some (prod_from out.dims a.nb_dims 0 % 2 ^ 32) := by
  unfold add_dims_loop
  have key : ∀ n, n ≤ a.nb_dims →
      forLoop n
        (fun i (acc : Option Nat) =>
          match acc with
          | none => none
          | some n =>
            if a.dims i ≠ b.dims i ∨ a.dims i ≠ out.dims i then none
            else some ((n * out.dims i) % 2 ^ 32))
        (some 1) = some (prod_from out.dims n 0 % 2 ^ 32) := by
    intro n
    induction n with
    | zero => intro _; rfl
    | succ n ih =>
      intro hn
      rw [forLoop_succ, ih (Nat.le_of_succ_le hn)]
      obtain ⟨h1, h2⟩ := h n hn
      simp only [h1.symm, h2.symm, ne_eq, not_true_eq_false, or_self, if_false]
      rw [prod_from_snoc, Nat.zero_add, Nat.mod_mul_mod, h2]
  exact key a.nb_dims (Nat.le_refl _)

/-- The addition kernel on contiguous tensors of one 8- or 16-bit fixed-point kind: success,
and every stored element is the narrowed sum of the two shifted operands. -/
theorem add_formula (w : Nat) (T : CIntType) (a b out : GIGA_tensor_t) (m : Mem)
    (hw : 32 ≤ w) (hT : fixed_CType out.type = some T)
    (hka : a.type = out.type) (hkb : b.type = out.type)
    (hca : Contiguous a) (hcb : Contiguous b) (hco : Contiguous out)
    (hra : a.nb_dims = out.nb_dims) (hrb : b.nb_dims = out.nb_dims)
    (hda : ∀ i, i < out.nb_dims → a.dims i = out.dims i)
    (hdb : ∀ i, i < out.nb_dims → b.dims i = out.dims i)
    (hsa : Separate out a) (hsb : Separate out b) :
    ∃ m2, giga_add_ w a b out m = some (GIGA_Success, m2) ∧
      ∀ idx : Nat → Nat, (∀ i, i < out.nb_dims → idx i < out.dims i) →
        load_int T m2 (elem_addr out idx) =
          T.wrap (CIntType.wrap ⟨w, true⟩
            (shift ⟨w, true⟩ (load_int T m (elem_addr a idx))
                ((out.fp_shift : Int) - (a.fp_shift : Int))
              + shift ⟨w, true⟩ (load_int T m (elem_addr b idx))
                ((out.fp_shift : Int) - (b.fp_shift : Int)))) := by
  obtain ⟨hea, _, _, hrma, _, _⟩ := hca
  obtain ⟨heb, _, _, hrmb, _, _⟩ := hcb
  obtain ⟨heo, _, _, hrmo, hsize, _⟩ := hco
  obtain ⟨hT4, hsz, hszpos⟩ := fixed_CType_cases out.type T hT
  have hpa : prod_from a.dims a.nb_dims 0 = prod_from out.dims out.nb_dims 0 := by
    rw [hra]; exact prod_from_congr _ _ out.nb_dims _ _ (by omega) hda
  have hpb : prod_from b.dims b.nb_dims 0 = prod_from out.dims out.nb_dims 0 := by
    rw [hrb]; exact prod_from_congr _ _ out.nb_dims _ _ (by omega) hdb
  have hn31 : prod_from out.dims out.nb_dims 0 < 2 ^ 31 := by
    rw [← hsz] at hsize
    calc prod_from out.dims out.nb_dims 0
        ≤ T.bits / 8 * prod_from out.dims out.nb_dims 0 := Nat.le_mul_of_pos_left _ hszpos
      _ < 2 ^ 31 := hsize
  have hdims : add_dims_loop a b out = some (prod_from out.dims out.nb_dims 0) := by
    rw [add_dims_loop_ok a b out (fun i hi => by
      rw [hra] at hi
      exact ⟨(hda i hi).trans (hdb i hi).symm, hda i hi⟩), hra,
      Nat.mod_eq_of_lt (by omega)]
  have hend : (wrapS 32 ((prod_from out.dims out.nb_dims 0 : Nat) : Int)).toNat
      = prod_from out.dims out.nb_dims 0 := by
    rw [wrapS_of_range 32 _ (by decide) (by norm_num; omega) (by norm_num; omega)]
    simp
  have heq : giga_add_ w a b out m = some (GIGA_Success,
      add_loop w T T T ((out.fp_shift : Int) - (a.fp_shift : Int))
        ((out.fp_shift : Int) - (b.fp_shift : Int)) (get_ptr a) (get_ptr b) (get_ptr out)
        (prod_from out.dims out.nb_dims 0) m) := by
    unfold giga_add_ _add_impl
    simp [hea, heb, heo, hka, hkb, hT, hra, hrb, hdims, hend]
  refine ⟨_, heq, fun idx hidx => ?_⟩
  have hk := ravel_lt out.dims idx out.nb_dims hidx
  have hao := elem_addr_row_major out _ hrmo idx
  have haa := elem_addr_row_major a _ hrma idx
  have hab := elem_addr_row_major b _ hrmb idx
  rw [hka, hra, unit_strides_congr a.dims out.dims idx out.nb_dims hda] at haa
  rw [hkb, hrb, unit_strides_congr b.dims out.dims idx out.nb_dims hdb] at hab
  rw [← hsz] at hao haa hab
  generalize elem_offset (unit_strides out.dims out.nb_dims) idx out.nb_dims = k at hk hao haa hab
  rw [hao, haa, hab]
  have hreg : ∀ (t : GIGA_tensor_t), t.type = out.type →
      prod_from t.dims t.nb_dims 0 = prod_from out.dims out.nb_dims 0 →
      ∀ k2, k2 < prod_from out.dims out.nb_dims 0 → ∀ j, j < T.bits / 8 →
        region t (get_ptr t + k2 * (T.bits / 8) + j) := by
    intro t ht hp k2 hk2 j hj
    unfold region
    rw [ht, hp, ← hsz]
    have := Nat.mul_le_mul_right (T.bits / 8) (Nat.succ_le_of_lt hk2)
    rw [Nat.succ_mul, Nat.mul_comm (prod_from out.dims out.nb_dims 0)] at this
    omega
  have hbytes := store_loop_flat (fun x => region a x ∨ region b x) m
    (prod_from out.dims out.nb_dims 0) (T.bits / 8) (get_ptr out) hszpos
    (fun k2 => ((CIntType.wrap ⟨w, true⟩
          (shift ⟨w, true⟩
              (CIntType.wrap ⟨w, true⟩ (load_int T m (get_ptr a + k2 * (T.bits / 8))))
              ((out.fp_shift : Int) - (a.fp_shift : Int))
            + shift ⟨w, true⟩
              (CIntType.wrap ⟨w, true⟩ (load_int T m (get_ptr b + k2 * (T.bits / 8))))
              ((out.fp_shift : Int) - (b.fp_shift : Int)))) % 2 ^ T.bits).toNat)
    (fun elt_i mem =>
      store_int T mem (get_ptr out + elt_i * (T.bits / 8))
        (CIntType.wrap ⟨w, true⟩
          (shift ⟨w, true⟩
              (CIntType.wrap ⟨w, true⟩ (load_int T mem (get_ptr a + elt_i * (T.bits / 8))))
              ((out.fp_shift : Int) - (a.fp_shift : Int))
            + shift ⟨w, true⟩
              (CIntType.wrap ⟨w, true⟩ (load_int T mem (get_ptr b + elt_i * (T.bits / 8))))
              ((out.fp_shift : Int) - (b.fp_shift : Int)))))
    (fun k2 hk2 mem hmem => by
      have h1 : load_int T mem (get_ptr a + k2 * (T.bits / 8))
          = load_int T m (get_ptr a + k2 * (T.bits / 8)) :=
        load_int_congr T mem m _ (fun j hj => hmem _ (Or.inl (hreg a hka hpa k2 hk2 j hj)))
      have h2 : load_int T mem (get_ptr b + k2 * (T.bits / 8))
          = load_int T m (get_ptr b + k2 * (T.bits / 8)) :=
        load_int_congr T mem m _ (fun j hj => hmem _ (Or.inr (hreg b hkb hpb k2 hk2 j hj)))
      simp only [store_int, h1, h2])
    (fun x hx1 hx2 hx => by
      have hro : region out x := by
        unfold region
        rw [← hsz, Nat.mul_comm]
        exact ⟨hx1, hx2⟩
      rcases hx with h | h
      · exact hsa x hro h
      · exact hsb x hro h)
    k hk
  have hload := load_int_of_bytes T hT4
    (add_loop w T T T ((out.fp_shift : Int) - (a.fp_shift : Int))
      ((out.fp_shift : Int) - (b.fp_shift : Int)) (get_ptr a) (get_ptr b) (get_ptr out)
      (prod_from out.dims out.nb_dims 0) m)
    (get_ptr out + k * (T.bits / 8)) _ hbytes
  rw [Nat.mul_comm (T.bits / 8) k, hload, wrap_load_int w hw T hT4, wrap_load_int w hw T hT4]

theorem div_mod_step (q x W : Nat) (hx : x < W) : (q * W + x) / W = q ∧ (q * W + x) % W = x := by
  have hW : 0 < W := by omega
  rw [Nat.mul_comm, Nat.mul_add_div hW, Nat.div_eq_of_lt hx, Nat.add_zero, Nat.mul_add_mod,
    Nat.mod_eq_of_lt hx]
  exact ⟨rfl, rfl⟩

theorem ravel4_decode (n c y x C H W : Nat) (hc : c < C) (hy : y < H) (hx : x < W) :
    (((n * C + c) * H + y) * W + x) / W / H / C = n ∧
    (((n * C + c) * H + y) * W + x) / W / H % C = c ∧
    (((n * C + c) * H + y) * W + x) / W % H = y ∧
    (((n * C + c) * H + y) * W + x) % W = x := by
  obtain ⟨h1, h2⟩ := div_mod_step ((n * C + c) * H + y) x W hx
  obtain ⟨h3, h4⟩ := div_mod_step (n * C + c) y H hy
  obtain ⟨h5, h6⟩ := div_mod_step n c C hc
  rw [h1, h2, h3, h4, h5, h6]
  exact ⟨rfl, rfl, rfl, rfl⟩

theorem ravel4_lt (n c y x N C H W : Nat) (hn : n < N) (hc : c < C) (hy : y < H) (hx : x < W) :
    ((n * C + c) * H + y) * W + x < N * C * H * W :=
  mul_add_lt _ x _ W (mul_add_lt _ y _ H (mul_add_lt n c N C hn hc) hy) hx

theorem store_loop_nest4 (R : Nat → Prop) (m0 : Mem) (N C H W sz base : Nat) (hsz : 0 < sz)
    (V : Nat → Nat → Nat → Nat → Nat) (body2 : Nat → Nat → Mem → Mem)
    (body : Nat → Nat → Nat → Nat → Mem → Mem)
    (h2 : ∀ n, n < N → ∀ c, c < C → ∀ m, Agree R m m0 →
      body2 n c m = forLoop H (fun y => forLoop W (fun x => body n c y x)) m)
    (hbody : ∀ n, n < N → ∀ c, c < C → ∀ y, y < H → ∀ x, x < W → ∀ m, Agree R m m0 →
      body n c y x m
        = store_bytes m (base + (((n * C + c) * H + y) * W + x) * sz) sz (V n c y x))
    (hR : ∀ a, base ≤ a → a < base + N * C * H * W * sz → ¬ R a) :
    ∀ n, n < N → ∀ c, c < C → ∀ y, y < H → ∀ x, x < W → ∀ j, j < sz →
      forLoop N (fun n => forLoop C (fun c => body2 n c)) m0
          (base + (((n * C + c) * H + y) * W + x) * sz + j)
        = (V n c y x / 256 ^ j) % 256 := by
  obtain ⟨v, hv⟩ : ∃ v : Nat → Nat, ∀ n c y x, c < C → y < H → x < W → ∀ j, j < sz →
      v (base + (((n * C + c) * H + y) * W + x) * sz + j) = (V n c y x / 256 ^ j) % 256 := by
    refine ⟨fun a => (V ((a - base) / sz / W / H / C) ((a - base) / sz / W / H % C)
      ((a - base) / sz / W % H) ((a - base) / sz % W) / 256 ^ ((a - base) % sz)) % 256, ?_⟩
    intro n c y x hc hy hx j hj
    obtain ⟨h1, h2⟩ := flat_decode base (((n * C + c) * H + y) * W + x) sz j hsz hj
    obtain ⟨d1, d2, d3, d4⟩ := ravel4_decode n c y x C H W hc hy hx
    simp only [h1, h2, d1, d2, d3, d4]
  have hin : ∀ n, n < N → ∀ c, c < C → ∀ y, y < H → ∀ x, x < W → ∀ a,
      (base + (((n * C + c) * H + y) * W + x) * sz ≤ a ∧
        a < base + (((n * C + c) * H + y) * W + x) * sz + sz) → ¬ R a := by
    intro n hn c hc y hy x hx a hd
    obtain ⟨h1, h2⟩ := hd
    have hk := ravel4_lt n c y x N C H W hn hc hy hx
    have := Nat.mul_le_mul_right sz (Nat.succ_le_of_lt hk)
    rw [Nat.succ_mul] at this
    exact hR a (by omega) (by omega)
  have hWx : ∀ n, n < N → ∀ c, c < C → ∀ y, y < H →
      Writes R m0 (forLoop W (fun x => body n c y x))
        (fun a => ∃ x, x < W ∧ (base + (((n * C + c) * H + y) * W + x) * sz ≤ a ∧
          a < base + (((n * C + c) * H + y) * W + x) * sz + sz)) v :=
    fun n hn c hc y hy =>
      writes_forLoop R m0 W _ _ v
        (fun x hx => writes_store R m0 _ _ sz (V n c y x) v (hbody n hn c hc y hy x hx)
          (fun j hj => hv n c y x hc hy hx j hj))
        (fun x hx a hd => hin n hn c hc y hy x hx a hd)
  have hWy : ∀ n, n < N → ∀ c, c < C →
      Writes R m0 (forLoop H (fun y => forLoop W (fun x => body n c y x)))
        (fun a => ∃ y, y < H ∧ ∃ x, x < W ∧
          (base + (((n * C + c) * H + y) * W + x) * sz ≤ a ∧
            a < base + (((n * C + c) * H + y) * W + x) * sz + sz)) v :=
    fun n hn c hc =>
      writes_forLoop R m0 H _ _ v (fun y hy => hWx n hn c hc y hy)
        (fun y hy a ⟨x, hx, hd⟩ => hin n hn c hc y hy x hx a hd)
  have hWc : ∀ n, n < N →
      Writes R m0 (forLoop C (fun c => body2 n c))
        (fun a => ∃ c, c < C ∧ ∃ y, y < H ∧ ∃ x, x < W ∧
          (base + (((n * C + c) * H + y) * W + x) * sz ≤ a ∧
            a < base + (((n * C + c) * H + y) * W + x) * sz + sz)) v :=
    fun n hn =>
      writes_forLoop R m0 C _ _ v
        (fun c hc => writes_of_eq R m0 _ _ _ v (h2 n hn c hc) (hWy n hn c hc))
        (fun c hc a ⟨y, hy, x, hx, hd⟩ => hin n hn c hc y hy x hx a hd)
  have hWn := writes_forLoop R m0 N (fun n => forLoop C (fun c => body2 n c)) _ v
    (fun n hn => hWc n hn)
    (fun n hn a ⟨c, hc, y, hy, x, hx, hd⟩ => hin n hn c hc y hy x hx a hd)
  intro n hn c hc y hy x hx j hj
  rw [(hWn m0 (fun a _ => rfl) _).1 ⟨n, hn, c, hc, y, hy, x, hx, by omega, by omega⟩]
  exact hv n c y x hc hy hx j hj

/-! ## Geometry of a row-major tensor of rank 2 to 4 -/

theorem geom4 (t : GIGA_tensor_t) (es : Nat) (hes : 0 < es) (hr2 : 2 ≤ t.nb_dims)
    (hr4 : t.nb_dims ≤ 4) (hrm : RowMajor es t) :
    prod_from t.dims t.nb_dims 0 = dimN t * dimC t * dimH t * dimW t ∧
    (∀ n, n < dimN t → ∀ c, c < dimC t → ∀ y x,
      n * ((if t.nb_dims = 4 then t.strides 0 else 0) / es)
        + c * ((if t.nb_dims = 2 then 1 else t.strides (t.nb_dims - 3)) / es)
        + y * (t.strides (t.nb_dims - 2) / es) + x * (t.strides (t.nb_dims - 2 + 1) / es)
      = ((n * dimC t + c) * dimH t + y) * dimW t + x) ∧
    (∀ idx : Nat → Nat, elem_offset t.strides idx t.nb_dims
      = es * (((idxN t idx * dimC t + idxC t idx) * dimH t + idx (t.nb_dims - 2)) * dimW t
          + idx (t.nb_dims - 1))) ∧
    (∀ idx : Nat → Nat, (∀ i, i < t.nb_dims → idx i < t.dims i) →
      idxN t idx < dimN t ∧ idxC t idx < dimC t) := by
  have hcases : t.nb_dims = 2 ∨ t.nb_dims = 3 ∨ t.nb_dims = 4 := by omega
  unfold RowMajor at hrm
  rcases hcases with h | h | h
  · have s0 := hrm 0 (by omega)
    have s1 := hrm 1 (by omega)
    simp only [h, prod_from, Nat.mul_one] at s0 s1
    simp only [dimN, dimC, dimH, dimW, idxN, idxC, h, prod_from, elem_offset]
    norm_num
    refine ⟨?_, ?_⟩
    · intro y x
      rw [s0, s1, Nat.mul_div_cancel_left _ hes, Nat.div_self hes]
      ring
    · intro idx
      rw [s0, s1]
      ring
  · have s0 := hrm 0 (by omega)
    have s1 := hrm 1 (by omega)
    have s2 := hrm 2 (by omega)
    simp only [h, prod_from, Nat.mul_one] at s0 s1 s2
    simp only [dimN, dimC, dimH, dimW, idxN, idxC, h, prod_from, elem_offset]
    norm_num
    refine ⟨by ring, ?_, ?_, ?_⟩
    · intro c _ y x
      rw [s0, s1, s2, Nat.mul_div_cancel_left _ hes, Nat.mul_div_cancel_left _ hes,
        Nat.div_self hes]
      ring
    · intro idx
      rw [s0, s1, s2]
      ring
    · intro idx hidx
      exact hidx 0 (by omega)
  · have s0 := hrm 0 (by omega)
    have s1 := hrm 1 (by omega)
    have s2 := hrm 2 (by omega)
    have s3 := hrm 3 (by omega)
    simp only [h, prod_from, Nat.mul_one] at s0 s1 s2 s3
    simp only [dimN, dimC, dimH, dimW, idxN, idxC, h, prod_from, elem_offset]
    norm_num
    refine ⟨by ring, ?_, ?_, ?_⟩
    · intro n _ c _ y x
      rw [s0, s1, s2, s3, Nat.mul_div_cancel_left _ hes, Nat.mul_div_cancel_left _ hes,
        Nat.mul_div_cancel_left _ hes, Nat.div_self hes]
      ring
    · intro idx
      rw [s0, s1, s2, s3]
      ring
    · intro idx hidx
      exact ⟨hidx 0 (by omega), hidx 1 (by omega)⟩

/-! ## Upsampling -/

theorem upsample_loops_spec (sz pi po N C Hi Wi : Nat)
    (oB oC oH oW iB iC iH iW : Nat) (m : Mem) (hsz : 0 < sz)
    (hoff_o : ∀ n, n < N → ∀ c, c < C → ∀ y x,
      n * oB + c * oC + y * oH + x * oW = ((n * C + c) * (2 * Hi) + y) * (2 * Wi) + x)
    (hoff_i : ∀ n, n < N → ∀ c, c < C → ∀ y x,
      n * iB + c * iC + y * iH + x * iW = ((n * C + c) * Hi + y) * Wi + x)
    (hsize : N * C * (2 * Hi) * (2 * Wi) < 2 ^ 32)
    (hsep : ∀ a, po ≤ a → a < po + N * C * (2 * Hi) * (2 * Wi) * sz →
      ¬ (pi ≤ a ∧ a < pi + N * C * Hi * Wi * sz)) :
    ∀ n, n < N → ∀ c, c < C → ∀ y, y < 2 * Hi → ∀ x, x < 2 * Wi →
      load_bytes
          (upsample_loops sz pi po N C (2 * Hi) (2 * Wi) oB oC oH oW iB iC iH iW m)
          (po + (((n * C + c) * (2 * Hi) + y) * (2 * Wi) + x) * sz) sz
        = load_bytes m (pi + (((n * C + c) * Hi + y / 2) * Wi + x / 2) * sz) sz := by
  intro n hn c hc y hy x hx
  have hbytes := store_loop_nest4 (fun a => pi ≤ a ∧ a < pi + N * C * Hi * Wi * sz) m
    N C (2 * Hi) (2 * Wi) sz po hsz
    (fun n c y x => load_bytes m (pi + (((n * C + c) * Hi + y / 2) * Wi + x / 2) * sz) sz)
    (fun batch channel =>
      forLoop (2 * Hi) (fun out_y =>
        forLoop (2 * Wi) (fun out_x mem =>
          store_bytes mem
            (po + ((batch * oB + channel * oC + out_y * oH + out_x * oW) % 2 ^ 32) * sz) sz
            (load_bytes mem
              (pi + ((batch * iB + channel * iC + (out_y / 2) * iH + (out_x / 2) * iW)
                % 2 ^ 32) * sz) sz))))
    (fun batch channel out_y out_x mem =>
      store_bytes mem
        (po + ((batch * oB + channel * oC + out_y * oH + out_x * oW) % 2 ^ 32) * sz) sz
        (load_bytes mem
          (pi + ((batch * iB + channel * iC + (out_y / 2) * iH + (out_x / 2) * iW)
            % 2 ^ 32) * sz) sz))
    (fun _ _ _ _ _ _ => rfl)
    (fun n hn c hc y hy x hx mem hmem => by
      have hko := ravel4_lt n c y x N C (2 * Hi) (2 * Wi) hn hc hy hx
      have hy2 : y / 2 < Hi := by omega
      have hx2 : x / 2 < Wi := by omega
      have hki := ravel4_lt n c (y / 2) (x / 2) N C Hi Wi hn hc hy2 hx2
      have hle : N * C * Hi * Wi ≤ N * C * (2 * Hi) * (2 * Wi) := by
        have : N * C * (2 * Hi) * (2 * Wi) = N * C * Hi * Wi + 3 * (N * C * Hi * Wi) := by ring
        omega
      simp only []
      rw [hoff_o n hn c hc, hoff_i n hn c hc, Nat.mod_eq_of_lt (by omega),
        Nat.mod_eq_of_lt (by omega)]
      have := Nat.mul_le_mul_right sz (Nat.succ_le_of_lt hki)
      rw [Nat.succ_mul] at this
      rw [load_bytes_congr mem m sz _ (fun j hj => hmem _ ⟨by omega, by omega⟩)])
    hsep n hn c hc y hy x hx
  have h := load_bytes_of_bytes
    (upsample_loops sz pi po N C (2 * Hi) (2 * Wi) oB oC oH oW iB iC iH iW m) sz
    (po + (((n * C + c) * (2 * Hi) + y) * (2 * Wi) + x) * sz)
    (load_bytes m (pi + (((n * C + c) * Hi + y / 2) * Wi + x / 2) * sz) sz) hbytes
  rw [h, Nat.mod_eq_of_lt (load_bytes_lt m sz _)]

theorem giga_upsample_eq (params : GIGA_upsample_t) (inT out : GIGA_tensor_t) (m : Mem)
    (hf : params.factor = 2) (hei : check_tensor_exists inT = true)
    (heo : check_tensor_exists out = true)
    (hr : out.nb_dims = inT.nb_dims) (hr2 : 2 ≤ inT.nb_dims)
    (hlead : ∀ i, i + 2 < inT.nb_dims → out.dims i = inT.dims i)
    (hH : out.dims (inT.nb_dims - 2) = 2 * inT.dims (inT.nb_dims - 2))
    (hW : out.dims (inT.nb_dims - 1) = 2 * inT.dims (inT.nb_dims - 1))
    (hHb : out.dims (inT.nb_dims - 2) < 2 ^ 32) (hWb : out.dims (inT.nb_dims - 1) < 2 ^ 32) :
    giga_upsample_ params inT out m =
      (GIGA_Success,
        upsample_loops (sizeof_CType inT.type) (get_ptr inT) (get_ptr out) (dimN inT) (dimC inT)
          (2 * dimH inT) (2 * dimW inT)
          ((if out.nb_dims = 4 then out.strides 0 else 0) / sizeof_CType inT.type)
          ((if out.nb_dims = 2 then 1 else out.strides (out.nb_dims - 3)) / sizeof_CType inT.type)
          (out.strides (out.nb_dims - 2) / sizeof_CType inT.type)
          (out.strides (out.nb_dims - 2 + 1) / sizeof_CType inT.type)
          ((if inT.nb_dims = 4 then inT.strides 0 else 0) / sizeof_CType inT.type)
          ((if inT.nb_dims = 2 then 1 else inT.strides (inT.nb_dims - 3)) / sizeof_CType inT.type)
          (inT.strides (inT.nb_dims - 2) / sizeof_CType inT.type)
          (inT.strides (inT.nb_dims - 2 + 1) / sizeof_CType inT.type) m) := by
  have e1 : inT.nb_dims - 2 + 1 = inT.nb_dims - 1 := by omega
  have c1 : ¬ (inT.nb_dims = 4 ∧ inT.dims 0 ≠ out.dims 0) :=
    fun ⟨h, hne⟩ => hne (hlead 0 (by omega)).symm
  have c2 : ¬ (inT.nb_dims = 4 ∧ inT.dims 1 ≠ out.dims 1) :=
    fun ⟨h, hne⟩ => hne (hlead 1 (by omega)).symm
  have c3 : ¬ (inT.nb_dims = 3 ∧ inT.dims 0 ≠ out.dims 0) :=
    fun ⟨h, hne⟩ => hne (hlead 0 (by omega)).symm
  have c4 : ¬ (out.dims (inT.nb_dims - 2) ≠ (inT.dims (inT.nb_dims - 2) * 2) % 2 ^ 32) := by
    rw [Nat.mod_eq_of_lt (by omega)]
    omega
  have c5 : ¬ (out.dims (inT.nb_dims - 2 + 1) ≠ (inT.dims (inT.nb_dims - 2 + 1) * 2) % 2 ^ 32) := by
    rw [e1, Nat.mod_eq_of_lt (by omega)]
    omega
  have c6 : ¬ (inT.nb_dims < 2) := by omega
  have hC : (if out.nb_dims = 2 then 1 else out.dims (out.nb_dims - 3)) = dimC inT := by
    unfold dimC
    rw [hr]
    by_cases h2 : inT.nb_dims = 2
    · simp [h2]
    · simp only [h2, if_false]
      exact hlead _ (by omega)
  unfold giga_upsample_ _giga_upsample_impl
  simp only [hei, heo, Bool.not_true, Bool.or_self, Bool.false_eq_true, if_false, hf, ne_eq,
    not_true_eq_false, hr, if_neg c1, if_neg c2, if_neg c3, if_neg c4, if_neg c5, if_neg c6]
  rw [hr] at hC
  rw [hC, hH, e1, hW]
  rfl

theorem upsample_main (params : GIGA_upsample_t) (inT out : GIGA_tensor_t) (m : Mem)
    (hes : sizeof_CType inT.type = element_size_in_bits inT.type / 8)
    (hf : params.factor = 2) (hty : inT.type = out.type)
    (hci : Contiguous inT) (hco : Contiguous out)
    (hr : out.nb_dims = inT.nb_dims) (hr2 : 2 ≤ inT.nb_dims)
    (hlead : ∀ i, i + 2 < inT.nb_dims → out.dims i = inT.dims i)
    (hH : out.dims (inT.nb_dims - 2) = 2 * inT.dims (inT.nb_dims - 2))
    (hW : out.dims (inT.nb_dims - 1) = 2 * inT.dims (inT.nb_dims - 1))
    (hsep : Separate out inT) :
    (giga_upsample_ params inT out m).1 = GIGA_Success ∧
    ∀ idx : Nat → Nat, (∀ i, i < inT.nb_dims → idx i < out.dims i) →
      load_bytes (giga_upsample_ params inT out m).2 (elem_addr out idx)
          (sizeof_CType inT.type)
        = load_bytes m
          (elem_addr inT (fun i => if i + 2 < inT.nb_dims then idx i else idx i / 2))
          (sizeof_CType inT.type) := by
  obtain ⟨hei, _, hi4, hrmi, _, _⟩ := hci
  obtain ⟨heo, _, _, hrmo, hsize, hdo⟩ := hco
  have hpos : 0 < sizeof_CType inT.type := by cases inT.type <;> decide
  rw [← hty, ← hes] at hrmo hsize
  rw [← hes] at hrmi
  have heq := giga_upsample_eq params inT out m hf hei heo hr hr2 hlead hH hW
    (hr ▸ hdo (inT.nb_dims - 2) (by omega)) (hr ▸ hdo (inT.nb_dims - 1) (by omega))
  obtain ⟨gi1, gi2, gi3, gi4⟩ := geom4 inT _ hpos hr2 hi4 hrmi
  obtain ⟨go1, go2, go3, go4⟩ := geom4 out _ hpos (hr ▸ hr2) (hr ▸ hi4) hrmo
  have hN : dimN out = dimN inT := by
    unfold dimN
    rw [hr]
    by_cases h4 : inT.nb_dims = 4
    · simp only [h4, if_true]; exact hlead 0 (by omega)
    · simp only [h4, if_false]
  have hC : dimC out = dimC inT := by
    unfold dimC
    rw [hr]
    by_cases h2 : inT.nb_dims = 2
    · simp only [h2, if_true]
    · simp only [h2, if_false]; exact hlead _ (by omega)
  have hHo : dimH out = 2 * dimH inT := by unfold dimH; rw [hr]; exact hH
  have hWo : dimW out = 2 * dimW inT := by unfold dimW; rw [hr]; exact hW
  simp only [hN, hC, hHo, hWo] at go1 go2 go3 go4
  rw [heq]
  refine ⟨rfl, fun idx hidx => ?_⟩
  obtain ⟨hn, hc⟩ := go4 idx (fun i hi => hidx i (hr ▸ hi))
  have hy : idx (inT.nb_dims - 2) < 2 * dimH inT := by
    have := hidx (inT.nb_dims - 2) (by omega)
    rwa [hH] at this
  have hx : idx (inT.nb_dims - 1) < 2 * dimW inT := by
    have := hidx (inT.nb_dims - 1) (by omega)
    rwa [hW] at this
  have hno : idxN inT (fun i => if i + 2 < inT.nb_dims then idx i else idx i / 2)
      = idxN out idx := by
    unfold idxN
    rw [hr]
    by_cases h4 : inT.nb_dims = 4
    · simp [h4]
    · simp only [h4, if_false]
  have hco2 : idxC inT (fun i => if i + 2 < inT.nb_dims then idx i else idx i / 2)
      = idxC out idx := by
    unfold idxC
    rw [hr]
    by_cases h2 : inT.nb_dims = 2
    · simp only [h2, if_true]
    · simp only [h2, if_false]
      rw [if_pos (by omega)]
  have hao : elem_addr out idx = get_ptr out
      + (((idxN out idx * dimC inT + idxC out idx) * (2 * dimH inT) + idx (inT.nb_dims - 2))
          * (2 * dimW inT) + idx (inT.nb_dims - 1)) * sizeof_CType inT.type := by
    unfold elem_addr
    rw [go3 idx, hr, Nat.mul_comm]
  have hai : elem_addr inT (fun i => if i + 2 < inT.nb_dims then idx i else idx i / 2)
      = get_ptr inT
        + (((idxN out idx * dimC inT + idxC out idx) * dimH inT + idx (inT.nb_dims - 2) / 2)
          * dimW inT + idx (inT.nb_dims - 1) / 2) * sizeof_CType inT.type := by
    unfold elem_addr
    rw [gi3, hno, hco2, Nat.mul_comm]
    rw [if_neg (by omega), if_neg (by omega)]
  rw [hao, hai]
  have hsz1 : dimN inT * dimC inT * (2 * dimH inT) * (2 * dimW inT) < 2 ^ 32 := by
    rw [← go1]
    calc prod_from out.dims out.nb_dims 0
        ≤ sizeof_CType inT.type * prod_from out.dims out.nb_dims 0 :=
          Nat.le_mul_of_pos_left _ hpos
      _ < 2 ^ 32 := by omega
  exact upsample_loops_spec (sizeof_CType inT.type) (get_ptr inT) (get_ptr out) (dimN inT)
    (dimC inT) (dimH inT) (dimW inT) _ _ _ _ _ _ _ _ m hpos go2 gi2 hsz1
    (fun a h1 h2 h3 => hsep a
      (by
        unfold region
        rw [← hty, ← hes, go1, Nat.mul_comm]
        exact ⟨h1, h2⟩)
      (by
        unfold region
        rw [← hes, gi1, Nat.mul_comm]
        exact h3))
    (idxN out idx) hn (idxC out idx) hc (idx (inT.nb_dims - 2)) hy (idx (inT.nb_dims - 1)) hx

theorem forLoop_establish {σ : Type} (P Q : σ → Prop) (n : Nat) (G : Nat → σ → σ)
    (hG : ∀ i, i < n → ∀ s, P s → P (G i s) ∧ Q (G i s)) :
    ∀ s, P s → P (forLoop n G s) ∧ (0 < n → Q (forLoop n G s)) := by
  induction n with
  | zero => exact fun s hs => ⟨hs, fun h => absurd h (Nat.lt_irrefl 0)⟩
  | succ n ih =>
    intro s hs
    rw [forLoop_succ]
    have h1 := (ih (fun i hi => hG i (Nat.lt_succ_of_lt hi)) s hs).1
    have h2 := hG n (Nat.lt_succ_self n) _ h1
    exact ⟨h2.1, fun _ => h2.2⟩

theorem establish_nest4 (P Q : Mem → Prop) (N C H W : Nat)
    (body : Nat → Nat → Nat → Nat → Mem → Mem)
    (hb : ∀ n, n < N → ∀ c, c < C → ∀ y, y < H → ∀ x, x < W → ∀ s, P s →
      P (body n c y x s) ∧ Q (body n c y x s))
    (hN : 0 < N) (hC : 0 < C) (hH : 0 < H) (hW : 0 < W) :
    ∀ s, P s →
      Q (forLoop N (fun n => forLoop C (fun c => forLoop H (fun y =>
        forLoop W (fun x => body n c y x)))) s) := by
  have hx : ∀ n, n < N → ∀ c, c < C → ∀ y, y < H → ∀ s, P s →
      P (forLoop W (fun x => body n c y x) s) ∧ Q (forLoop W (fun x => body n c y x) s) :=
    fun n hn c hc y hy s hs =>
      have h := forLoop_establish P Q W (fun x => body n c y x)
        (fun x hx s hs => hb n hn c hc y hy x hx s hs) s hs
      ⟨h.1, h.2 hW⟩
  have hy : ∀ n, n < N → ∀ c, c < C → ∀ s, P s →
      P (forLoop H (fun y => forLoop W (fun x => body n c y x)) s) ∧
        Q (forLoop H (fun y => forLoop W (fun x => body n c y x)) s) :=
    fun n hn c hc s hs =>
      have h := forLoop_establish P Q H (fun y => forLoop W (fun x => body n c y x))
        (fun y hy s hs => hx n hn c hc y hy s hs) s hs
      ⟨h.1, h.2 hH⟩
  have hc : ∀ n, n < N → ∀ s, P s →
      P (forLoop C (fun c => forLoop H (fun y => forLoop W (fun x => body n c y x))) s) ∧
        Q (forLoop C (fun c => forLoop H (fun y => forLoop W (fun x => body n c y x))) s) :=
    fun n hn s hs =>
      have h := forLoop_establish P Q C
        (fun c => forLoop H (fun y => forLoop W (fun x => body n c y x)))
        (fun c hc s hs => hy n hn c hc s hs) s hs
      ⟨h.1, h.2 hC⟩
  intro s hs
  exact (forLoop_establish P Q N
    (fun n => forLoop C (fun c => forLoop H (fun y => forLoop W (fun x => body n c y x))))
    (fun n hn s hs => hc n hn s hs) s hs).2 hN

theorem upsample_4bit (params : GIGA_upsample_t) (inT out : GIGA_tensor_t) (m : Mem)
    (hes : element_size_in_bits inT.type / 8 = 0) (hs1 : sizeof_CType inT.type = 1)
    (hf : params.factor = 2) (hty : inT.type = out.type)
    (hci : Contiguous inT) (hco : Contiguous out)
    (hr : out.nb_dims = inT.nb_dims) (hr2 : 2 ≤ inT.nb_dims)
    (hlead : ∀ i, i + 2 < inT.nb_dims → out.dims i = inT.dims i)
    (hH : out.dims (inT.nb_dims - 2) = 2 * inT.dims (inT.nb_dims - 2))
    (hW : out.dims (inT.nb_dims - 1) = 2 * inT.dims (inT.nb_dims - 1)) :
    (giga_upsample_ params inT out m).1 = GIGA_Success ∧
    ∀ idx : Nat → Nat, (∀ i, i < inT.nb_dims → idx i < out.dims i) →
      load_bytes (giga_upsample_ params inT out m).2 (elem_addr out idx)
          (sizeof_CType inT.type)
        = load_bytes m
          (elem_addr inT (fun i => if i + 2 < inT.nb_dims then idx i else idx i / 2))
          (sizeof_CType inT.type) := by
  obtain ⟨hei, _, hi4, hrmi, _, _⟩ := hci
  obtain ⟨heo, _, _, hrmo, _, hdo⟩ := hco
  rw [← hty] at hrmo
  rw [hes] at hrmi hrmo
  have heq := giga_upsample_eq params inT out m hf hei heo hr hr2 hlead hH hW
    (hr ▸ hdo (inT.nb_dims - 2) (by omega)) (hr ▸ hdo (inT.nb_dims - 1) (by omega))
  have hsi : ∀ i, i < inT.nb_dims → inT.strides i = 0 := fun i hi => by
    rw [hrmi i hi, Nat.zero_mul]
  have hso : ∀ i, i < inT.nb_dims → out.strides i = 0 := fun i hi => by
    rw [hrmo i (hr ▸ hi), Nat.zero_mul]
  have hzero : ∀ (t : GIGA_tensor_t) (idx : Nat → Nat), RowMajor 0 t →
      elem_addr t idx = get_ptr t := by
    intro t idx ht
    unfold elem_addr
    rw [elem_offset_scale t.strides (unit_strides t.dims t.nb_dims) idx 0 t.nb_dims
      (fun i hi => ht i hi)]
    omega
  rw [heq]
  refine ⟨rfl, fun idx hidx => ?_⟩
  rw [hzero out idx hrmo, hzero inT _ hrmi, hs1]
  have hNpos : 0 < dimN inT := by
    unfold dimN
    by_cases h4 : inT.nb_dims = 4
    · simp only [h4, if_true]
      have := hidx 0 (by omega)
      rw [hlead 0 (by omega)] at this
      omega
    · simp only [h4, if_false]; exact Nat.one_pos
  have hHpos : 0 < 2 * dimH inT := by
    unfold dimH
    have := hidx (inT.nb_dims - 2) (by omega)
    omega
  have hWpos : 0 < 2 * dimW inT := by
    unfold dimW
    have := hidx (inT.nb_dims - 1) (by omega)
    omega
  have hCpos : 0 < dimC inT := by
    unfold dimC
    by_cases h2 : inT.nb_dims = 2
    · simp only [h2, if_true]; exact Nat.one_pos
    · simp only [h2, if_false]
      have := hidx (inT.nb_dims - 3) (by omega)
      rw [hlead _ (by omega)] at this
      omega
  have hchan : ∀ (st : Nat → Nat), (∀ i, i < inT.nb_dims → st i = 0) → ∀ c, c < dimC inT →
      c * ((if inT.nb_dims = 2 then 1 else st (inT.nb_dims - 3)) / 1) = 0 := by
    intro st hst c hc
    unfold dimC at hc
    by_cases h2 : inT.nb_dims = 2
    · simp only [h2, if_true] at hc ⊢
      omega
    · simp only [h2, if_false]
      rw [hst _ (by omega)]
      simp
  have hbatch : ∀ (st : Nat → Nat), (∀ i, i < inT.nb_dims → st i = 0) →
      (if inT.nb_dims = 4 then st 0 else 0) / 1 = 0 := by
    intro st hst
    by_cases h4 : inT.nb_dims = 4
    · simp only [h4, if_true]; rw [hst 0 (by omega)]
    · simp only [h4, if_false]
  have hbody : ∀ batch channel out_y out_x, channel < dimC inT → ∀ mem : Mem,
      store_bytes mem
          (get_ptr out + ((batch * ((if out.nb_dims = 4 then out.strides 0 else 0) / 1)
            + channel * ((if out.nb_dims = 2 then 1 else out.strides (out.nb_dims - 3)) / 1)
            + out_y * (out.strides (out.nb_dims - 2) / 1)
            + out_x * (out.strides (out.nb_dims - 2 + 1) / 1)) % 2 ^ 32) * 1) 1
          (load_bytes mem
            (get_ptr inT + ((batch * ((if inT.nb_dims = 4 then inT.strides 0 else 0) / 1)
              + channel * ((if inT.nb_dims = 2 then 1 else inT.strides (inT.nb_dims - 3)) / 1)
              + (out_y / 2) * (inT.strides (inT.nb_dims - 2) / 1)
              + (out_x / 2) * (inT.strides (inT.nb_dims - 2 + 1) / 1)) % 2 ^ 32) * 1) 1)
        = store_bytes mem (get_ptr out) 1 (load_bytes mem (get_ptr inT) 1) := by
    intro batch channel out_y out_x hc mem
    rw [hr, hbatch out.strides hso, hbatch inT.strides hsi, hchan out.strides hso channel hc,
      hchan inT.strides hsi channel hc, hso _ (by omega), hso _ (by omega), hsi _ (by omega),
      hsi _ (by omega)]
    simp
  have hstep : ∀ mem : Mem, load_bytes mem (get_ptr inT) 1 = load_bytes m (get_ptr inT) 1 →
      load_bytes (store_bytes mem (get_ptr out) 1 (load_bytes mem (get_ptr inT) 1))
          (get_ptr inT) 1 = load_bytes m (get_ptr inT) 1 ∧
      load_bytes (store_bytes mem (get_ptr out) 1 (load_bytes mem (get_ptr inT) 1))
          (get_ptr out) 1 = load_bytes m (get_ptr inT) 1 := by
    intro mem hmem
    have hlt := load_bytes_lt mem 1 (get_ptr inT)
    have hq : load_bytes (store_bytes mem (get_ptr out) 1 (load_bytes mem (get_ptr inT) 1))
        (get_ptr out) 1 = load_bytes m (get_ptr inT) 1 := by
      rw [load_bytes_of_bytes _ 1 (get_ptr out) (load_bytes mem (get_ptr inT) 1)
        (fun j hj => store_bytes_in mem (get_ptr out) 1 _ j hj), Nat.mod_eq_of_lt hlt, hmem]
    refine ⟨?_, hq⟩
    by_cases hpp : get_ptr inT = get_ptr out
    · rw [hpp] at hq ⊢
      exact hq
    · rw [load_bytes_congr _ mem 1 (get_ptr inT) (fun j hj =>
        store_bytes_out mem (get_ptr out) 1 _ _ (by omega)), hmem]
  unfold upsample_loops
  exact establish_nest4
    (fun mem : Mem => load_bytes mem (get_ptr inT) 1 = load_bytes m (get_ptr inT) 1)
    (fun mem : Mem => load_bytes mem (get_ptr out) 1 = load_bytes m (get_ptr inT) 1)
    (dimN inT) (dimC inT) (2 * dimH inT) (2 * dimW inT)
    (fun batch channel out_y out_x mem =>
      store_bytes mem
          (get_ptr out + ((batch * ((if out.nb_dims = 4 then out.strides 0 else 0) / 1)
            + channel * ((if out.nb_dims = 2 then 1 else out.strides (out.nb_dims - 3)) / 1)
            + out_y * (out.strides (out.nb_dims - 2) / 1)
            + out_x * (out.strides (out.nb_dims - 2 + 1) / 1)) % 2 ^ 32) * 1) 1
          (load_bytes mem
            (get_ptr inT + ((batch * ((if inT.nb_dims = 4 then inT.strides 0 else 0) / 1)
              + channel * ((if inT.nb_dims = 2 then 1 else inT.strides (inT.nb_dims - 3)) / 1)
              + (out_y / 2) * (inT.strides (inT.nb_dims - 2) / 1)
              + (out_x / 2) * (inT.strides (inT.nb_dims - 2 + 1) / 1)) % 2 ^ 32) * 1) 1))
    (fun batch _ channel hc out_y _ out_x _ s hs => by
      simp only []
      rw [hbody batch channel out_y out_x hc s]
      exact hstep s hs)
    hNpos hCpos hHpos hWpos m rfl

/-- C4: for contiguous `in` and `out` of the same kind (any of the eight) and the same rank 2, 3
or 4, `out` having twice the height and width of `in` and the same leading dims, and sharing no
byte with it, `giga_upsample_` with factor 2 returns `GIGA_Success` and every output element has
the bytes of the input element at the same leading coordinates and at `(y / 2, x / 2)`. -/
theorem upsample_copies_nearest (params : GIGA_upsample_t) (inT out : GIGA_tensor_t) (m : Mem)
    (hf : params.factor = 2) (hty : inT.type = out.type)
    (hci : Contiguous inT) (hco : Contiguous out)
    (hr : out.nb_dims = inT.nb_dims) (hr2 : 2 ≤ inT.nb_dims)
    (hlead : ∀ i, i + 2 < inT.nb_dims → out.dims i = inT.dims i)
    (hH : out.dims (inT.nb_dims - 2) = 2 * inT.dims (inT.nb_dims - 2))
    (hW : out.dims (inT.nb_dims - 1) = 2 * inT.dims (inT.nb_dims - 1))
    (hsep : Separate out inT) :
    (giga_upsample_ params inT out m).1 = GIGA_Success ∧
    ∀ idx : Nat → Nat, (∀ i, i < inT.nb_dims → idx i < out.dims i) →
      load_bytes (giga_upsample_ params inT out m).2 (elem_addr out idx)
          (sizeof_CType inT.type)
        = load_bytes m
          (elem_addr inT (fun i => if i + 2 < inT.nb_dims then idx i else idx i / 2))
          (sizeof_CType inT.type) := by
  by_cases h4 : element_size_in_bits inT.type / 8 = 0
  · have hs1 : sizeof_CType inT.type = 1 := by
      revert h4
      cases inT.type <;> decide
    exact upsample_4bit params inT out m h4 hs1 hf hty hci hco hr hr2 hlead hH hW
  · have hes : sizeof_CType inT.type = element_size_in_bits inT.type / 8 := by
      revert h4
      cases inT.type <;> decide
    exact upsample_main params inT out m hes hf hty hci hco hr hr2 hlead hH hW hsep

/-! ## Convolution: the accumulator -/

theorem forLoop_modEq_sum (M : Int) (n : Nat) (g : Nat → Int → Int) (t : Nat → Int)
    (hg : ∀ i, i < n → ∀ acc, g i acc ≡ acc + t i [ZMOD M]) (a0 : Int) :
    forLoop n g a0 ≡ a0 + Finset.sum (Finset.range n) t [ZMOD M] := by
  induction n with
  | zero => simp [forLoop_zero]
  | succ n ih =>
    rw [forLoop_succ, Finset.sum_range_succ, ← add_assoc]
    exact (hg n (Nat.lt_succ_self n) _).trans
      (Int.ModEq.add_right _ (ih (fun i hi => hg i (Nat.lt_succ_of_lt hi))))

theorem u32_coord (o stride : Nat) (pad : Int) (k D : Nat) (hp : 0 ≤ pad ∧ pad < 2 ^ 31)
    (hD : D < 2 ^ 31) (ho : o * stride + k < 2 ^ 32) :
    (u32 (((o * stride : Nat) : Int) - pad + (k : Int)) ≥ D ↔
      ¬ (0 ≤ conv2d_in_coord o stride pad k ∧ conv2d_in_coord o stride pad k < D)) ∧
    (0 ≤ conv2d_in_coord o stride pad k →
      u32 (((o * stride : Nat) : Int) - pad + (k : Int))
        = (conv2d_in_coord o stride pad k).toNat) := by
  unfold u32 conv2d_in_coord
  have h1 : ((o * stride : Nat) : Int) = (o : Int) * (stride : Int) := by push_cast; rfl
  have hq : (0 : Int) ≤ (o : Int) * (stride : Int) ∧
      (o : Int) * (stride : Int) + (k : Int) < 2 ^ 32 := by
    rw [← h1]
    exact ⟨Int.natCast_nonneg _, by exact_mod_cast ho⟩
  rw [h1]
  generalize (o : Int) * (stride : Int) = q at hq ⊢
  obtain ⟨hp1, hp2⟩ := hp
  have hDi : (D : Int) < 2 ^ 31 := by exact_mod_cast hD
  norm_num at hp2 hDi hq ⊢
  by_cases hneg : q - pad + k < 0
  · have e : (q - pad + (k : Int)) % 4294967296 = q - pad + k + 4294967296 := by
      rw [Int.emod_eq_add_self_emod]
      exact Int.emod_eq_of_lt (by omega) (by omega)
    rw [e]
    omega
  · have e : (q - pad + (k : Int)) % 4294967296 = q - pad + k :=
      Int.emod_eq_of_lt (by omega) (by omega)
    rw [e]
    omega

theorem wrap_signed (w : Nat) (x : Int) : CIntType.wrap ⟨w, true⟩ x = wrapS w x := by
  simp [CIntType.wrap]

theorem mac_modEq (w : Nat) (acc K I : Int) :
    wrapS w (acc + wrapS w (wrapS w K * wrapS w I)) ≡ acc + K * I [ZMOD 2 ^ w] :=
  (wrapS_modEq w _).trans
    (Int.ModEq.add_left acc
      ((wrapS_modEq w _).trans (Int.ModEq.mul (wrapS_modEq w K) (wrapS_modEq w I))))

theorem conv2d_acc_modEq (w : Nat) (i_T k_T : CIntType) (R : Nat → Prop) (mem m : Mem)
    (pi pk H W C_in s0 s1 : Nat) (p_y p_x : Int) (iB iC iH iW k0 k1 k2 k3 : Nat)
    (n co y x : Nat) (hmem : Agree R mem m)
    (hRi : ∀ ci, ci < C_in → ∀ iy, iy < H → ∀ ix, ix < W → ∀ j, j < i_T.bits / 8 →
      R (pi + (((n * C_in + ci) * H + iy) * W + ix) * (i_T.bits / 8) + j))
    (hRk : ∀ ci, ci < C_in → ∀ ky, ky < 3 → ∀ kx, kx < 3 → ∀ j, j < k_T.bits / 8 →
      R (pk + (((co * C_in + ci) * 3 + ky) * 3 + kx) * (k_T.bits / 8) + j))
    (hoff_i : ∀ ci, ci < C_in → ∀ iy, iy < H → ∀ ix, ix < W →
      (n * iB + ci * iC + iy * iH + ix * iW) % 2 ^ 32 = ((n * C_in + ci) * H + iy) * W + ix)
    (hoff_k : ∀ ci, ci < C_in → ∀ ky, ky < 3 → ∀ kx, kx < 3 →
      (co * k0 + ci * k1 + ky * k2 + kx * k3) % 2 ^ 32 = ((co * C_in + ci) * 3 + ky) * 3 + kx)
    (hpy : 0 ≤ p_y ∧ p_y < 2 ^ 31) (hpx : 0 ≤ p_x ∧ p_x < 2 ^ 31)
    (hH : H < 2 ^ 31) (hW : W < 2 ^ 31)
    (hy : y * s0 + 2 < 2 ^ 32) (hx : x * s1 + 2 < 2 ^ 32) :
    conv2d_acc w i_T k_T mem pi pk H W C_in s0 s1 p_y p_x iB iC iH iW k0 k1 k2 k3 n co y x
      ≡ Finset.sum (Finset.range C_in) (fun ci =>
          Finset.sum (Finset.range 3) (fun ky =>
            Finset.sum (Finset.range 3) (fun kx =>
              if 0 ≤ conv2d_in_coord y s0 p_y ky ∧ conv2d_in_coord y s0 p_y ky < H ∧
                  0 ≤ conv2d_in_coord x s1 p_x kx ∧ conv2d_in_coord x s1 p_x kx < W then
                load_int k_T m (pk + (((co * C_in + ci) * 3 + ky) * 3 + kx) * (k_T.bits / 8))
                  * load_int i_T m
                    (pi + (((n * C_in + ci) * H + (conv2d_in_coord y s0 p_y ky).toNat) * W
                      + (conv2d_in_coord x s1 p_x kx).toNat) * (i_T.bits / 8))
              else 0))) [ZMOD 2 ^ w] := by
  have hsum : conv2d_acc w i_T k_T mem pi pk H W C_in s0 s1 p_y p_x iB iC iH iW k0 k1 k2 k3
      n co y x
      ≡ 0 + Finset.sum (Finset.range 3) (fun ky =>
          Finset.sum (Finset.range 3) (fun kx =>
            Finset.sum (Finset.range C_in) (fun ci =>
              if 0 ≤ conv2d_in_coord y s0 p_y ky ∧ conv2d_in_coord y s0 p_y ky < H ∧
                  0 ≤ conv2d_in_coord x s1 p_x kx ∧ conv2d_in_coord x s1 p_x kx < W then
                load_int k_T m (pk + (((co * C_in + ci) * 3 + ky) * 3 + kx) * (k_T.bits / 8))
                  * load_int i_T m
                    (pi + (((n * C_in + ci) * H + (conv2d_in_coord y s0 p_y ky).toNat) * W
                      + (conv2d_in_coord x s1 p_x kx).toNat) * (i_T.bits / 8))
              else 0))) [ZMOD 2 ^ w] := by
    unfold conv2d_acc
    apply forLoop_modEq_sum
    intro ky hky acc
    obtain ⟨by1, by2⟩ := u32_coord y s0 p_y ky H hpy hH (by omega)
    simp only []
    by_cases hcy : u32 (((y * s0 : Nat) : Int) - p_y + (ky : Int)) ≥ H
    · rw [if_pos hcy]
      have hny := by1.mp hcy
      rw [Finset.sum_eq_zero (fun kx _ => Finset.sum_eq_zero (fun ci _ =>
        if_neg (fun h => hny ⟨h.1, h.2.1⟩)))]
      simp
    · rw [if_neg hcy]
      have hiy : 0 ≤ conv2d_in_coord y s0 p_y ky ∧ conv2d_in_coord y s0 p_y ky < H := by
        by_contra hc
        exact hcy (by1.mpr hc)
      have ey := by2 hiy.1
      apply forLoop_modEq_sum
      intro kx hkx acc
      obtain ⟨bx1, bx2⟩ := u32_coord x s1 p_x kx W hpx hW (by omega)
      by_cases hcx : u32 (((x * s1 : Nat) : Int) - p_x + (kx : Int)) ≥ W
      · rw [if_pos hcx]
        have hnx := bx1.mp hcx
        rw [Finset.sum_eq_zero (fun ci _ => if_neg (fun h => hnx ⟨h.2.2.1, h.2.2.2⟩))]
        simp
      · rw [if_neg hcx]
        have hix : 0 ≤ conv2d_in_coord x s1 p_x kx ∧ conv2d_in_coord x s1 p_x kx < W := by
          by_contra hc
          exact hcx (bx1.mpr hc)
        have ex := bx2 hix.1
        apply forLoop_modEq_sum
        intro ci hci acc
        have hyN : (conv2d_in_coord y s0 p_y ky).toNat < H := by
          have := hiy.2
          omega
        have hxN : (conv2d_in_coord x s1 p_x kx).toNat < W := by
          have := hix.2
          omega
        simp only [wrap_signed]
        rw [if_pos ⟨hiy.1, hiy.2, hix.1, hix.2⟩, ey, ex,
          hoff_i ci hci _ hyN _ hxN, hoff_k ci hci ky hky kx hkx,
          load_int_congr k_T mem m _ (fun j hj => hmem _ (hRk ci hci ky hky kx hkx j hj)),
          load_int_congr i_T mem m _ (fun j hj => hmem _ (hRi ci hci _ hyN _ hxN j hj))]
        exact mac_modEq w acc _ _
  rw [zero_add] at hsum
  refine hsum.trans ?_
  rw [Finset.sum_congr rfl (fun ky _ => Finset.sum_comm), Finset.sum_comm]

theorem store_result_eq (w : Nat) (o_T : CIntType) (b_ReLU : Bool) (acc out_shift : Int)
    (mem : Mem) (out_ptr : Nat) :
    store_result w o_T b_ReLU acc out_shift mem out_ptr
      = store_bytes mem out_ptr (o_T.bits / 8)
          ((relu_value w b_ReLU acc out_shift) % 2 ^ o_T.bits).toNat := by
  unfold store_result relu_value store_int
  cases b_ReLU
  · simp
  · by_cases h : acc > 0
    · have h2 : ¬ acc ≤ 0 := by omega
      simp [h, h2]
    · have h2 : acc ≤ 0 := by omega
      simp [h, h2]

theorem wrap_zero (T : CIntType)
    (hT : T = ⟨8, true⟩ ∨ T = ⟨16, true⟩ ∨ T = ⟨8, false⟩ ∨ T = ⟨16, false⟩) :
    T.wrap 0 = 0 := by
  rcases hT with h | h | h | h <;> subst h <;> simp [CIntType.wrap, wrapS]

theorem shift_zero (w : Nat) (hw : 32 ≤ w) (s : Int) : shift ⟨w, true⟩ 0 s = 0 := by
  have h0 : wrapS w 0 = 0 :=
    wrapS_of_range w 0 (by omega) (by have : (0 : Int) < 2 ^ (w - 1) := by positivity
                                      omega) (by positivity)
  have hp : promote ⟨w, true⟩ = ⟨w, true⟩ := by
    unfold promote
    simp only []
    rw [if_neg (by omega)]
  unfold shift
  simp only [hp, wrap_signed]
  split_ifs <;> simp [h0]

theorem shift_bias_load (w : Nat) (hw : 32 ≤ w) (k_T : CIntType)
    (hTk : k_T = ⟨8, true⟩ ∨ k_T = ⟨16, true⟩ ∨ k_T = ⟨8, false⟩ ∨ k_T = ⟨16, false⟩)
    (bias_ptr : Option Nat) (bias_stride C_out co : Nat) (bias_reshift : Int) (mem0 m : Mem)
    (R : Nat → Prop) (hmem0 : Agree R mem0 m)
    (hbias : ∀ bp, bias_ptr = some bp →
      bias_stride = 1 ∧ ∀ co, co < C_out → ∀ j, j < k_T.bits / 8 →
        R (bp + co * (k_T.bits / 8) + j))
    (hC32 : C_out < 2 ^ 32) (hco : co < C_out) :
    shift ⟨w, true⟩ (conv2d_bias_load w k_T bias_ptr bias_stride co mem0) bias_reshift
      = bias_term_flat w k_T m bias_ptr bias_reshift co := by
  unfold bias_term_flat conv2d_bias_load
  cases bias_ptr with
  | none => exact shift_zero w hw bias_reshift
  | some bp =>
    obtain ⟨h1, h2⟩ := hbias bp rfl
    simp only []
    rw [h1, Nat.mul_one, Nat.mod_eq_of_lt (by omega), wrap_load_int w hw k_T hTk,
      load_int_congr k_T mem0 m _ (fun j hj => hmem0 _ (h2 co hco j hj))]

theorem conv2d_element_eq (w : Nat) (i_T o_T k_T : CIntType) (b_ReLU : Bool)
    (pi po pk : Nat) (N C_out Ho Wo H W C_in s0 s1 : Nat) (p_y p_x out_shift : Int)
    (oB oC oH oW iB iC iH iW k0 k1 k2 k3 : Nat) (sb : Int) (mem m : Mem) (R : Nat → Prop)
    (n co y x : Nat) (hn : n < N) (hco : co < C_out) (hy : y < Ho) (hx : x < Wo)
    (hmem : Agree R mem m)
    (hoff_o : ∀ n, n < N → ∀ co, co < C_out → ∀ y x,
      n * oB + co * oC + y * oH + x * oW = ((n * C_out + co) * Ho + y) * Wo + x)
    (hsize_o : N * C_out * Ho * Wo < 2 ^ 32)
    (hoff_i : ∀ n, n < N → ∀ ci, ci < C_in → ∀ iy, iy < H → ∀ ix, ix < W →
      (n * iB + ci * iC + iy * iH + ix * iW) % 2 ^ 32 = ((n * C_in + ci) * H + iy) * W + ix)
    (hoff_k : ∀ co, co < C_out → ∀ ci, ci < C_in → ∀ ky, ky < 3 → ∀ kx, kx < 3 →
      (co * k0 + ci * k1 + ky * k2 + kx * k3) % 2 ^ 32 = ((co * C_in + ci) * 3 + ky) * 3 + kx)
    (hRi : ∀ n, n < N → ∀ ci, ci < C_in → ∀ iy, iy < H → ∀ ix, ix < W → ∀ j,
      j < i_T.bits / 8 → R (pi + (((n * C_in + ci) * H + iy) * W + ix) * (i_T.bits / 8) + j))
    (hRk : ∀ co, co < C_out → ∀ ci, ci < C_in → ∀ ky, ky < 3 → ∀ kx, kx < 3 → ∀ j,
      j < k_T.bits / 8 → R (pk + (((co * C_in + ci) * 3 + ky) * 3 + kx) * (k_T.bits / 8) + j))
    (hpy : 0 ≤ p_y ∧ p_y < 2 ^ 31) (hpx : 0 ≤ p_x ∧ p_x < 2 ^ 31)
    (hH : H < 2 ^ 31) (hW : W < 2 ^ 31)
    (hys : ∀ y, y < Ho → y * s0 + 2 < 2 ^ 32) (hxs : ∀ x, x < Wo → x * s1 + 2 < 2 ^ 32)
    (bias : Int) (bias_reshift : Int) (hsb : shift ⟨w, true⟩ bias bias_reshift = sb) :
    conv2d_element w i_T o_T k_T b_ReLU pi po pk H W C_in s0 s1 p_y p_x out_shift bias_reshift
        oB oC oH oW iB iC iH iW k0 k1 k2 k3 bias n co y x mem
      = store_bytes mem (po + (((n * C_out + co) * Ho + y) * Wo + x) * (o_T.bits / 8))
          (o_T.bits / 8)
          ((relu_value w b_ReLU
            (wrapS w (conv2d_sum_flat i_T k_T m pi pk H W C_in s0 s1 p_y p_x n co y x + sb))
            out_shift) % 2 ^ o_T.bits).toNat := by
  have hacc := conv2d_acc_modEq w i_T k_T R mem m pi pk H W C_in s0 s1 p_y p_x iB iC iH iW
    k0 k1 k2 k3 n co y x hmem (hRi n hn) (hRk co hco) (hoff_i n hn) (hoff_k co hco) hpy hpx
    hH hW (hys y hy) (hxs x hx)
  unfold conv2d_element
  simp only []
  rw [store_result_eq, wrap_signed, hsb, hoff_o n hn co hco,
    Nat.mod_eq_of_lt (Nat.lt_trans (ravel4_lt n co y x N C_out Ho Wo hn hco hy hx) hsize_o),
    wrapS_congr w _ (conv2d_sum_flat i_T k_T m pi pk H W C_in s0 s1 p_y p_x n co y x + sb)
      (Int.ModEq.add_right _ hacc)]

theorem conv2d_loops_spec (w : Nat) (hw : 32 ≤ w) (i_T o_T k_T : CIntType)
    (hTo : o_T = ⟨8, true⟩ ∨ o_T = ⟨16, true⟩ ∨ o_T = ⟨8, false⟩ ∨ o_T = ⟨16, false⟩)
    (hTk : k_T = ⟨8, true⟩ ∨ k_T = ⟨16, true⟩ ∨ k_T = ⟨8, false⟩ ∨ k_T = ⟨16, false⟩)
    (b_ReLU : Bool) (bias_ptr : Option Nat) (pi po pk : Nat)
    (N C_out Ho Wo H W C_in s0 s1 : Nat) (p_y p_x out_shift bias_reshift : Int)
    (bias_stride oB oC oH oW iB iC iH iW k0 k1 k2 k3 : Nat) (m : Mem) (R : Nat → Prop)
    (hosz : 0 < o_T.bits / 8)
    (hoff_o : ∀ n, n < N → ∀ co, co < C_out → ∀ y x,
      n * oB + co * oC + y * oH + x * oW = ((n * C_out + co) * Ho + y) * Wo + x)
    (hsize_o : N * C_out * Ho * Wo < 2 ^ 32)
    (hoff_i : ∀ n, n < N → ∀ ci, ci < C_in → ∀ iy, iy < H → ∀ ix, ix < W →
      (n * iB + ci * iC + iy * iH + ix * iW) % 2 ^ 32 = ((n * C_in + ci) * H + iy) * W + ix)
    (hoff_k : ∀ co, co < C_out → ∀ ci, ci < C_in → ∀ ky, ky < 3 → ∀ kx, kx < 3 →
      (co * k0 + ci * k1 + ky * k2 + kx * k3) % 2 ^ 32 = ((co * C_in + ci) * 3 + ky) * 3 + kx)
    (hRi : ∀ n, n < N → ∀ ci, ci < C_in → ∀ iy, iy < H → ∀ ix, ix < W → ∀ j,
      j < i_T.bits / 8 → R (pi + (((n * C_in + ci) * H + iy) * W + ix) * (i_T.bits / 8) + j))
    (hRk : ∀ co, co < C_out → ∀ ci, ci < C_in → ∀ ky, ky < 3 → ∀ kx, kx < 3 → ∀ j,
      j < k_T.bits / 8 → R (pk + (((co * C_in + ci) * 3 + ky) * 3 + kx) * (k_T.bits / 8) + j))
    (hbias : ∀ bp, bias_ptr = some bp →
      bias_stride = 1 ∧ ∀ co, co < C_out → ∀ j, j < k_T.bits / 8 →
        R (bp + co * (k_T.bits / 8) + j))
    (hC32 : C_out < 2 ^ 32)
    (hpy : 0 ≤ p_y ∧ p_y < 2 ^ 31) (hpx : 0 ≤ p_x ∧ p_x < 2 ^ 31)
    (hH : H < 2 ^ 31) (hW : W < 2 ^ 31)
    (hys : ∀ y, y < Ho → y * s0 + 2 < 2 ^ 32) (hxs : ∀ x, x < Wo → x * s1 + 2 < 2 ^ 32)
    (hsep : ∀ a, po ≤ a → a < po + N * C_out * Ho * Wo * (o_T.bits / 8) → ¬ R a) :
    ∀ n, n < N → ∀ co, co < C_out → ∀ y, y < Ho → ∀ x, x < Wo →
      load_int o_T
          (conv2d_loops w i_T o_T k_T b_ReLU bias_ptr pi po pk N C_out Ho Wo H W C_in s0 s1
            p_y p_x out_shift bias_reshift bias_stride oB oC oH oW iB iC iH iW k0 k1 k2 k3 m)
          (po + (((n * C_out + co) * Ho + y) * Wo + x) * (o_T.bits / 8))
        = o_T.wrap (relu_value w b_ReLU
            (wrapS w (conv2d_sum_flat i_T k_T m pi pk H W C_in s0 s1 p_y p_x n co y x
              + bias_term_flat w k_T m bias_ptr bias_reshift co)) out_shift) := by
  intro n hn co hco y hy x hx
  have h2 : ∀ n, n < N → ∀ co, co < C_out → ∀ mem0, Agree R mem0 m →
      (fun batch out_ch mem0 =>
        forLoop Ho (fun out_y =>
          forLoop Wo (fun out_x mem =>
            conv2d_element w i_T o_T k_T b_ReLU pi po pk H W C_in s0 s1 p_y p_x out_shift
              bias_reshift oB oC oH oW iB iC iH iW k0 k1 k2 k3
              (conv2d_bias_load w k_T bias_ptr bias_stride out_ch mem0)
              batch out_ch out_y out_x mem)) mem0) n co mem0
      = forLoop Ho (fun y => forLoop Wo (fun x =>
          (fun n co y x mem => store_bytes mem
            (po + (((n * C_out + co) * Ho + y) * Wo + x) * (o_T.bits / 8)) (o_T.bits / 8)
            ((relu_value w b_ReLU
              (wrapS w (conv2d_sum_flat i_T k_T m pi pk H W C_in s0 s1 p_y p_x n co y x
                + bias_term_flat w k_T m bias_ptr bias_reshift co))
              out_shift) % 2 ^ o_T.bits).toNat) n co y x)) mem0 := by
    intro n hn co hco mem0 hmem0
    have hb := shift_bias_load w hw k_T hTk bias_ptr bias_stride C_out co bias_reshift mem0 m R
      hmem0 hbias hC32 hco
    have key : ∀ mem1 : Mem, Agree R mem1 m → ∀ yy, yy ≤ Ho →
        forLoop yy (fun out_y =>
          forLoop Wo (fun out_x mem =>
            conv2d_element w i_T o_T k_T b_ReLU pi po pk H W C_in s0 s1 p_y p_x out_shift
              bias_reshift oB oC oH oW iB iC iH iW k0 k1 k2 k3
              (conv2d_bias_load w k_T bias_ptr bias_stride co mem0)
              n co out_y out_x mem)) mem1
        = forLoop yy (fun y => forLoop Wo (fun x mem => store_bytes mem
            (po + (((n * C_out + co) * Ho + y) * Wo + x) * (o_T.bits / 8)) (o_T.bits / 8)
            ((relu_value w b_ReLU
              (wrapS w (conv2d_sum_flat i_T k_T m pi pk H W C_in s0 s1 p_y p_x n co y x
                + bias_term_flat w k_T m bias_ptr bias_reshift co))
              out_shift) % 2 ^ o_T.bits).toNat)) mem1 ∧
          Agree R (forLoop yy (fun y => forLoop Wo (fun x mem => store_bytes mem
            (po + (((n * C_out + co) * Ho + y) * Wo + x) * (o_T.bits / 8)) (o_T.bits / 8)
            ((relu_value w b_ReLU
              (wrapS w (conv2d_sum_flat i_T k_T m pi pk H W C_in s0 s1 p_y p_x n co y x
                + bias_term_flat w k_T m bias_ptr bias_reshift co))
              out_shift) % 2 ^ o_T.bits).toNat)) mem1) m := by
      intro mem1 hmem1 yy
      induction yy with
      | zero => intro _; exact ⟨rfl, hmem1⟩
      | succ yy ih =>
        intro hyy
        obtain ⟨e1, a1⟩ := ih (Nat.le_of_succ_le hyy)
        rw [forLoop_succ, forLoop_succ, e1]
        have inner : ∀ mem2 : Mem, Agree R mem2 m → ∀ xx, xx ≤ Wo →
            forLoop xx (fun out_x mem =>
              conv2d_element w i_T o_T k_T b_ReLU pi po pk H W C_in s0 s1 p_y p_x out_shift
                bias_reshift oB oC oH oW iB iC iH iW k0 k1 k2 k3
                (conv2d_bias_load w k_T bias_ptr bias_stride co mem0)
                n co yy out_x mem) mem2
            = forLoop xx (fun x mem => store_bytes mem
                (po + (((n * C_out + co) * Ho + yy) * Wo + x) * (o_T.bits / 8)) (o_T.bits / 8)
                ((relu_value w b_ReLU
                  (wrapS w (conv2d_sum_flat i_T k_T m pi pk H W C_in s0 s1 p_y p_x n co yy x
                    + bias_term_flat w k_T m bias_ptr bias_reshift co))
                  out_shift) % 2 ^ o_T.bits).toNat) mem2 ∧
              Agree R (forLoop xx (fun x mem => store_bytes mem
                (po + (((n * C_out + co) * Ho + yy) * Wo + x) * (o_T.bits / 8)) (o_T.bits / 8)
                ((relu_value w b_ReLU
                  (wrapS w (conv2d_sum_flat i_T k_T m pi pk H W C_in s0 s1 p_y p_x n co yy x
                    + bias_term_flat w k_T m bias_ptr bias_reshift co))
                  out_shift) % 2 ^ o_T.bits).toNat) mem2) m := by
          intro mem2 hmem2 xx
          induction xx with
          | zero => intro _; exact ⟨rfl, hmem2⟩
          | succ xx ihx =>
            intro hxx
            obtain ⟨e2, a2⟩ := ihx (Nat.le_of_succ_le hxx)
            rw [forLoop_succ, forLoop_succ, e2,
              conv2d_element_eq w i_T o_T k_T b_ReLU pi po pk N C_out Ho Wo H W C_in s0 s1 p_y
                p_x out_shift oB oC oH oW iB iC iH iW k0 k1 k2 k3
                (bias_term_flat w k_T m bias_ptr bias_reshift co) _ m R n co yy xx hn hco hyy
                hxx a2 hoff_o hsize_o hoff_i hoff_k hRi hRk hpy hpx hH hW hys hxs _ _ hb]
            refine ⟨rfl, fun a ha => ?_⟩
            rw [store_bytes_out _ _ _ _ a (fun hd => by
              have hk := ravel4_lt n co yy xx N C_out Ho Wo hn hco hyy hxx
              have := Nat.mul_le_mul_right (o_T.bits / 8) (Nat.succ_le_of_lt hk)
              rw [Nat.succ_mul] at this
              exact hsep a (by omega) (by omega) ha)]
            exact a2 a ha
        obtain ⟨e3, a3⟩ := inner _ a1 Wo (Nat.le_refl _)
        exact ⟨e3, e3 ▸ a3⟩
    exact (key mem0 hmem0 Ho (Nat.le_refl _)).1
  have hbytes := store_loop_nest4 R m N C_out Ho Wo (o_T.bits / 8) po hosz
    (fun n co y x => ((relu_value w b_ReLU
        (wrapS w (conv2d_sum_flat i_T k_T m pi pk H W C_in s0 s1 p_y p_x n co y x
          + bias_term_flat w k_T m bias_ptr bias_reshift co)) out_shift) % 2 ^ o_T.bits).toNat)
    (fun batch out_ch mem0 =>
        forLoop Ho (fun out_y =>
          forLoop Wo (fun out_x mem =>
            conv2d_element w i_T o_T k_T b_ReLU pi po pk H W C_in s0 s1 p_y p_x out_shift
              bias_reshift oB oC oH oW iB iC iH iW k0 k1 k2 k3
              (conv2d_bias_load w k_T bias_ptr bias_stride out_ch mem0)
              batch out_ch out_y out_x mem)) mem0)
    (fun n co y x mem => store_bytes mem
            (po + (((n * C_out + co) * Ho + y) * Wo + x) * (o_T.bits / 8)) (o_T.bits / 8)
            ((relu_value w b_ReLU
              (wrapS w (conv2d_sum_flat i_T k_T m pi pk H W C_in s0 s1 p_y p_x n co y x
                + bias_term_flat w k_T m bias_ptr bias_reshift co))
              out_shift) % 2 ^ o_T.bits).toNat)
    h2 (fun _ _ _ _ _ _ _ _ _ _ => rfl) hsep n hn co hco y hy x hx
  exact load_int_of_bytes o_T hTo _ _ _ hbytes

theorem bias_check_conv_ok (kernel bias : GIGA_tensor_t) (nb_out : Nat)
    (he : check_tensor_exists bias = true) (ht : bias.type = kernel.type)
    (hr : bias.nb_dims = 1) (hd : bias.dims 0 = nb_out) :
    bias_check true kernel bias nb_out = none := by
  unfold bias_check u32
  simp [he, ht, hr, hd]

theorem giga_conv2d_eq (w : Nat) (i_T o_T k_T : CIntType) (params : GIGA_conv2d_t)
    (inT out : GIGA_tensor_t) (m : Mem)
    (hTi : fixed_CType inT.type = some i_T) (hTo : fixed_CType out.type = some o_T)
    (hTk : fixed_CType params.kernel.type = some k_T)
    (hei : check_tensor_exists inT = true) (heo : check_tensor_exists out = true)
    (hek : check_tensor_exists params.kernel = true)
    (hri : inT.nb_dims = 4) (hro : out.nb_dims = 4) (hrk : params.kernel.nb_dims = 4)
    (hN : out.dims 0 = inT.dims 0)
    (hk0 : params.kernel.dims 0 = out.dims 1) (hk1 : params.kernel.dims 1 = inT.dims 1)
    (hk2 : params.kernel.dims 2 = 3) (hk3 : params.kernel.dims 3 = 3)
    (hs0 : params.stride 0 = 1 ∨ params.stride 0 = 2)
    (hs1 : params.stride 1 = 1 ∨ params.stride 1 = 2)
    (hd0 : params.dilation 0 = 1) (hd1 : params.dilation 1 = 1)
    (hbc : ∀ b, params.bias = some b →
      check_tensor_exists b = true ∧ b.type = params.kernel.type ∧ b.nb_dims = 1 ∧
        b.dims 0 = out.dims 1)
    (hHo : out.dims 2 = conv2d_out_dim (inT.dims 2) (params.padding 0 0) (params.padding 0 1)
      (params.stride 0))
    (hWo : out.dims 3 = conv2d_out_dim (inT.dims 3) (params.padding 1 0) (params.padding 1 1)
      (params.stride 1)) :
    giga_conv2d_ w params inT out m = some (GIGA_Success,
      conv2d_loops w i_T o_T k_T params.b_ReLU (params.bias.map get_ptr)
        (get_ptr inT) (get_ptr out) (get_ptr params.kernel)
        (inT.dims 0) (out.dims 1) (out.dims 2) (out.dims 3) (inT.dims 2) (inT.dims 3)
        (inT.dims 1) (params.stride 0) (params.stride 1) (params.padding 0 0)
        (params.padding 1 0)
        ((out.fp_shift : Int) - ((inT.fp_shift : Int) + (params.kernel.fp_shift : Int)))
        (match params.bias with
          | some bias =>
            -(bias.fp_shift : Int) + ((inT.fp_shift : Int) + (params.kernel.fp_shift : Int))
          | none => 0)
        (match params.bias with
          | some bias => bias.strides 0 / (k_T.bits / 8)
          | none => 0)
        (out.strides 0 / (o_T.bits / 8)) (out.strides 1 / (o_T.bits / 8))
        (out.strides 2 / (o_T.bits / 8)) (out.strides 3 / (o_T.bits / 8))
        (inT.strides 0 / (i_T.bits / 8)) (inT.strides 1 / (i_T.bits / 8))
        (inT.strides 2 / (i_T.bits / 8)) (inT.strides 3 / (i_T.bits / 8))
        (params.kernel.strides 0 / (k_T.bits / 8)) (params.kernel.strides 1 / (k_T.bits / 8))
        (params.kernel.strides 2 / (k_T.bits / 8)) (params.kernel.strides 3 / (k_T.bits / 8))
        m) := by
  obtain ⟨padding, stride, dilation, relu, kernel, bias⟩ := params
  simp only at hTk hek hrk hk0 hk1 hk2 hk3 hs0 hs1 hd0 hd1 hbc hHo hWo ⊢
  have c1 : ¬ (2 < stride 0 ∨ stride 0 = 0) := by omega
  have c2 : ¬ (2 < stride 1 ∨ stride 1 = 0) := by omega
  unfold giga_conv2d_
  simp only [hei, heo, hek, Bool.not_true, Bool.or_self, Bool.false_eq_true, if_false, hTi, hTo,
    hTk]
  unfold _conv2d_impl
  cases bias with
  | none =>
    simp [hri, hro, hrk, hN, hk0, hk1, hk2, hk3, c1, c2, hd0, hd1, ← hHo, ← hWo]
  | some b =>
    obtain ⟨b1, b2, b3, b4⟩ := hbc b rfl
    have hb := bias_check_conv_ok kernel b (out.dims 1) b1 b2 b3 b4
    have hu : u32 ((b.nb_dims : Int) - 1) = 0 := by rw [b3]; rfl
    simp [hri, hro, hrk, hN, hk0, hk1, hk2, hk3, c1, c2, hd0, hd1, ← hHo, ← hWo, hb, hu]

theorem geom_rank4 (t : GIGA_tensor_t) (es : Nat) (hes : 0 < es) (h4 : t.nb_dims = 4)
    (hrm : RowMajor es t) :
    prod_from t.dims t.nb_dims 0 = t.dims 0 * t.dims 1 * t.dims 2 * t.dims 3 ∧
    (∀ n c y x, n * (t.strides 0 / es) + c * (t.strides 1 / es) + y * (t.strides 2 / es)
        + x * (t.strides 3 / es) = ((n * t.dims 1 + c) * t.dims 2 + y) * t.dims 3 + x) ∧
    (∀ n c y x, elem_addr t (idx_of [n, c, y, x])
      = get_ptr t + (((n * t.dims 1 + c) * t.dims 2 + y) * t.dims 3 + x) * es) := by
  unfold RowMajor at hrm
  have s0 := hrm 0 (by omega)
  have s1 := hrm 1 (by omega)
  have s2 := hrm 2 (by omega)
  have s3 := hrm 3 (by omega)
  simp only [h4, prod_from, Nat.mul_one] at s0 s1 s2 s3
  norm_num at s0 s1 s2 s3
  refine ⟨?_, ?_, ?_⟩
  · simp only [h4, prod_from]
    ring
  · intro n c y x
    rw [s0, s1, s2, s3, Nat.mul_div_cancel_left _ hes, Nat.mul_div_cancel_left _ hes,
      Nat.mul_div_cancel_left _ hes, Nat.div_self hes]
    ring
  · intro n c y x
    unfold elem_addr
    simp only [h4, elem_offset, idx_of, List.getD_cons_zero, List.getD_cons_succ]
    rw [s0, s1, s2, s3]
    ring

theorem region_of_ravel4 (t : GIGA_tensor_t) (es N C H W : Nat)
    (hes : es = element_size_in_bits t.type / 8)
    (hprod : prod_from t.dims t.nb_dims 0 = N * C * H * W)
    (n c y x j : Nat) (hn : n < N) (hc : c < C) (hy : y < H) (hx : x < W) (hj : j < es) :
    region t (get_ptr t + (((n * C + c) * H + y) * W + x) * es + j) := by
  unfold region
  rw [hprod, ← hes]
  have h1 := ravel4_lt n c y x N C H W hn hc hy hx
  have h2 := Nat.mul_le_mul_right es (Nat.succ_le_of_lt h1)
  rw [Nat.succ_mul, Nat.mul_comm (N * C * H * W) es] at h2
  exact ⟨by omega, by omega⟩

theorem region_of_bounds (t : GIGA_tensor_t) (es N C H W a : Nat)
    (hes : es = element_size_in_bits t.type / 8)
    (hprod : prod_from t.dims t.nb_dims 0 = N * C * H * W)
    (h1 : get_ptr t ≤ a) (h2 : a < get_ptr t + N * C * H * W * es) : region t a := by
  unfold region
  rw [hprod, ← hes, Nat.mul_comm es]
  exact ⟨h1, h2⟩

theorem bias_region (k_T : CIntType) (params : GIGA_conv2d_t) (C_out : Nat) (R : Nat → Prop)
    (hR : ∀ b, params.bias = some b → ∀ a, region b a → R a)
    (hes : k_T.bits / 8 = element_size_in_bits params.kernel.type / 8)
    (hkpos : 0 < k_T.bits / 8)
    (hb : ∀ b, params.bias = some b →
      Contiguous b ∧ b.type = params.kernel.type ∧ b.nb_dims = 1 ∧ b.dims 0 = C_out) :
    ∀ bp, params.bias.map get_ptr = some bp →
      (match params.bias with
        | some bias => bias.strides 0 / (k_T.bits / 8)
        | none => 0) = 1 ∧
      ∀ co, co < C_out → ∀ j, j < k_T.bits / 8 → R (bp + co * (k_T.bits / 8) + j) := by
  obtain ⟨padding, stride, dilation, relu, kernel, bias⟩ := params
  simp only at hR hes hb ⊢
  cases bias with
  | none => intro bp h; simp at h
  | some b =>
    intro bp h
    simp only [Option.map_some', Option.some.injEq] at h
    subst h
    obtain ⟨hc, ht, hr, hd⟩ := hb b rfl
    obtain ⟨_, _, _, hrm, _, _⟩ := hc
    have s0 := hrm 0 (by omega)
    simp only [hr, prod_from, Nat.mul_one] at s0
    rw [ht, ← hes] at s0
    refine ⟨by simp only [s0]; exact Nat.div_self hkpos, fun co hco j hj => hR b rfl _ ?_⟩
    unfold region
    simp only [hr, prod_from, Nat.mul_one]
    rw [ht, ← hes, hd]
    have h2 := Nat.mul_le_mul_right (k_T.bits / 8) (Nat.succ_le_of_lt hco)
    rw [Nat.succ_mul, Nat.mul_comm C_out] at h2
    exact ⟨by omega, by omega⟩

theorem bias_term_eq (w : Nat) (k_T : CIntType) (params : GIGA_conv2d_t) (inT : GIGA_tensor_t)
    (m : Mem) (co : Nat)
    (hes : k_T.bits / 8 = element_size_in_bits params.kernel.type / 8)
    (hb : ∀ b, params.bias = some b →
      Contiguous b ∧ b.type = params.kernel.type ∧ b.nb_dims = 1) :
    bias_term_flat w k_T m (params.bias.map get_ptr)
        (match params.bias with
          | some bias =>
            -(bias.fp_shift : Int) + ((inT.fp_shift : Int) + (params.kernel.fp_shift : Int))
          | none => 0) co
      = conv2d_bias_term w k_T params inT m co := by
  obtain ⟨padding, stride, dilation, relu, kernel, bias⟩ := params
  simp only at hes hb ⊢
  unfold bias_term_flat conv2d_bias_term
  cases bias with
  | none => rfl
  | some b =>
    obtain ⟨hc, ht, hr⟩ := hb b rfl
    obtain ⟨_, _, _, hrm, _, _⟩ := hc
    have s0 := hrm 0 (by omega)
    simp only [hr, prod_from, Nat.mul_one] at s0
    rw [ht, ← hes] at s0
    have ha : elem_addr b (idx_of [co]) = get_ptr b + co * (k_T.bits / 8) := by
      unfold elem_addr
      simp only [hr, elem_offset, idx_of, List.getD_cons_zero]
      rw [s0]
      omega
    simp only [Option.map_some']
    rw [ha]
    congr 1
    ring

theorem relu_value_eq (w : Nat) (o_T : CIntType)
    (hTo : o_T = ⟨8, true⟩ ∨ o_T = ⟨16, true⟩ ∨ o_T = ⟨8, false⟩ ∨ o_T = ⟨16, false⟩)
    (relu : Bool) (A s : Int) :
    o_T.wrap (relu_value w relu A s)
      = if relu = true ∧ A ≤ 0 then 0 else o_T.wrap (shift ⟨w, true⟩ A s) := by
  unfold relu_value
  split_ifs
  · exact wrap_zero o_T hTo
  · rfl

/-- The conv2d kernel on contiguous rank-4 fixed-point tensors that pass the checks: success,
and every stored element is `conv2d_claimed`. -/
theorem conv2d_formula (w : Nat) (i_T o_T k_T : CIntType) (params : GIGA_conv2d_t)
    (inT out : GIGA_tensor_t) (m : Mem) (hw : 32 ≤ w)
    (hTi : fixed_CType inT.type = some i_T) (hTo : fixed_CType out.type = some o_T)
    (hTk : fixed_CType params.kernel.type = some k_T)
    (hci : Contiguous inT) (hco : Contiguous out) (hck : Contiguous params.kernel)
    (hri : inT.nb_dims = 4) (hro : out.nb_dims = 4) (hrk : params.kernel.nb_dims = 4)
    (hN : out.dims 0 = inT.dims 0)
    (hk0 : params.kernel.dims 0 = out.dims 1) (hk1 : params.kernel.dims 1 = inT.dims 1)
    (hk2 : params.kernel.dims 2 = 3) (hk3 : params.kernel.dims 3 = 3)
    (hs0 : params.stride 0 = 1 ∨ params.stride 0 = 2)
    (hs1 : params.stride 1 = 1 ∨ params.stride 1 = 2)
    (hd0 : params.dilation 0 = 1) (hd1 : params.dilation 1 = 1)
    (hp0 : 0 ≤ params.padding 0 0 ∧ params.padding 0 0 < 2 ^ 31)
    (hp1 : 0 ≤ params.padding 1 0 ∧ params.padding 1 0 < 2 ^ 31)
    (hH : inT.dims 2 < 2 ^ 31) (hW : inT.dims 3 < 2 ^ 31)
    (hb : ∀ b, params.bias = some b →
      Contiguous b ∧ b.type = params.kernel.type ∧ b.nb_dims = 1 ∧ b.dims 0 = out.dims 1)
    (hHo : out.dims 2 = conv2d_out_dim (inT.dims 2) (params.padding 0 0) (params.padding 0 1)
      (params.stride 0))
    (hWo : out.dims 3 = conv2d_out_dim (inT.dims 3) (params.padding 1 0) (params.padding 1 1)
      (params.stride 1))
    (hsi : Separate out inT) (hsk : Separate out params.kernel)
    (hsb : ∀ b, params.bias = some b → Separate out b) :
    ∃ m2, giga_conv2d_ w params inT out m = some (GIGA_Success, m2) ∧
      ∀ n, n < out.dims 0 → ∀ co, co < out.dims 1 → ∀ y, y < out.dims 2 →
        ∀ x, x < out.dims 3 →
          load_int o_T m2 (elem_addr out (idx_of [n, co, y, x]))
            = conv2d_claimed w i_T o_T k_T params inT out m n co y x := by
  obtain ⟨cTi, esi, posi⟩ := fixed_CType_cases _ _ hTi
  obtain ⟨cTo, eso, poso⟩ := fixed_CType_cases _ _ hTo
  obtain ⟨cTk, esk, posk⟩ := fixed_CType_cases _ _ hTk
  have hci2 := hci
  have hco2 := hco
  have hck2 := hck
  obtain ⟨hei, _, _, hrmi, hszi, hdi⟩ := hci2
  obtain ⟨heo, _, _, hrmo, hszo, hdo⟩ := hco2
  obtain ⟨hek, _, _, hrmk, hszk, hdk⟩ := hck2
  rw [← esi] at hrmi hszi
  rw [← eso] at hrmo hszo
  rw [← esk] at hrmk hszk
  obtain ⟨gi1, gi2, gi3⟩ := geom_rank4 inT _ posi hri hrmi
  obtain ⟨go1, go2, go3⟩ := geom_rank4 out _ poso hro hrmo
  obtain ⟨gk1, gk2, gk3⟩ := geom_rank4 params.kernel _ posk hrk hrmk
  rw [hk0, hk1, hk2, hk3] at gk1
  simp only [hk1, hk2, hk3] at gk2 gk3
  rw [hN] at go1
  rw [giga_conv2d_eq w i_T o_T k_T params inT out m hTi hTo hTk hei heo hek hri hro hrk hN
    hk0 hk1 hk2 hk3 hs0 hs1 hd0 hd1
    (fun b hbb => ⟨(hb b hbb).1.1, (hb b hbb).2.1, (hb b hbb).2.2.1, (hb b hbb).2.2.2⟩) hHo hWo]
  refine ⟨_, rfl, ?_⟩
  intro n hn co hco y hy x hx
  have hszo2 : inT.dims 0 * out.dims 1 * out.dims 2 * out.dims 3 < 2 ^ 31 := by
    rw [← go1]
    calc prod_from out.dims out.nb_dims 0
        ≤ o_T.bits / 8 * prod_from out.dims out.nb_dims 0 := Nat.le_mul_of_pos_left _ poso
      _ < 2 ^ 31 := hszo
  have hszi2 : inT.dims 0 * inT.dims 1 * inT.dims 2 * inT.dims 3 < 2 ^ 31 := by
    rw [← gi1]
    calc prod_from inT.dims inT.nb_dims 0
        ≤ i_T.bits / 8 * prod_from inT.dims inT.nb_dims 0 := Nat.le_mul_of_pos_left _ posi
      _ < 2 ^ 31 := hszi
  have hszk2 : out.dims 1 * inT.dims 1 * 3 * 3 < 2 ^ 31 := by
    rw [← gk1]
    calc prod_from params.kernel.dims params.kernel.nb_dims 0
        ≤ k_T.bits / 8 * prod_from params.kernel.dims params.kernel.nb_dims 0 :=
          Nat.le_mul_of_pos_left _ posk
      _ < 2 ^ 31 := hszk
  have hn2 : n < inT.dims 0 := hN ▸ hn
  have hHo31 : out.dims 2 < 2 ^ 31 := by
    have h1 : 0 < inT.dims 0 * out.dims 1 := Nat.mul_pos (by omega) (by omega)
    have h2 : out.dims 2 ≤ inT.dims 0 * out.dims 1 * out.dims 2 :=
      Nat.le_mul_of_pos_left _ h1
    have h3 : inT.dims 0 * out.dims 1 * out.dims 2
        ≤ inT.dims 0 * out.dims 1 * out.dims 2 * out.dims 3 :=
      Nat.le_mul_of_pos_right _ (by omega)
    omega
  have hWo31 : out.dims 3 < 2 ^ 31 := by
    have h1 : 0 < inT.dims 0 * out.dims 1 * out.dims 2 :=
      Nat.mul_pos (Nat.mul_pos (by omega) (by omega)) (by omega)
    have h2 : out.dims 3 ≤ inT.dims 0 * out.dims 1 * out.dims 2 * out.dims 3 :=
      Nat.le_mul_of_pos_left _ h1
    omega
  have hoff_i : ∀ n, n < inT.dims 0 → ∀ ci, ci < inT.dims 1 → ∀ iy, iy < inT.dims 2 →
      ∀ ix, ix < inT.dims 3 →
      (n * (inT.strides 0 / (i_T.bits / 8)) + ci * (inT.strides 1 / (i_T.bits / 8))
        + iy * (inT.strides 2 / (i_T.bits / 8)) + ix * (inT.strides 3 / (i_T.bits / 8))) % 2 ^ 32
        = ((n * inT.dims 1 + ci) * inT.dims 2 + iy) * inT.dims 3 + ix := by
    intro n hn ci hci iy hiy ix hix
    have := ravel4_lt n ci iy ix _ _ _ _ hn hci hiy hix
    rw [gi2, Nat.mod_eq_of_lt (by omega)]
  have hoff_k : ∀ co, co < out.dims 1 → ∀ ci, ci < inT.dims 1 → ∀ ky, ky < 3 → ∀ kx, kx < 3 →
      (co * (params.kernel.strides 0 / (k_T.bits / 8))
        + ci * (params.kernel.strides 1 / (k_T.bits / 8))
        + ky * (params.kernel.strides 2 / (k_T.bits / 8))
        + kx * (params.kernel.strides 3 / (k_T.bits / 8))) % 2 ^ 32
        = ((co * inT.dims 1 + ci) * 3 + ky) * 3 + kx := by
    intro co hco ci hci ky hky kx hkx
    have := ravel4_lt co ci ky kx _ _ _ _ hco hci hky hkx
    rw [gk2, Nat.mod_eq_of_lt (by omega)]
  have hys : ∀ y, y < out.dims 2 → y * params.stride 0 + 2 < 2 ^ 32 := by
    intro y hy
    rcases hs0 with h | h <;> rw [h] <;> omega
  have hxs : ∀ x, x < out.dims 3 → x * params.stride 1 + 2 < 2 ^ 32 := by
    intro x hx
    rcases hs1 with h | h <;> rw [h] <;> omega
  have hsize_o : inT.dims 0 * out.dims 1 * out.dims 2 * out.dims 3 < 2 ^ 32 := by omega
  have hbias := bias_region k_T params (out.dims 1)
    (fun a => region inT a ∨ region params.kernel a ∨ ∃ b, params.bias = some b ∧ region b a)
    (fun b hbb a ha => Or.inr (Or.inr ⟨b, hbb, ha⟩)) esk posk hb
  have hsep : ∀ a, get_ptr out ≤ a →
      a < get_ptr out + inT.dims 0 * out.dims 1 * out.dims 2 * out.dims 3 * (o_T.bits / 8) →
      ¬ (region inT a ∨ region params.kernel a ∨ ∃ b, params.bias = some b ∧ region b a) := by
    intro a h1 h2 hR
    have hreg := region_of_bounds out _ _ _ _ _ a eso go1 h1 h2
    rcases hR with h | h | ⟨b, hbb, h⟩
    · exact hsi a hreg h
    · exact hsk a hreg h
    · exact hsb b hbb a hreg h
  have key := conv2d_loops_spec w hw i_T o_T k_T cTo cTk params.b_ReLU
    (params.bias.map get_ptr) (get_ptr inT) (get_ptr out) (get_ptr params.kernel)
    (inT.dims 0) (out.dims 1) (out.dims 2) (out.dims 3) (inT.dims 2) (inT.dims 3) (inT.dims 1)
    (params.stride 0) (params.stride 1) (params.padding 0 0) (params.padding 1 0)
    ((out.fp_shift : Int) - ((inT.fp_shift : Int) + (params.kernel.fp_shift : Int)))
    (match params.bias with
      | some bias =>
        -(bias.fp_shift : Int) + ((inT.fp_shift : Int) + (params.kernel.fp_shift : Int))
      | none => 0)
    (match params.bias with
      | some bias => bias.strides 0 / (k_T.bits / 8)
      | none => 0)
    (out.strides 0 / (o_T.bits / 8)) (out.strides 1 / (o_T.bits / 8))
    (out.strides 2 / (o_T.bits / 8)) (out.strides 3 / (o_T.bits / 8))
    (inT.strides 0 / (i_T.bits / 8)) (inT.strides 1 / (i_T.bits / 8))
    (inT.strides 2 / (i_T.bits / 8)) (inT.strides 3 / (i_T.bits / 8))
    (params.kernel.strides 0 / (k_T.bits / 8)) (params.kernel.strides 1 / (k_T.bits / 8))
    (params.kernel.strides 2 / (k_T.bits / 8)) (params.kernel.strides 3 / (k_T.bits / 8))
    m (fun a => region inT a ∨ region params.kernel a ∨
      ∃ b, params.bias = some b ∧ region b a)
    poso
    (fun n _ co _ y x => go2 n co y x)
    hsize_o hoff_i hoff_k
    (fun n hn ci hci iy hiy ix hix j hj =>
      Or.inl (region_of_ravel4 inT _ _ _ _ _ esi gi1 n ci iy ix j hn hci hiy hix hj))
    (fun co hco ci hci ky hky kx hkx j hj =>
      Or.inr (Or.inl
        (region_of_ravel4 params.kernel _ _ _ _ _ esk gk1 co ci ky kx j hco hci hky hkx hj)))
    hbias (hdo 1 (by omega)) hp0 hp1 hH hW hys hxs hsep n hn2 co hco y hy x hx
  rw [go3, key, relu_value_eq w o_T cTo, bias_term_eq w k_T params inT m co esk
    (fun b hbb => ⟨(hb b hbb).1, (hb b hbb).2.1, (hb b hbb).2.2.1⟩)]
  have hsum : conv2d_sum_flat i_T k_T m (get_ptr inT) (get_ptr params.kernel) (inT.dims 2)
      (inT.dims 3) (inT.dims 1) (params.stride 0) (params.stride 1) (params.padding 0 0)
      (params.padding 1 0) n co y x = conv2d_sum i_T k_T params inT m n co y x := by
    unfold conv2d_sum_flat conv2d_sum
    simp only [gi3, gk3]
  have hsh : (out.fp_shift : Int) - ((inT.fp_shift : Int) + (params.kernel.fp_shift : Int))
      = (out.fp_shift : Int) - (inT.fp_shift : Int) - (params.kernel.fp_shift : Int) := by
    ring
  rw [hsum, hsh]
  rfl

/-- C1: for contiguous rank-4 tensors in (N, C_in, H, W), kernel (C_out, C_in, 3, 3), optional
bias (C_out) and out (N, C_out, H_out, W_out) of 8- or 16-bit fixed-point kinds whose shapes pass
the checks, `giga_conv2d_` returns `GIGA_Success` and every output element holds
`narrow(shift(A, fp_out - fp_in - fp_k))`, `A` being the sum over `ci`, `ky`, `kx` of
`kernel[co,ci,ky,kx] * in[n,ci,y*s_h - pad_h_lo + ky, x*s_w - pad_w_lo + kx]` (0 outside the
input) plus `shift(bias[co], fp_in + fp_k - fp_b)`, in the signed `w`-bit compute type,
`w ≥ 32`; with `b_ReLU` the element is 0 whenever `A ≤ 0`. -/
theorem conv2d_fixed_point_formula (w : Nat) (i_T o_T k_T : CIntType) (params : GIGA_conv2d_t)
    (inT out : GIGA_tensor_t) (m : Mem) (hw : 32 ≤ w)
    (hTi : fixed_CType inT.type = some i_T) (hTo : fixed_CType out.type = some o_T)
    (hTk : fixed_CType params.kernel.type = some k_T)
    (hci : Contiguous inT) (hco : Contiguous out) (hck : Contiguous params.kernel)
    (hri : inT.nb_dims = 4) (hro : out.nb_dims = 4) (hrk : params.kernel.nb_dims = 4)
    (hN : out.dims 0 = inT.dims 0)
    (hk0 : params.kernel.dims 0 = out.dims 1) (hk1 : params.kernel.dims 1 = inT.dims 1)
    (hk2 : params.kernel.dims 2 = 3) (hk3 : params.kernel.dims 3 = 3)
    (hs0 : params.stride 0 = 1 ∨ params.stride 0 = 2)
    (hs1 : params.stride 1 = 1 ∨ params.stride 1 = 2)
    (hd0 : params.dilation 0 = 1) (hd1 : params.dilation 1 = 1)
    (hp0 : 0 ≤ params.padding 0 0 ∧ params.padding 0 0 < 2 ^ 31)
    (hp1 : 0 ≤ params.padding 1 0 ∧ params.padding 1 0 < 2 ^ 31)
    (hH : inT.dims 2 < 2 ^ 31) (hW : inT.dims 3 < 2 ^ 31)
    (hb : ∀ b, params.bias = some b →
      Contiguous b ∧ b.type = params.kernel.type ∧ b.nb_dims = 1 ∧ b.dims 0 = out.dims 1)
    (hHo : out.dims 2 = conv2d_out_dim (inT.dims 2) (params.padding 0 0) (params.padding 0 1)
      (params.stride 0))
    (hWo : out.dims 3 = conv2d_out_dim (inT.dims 3) (params.padding 1 0) (params.padding 1 1)
      (params.stride 1))
    (hsi : Separate out inT) (hsk : Separate out params.kernel)
    (hsb : ∀ b, params.bias = some b → Separate out b) :
    ∃ m2, giga_conv2d_ w params inT out m = some (GIGA_Success, m2) ∧
      ∀ n, n < out.dims 0 → ∀ co, co < out.dims 1 → ∀ y, y < out.dims 2 →
        ∀ x, x < out.dims 3 →
          load_int o_T m2 (elem_addr out (idx_of [n, co, y, x]))
            = conv2d_claimed w i_T o_T k_T params inT out m n co y x :=
  conv2d_formula w i_T o_T k_T params inT out m hw hTi hTo hTk hci hco hck hri hro hrk hN hk0 hk1
    hk2 hk3 hs0 hs1 hd0 hd1 hp0 hp1 hH hW hb hHo hWo hsi hsk hsb

theorem separate_of_bounds (t u : GIGA_tensor_t)
    (h : get_ptr t + element_size_in_bits t.type / 8 * prod_from t.dims t.nb_dims 0 ≤ get_ptr u ∨
      get_ptr u + element_size_in_bits u.type / 8 * prod_from u.dims u.nb_dims 0 ≤ get_ptr t) :
    Separate t u := by
  intro a h1 h2
  unfold region at h1 h2
  omega

/-- C1 (witness): a 3×3 `SFixed8` image with padding 1 and stride 1, a bias and ReLU, into a
`SFixed16` output. -/
theorem conv2d_fixed_point_formula_witness :
    ∃ m2, giga_conv2d_ 32 conv_params conv_in conv_out conv_store = some (GIGA_Success, m2) ∧
      ∀ n, n < conv_out.dims 0 → ∀ co, co < conv_out.dims 1 → ∀ y, y < conv_out.dims 2 →
        ∀ x, x < conv_out.dims 3 →
          load_int ⟨16, true⟩ m2 (elem_addr conv_out (idx_of [n, co, y, x]))
            = conv2d_claimed 32 ⟨8, true⟩ ⟨16, true⟩ ⟨8, true⟩ conv_params conv_in conv_out
                conv_store n co y x :=
  conv2d_fixed_point_formula 32 ⟨8, true⟩ ⟨16, true⟩ ⟨8, true⟩ conv_params conv_in conv_out
    conv_store (by decide) rfl rfl rfl
    (by unfold Contiguous RowMajor; decide) (by unfold Contiguous RowMajor; decide)
    (by unfold Contiguous RowMajor; decide)
    (by decide) (by decide) (by decide) (by decide) (by decide) (by decide) (by decide)
    (by decide) (by decide) (by decide) (by decide) (by decide) (by decide) (by decide)
    (by decide) (by decide)
    (fun b h => by
      have hb : conv_bias = b := Option.some.inj h
      subst hb
      exact ⟨by unfold Contiguous RowMajor; decide, by decide, by decide, by decide⟩)
    (by decide) (by decide)
    (separate_of_bounds _ _ (by decide)) (separate_of_bounds _ _ (by decide))
    (fun b h => by
      have hb : conv_bias = b := Option.some.inj h
      subst hb
      exact separate_of_bounds _ _ (by decide))

/-- C2 (failing input): all tensors `SFixed8`, in (1,1) holding 0 with `fp_shift` 1, kernel (1,1)
holding 0, bias (1) holding 64, out (1,1), every other `fp_shift` 0, no ReLU.  The bias is to be
shifted left by `fp_in + fp_k - fp_b = 1`, which gives `A = 128` and the stored value
`narrow(shift(128, -1)) = 64`; `giga_dense_` returns `GIGA_Success` and stores -64, since
`shift<int8_t>(64, 1)` is converted to `int8_t` (-128) before it reaches the accumulator. -/
theorem dense_bias_shift_truncates :
    (giga_dense_ 32 dense_params dense_in dense_out dense_store).map
        (fun r => (r.1, load_int ⟨8, true⟩ r.2 (elem_addr dense_out (idx_of [0, 0]))))
      = some (GIGA_Success, -64) ∧
    dense_claimed 32 ⟨8, true⟩ ⟨8, true⟩ ⟨8, true⟩ dense_params dense_in dense_out dense_store
      0 0 = 64 := by
  refine ⟨by decide, by decide⟩

/-- C4 (witness): a fresh `UFixed8` tensor of dims (1,2,2) upsampled into a fresh one of dims
(1,4,4). -/
theorem upsample_copies_nearest_witness :
    (giga_upsample_ ⟨2⟩ up_in up_out store_1_to_8).1 = GIGA_Success ∧
    ∀ idx : Nat → Nat, (∀ i, i < up_in.nb_dims → idx i < up_out.dims i) →
      load_bytes (giga_upsample_ ⟨2⟩ up_in up_out store_1_to_8).2 (elem_addr up_out idx)
          (sizeof_CType up_in.type)
        = load_bytes store_1_to_8
          (elem_addr up_in (fun i => if i + 2 < up_in.nb_dims then idx i else idx i / 2))
          (sizeof_CType up_in.type) :=
  upsample_copies_nearest ⟨2⟩ up_in up_out store_1_to_8 rfl (by decide)
    (by unfold Contiguous RowMajor; decide) (by unfold Contiguous RowMajor; decide)
    (by decide) (by decide)
    (fun i hi => by
      have h3 : up_in.nb_dims = 3 := by decide
      have h0 : i = 0 := by omega
      subst h0
      decide)
    (by decide) (by decide)
    (separate_of_bounds _ _ (by decide))

/-! ## The zone collection -/

theorem scan_digit (acc : Nat × List Nat) (d : Nat) (hd : d < 10) :
    zone_scan_step acc (digit_char d) = ((acc.1 * 10 + d) % 2 ^ 64, acc.2) := by
  unfold zone_scan_step digit_char
  interval_cases d <;>
    rw [if_neg (by decide), if_neg (by decide), if_neg (by decide), if_neg (by decide),
      if_pos (by decide)] <;> rfl

theorem scan_semicolon (acc : Nat × List Nat) :
    zone_scan_step acc ';' = (0, acc.2 ++ [acc.1]) := by
  unfold zone_scan_step
  rw [if_pos rfl]

theorem scan_unit (v : Nat) (zs : List Nat) (u : ZoneUnit) (h : v * u.factor < 2 ^ 64) :
    u.chars.foldl zone_scan_step (v, zs) = (v * u.factor, zs) := by
  cases u
  · simp [ZoneUnit.chars, ZoneUnit.factor]
  · have e : zone_scan_step (v, zs) 'K' = ((v * 1024) % 2 ^ 64, zs) := by
      unfold zone_scan_step
      rw [if_neg (by decide), if_neg (by decide), if_neg (by decide), if_pos (by decide)]
    simp only [ZoneUnit.chars, List.foldl, e]
    simp only [ZoneUnit.factor] at h ⊢
    rw [Nat.mod_eq_of_lt h]
  · have e : zone_scan_step (v, zs) 'M' = ((v * (1024 * 1024)) % 2 ^ 64, zs) := by
      unfold zone_scan_step
      rw [if_neg (by decide), if_neg (by decide), if_pos (by decide)]
    simp only [ZoneUnit.chars, List.foldl, e]
    simp only [ZoneUnit.factor] at h ⊢
    norm_num at h ⊢
    omega
  · have e : zone_scan_step (v, zs) 'G' = ((v * (1024 * 1024 * 1024)) % 2 ^ 64, zs) := by
      unfold zone_scan_step
      rw [if_neg (by decide), if_pos (by decide)]
    simp only [ZoneUnit.chars, List.foldl, e]
    simp only [ZoneUnit.factor] at h ⊢
    norm_num at h ⊢
    omega

theorem decimal_value_snoc (ds : List Nat) (d : Nat) :
    decimal_value (ds ++ [d]) = decimal_value ds * 10 + d := by
  simp [decimal_value, List.foldl_append]

theorem scan_digits (ds : List Nat) (hd : ∀ d ∈ ds, d < 10) (h : decimal_value ds < 2 ^ 64)
    (zs : List Nat) :
    (ds.map digit_char).foldl zone_scan_step (0, zs) = (decimal_value ds, zs) := by
  induction ds using List.reverseRecOn with
  | nil => rfl
  | append_singleton ds d ih =>
    have hv := decimal_value_snoc ds d
    have hlt : decimal_value ds < 2 ^ 64 := by omega
    rw [List.map_append, List.foldl_append, ih (fun x hx => hd x (by simp [hx])) hlt]
    simp only [List.map, List.foldl]
    rw [scan_digit _ d (hd d (by simp)), hv, Nat.mod_eq_of_lt (by omega)]

theorem scan_zone (e : List Nat × ZoneUnit) (hd : ∀ d ∈ e.1, d < 10)
    (h : claimed_zone_size e < 2 ^ 64) (zs : List Nat) :
    (render_zone e).foldl zone_scan_step (0, zs) = (claimed_zone_size e, zs) := by
  unfold render_zone claimed_zone_size at *
  have hf : 0 < e.2.factor := by cases e.2 <;> simp [ZoneUnit.factor]
  have hlt : decimal_value e.1 < 2 ^ 64 :=
    lt_of_le_of_lt (Nat.le_mul_of_pos_right _ hf) h
  rw [List.foldl_append, scan_digits e.1 hd hlt, scan_unit _ _ _ h]

theorem scan_other (acc : Nat × List Nat) (c : Char) (hc : c ≠ ';') :
    (zone_scan_step acc c).2 = acc.2 := by
  unfold zone_scan_step
  rw [if_neg hc]
  split_ifs <;> rfl

theorem scan_length (cfg : List Char) :
    ∀ (acc : Nat × List Nat) (n : Nat), acc.2.length + 1 = n →
      (cfg.foldl zone_scan_step acc).2.length + 1
        = cfg.foldl (fun n c => n + (if c = ';' then 1 else 0)) n := by
  induction cfg with
  | nil => exact fun _ _ h => h
  | cons c cs ih =>
    intro acc n h
    simp only [List.foldl]
    apply ih
    by_cases hc : c = ';'
    · subst hc
      rw [scan_semicolon, if_pos rfl]
      simp only [List.length_append, List.length_singleton]
      omega
    · rw [scan_other acc c hc, if_neg hc]
      omega

theorem zone_sizes_eq (cfg : List Char) :
    zone_sizes cfg = (cfg.foldl zone_scan_step (0, [])).2 ++ [(cfg.foldl zone_scan_step (0, [])).1] := by
  have h := scan_length cfg (0, []) 1 rfl
  unfold zone_sizes count_zones
  simp only []
  rw [if_pos (Or.inr (by omega))]

theorem scan_config : ∀ (es : List (List Nat × ZoneUnit)), es ≠ [] →
    (∀ e ∈ es, (∀ d ∈ e.1, d < 10) ∧ claimed_zone_size e < 2 ^ 64) →
    ∀ zs : List Nat,
      ((render_config es).foldl zone_scan_step (0, zs)).2
          ++ [((render_config es).foldl zone_scan_step (0, zs)).1]
        = zs ++ es.map claimed_zone_size
  | [], h, _, _ => absurd rfl h
  | [e], _, he, zs => by
    obtain ⟨h1, h2⟩ := he e (by simp)
    simp only [render_config, scan_zone e h1 h2, List.map]
  | e :: e2 :: es, _, he, zs => by
    obtain ⟨h1, h2⟩ := he e (by simp)
    have ih := scan_config (e2 :: es) (by simp) (fun x hx => he x (by simp [hx]))
      (zs ++ [claimed_zone_size e])
    simp only [render_config, List.foldl_append, List.foldl_cons, scan_zone e h1 h2,
      scan_semicolon] at ih ⊢
    rw [ih]
    simp

/-- C12: for a configuration `n1[u1];…;nk[uk]`, `k ≥ 1`, every `ni` a string of decimal digits and
every `ui` one of K, M, G or absent, with `ni · m(ui)` representable in `size_t`,
`GetMemoryZoneCollection` builds exactly the `k` zones of `ni · m(ui)` bytes in that order; without
configuration it builds one zone of `128 · 1024²` bytes. -/
theorem zone_collection_of_config (es : List (List Nat × ZoneUnit)) (hne : es ≠ [])
    (hes : ∀ e ∈ es, (∀ d ∈ e.1, d < 10) ∧ claimed_zone_size e < 2 ^ 64)
    (ptrs : Nat → Nat) :
    (GetMemoryZoneCollection (some (String.mk (render_config es))) ptrs).map MemoryPool.size
        = es.map claimed_zone_size ∧
      (GetMemoryZoneCollection none ptrs).map MemoryPool.size = [128 * 1024 ^ 2] := by
  constructor
  · unfold GetMemoryZoneCollection
    simp only [Option.getD_some, List.map_map]
    rw [zone_sizes_eq, scan_config es hne hes []]
    have hf : (MemoryPool.size ∘ fun z : Nat × Nat => (⟨0, ptrs z.1, z.2⟩ : MemoryPool))
        = Prod.snd := rfl
    rw [hf, List.enum_map_snd, List.nil_append]
  · rfl

/-- C12 (witness): the configuration `64K;1;2G` gives zones of 65536, 1 and 2147483648 bytes. -/
theorem zone_collection_of_config_witness :
    render_config [([6, 4], ZoneUnit.K), ([1], ZoneUnit.absent), ([2], ZoneUnit.G)]
        = [ '6', '4', 'K', ';', '1', ';', '2', 'G'] ∧
      (GetMemoryZoneCollection
        (some (String.mk
          (render_config [([6, 4], ZoneUnit.K), ([1], ZoneUnit.absent), ([2], ZoneUnit.G)])))
        (fun i => 4096 * i)).map MemoryPool.size
      = [65536, 1, 2147483648] :=
  ⟨by decide,
    (zone_collection_of_config [([6, 4], ZoneUnit.K), ([1], ZoneUnit.absent), ([2], ZoneUnit.G)]
      (by decide) (by decide) (fun i => 4096 * i)).1⟩

/-! ## The allocator and the history of calls -/

theorem bump_geometry (l : List MemoryPool) :
    ∀ z, (bump_nb_tensors l z).map (fun p => (p.ptr, p.size)) = l.map (fun p => (p.ptr, p.size)) := by
  induction l with
  | nil => intro z; rfl
  | cons p ps ih =>
    intro z
    cases z with
    | zero => rfl
    | succ z => simp only [bump_nb_tensors, List.map_cons, ih z]

theorem drop_geometry (l : List MemoryPool) :
    ∀ z, (drop_nb_tensors l z).map (fun p => (p.ptr, p.size)) = l.map (fun p => (p.ptr, p.size)) := by
  induction l with
  | nil => intro z; rfl
  | cons p ps ih =>
    intro z
    cases z with
    | zero => rfl
    | succ z => simp only [drop_nb_tensors, List.map_cons, ih z]

theorem allocate_geometry (st : GigaState) (t : GIGA_tensor_t) (p : GIGA_allocate_t) :
    zone_geometry (giga_allocate_tensor_ st t p).2.2 = zone_geometry st := by
  unfold giga_allocate_tensor_
  split_ifs with h1
  · rfl
  · cases hz : st.s_memory_zones[p.memory_zone_id]? with
    | none => rfl
    | some pool =>
      simp only []
      split_ifs
      · rfl
      · exact bump_geometry _ _

theorem release_geometry (st : GigaState) (t : GIGA_tensor_t) :
    zone_geometry (giga_release_tensor_ st t).2 = zone_geometry st := by
  unfold giga_release_tensor_
  split_ifs
  · rfl
  · cases t.data with
    | none => rfl
    | some d =>
      simp only []
      split_ifs
      · rfl
      · rfl
      · cases hz : st.s_memory_zones[d.memory_zone_id]? with
        | none => rfl
        | some zone =>
          simp only []
          split_ifs
          · exact drop_geometry _ _
          · rfl

theorem view_geometry (st : GigaState) (p : GIGA_view_t) (i o : GIGA_tensor_t) :
    zone_geometry (giga_view_ st p i o).2.2 = zone_geometry st := by
  unfold giga_view_
  split_ifs
  · rfl
  · rfl
  · rfl
  · rfl
  · cases i.data with
    | none => rfl
    | some d => exact bump_geometry _ _

theorem history_geometry (ops : List MemOp) :
    ∀ st, zone_geometry (run_history st ops) = zone_geometry st := by
  induction ops with
  | nil => intro st; rfl
  | cons op ops ih =>
    intro st
    unfold run_history at ih ⊢
    rw [List.foldl_cons, ih]
    cases op with
    | allocate t p => exact allocate_geometry st t p
    | release t => exact release_geometry st t
    | view p i o => exact view_geometry st p i o

theorem allocate_of_geometry (st1 st2 : GigaState) (h : zone_geometry st1 = zone_geometry st2)
    (t : GIGA_tensor_t) (p : GIGA_allocate_t) :
    (giga_allocate_tensor_ st1 t p).1 = (giga_allocate_tensor_ st2 t p).1 ∧
    (giga_allocate_tensor_ st1 t p).2.1.strides = (giga_allocate_tensor_ st2 t p).2.1.strides ∧
    get_ptr (giga_allocate_tensor_ st1 t p).2.1 = get_ptr (giga_allocate_tensor_ st2 t p).2.1 := by
  have hz : (st1.s_memory_zones[p.memory_zone_id]?).map (fun p => (p.ptr, p.size))
      = (st2.s_memory_zones[p.memory_zone_id]?).map (fun p => (p.ptr, p.size)) := by
    unfold zone_geometry at h
    rw [← List.getElem?_map, ← List.getElem?_map, h]
  unfold giga_allocate_tensor_
  split_ifs with h1
  · exact ⟨rfl, rfl, rfl⟩
  · cases hz1 : st1.s_memory_zones[p.memory_zone_id]? with
    | none =>
      cases hz2 : st2.s_memory_zones[p.memory_zone_id]? with
      | none => exact ⟨rfl, rfl, rfl⟩
      | some q => rw [hz1, hz2] at hz; simp at hz
    | some q1 =>
      cases hz2 : st2.s_memory_zones[p.memory_zone_id]? with
      | none => rw [hz1, hz2] at hz; simp at hz
      | some q2 =>
        rw [hz1, hz2] at hz
        simp only [Option.map_some', Option.some.injEq, Prod.mk.injEq] at hz
        obtain ⟨hp, hs⟩ := hz
        simp only [hp, hs]
        split_ifs
        · exact ⟨rfl, rfl, rfl⟩
        · exact ⟨rfl, rfl, rfl⟩

theorem allocate_base (st : GigaState) (t : GIGA_tensor_t) (p : GIGA_allocate_t)
    (h : (giga_allocate_tensor_ st t p).1 = GIGA_Success) :
    ∃ zone, st.s_memory_zones[p.memory_zone_id]? = some zone ∧
      get_ptr (giga_allocate_tensor_ st t p).2.1 = zone.ptr + p.offset := by
  unfold giga_allocate_tensor_ at h ⊢
  split_ifs at h ⊢ with h1
  cases hz : st.s_memory_zones[p.memory_zone_id]? with
  | none => rw [hz] at h; simp at h
  | some zone =>
    rw [hz] at h
    simp only [] at h ⊢
    split_ifs at h ⊢ with h2
    exact ⟨zone, rfl, rfl⟩

/-- C13: the error code of `giga_allocate_tensor_`, the strides it stores and the base address it
assigns are the same after any history of allocations, views and releases as before it; on
success the base is the zone's base plus the offset, so that two allocations at the same zone and
offset share their storage. -/
theorem allocation_ignores_history (st : GigaState) (ops : List MemOp) (tensor : GIGA_tensor_t)
    (params : GIGA_allocate_t) :
    (giga_allocate_tensor_ (run_history st ops) tensor params).1
      = (giga_allocate_tensor_ st tensor params).1 ∧
    (giga_allocate_tensor_ (run_history st ops) tensor params).2.1.strides
      = (giga_allocate_tensor_ st tensor params).2.1.strides ∧
    get_ptr (giga_allocate_tensor_ (run_history st ops) tensor params).2.1
      = get_ptr (giga_allocate_tensor_ st tensor params).2.1 ∧
    ((giga_allocate_tensor_ st tensor params).1 = GIGA_Success →
      ∃ zone, st.s_memory_zones[params.memory_zone_id]? = some zone ∧
        get_ptr (giga_allocate_tensor_ st tensor params).2.1 = zone.ptr + params.offset) :=
  ⟨(allocate_of_geometry _ _ (history_geometry ops st) tensor params).1,
    (allocate_of_geometry _ _ (history_geometry ops st) tensor params).2.1,
    (allocate_of_geometry _ _ (history_geometry ops st) tensor params).2.2,
    allocate_base st tensor params⟩

/-- C13 (witness): after an allocation at offset 0 of zone 0, a view and a release, a second
allocation at offset 0 of zone 0 succeeds and has the base 4096 of the first. -/
theorem allocation_ignores_history_witness :
    (giga_allocate_tensor_ (run_history (default_state 4096) history_three_calls)
        (mk_descriptor 3 GIGA_Float32 [2, 5, 5] 0) (in_zone0 0)).1 = GIGA_Success ∧
    get_ptr (giga_allocate_tensor_ (run_history (default_state 4096) history_three_calls)
        (mk_descriptor 3 GIGA_Float32 [2, 5, 5] 0) (in_zone0 0)).2.1 = get_ptr parent_2x4 ∧
    ∃ zone, (default_state 4096).s_memory_zones[(in_zone0 0).memory_zone_id]? = some zone ∧
      get_ptr (giga_allocate_tensor_ (default_state 4096)
        (mk_descriptor 3 GIGA_Float32 [2, 5, 5] 0) (in_zone0 0)).2.1
        = zone.ptr + (in_zone0 0).offset :=
  ⟨(allocation_ignores_history (default_state 4096) history_three_calls
      (mk_descriptor 3 GIGA_Float32 [2, 5, 5] 0) (in_zone0 0)).1.trans (by decide),
    (allocation_ignores_history (default_state 4096) history_three_calls
      (mk_descriptor 3 GIGA_Float32 [2, 5, 5] 0) (in_zone0 0)).2.2.1.trans (by decide),
    (allocation_ignores_history (default_state 4096) history_three_calls
      (mk_descriptor 3 GIGA_Float32 [2, 5, 5] 0) (in_zone0 0)).2.2.2 (by decide)⟩

/-! ## Mapped tensors, views out of range, reshape -/

/-- C14 (failing input): `giga_map_tensor_` succeeds on the input and sets `is_mapped`; with the
mapped descriptor as input, `giga_add_`, `giga_conv2d_`, `giga_dense_` and `giga_upsample_` all
return `GIGA_Success`, not `GIGA_Process_Mapped_Tensor`. -/
theorem mapped_input_is_processed :
    (giga_map_tensor_ add_a 1).1 = GIGA_Success ∧
    (giga_map_tensor_ add_a 1).2.1.data.map Tensor_data_t.is_mapped = some true ∧
    (giga_add_ 32 (giga_map_tensor_ add_a 1).2.1 add_b add_out store_1_to_8).map Prod.fst
      = some GIGA_Success ∧
    (giga_conv2d_ 32 conv_params (giga_map_tensor_ conv_in 1).2.1 conv_out conv_store).map
      Prod.fst = some GIGA_Success ∧
    (giga_dense_ 32 dense_params (giga_map_tensor_ dense_in 1).2.1 dense_out dense_store).map
      Prod.fst = some GIGA_Success ∧
    (giga_upsample_ ⟨2⟩ (giga_map_tensor_ up_in 1).2.1 up_out store_1_to_8).1
      = GIGA_Success := by
  decide

/-- C15 (failing input): the view of dims (2,2) at offsets (0,3) of the (2,4) tensor `parent_2x4`
does not fit on axis 1 (`3 + 2 > 4`); `giga_view_` returns `GIGA_Success` and the view starts at
4099. -/
theorem view_out_of_range_accepted :
    (giga_view_ (default_state 4096) ⟨idx_of [0, 3]⟩ parent_2x4
      (mk_descriptor 2 GIGA_UFixed8 [2, 2] 0)).1 = GIGA_Success ∧
    idx_of [0, 3] 1 + (mk_descriptor 2 GIGA_UFixed8 [2, 2] 0).dims 1 > parent_2x4.dims 1 ∧
    get_ptr (giga_view_ (default_state 4096) ⟨idx_of [0, 3]⟩ parent_2x4
      (mk_descriptor 2 GIGA_UFixed8 [2, 2] 0)).2.1 = 4099 := by
  decide

/-- C16 (failing input): the 3x4x5 tensor `holed_3x4x5` has the strides 30, 6, 1; reshaped to a
pre-allocated 5x3x4 tensor, `giga_reshape_` returns `GIGA_Success`. -/
theorem reshape_bridges_stride_hole :
    [holed_3x4x5.dims 0, holed_3x4x5.dims 1, holed_3x4x5.dims 2] = [3, 4, 5] ∧
    [holed_3x4x5.strides 0, holed_3x4x5.strides 1, holed_3x4x5.strides 2] = [30, 6, 1] ∧
    (giga_reshape_ holed_3x4x5 (fresh 3 GIGA_UFixed8 [5, 3, 4] 0 0)).1 = GIGA_Success := by
  decide

/-- C17 (failing input): with a live (2,5,5) `Float32` input and a (2,25) `Float32` output
descriptor that was not pre-allocated, `giga_reshape_` returns `GIGA_Unknown_tensor` and leaves
the output undeclared. -/
theorem reshape_rejects_fresh_output :
    check_tensor_exists (fresh 3 GIGA_Float32 [2, 5, 5] 0 0) = true ∧
    (giga_reshape_ (fresh 3 GIGA_Float32 [2, 5, 5] 0 0)
      (mk_descriptor 2 GIGA_Float32 [2, 25] 0)).1 = GIGA_Unknown_tensor ∧
    check_tensor_exists (giga_reshape_ (fresh 3 GIGA_Float32 [2, 5, 5] 0 0)
      (mk_descriptor 2 GIGA_Float32 [2, 25] 0)).2 = false := by
  decide

/-- C20 (failing input): rank-1 `SFixed8` input (3) and output (2) whose entries `dims[1..3]` are
0, kernel (2,3), no bias: `giga_dense_` returns `GIGA_Inconsistent_Tensor_Sizes`, it compares the
kernel with `dims[1]` of both tensors. -/
theorem dense_rank1_rejected :
    [dense1_in.nb_dims, dense1_out.nb_dims, dense1_in.dims 0, dense1_out.dims 0,
      dense1_kernel.dims 0, dense1_kernel.dims 1] = [1, 1, 3, 2, 2, 3] ∧
    (giga_dense_ 32 dense1_params dense1_in dense1_out dense_store).map Prod.fst
      = some GIGA_Inconsistent_Tensor_Sizes ∧
    giga_dense_status dense1_params dense1_in dense1_out = GIGA_Inconsistent_Tensor_Sizes := by
  decide

/-! ## Error codes and dispatch of conv2d, dense and upsample -/

theorem conv2d_impl_status (w : Nat) (i_T o_T k_T : CIntType) (params : GIGA_conv2d_t)
    (inT out : GIGA_tensor_t) (m : Mem) :
    (_conv2d_impl w i_T o_T k_T params inT out m).1
      = (conv2d_checks params inT out).getD GIGA_Success := by
  unfold _conv2d_impl conv2d_checks
  conv => zeta
  by_cases h1 : inT.nb_dims ≠ out.nb_dims
  · rw [if_pos h1, if_pos h1]; rfl
  rw [if_neg h1, if_neg h1]
  by_cases h2 : inT.nb_dims < 2
  · rw [if_pos h2, if_pos h2]; rfl
  rw [if_neg h2, if_neg h2]
  by_cases h3 : inT.nb_dims = 4 ∧ inT.dims 0 ≠ out.dims 0
  · rw [if_pos h3, if_pos h3]; rfl
  rw [if_neg h3, if_neg h3]
  by_cases h4 : params.kernel.nb_dims ≠ 4
  · rw [if_pos h4, if_pos h4]; rfl
  rw [if_neg h4, if_neg h4]
  by_cases h5 : params.kernel.dims 0 ≠ (if out.nb_dims = 2 then 1 else out.dims (out.nb_dims - 3))
  · rw [if_pos h5, if_pos h5]; rfl
  rw [if_neg h5, if_neg h5]
  by_cases h6 : params.kernel.dims 1 ≠ (if inT.nb_dims = 2 then 1 else inT.dims (inT.nb_dims - 3))
  · rw [if_pos h6, if_pos h6]; rfl
  rw [if_neg h6, if_neg h6]
  by_cases h7 : params.kernel.dims 2 ≠ 3
  · rw [if_pos h7, if_pos h7]; rfl
  rw [if_neg h7, if_neg h7]
  by_cases h8 : params.kernel.dims 3 ≠ 3
  · rw [if_pos h8, if_pos h8]; rfl
  rw [if_neg h8, if_neg h8]
  by_cases h9 : params.stride 0 > 2 ∨ params.stride 0 < 1
  · rw [if_pos h9, if_pos h9]; rfl
  rw [if_neg h9, if_neg h9]
  by_cases h10 : params.stride 1 > 2 ∨ params.stride 1 < 1
  · rw [if_pos h10, if_pos h10]; rfl
  rw [if_neg h10, if_neg h10]
  by_cases h11 : params.dilation 0 ≠ 1 ∨ params.dilation 1 ≠ 1
  · rw [if_pos h11, if_pos h11]; rfl
  rw [if_neg h11, if_neg h11]
  have fin : ∀ c : Option GIGA_error, ∀ r : Mem,
      (match c with
        | some e => (e, m)
        | none =>
          if out.dims (out.nb_dims - 2) ≠ conv2d_out_dim (inT.dims (inT.nb_dims - 2))
              (params.padding 0 0) (params.padding 0 1) (params.stride 0) then (GIGA_Inconsistent_Tensor_Sizes, m)
          else if out.dims (out.nb_dims - 2 + 1) ≠ conv2d_out_dim
              (inT.dims (inT.nb_dims - 2 + 1)) (params.padding 1 0) (params.padding 1 1) (params.stride 1) then
            (GIGA_Inconsistent_Tensor_Sizes, m)
          else (GIGA_Success, r)).1
      = (match c with
        | some e => some e
        | none =>
          if out.dims (out.nb_dims - 2) ≠ conv2d_out_dim (inT.dims (inT.nb_dims - 2))
              (params.padding 0 0) (params.padding 0 1) (params.stride 0) then some GIGA_Inconsistent_Tensor_Sizes
          else if out.dims (out.nb_dims - 2 + 1) ≠ conv2d_out_dim
              (inT.dims (inT.nb_dims - 2 + 1)) (params.padding 1 0) (params.padding 1 1) (params.stride 1) then
            some GIGA_Inconsistent_Tensor_Sizes
          else none).getD GIGA_Success := by
    intro c r
    cases c with
    | some e => rfl
    | none =>
      simp only []
      split_ifs <;> rfl
  exact fin _ _

theorem giga_conv2d_status_eq (w : Nat) (params : GIGA_conv2d_t) (inT out : GIGA_tensor_t)
    (m : Mem) (r : GIGA_error × Mem) (h : giga_conv2d_ w params inT out m = some r) :
    r.1 = giga_conv2d_status params inT out := by
  unfold giga_conv2d_ at h
  unfold giga_conv2d_status
  split_ifs at h ⊢ with h1
  · cases h; rfl
  · cases hi : fixed_CType inT.type <;> cases ho : fixed_CType out.type <;>
      cases hk : fixed_CType params.kernel.type <;> simp only [hi, ho, hk] at h <;>
      first
        | (injection h with h2; subst h2; exact conv2d_impl_status _ _ _ _ _ _ _ _)
        | (cases hc : conv2d_checks params inT out with
           | none => rw [hc] at h; exact Option.noConfusion h
           | some e =>
             rw [hc] at h
             injection h with h2
             subst h2
             rfl)

theorem dense_impl_status (w : Nat) (i_T o_T k_T : CIntType) (params : GIGA_dense_t)
    (inT out : GIGA_tensor_t) (m : Mem) :
    (_dense_impl w i_T o_T k_T params inT out m).1
      = (dense_checks params inT out).getD GIGA_Success := by
  unfold _dense_impl dense_checks
  conv => zeta
  by_cases h1 : inT.nb_dims > 2
  · rw [if_pos h1, if_pos h1]; rfl
  rw [if_neg h1, if_neg h1]
  by_cases h2 : inT.nb_dims = 2 ∧ inT.dims 0 ≠ out.dims 0
  · rw [if_pos h2, if_pos h2]; rfl
  rw [if_neg h2, if_neg h2]
  by_cases h4 : params.kernel.nb_dims ≠ 2
  · rw [if_pos h4, if_pos h4]; rfl
  rw [if_neg h4, if_neg h4]
  by_cases h5 : params.kernel.dims 0 ≠ out.dims 1
  · rw [if_pos h5, if_pos h5]; rfl
  rw [if_neg h5, if_neg h5]
  by_cases h6 : params.kernel.dims 1 ≠ inT.dims 1
  · rw [if_pos h6, if_pos h6]; rfl
  rw [if_neg h6, if_neg h6]
  have fin : ∀ c : Option GIGA_error, ∀ r : Mem,
      (match c with
        | some e => (e, m)
        | none => (GIGA_Success, r)).1 = c.getD GIGA_Success := by
    intro c r
    cases c <;> rfl
  exact fin _ _

theorem giga_dense_status_eq (w : Nat) (params : GIGA_dense_t) (inT out : GIGA_tensor_t)
    (m : Mem) (r : GIGA_error × Mem) (h : giga_dense_ w params inT out m = some r) :
    r.1 = giga_dense_status params inT out := by
  unfold giga_dense_ at h
  unfold giga_dense_status
  split_ifs at h ⊢ with h1
  · cases h; rfl
  · cases hi : fixed_CType inT.type <;> cases ho : fixed_CType out.type <;>
      cases hk : fixed_CType params.kernel.type <;> simp only [hi, ho, hk] at h <;>
      first
        | (injection h with h2; subst h2; exact dense_impl_status _ _ _ _ _ _ _ _)
        | (cases hc : dense_checks params inT out with
           | none => rw [hc] at h; exact Option.noConfusion h
           | some e =>
             rw [hc] at h
             injection h with h2
             subst h2
             rfl)

theorem conv2d_out_dim_eq (dim : Nat) (pad_lo pad_hi : Int) (stride : Nat)
    (h3 : 3 ≤ (dim : Int) + pad_lo + pad_hi) (hlt : (dim : Int) + pad_lo + pad_hi - 3 < 2 ^ 32 - 1) :
    ((conv2d_out_dim dim pad_lo pad_hi stride : Nat) : Int)
      = ((dim : Int) + pad_lo + pad_hi - 3) / (stride : Int) + 1 := by
  unfold conv2d_out_dim u32
  have e1 : ((dim : Int) + pad_lo + pad_hi - 2 - 1) % 2 ^ 32 = (dim : Int) + pad_lo + pad_hi - 3 := by
    rw [Int.emod_eq_of_lt (by omega) (by omega)]
    ring
  rw [e1]
  obtain ⟨q, hq⟩ : ∃ q : Nat, (dim : Int) + pad_lo + pad_hi - 3 = (q : Int) :=
    ⟨((dim : Int) + pad_lo + pad_hi - 3).toNat, (Int.toNat_of_nonneg (by omega)).symm⟩
  rw [hq] at hlt ⊢
  rw [Int.toNat_ofNat]
  have hq2 : q < 2 ^ 32 - 1 := by omega
  have hd : q / stride ≤ q := Nat.div_le_self _ _
  rw [Nat.mod_eq_of_lt (by omega)]
  push_cast
  rfl

theorem bias_check_conv_pass (kernel bias : GIGA_tensor_t) (nb_out : Nat)
    (he : check_tensor_exists bias = true) (ht : bias.type = kernel.type)
    (hr : bias.nb_dims = 1 ∨ (bias.nb_dims = 2 ∧ bias.dims 0 = 1))
    (hd : bias.dims (bias.nb_dims - 1) = nb_out) :
    bias_check true kernel bias nb_out = none := by
  unfold bias_check u32
  rcases hr with h | ⟨h, h0⟩
  · rw [h] at hd
    simp [he, ht, h, hd]
  · rw [h] at hd
    simp [he, ht, h, h0, hd]

theorem bias_check_conv_rank (kernel bias : GIGA_tensor_t) (nb_out : Nat)
    (hr : ¬ (bias.nb_dims = 1 ∨ (bias.nb_dims = 2 ∧ bias.dims 0 = 1))) :
    bias_check true kernel bias nb_out = some GIGA_Incorrect_Parameter := by
  unfold bias_check
  simp only [if_true]
  split_ifs <;> rfl

theorem bias_check_dense_rank (kernel bias : GIGA_tensor_t) (nb_out : Nat)
    (hr : bias.nb_dims ≠ 1) :
    bias_check false kernel bias nb_out = some GIGA_Incorrect_Parameter := by
  unfold bias_check
  simp only [Bool.false_eq_true, if_false]
  split_ifs <;> rfl

theorem conv2d_checks_tail (params : GIGA_conv2d_t) (inT out : GIGA_tensor_t)
    (hr : inT.nb_dims = out.nb_dims) (hr2 : 2 ≤ inT.nb_dims)
    (hN : inT.nb_dims = 4 → inT.dims 0 = out.dims 0)
    (hrk : params.kernel.nb_dims = 4)
    (hk0 : params.kernel.dims 0 = dimC out) (hk1 : params.kernel.dims 1 = dimC inT)
    (hk2 : params.kernel.dims 2 = 3) (hk3 : params.kernel.dims 3 = 3) :
    conv2d_checks params inT out =
      if params.stride 0 > 2 ∨ params.stride 0 < 1 then some GIGA_Incorrect_Parameter
      else if params.stride 1 > 2 ∨ params.stride 1 < 1 then some GIGA_Incorrect_Parameter
      else if params.dilation 0 ≠ 1 ∨ params.dilation 1 ≠ 1 then some GIGA_Incorrect_Parameter
      else
        match (match params.bias with
               | some bias => bias_check true params.kernel bias (dimC out)
               | none => none) with
        | some e => some e
        | none =>
          if out.dims (out.nb_dims - 2) ≠ conv2d_out_dim (inT.dims (inT.nb_dims - 2))
              (params.padding 0 0) (params.padding 0 1) (params.stride 0) then
            some GIGA_Inconsistent_Tensor_Sizes
          else if out.dims (out.nb_dims - 1) ≠ conv2d_out_dim (inT.dims (inT.nb_dims - 1))
              (params.padding 1 0) (params.padding 1 1) (params.stride 1) then
            some GIGA_Inconsistent_Tensor_Sizes
          else none := by
  have e1 : out.nb_dims - 2 + 1 = out.nb_dims - 1 := by omega
  have e2 : inT.nb_dims - 2 + 1 = inT.nb_dims - 1 := by omega
  unfold dimC at hk0 hk1 ⊢
  unfold conv2d_checks
  conv => lhs; zeta
  rw [if_neg (by omega), if_neg (by omega), if_neg (fun h => h.2 (hN h.1)),
    if_neg (by omega), if_neg (fun h => h hk0), if_neg (fun h => h hk1), if_neg (by omega),
    if_neg (by omega)]
  simp only [e1, e2]

theorem conv2d_status_tail (params : GIGA_conv2d_t) (inT out : GIGA_tensor_t)
    (hei : check_tensor_exists inT = true) (heo : check_tensor_exists out = true)
    (hek : check_tensor_exists params.kernel = true) :
    giga_conv2d_status params inT out = (conv2d_checks params inT out).getD GIGA_Success := by
  unfold giga_conv2d_status
  simp [hei, heo, hek]


/-- C11 (amended): for a call of `giga_conv2d_` that passes every other check (tensors declared,
equal ranks of at least 2, equal batch, kernel (C_out, C_in, 3, 3), strides 1 or 2, dilation 1,
bias well-formed) and whose padded input sizes are at least 3 and fit 32 bits, the call succeeds
exactly when `H_out = (H + pad_h_lo + pad_h_hi - 3) / stride_h + 1` and
`W_out = (W + pad_w_lo + pad_w_hi - 3) / stride_w + 1`, and returns
`GIGA_Inconsistent_Tensor_Sizes` otherwise. -/
theorem conv2d_shape_law (params : GIGA_conv2d_t) (inT out : GIGA_tensor_t)
    (hei : check_tensor_exists inT = true) (heo : check_tensor_exists out = true)
    (hek : check_tensor_exists params.kernel = true)
    (hr : inT.nb_dims = out.nb_dims) (hr2 : 2 ≤ inT.nb_dims)
    (hN : inT.nb_dims = 4 → inT.dims 0 = out.dims 0)
    (hrk : params.kernel.nb_dims = 4)
    (hk0 : params.kernel.dims 0 = dimC out) (hk1 : params.kernel.dims 1 = dimC inT)
    (hk2 : params.kernel.dims 2 = 3) (hk3 : params.kernel.dims 3 = 3)
    (hs0 : params.stride 0 = 1 ∨ params.stride 0 = 2)
    (hs1 : params.stride 1 = 1 ∨ params.stride 1 = 2)
    (hd0 : params.dilation 0 = 1) (hd1 : params.dilation 1 = 1)
    (hb : ∀ b, params.bias = some b →
      check_tensor_exists b = true ∧ b.type = params.kernel.type ∧
        (b.nb_dims = 1 ∨ (b.nb_dims = 2 ∧ b.dims 0 = 1)) ∧ b.dims (b.nb_dims - 1) = dimC out)
    (hH3 : 3 ≤ (dimH inT : Int) + params.padding 0 0 + params.padding 0 1)
    (hHlt : (dimH inT : Int) + params.padding 0 0 + params.padding 0 1 - 3 < 2 ^ 32 - 1)
    (hW3 : 3 ≤ (dimW inT : Int) + params.padding 1 0 + params.padding 1 1)
    (hWlt : (dimW inT : Int) + params.padding 1 0 + params.padding 1 1 - 3 < 2 ^ 32 - 1) :
    (giga_conv2d_status params inT out = GIGA_Success ↔
      ((dimH out : Int)
          = ((dimH inT : Int) + params.padding 0 0 + params.padding 0 1 - 3)
              / (params.stride 0 : Int) + 1 ∧
        (dimW out : Int)
          = ((dimW inT : Int) + params.padding 1 0 + params.padding 1 1 - 3)
              / (params.stride 1 : Int) + 1)) ∧
    (giga_conv2d_status params inT out ≠ GIGA_Success →
      giga_conv2d_status params inT out = GIGA_Inconsistent_Tensor_Sizes) := by
  have hbm : (match params.bias with
      | some bias => bias_check true params.kernel bias (dimC out)
      | none => none) = none := by
    cases hpb : params.bias with
    | none => rfl
    | some b =>
      obtain ⟨b1, b2, b3, b4⟩ := hb b hpb
      exact bias_check_conv_pass _ _ _ b1 b2 b3 b4
  have hH := conv2d_out_dim_eq (dimH inT) _ _ (params.stride 0) hH3 hHlt
  have hW := conv2d_out_dim_eq (dimW inT) _ _ (params.stride 1) hW3 hWlt
  rw [conv2d_status_tail params inT out hei heo hek,
    conv2d_checks_tail params inT out hr hr2 hN hrk hk0 hk1 hk2 hk3,
    if_neg (by omega), if_neg (by omega), if_neg (by omega), hbm, ← hH, ← hW]
  unfold dimH dimW
  simp only [Nat.cast_inj]
  by_cases c1 : out.dims (out.nb_dims - 2) = conv2d_out_dim (inT.dims (inT.nb_dims - 2))
      (params.padding 0 0) (params.padding 0 1) (params.stride 0)
  · by_cases c2 : out.dims (out.nb_dims - 1) = conv2d_out_dim (inT.dims (inT.nb_dims - 1))
        (params.padding 1 0) (params.padding 1 1) (params.stride 1)
    · simp [c1, c2]
    · simp [c1, c2]
  · simp [c1]

/-- C18: with declared tensors whose ranks, batch and kernel dims pass the checks, the error code
of `giga_conv2d_` is `GIGA_Incorrect_Parameter` when a stride is not 1 or 2, a dilation is not 1,
or the bias has a rank other than 1 or 2 with `dims[0] = 1`; that of `giga_dense_` is
`GIGA_Incorrect_Parameter` when the bias has a rank other than 1; and `giga_upsample_` returns
`GIGA_Incorrect_Parameter` whenever `factor ≠ 2`. -/
theorem out_of_domain_parameters :
    (∀ (params : GIGA_conv2d_t) (inT out : GIGA_tensor_t),
      check_tensor_exists inT = true → check_tensor_exists out = true →
      check_tensor_exists params.kernel = true →
      inT.nb_dims = out.nb_dims → 2 ≤ inT.nb_dims →
      (inT.nb_dims = 4 → inT.dims 0 = out.dims 0) →
      params.kernel.nb_dims = 4 →
      params.kernel.dims 0 = dimC out → params.kernel.dims 1 = dimC inT →
      params.kernel.dims 2 = 3 → params.kernel.dims 3 = 3 →
      ((¬ (params.stride 0 = 1 ∨ params.stride 0 = 2) ∨
          ¬ (params.stride 1 = 1 ∨ params.stride 1 = 2) ∨
          params.dilation 0 ≠ 1 ∨ params.dilation 1 ≠ 1 ∨
          ∃ b, params.bias = some b ∧
            ¬ (b.nb_dims = 1 ∨ (b.nb_dims = 2 ∧ b.dims 0 = 1))) →
        giga_conv2d_status params inT out = GIGA_Incorrect_Parameter)) ∧
    (∀ (params : GIGA_dense_t) (inT out : GIGA_tensor_t),
      check_tensor_exists inT = true → check_tensor_exists out = true →
      check_tensor_exists params.kernel = true →
      inT.nb_dims ≤ 2 → (inT.nb_dims = 2 → inT.dims 0 = out.dims 0) →
      params.kernel.nb_dims = 2 →
      params.kernel.dims 0 = out.dims 1 → params.kernel.dims 1 = inT.dims 1 →
      (∃ b, params.bias = some b ∧ b.nb_dims ≠ 1) →
        giga_dense_status params inT out = GIGA_Incorrect_Parameter) ∧
    (∀ (params : GIGA_upsample_t) (inT out : GIGA_tensor_t) (m : Mem),
      check_tensor_exists inT = true → check_tensor_exists out = true →
      params.factor ≠ 2 →
        (giga_upsample_ params inT out m).1 = GIGA_Incorrect_Parameter) := by
  refine ⟨?_, ?_, ?_⟩
  · intro params inT out hei heo hek hr hr2 hN hrk hk0 hk1 hk2 hk3 hbad
    rw [conv2d_status_tail params inT out hei heo hek,
      conv2d_checks_tail params inT out hr hr2 hN hrk hk0 hk1 hk2 hk3]
    by_cases c1 : params.stride 0 > 2 ∨ params.stride 0 < 1
    · rw [if_pos c1]; rfl
    rw [if_neg c1]
    by_cases c2 : params.stride 1 > 2 ∨ params.stride 1 < 1
    · rw [if_pos c2]; rfl
    rw [if_neg c2]
    by_cases c3 : params.dilation 0 ≠ 1 ∨ params.dilation 1 ≠ 1
    · rw [if_pos c3]; rfl
    rw [if_neg c3]
    rcases hbad with h | h | h | h | ⟨b, hb, hrank⟩
    · exact absurd (by omega) h
    · exact absurd (by omega) h
    · exact absurd (Or.inl h) c3
    · exact absurd (Or.inr h) c3
    · rw [hb]
      simp only [bias_check_conv_rank params.kernel b (dimC out) hrank]
      rfl
  · intro params inT out hei heo hek hr hN hrk hk0 hk1 ⟨b, hb, hrank⟩
    unfold giga_dense_status dense_checks
    conv => lhs; zeta
    simp only [hei, heo, hek, Bool.not_true, Bool.or_self, Bool.false_eq_true, if_false]
    rw [if_neg (by omega), if_neg (fun h => h.2 (hN h.1)), if_neg (by omega),
      if_neg (fun h => h hk0), if_neg (fun h => h hk1), hb]
    simp only [bias_check_dense_rank params.kernel b (out.dims 1) hrank]
    rfl
  · intro params inT out m hei heo hf
    unfold giga_upsample_ _giga_upsample_impl
    simp only [hei, heo, Bool.not_true, Bool.or_self, Bool.false_eq_true, if_false]
    rw [if_pos hf]

/-- C19 (amended): for every triple (in, out, kernel) of 8- or 16-bit fixed-point kinds, the
dispatch of the reference build selects a kernel; the dispatch of the `ENABLE_OPTIMIZATION` build
selects one exactly when the three kinds have the same width and `in` signed implies `out` signed
implies `kernel` signed, that is for (S,S,S), (U,U,U), (U,U,S) and (U,S,S). -/
theorem dispatch_table (in_type out_type kernel_type : GIGA_data_type)
    (hi : is_fixed_8_16 in_type = true) (ho : is_fixed_8_16 out_type = true)
    (hk : is_fixed_8_16 kernel_type = true) :
    conv_dense_dispatch false in_type out_type kernel_type = true ∧
    (conv_dense_dispatch true in_type out_type kernel_type = true ↔
      (element_size_in_bits in_type = element_size_in_bits out_type ∧
        element_size_in_bits out_type = element_size_in_bits kernel_type ∧
        (is_signed in_type = true → is_signed out_type = true) ∧
        (is_signed out_type = true → is_signed kernel_type = true))) := by
  revert hi ho hk
  cases in_type <;> cases out_type <;> cases kernel_type <;> decide

/-- C11 (counterexample): the 3x3 input with padding 1 and stride 1 and the 3x3 output pass every
check and `giga_conv2d_` returns `GIGA_Success`, although the law
`(H + pad_h_lo + pad_h_hi - 2) / stride_h + 1` gives 4; the 4x4 output that obeys this law is
refused with `GIGA_Inconsistent_Tensor_Sizes`. -/
theorem conv2d_claimed_shape_law_refuted :
    (giga_conv2d_ 32 conv_params conv_in conv_out conv_store).map Prod.fst
      = some GIGA_Success ∧
    (conv_out.dims 2 : Int) ≠ claimed_out_dim (conv_in.dims 2) (conv_params.padding 0 0)
      (conv_params.padding 0 1) (conv_params.stride 0) ∧
    claimed_out_dim (conv_in.dims 2) (conv_params.padding 0 0) (conv_params.padding 0 1)
      (conv_params.stride 0) = 4 ∧
    giga_conv2d_status conv_params conv_in (fresh 4 GIGA_SFixed16 [1, 1, 4, 4] 0 48)
      = GIGA_Inconsistent_Tensor_Sizes := by
  decide

/-- C11 (witness): the 3x3 input with padding 1 and stride 1 and the 3x3 output. -/
theorem conv2d_shape_law_witness :
    giga_conv2d_status conv_params conv_in conv_out = GIGA_Success :=
  (conv2d_shape_law conv_params conv_in conv_out (by decide) (by decide) (by decide)
    (by decide) (by decide) (by decide) (by decide) (by decide) (by decide) (by decide)
    (by decide) (by decide) (by decide) (by decide) (by decide)
    (fun b h => by
      have hb : conv_bias = b := Option.some.inj h
      subst hb
      decide)
    (by decide) (by decide) (by decide) (by decide)).1.2 ⟨by decide, by decide⟩

/-- C18 (witness): stride 3 for conv2d, a rank-2 bias for dense, factor 3 for upsample. -/
theorem out_of_domain_parameters_witness :
    giga_conv2d_status conv_params_stride3 conv_in conv_out = GIGA_Incorrect_Parameter ∧
    giga_dense_status dense_params_bias_2d dense_in dense_out = GIGA_Incorrect_Parameter ∧
    (giga_upsample_ ⟨3⟩ up_in up_out store_1_to_8).1 = GIGA_Incorrect_Parameter :=
  ⟨out_of_domain_parameters.1 conv_params_stride3 conv_in conv_out (by decide) (by decide)
      (by decide) (by decide) (by decide) (by decide) (by decide) (by decide) (by decide)
      (by decide) (by decide) (Or.inl (by decide)),
    out_of_domain_parameters.2.1 dense_params_bias_2d dense_in dense_out (by decide)
      (by decide) (by decide) (by decide) (by decide) (by decide) (by decide) (by decide)
      ⟨dense_in, rfl, by decide⟩,
    out_of_domain_parameters.2.2 ⟨3⟩ up_in up_out store_1_to_8 (by decide) (by decide)
      (by decide)⟩

/-- C19 (counterexample): the triple (SFixed8, SFixed8, SFixed8) is selected by both dispatch
tables, and `giga_dense_` runs on it, although `is_signed(out)` is not
`is_signed(in) XOR is_signed(kernel)`. -/
theorem dispatch_xor_rule_refuted :
    is_fixed_8_16 GIGA_SFixed8 = true ∧
    conv_dense_dispatch true GIGA_SFixed8 GIGA_SFixed8 GIGA_SFixed8 = true ∧
    conv_dense_dispatch false GIGA_SFixed8 GIGA_SFixed8 GIGA_SFixed8 = true ∧
    is_signed GIGA_SFixed8 ≠ xor (is_signed GIGA_SFixed8) (is_signed GIGA_SFixed8) ∧
    [dense_in.type, dense_out.type, dense_params.kernel.type]
      = [GIGA_SFixed8, GIGA_SFixed8, GIGA_SFixed8] ∧
    (giga_dense_ 32 dense_params dense_in dense_out dense_store).map Prod.fst
      = some GIGA_Success := by
  decide

/-- C19 (witness): the triple (UFixed8, SFixed8, SFixed8). -/
theorem dispatch_table_witness :
    conv_dense_dispatch false GIGA_UFixed8 GIGA_SFixed8 GIGA_SFixed8 = true ∧
    (conv_dense_dispatch true GIGA_UFixed8 GIGA_SFixed8 GIGA_SFixed8 = true ↔
      (element_size_in_bits GIGA_UFixed8 = element_size_in_bits GIGA_SFixed8 ∧
        element_size_in_bits GIGA_SFixed8 = element_size_in_bits GIGA_SFixed8 ∧
        (is_signed GIGA_UFixed8 = true → is_signed GIGA_SFixed8 = true) ∧
        (is_signed GIGA_SFixed8 = true → is_signed GIGA_SFixed8 = true))) :=
  dispatch_table GIGA_UFixed8 GIGA_SFixed8 GIGA_SFixed8 (by decide) (by decide) (by decide)

/-! ## Commutativity of the addition -/

theorem add_dims_loop_comm (a b out : GIGA_tensor_t) (n : Nat) :
    forLoop n
      (fun i acc =>
        match acc with
        | none => none
        | some n =>
          if a.dims i ≠ b.dims i ∨ a.dims i ≠ out.dims i then none
          else some ((n * out.dims i) % 2 ^ 32))
      (some 1)
    = forLoop n
      (fun i (acc : Option Nat) =>
        match acc with
        | none => none
        | some n =>
          if b.dims i ≠ a.dims i ∨ b.dims i ≠ out.dims i then none
          else some ((n * out.dims i) % 2 ^ 32))
      (some 1) := by
  apply forLoop_congr
  intro i _ acc
  cases acc with
  | none => rfl
  | some k =>
    simp only []
    by_cases h1 : a.dims i = b.dims i
    · by_cases h2 : a.dims i = out.dims i
      · rw [if_neg (fun h => h.elim (fun g => g h1) (fun g => g h2)),
          if_neg (fun h => h.elim (fun g => g h1.symm) (fun g => g (h1.symm.trans h2)))]
      · rw [if_pos (Or.inr h2), if_pos (Or.inr (fun h => h2 (h1.trans h)))]
    · rw [if_pos (Or.inl h1), if_pos (Or.inl (fun h => h1 h.symm))]

theorem add_loop_comm (w : Nat) (a_T b_T o_T : CIntType) (ashift bshift : Int)
    (a_base b_base out_base n : Nat) (m : Mem) :
    add_loop w a_T b_T o_T ashift bshift a_base b_base out_base n m
      = add_loop w b_T a_T o_T bshift ashift b_base a_base out_base n m := by
  unfold add_loop
  apply forLoop_congr
  intro i _ mem
  rw [Int.add_comm]

/-- The integer instantiations: `giga_add_` on (a, b, out) and on (b, a, out) return the same code
and the same store. -/
theorem add_fixed_commutative (w : Nat) (a b out : GIGA_tensor_t) (m : Mem) :
    giga_add_ w a b out m = giga_add_ w b a out m := by
  unfold giga_add_
  have hex : (!check_tensor_exists a || !check_tensor_exists b || !check_tensor_exists out)
      = (!check_tensor_exists b || !check_tensor_exists a || !check_tensor_exists out) := by
    cases check_tensor_exists a <;> cases check_tensor_exists b <;> rfl
  rw [hex]
  split_ifs
  · rfl
  · have himpl : ∀ a_T b_T o_T, _add_impl w a_T b_T o_T a b out m
        = _add_impl w b_T a_T o_T b a out m := by
      intro a_T b_T o_T
      unfold _add_impl
      by_cases hr : a.nb_dims = b.nb_dims ∧ a.nb_dims = out.nb_dims
      · obtain ⟨h1, h2⟩ := hr
        have hl : add_dims_loop a b out = add_dims_loop b a out := by
          unfold add_dims_loop
          rw [← h1]
          exact add_dims_loop_comm a b out a.nb_dims
        simp only []
        rw [if_neg (fun h => h.elim (fun g => g h1) (fun g => g h2)),
          if_neg (fun h => h.elim (fun g => g h1.symm) (fun g => g (h1.symm.trans h2))), hl]
        cases add_dims_loop b a out with
        | none => rfl
        | some k =>
          simp only []
          rw [add_loop_comm]
      · simp only []
        rw [if_pos (by omega), if_pos (by omega)]
    cases fixed_CType a.type <;> cases fixed_CType b.type <;> cases fixed_CType out.type <;>
      simp only [himpl]

/-! ## Allocation failure -/

/-- C27 (failing input): the request of a (2,4) `UFixed8` tensor at offset 134217728 of the default
zone of 134217728 bytes returns `GIGA_Out_Of_Device_Memory`; the descriptor had strides (0,0) and
a NULL handle before the call, after it the strides are (4,1) and the handle is not NULL. -/
theorem alloc_failure_leaves_state :
    (giga_allocate_tensor_ (default_state 4096) (mk_descriptor 2 GIGA_UFixed8 [2, 4] 0)
      (in_zone0 134217728)).1 = GIGA_Out_Of_Device_Memory ∧
    [(mk_descriptor 2 GIGA_UFixed8 [2, 4] 0).strides 0,
      (mk_descriptor 2 GIGA_UFixed8 [2, 4] 0).strides 1] = [0, 0] ∧
    [(giga_allocate_tensor_ (default_state 4096) (mk_descriptor 2 GIGA_UFixed8 [2, 4] 0)
        (in_zone0 134217728)).2.1.strides 0,
      (giga_allocate_tensor_ (default_state 4096) (mk_descriptor 2 GIGA_UFixed8 [2, 4] 0)
        (in_zone0 134217728)).2.1.strides 1] = [4, 1] ∧
    (mk_descriptor 2 GIGA_UFixed8 [2, 4] 0).data.isSome = false ∧
    (giga_allocate_tensor_ (default_state 4096) (mk_descriptor 2 GIGA_UFixed8 [2, 4] 0)
      (in_zone0 134217728)).2.1.data.isSome = true := by
  decide

/-! ## The shift primitive and the integer cast -/

theorem promote_wide (w : Nat) (hw : 32 ≤ w) (sg : Bool) : promote ⟨w, sg⟩ = ⟨w, sg⟩ := by
  unfold promote
  simp only []
  rw [if_neg (by omega)]

theorem ediv_pow_range (v : Int) (n : Nat) (B : Int) (h1 : -B ≤ v) (h2 : v < B) :
    -B ≤ v / 2 ^ n ∧ v / 2 ^ n < B := by
  have hp : (0 : Int) < 2 ^ n := by positivity
  have hp1 : (1 : Int) ≤ 2 ^ n := by omega
  have hB : 0 < B := by omega
  constructor
  · rw [Int.le_ediv_iff_mul_le hp]
    nlinarith
  · rw [Int.ediv_lt_iff_lt_mul hp]
    nlinarith

/-- C28: for a value `v` of the signed `w`-bit accumulator type, `w ≥ 32`, and `|s| < 32`:
`shift(v, 0) = v`; for `s > 0`, `shift(v, s) = v · 2^s` for both signs of `v` whenever `v · 2^s`
is representable; for `s < 0`, `shift(v, s) = floor(v / 2^(−s))`. -/
theorem shift_laws (w : Nat) (hw : 32 ≤ w) (v s : Int)
    (hv : -(2 ^ (w - 1)) ≤ v ∧ v < 2 ^ (w - 1)) (hs : -32 < s ∧ s < 32) :
    shift ⟨w, true⟩ v 0 = v ∧
    (0 < s → -(2 ^ (w - 1)) ≤ v * 2 ^ s.toNat → v * 2 ^ s.toNat < 2 ^ (w - 1) →
      shift ⟨w, true⟩ v s = v * 2 ^ s.toNat) ∧
    (s < 0 → shift ⟨w, true⟩ v s = ⌊(v : ℚ) / 2 ^ (-s).toNat⌋) := by
  obtain ⟨hv1, hv2⟩ := hv
  have hp := promote_wide w hw true
  refine ⟨?_, ?_, ?_⟩
  · unfold shift
    simp only [hp, wrap_signed]
    rw [if_neg (by omega)]
    simp only [neg_zero, Int.toNat_zero, pow_zero, Int.ediv_one]
    exact wrapS_of_range w v (by omega) hv1 hv2
  · intro h0 h1 h2
    unfold shift
    simp only [hp, wrap_signed]
    rw [if_pos h0]
    have key : ∀ X : Int, X ≡ v * 2 ^ s.toNat [ZMOD 2 ^ w] → wrapS w X = v * 2 ^ s.toNat :=
      fun X hX => (wrapS_congr w _ _ hX).trans (wrapS_of_range w _ (by omega) h1 h2)
    split_ifs with hneg
    · apply key
      refine (wrapS_modEq w _).trans ?_
      have e1 : wrapS w (wrapS w (-v) * 2 ^ s.toNat) ≡ -v * 2 ^ s.toNat [ZMOD 2 ^ w] :=
        (wrapS_modEq w _).trans (Int.ModEq.mul_right _ (wrapS_modEq w _))
      have e2 := Int.ModEq.neg e1
      simpa using e2
    · apply key
      exact wrapS_modEq w _
  · intro h0
    unfold shift
    simp only [hp, wrap_signed]
    rw [if_neg (by omega)]
    obtain ⟨r1, r2⟩ := ediv_pow_range v (-s).toNat _ hv1 hv2
    rw [wrapS_of_range w _ (by omega) r1 r2]
    have := Rat.floor_intCast_div_natCast v (2 ^ (-s).toNat)
    push_cast at this
    exact this.symm

/-- C28 (witness): the value -5 shifted by 0, by 3 and by -1. -/
theorem shift_laws_witness :
    shift ⟨32, true⟩ (-5) 0 = -5 ∧
    shift ⟨32, true⟩ (-5) 3 = -5 * 2 ^ (3 : Int).toNat ∧
    shift ⟨32, true⟩ (-5) (-1) = ⌊((-5 : Int) : ℚ) / 2 ^ (-(-1 : Int)).toNat⌋ :=
  ⟨(shift_laws 32 (by decide) (-5) 3 (by decide) (by decide)).1,
    (shift_laws 32 (by decide) (-5) 3 (by decide) (by decide)).2.1 (by decide) (by decide)
      (by decide),
    (shift_laws 32 (by decide) (-5) (-1) (by decide) (by decide)).2.2 (by decide)⟩

theorem wrap_congr (T : CIntType) (a b : Int) (h : a ≡ b [ZMOD 2 ^ T.bits]) :
    T.wrap a = T.wrap b := by
  unfold CIntType.wrap
  split_ifs
  · exact wrapS_congr _ _ _ h
  · exact h

theorem modEq_of_pow_le (a b : Int) (k n : Nat) (hk : k ≤ n) (h : a ≡ b [ZMOD 2 ^ n]) :
    a ≡ b [ZMOD 2 ^ k] :=
  Int.ModEq.of_dvd (pow_dvd_pow 2 hk) h

/-- The 32-bit shift of `cast_to`, modulo `2 ^ 16`. -/
theorem shift32_modEq (sg : Bool) (x delta : Int) (hx : -(2 ^ 15) ≤ x ∧ x < 2 ^ 16)
    (hd : -16 < delta ∧ delta < 16) :
    shift ⟨32, sg⟩ (CIntType.wrap ⟨32, sg⟩ x) delta
      ≡ (if 0 ≤ delta then x * 2 ^ delta.toNat else x / 2 ^ (-delta).toNat) [ZMOD 2 ^ 16] := by
  obtain ⟨hx1, hx2⟩ := hx
  have hp := promote_wide 32 (le_refl _) sg
  cases sg with
  | true =>
    have hw : CIntType.wrap ⟨32, true⟩ x = x := by
      rw [wrap_signed]
      exact wrapS_of_range 32 x (by decide) (by norm_num; omega) (by norm_num; omega)
    rw [hw]
    unfold shift
    simp only [hp, wrap_signed]
    by_cases h0 : delta > 0
    · rw [if_pos h0, if_pos (le_of_lt h0)]
      apply modEq_of_pow_le _ _ 16 32 (by decide)
      split_ifs with hneg
      · refine (wrapS_modEq 32 _).trans ((wrapS_modEq 32 _).trans ?_)
        have e1 : wrapS 32 (wrapS 32 (-x) * 2 ^ delta.toNat) ≡ -x * 2 ^ delta.toNat
            [ZMOD 2 ^ 32] :=
          (wrapS_modEq 32 _).trans (Int.ModEq.mul_right _ (wrapS_modEq 32 _))
        simpa using Int.ModEq.neg e1
      · exact (wrapS_modEq 32 _).trans (wrapS_modEq 32 _)
    · rw [if_neg h0]
      apply modEq_of_pow_le _ _ 16 32 (by decide)
      refine (wrapS_modEq 32 _).trans ?_
      by_cases hz : 0 ≤ delta
      · have : delta = 0 := by omega
        subst this
        simp
      · rw [if_neg hz]
  | false =>
    unfold shift
    simp only [hp, CIntType.wrap, Bool.false_eq_true, if_false]
    have hnn : ¬ (x % 2 ^ 32 < 0) := not_lt.mpr (Int.emod_nonneg _ (by norm_num))
    by_cases h0 : delta > 0
    · rw [if_pos h0, if_pos (le_of_lt h0), if_neg hnn]
      apply modEq_of_pow_le _ _ 16 32 (by decide)
      refine (Int.mod_modEq _ _).trans ((Int.mod_modEq _ _).trans ?_)
      exact Int.ModEq.mul_right _ (Int.mod_modEq _ _)
    · rw [if_neg h0]
      have hn : (-delta).toNat < 16 := by omega
      have key : (x % 2 ^ 32) / 2 ^ (-delta).toNat ≡ x / 2 ^ (-delta).toNat [ZMOD 2 ^ 16] := by
        by_cases hxn : x < 0
        · have e : x % 2 ^ 32 = x + 2 ^ 32 := by
            rw [Int.emod_eq_add_self_emod]
            exact Int.emod_eq_of_lt (by norm_num; omega) (by norm_num; omega)
          rw [e]
          have e2 : (2 : Int) ^ 32 = 2 ^ (-delta).toNat * (2 ^ 16 * 2 ^ (16 - (-delta).toNat)) := by
            rw [← pow_add, ← pow_add]
            congr 1
            omega
          rw [e2, Int.add_mul_ediv_left _ _ (by positivity)]
          have : x / 2 ^ (-delta).toNat + 2 ^ 16 * 2 ^ (16 - (-delta).toNat)
              ≡ x / 2 ^ (-delta).toNat + 0 [ZMOD 2 ^ 16] :=
            Int.ModEq.add_left _ ((Int.modEq_zero_iff_dvd).mpr (Dvd.intro _ rfl))
          simpa using this
        · rw [Int.emod_eq_of_lt (by omega) (by norm_num; omega)]
      have houter : ((x % 2 ^ 32) / 2 ^ (-delta).toNat) % 2 ^ 32
          ≡ (x % 2 ^ 32) / 2 ^ (-delta).toNat [ZMOD 2 ^ 16] :=
        modEq_of_pow_le _ _ 16 32 (by decide) (Int.mod_modEq _ _)
      by_cases hz : 0 ≤ delta
      · have : delta = 0 := by omega
        subst this
        simp only [neg_zero, Int.toNat_zero, pow_zero, Int.ediv_one, le_refl, if_true,
          mul_one] at houter key ⊢
        exact houter.trans key
      · rw [if_neg hz]
        exact houter.trans key


theorem scaled_eq (x delta : Int) :
    scaled x delta = if 0 ≤ delta then x * 2 ^ delta.toNat else x / 2 ^ (-delta).toNat := by
  unfold scaled
  split_ifs
  · rfl
  · have := Rat.floor_intCast_div_natCast x (2 ^ (-delta).toNat)
    push_cast at this
    exact this

/-- C30: for source and destination kinds among SFixed8, SFixed16, UFixed8 and UFixed16, a value
`x` of the source type and `|Δ| < 16`, `cast_to<dst>(x, Δ)` is `x · 2^Δ` (`Δ ≥ 0`) or
`floor(x / 2^(−Δ))` (`Δ < 0`) reduced modulo `2^bits(dst)` into the range of the destination. -/
theorem cast_to_scales (src_kind dst_kind : GIGA_data_type) (S T : CIntType)
    (hS : fixed_CType src_kind = some S) (hT : fixed_CType dst_kind = some T)
    (x delta : Int) (hx : S.wrap x = x) (hd : -16 < delta ∧ delta < 16) :
    cast_to T x delta = T.wrap (scaled x delta) := by
  obtain ⟨cS, _, _⟩ := fixed_CType_cases _ _ hS
  obtain ⟨cT, _, _⟩ := fixed_CType_cases _ _ hT
  have hxr : -(2 ^ 15) ≤ x ∧ x < 2 ^ 16 := by
    rcases cS with h | h | h | h <;> subst h <;>
      simp only [CIntType.wrap, wrapS, Bool.false_eq_true, if_false, if_true] at hx <;>
      norm_num at hx <;> omega
  have hb : T.bits ≤ 16 := by
    rcases cT with h | h | h | h <;> subst h <;> decide
  unfold cast_to
  simp only []
  rw [scaled_eq]
  exact wrap_congr T _ _ (modEq_of_pow_le _ _ _ 16 hb (shift32_modEq T.signed x delta hxr hd))

/-- C30 (witness): the `SFixed16` value -300 cast to `UFixed8` with `Δ = -2`. -/
theorem cast_to_scales_witness :
    cast_to ⟨8, false⟩ (-300) (-2) = CIntType.wrap ⟨8, false⟩ (scaled (-300) (-2)) :=
  cast_to_scales GIGA_SFixed16 GIGA_UFixed8 ⟨16, true⟩ ⟨8, false⟩ rfl rfl (-300) (-2)
    (by decide) (by decide)

/-! ## Conv2d without padding -/

theorem conv2d_checks_shape (params : GIGA_conv2d_t) (inT out : GIGA_tensor_t)
    (hr : inT.nb_dims = out.nb_dims) (hr2 : 2 ≤ inT.nb_dims)
    (hN : inT.nb_dims = 4 → inT.dims 0 = out.dims 0)
    (hrk : params.kernel.nb_dims = 4)
    (hk0 : params.kernel.dims 0 = dimC out) (hk1 : params.kernel.dims 1 = dimC inT)
    (hk2 : params.kernel.dims 2 = 3) (hk3 : params.kernel.dims 3 = 3)
    (hs0 : params.stride 0 = 1 ∨ params.stride 0 = 2)
    (hs1 : params.stride 1 = 1 ∨ params.stride 1 = 2)
    (hd0 : params.dilation 0 = 1) (hd1 : params.dilation 1 = 1)
    (hb : ∀ b, params.bias = some b →
      check_tensor_exists b = true ∧ b.type = params.kernel.type ∧
        (b.nb_dims = 1 ∨ (b.nb_dims = 2 ∧ b.dims 0 = 1)) ∧ b.dims (b.nb_dims - 1) = dimC out) :
    conv2d_checks params inT out =
      if out.dims (out.nb_dims - 2) ≠ conv2d_out_dim (inT.dims (inT.nb_dims - 2))
          (params.padding 0 0) (params.padding 0 1) (params.stride 0) then
        some GIGA_Inconsistent_Tensor_Sizes
      else if out.dims (out.nb_dims - 1) ≠ conv2d_out_dim (inT.dims (inT.nb_dims - 1))
          (params.padding 1 0) (params.padding 1 1) (params.stride 1) then
        some GIGA_Inconsistent_Tensor_Sizes
      else none := by
  rw [conv2d_checks_tail params inT out hr hr2 hN hrk hk0 hk1 hk2 hk3,
    if_neg (by omega), if_neg (by omega), if_neg (by omega)]
  cases hpb : params.bias with
  | none => rfl
  | some b =>
    obtain ⟨b1, b2, b3, b4⟩ := hb b hpb
    simp only [bias_check_conv_pass _ _ _ b1 b2 b3 b4]

/-- C26: with the four paddings 0 and both strides 1, for declared tensors that pass the other
checks and an input with `3 ≤ H, W < 2^32`, `giga_conv2d_` returns `GIGA_Success` when
`H_out = H − 2` and `W_out = W − 2`, and `GIGA_Inconsistent_Tensor_Sizes` for any other output
`H` or `W`. -/
theorem conv2d_no_padding_shape (params : GIGA_conv2d_t) (inT out : GIGA_tensor_t)
    (hei : check_tensor_exists inT = true) (heo : check_tensor_exists out = true)
    (hek : check_tensor_exists params.kernel = true)
    (hr : inT.nb_dims = out.nb_dims) (hr2 : 2 ≤ inT.nb_dims)
    (hN : inT.nb_dims = 4 → inT.dims 0 = out.dims 0)
    (hrk : params.kernel.nb_dims = 4)
    (hk0 : params.kernel.dims 0 = dimC out) (hk1 : params.kernel.dims 1 = dimC inT)
    (hk2 : params.kernel.dims 2 = 3) (hk3 : params.kernel.dims 3 = 3)
    (hs0 : params.stride 0 = 1) (hs1 : params.stride 1 = 1)
    (hd0 : params.dilation 0 = 1) (hd1 : params.dilation 1 = 1)
    (hb : ∀ b, params.bias = some b →
      check_tensor_exists b = true ∧ b.type = params.kernel.type ∧
        (b.nb_dims = 1 ∨ (b.nb_dims = 2 ∧ b.dims 0 = 1)) ∧ b.dims (b.nb_dims - 1) = dimC out)
    (hp00 : params.padding 0 0 = 0) (hp01 : params.padding 0 1 = 0)
    (hp10 : params.padding 1 0 = 0) (hp11 : params.padding 1 1 = 0)
    (hH : 3 ≤ dimH inT ∧ dimH inT < 2 ^ 32) (hW : 3 ≤ dimW inT ∧ dimW inT < 2 ^ 32) :
    (dimH out = dimH inT - 2 ∧ dimW out = dimW inT - 2 →
      giga_conv2d_status params inT out = GIGA_Success) ∧
    (¬ (dimH out = dimH inT - 2 ∧ dimW out = dimW inT - 2) →
      giga_conv2d_status params inT out = GIGA_Inconsistent_Tensor_Sizes) := by
  have hdim : ∀ d : Nat, 3 ≤ d → d < 2 ^ 32 → conv2d_out_dim d 0 0 1 = d - 2 := by
    intro d h3 hlt
    have h := conv2d_out_dim_eq d 0 0 1 (by omega) (by omega)
    simp only [add_zero, Nat.cast_one, Int.ediv_one] at h
    omega
  rw [conv2d_status_tail params inT out hei heo hek,
    conv2d_checks_shape params inT out hr hr2 hN hrk hk0 hk1 hk2 hk3 (Or.inl hs0) (Or.inl hs1)
      hd0 hd1 hb, hp00, hp01, hp10, hp11, hs0, hs1]
  unfold dimH at hH ⊢
  unfold dimW at hW ⊢
  rw [hdim _ hH.1 hH.2, hdim _ hW.1 hW.2, ← hr]
  constructor
  · rintro ⟨h1, h2⟩
    rw [if_neg (fun h => h h1), if_neg (fun h => h h2)]
    rfl
  · intro h
    by_cases c1 : out.dims (inT.nb_dims - 2) = inT.dims (inT.nb_dims - 2) - 2
    · rw [if_neg (fun g => g c1), if_pos (fun g => h ⟨c1, g⟩)]
      rfl
    · rw [if_pos c1]
      rfl

/-- C26 (witness): the 3x3 input `conv_in` and a 1x1 output. -/
theorem conv2d_no_padding_shape_witness :
    giga_conv2d_status conv_params_nopad conv_in (fresh 4 GIGA_SFixed16 [1, 1, 1, 1] 0 48)
      = GIGA_Success :=
  (conv2d_no_padding_shape conv_params_nopad conv_in (fresh 4 GIGA_SFixed16 [1, 1, 1, 1] 0 48)
    (by decide) (by decide) (by decide) (by decide) (by decide) (by decide) (by decide)
    (by decide) (by decide) (by decide) (by decide) (by decide) (by decide) (by decide)
    (by decide)
    (fun b h => by
      have hb : conv_bias = b := Option.some.inj h
      subst hb
      decide)
    (by decide) (by decide) (by decide) (by decide) (by decide) (by decide)).1
    ⟨by decide, by decide⟩

/-! ## Conv2d with the identity kernel -/

theorem load_int_wrap_self (T : CIntType)
    (hT : T = ⟨8, true⟩ ∨ T = ⟨16, true⟩ ∨ T = ⟨8, false⟩ ∨ T = ⟨16, false⟩) (m : Mem)
    (a : Nat) : T.wrap (load_int T m a) = load_int T m a := by
  unfold load_int
  have hlt := load_bytes_lt m (T.bits / 8) a
  rcases hT with h | h | h | h <;> subst h <;>
    simp only [CIntType.ofBits, CIntType.wrap, wrapS] at hlt ⊢ <;> norm_num at hlt ⊢ <;>
    (try split_ifs) <;> omega

/-- An accumulator `2 ^ k * v` that fits the compute type, shifted back by `k` bits and narrowed,
gives `v`. -/
theorem unscale (w : Nat) (T : CIntType) (v : Int) (hv1 : -(2 ^ 15) ≤ v)
    (hv2 : v < 2 ^ 16) (hTv : T.wrap v = v) (k : Nat) (hk : k + 17 ≤ w) :
    T.wrap (shift ⟨w, true⟩ (wrapS w (2 ^ k * v)) (-(k : Int))) = v := by
  have hp : (2 : Int) ^ k * 2 ^ 16 ≤ 2 ^ (w - 1) := by
    rw [← pow_add]
    exact_mod_cast Nat.pow_le_pow_right (by decide) (by omega : k + 16 ≤ w - 1)
  have hk0 : (0 : Int) < 2 ^ k := by positivity
  have hk1 : (1 : Int) ≤ 2 ^ k := by omega
  have e1 : wrapS w (2 ^ k * v) = 2 ^ k * v :=
    wrapS_of_range w _ (by omega) (by nlinarith) (by nlinarith)
  have e2 : wrapS w v = v := wrapS_of_range w _ (by omega) (by nlinarith) (by nlinarith)
  rw [e1]
  unfold shift
  simp only []
  rw [if_neg (by omega), wrap_signed, neg_neg, Int.toNat_ofNat,
    Int.mul_ediv_cancel_left _ (ne_of_gt hk0), e2, hTv]

/-- A triple sum over input channel and the 3×3 taps whose terms vanish off the channel `c`. -/
theorem sum_taps (C c : Nat) (hc : c < C) (f : Nat → Nat → Nat → Int) (g : Nat → Nat → Int)
    (hf : ∀ ci, ci < C → ∀ ky, ky < 3 → ∀ kx, kx < 3 →
      f ci ky kx = if ci = c then g ky kx else 0) :
    (Finset.sum (Finset.range C) fun ci =>
      Finset.sum (Finset.range 3) fun ky => Finset.sum (Finset.range 3) fun kx => f ci ky kx)
      = Finset.sum (Finset.range 3) fun ky => Finset.sum (Finset.range 3) fun kx => g ky kx := by
  have h1 : ∀ ci, ci ∈ Finset.range C →
      (Finset.sum (Finset.range 3) fun ky => Finset.sum (Finset.range 3) fun kx => f ci ky kx)
        = if ci = c then
            Finset.sum (Finset.range 3) fun ky => Finset.sum (Finset.range 3) fun kx => g ky kx
          else 0 := by
    intro ci hci
    have hci2 := Finset.mem_range.mp hci
    by_cases h : ci = c
    · rw [if_pos h]
      refine Finset.sum_congr rfl (fun ky hky => Finset.sum_congr rfl (fun kx hkx => ?_))
      rw [hf ci hci2 ky (Finset.mem_range.mp hky) kx (Finset.mem_range.mp hkx), if_pos h]
    · rw [if_neg h]
      refine Finset.sum_eq_zero (fun ky hky => Finset.sum_eq_zero (fun kx hkx => ?_))
      rw [hf ci hci2 ky (Finset.mem_range.mp hky) kx (Finset.mem_range.mp hkx), if_neg h]
  rw [Finset.sum_congr rfl h1, Finset.sum_ite_eq' (Finset.range C) c, if_pos (Finset.mem_range.mpr hc)]

theorem out_dim_same (H : Nat) (h0 : 0 < H) (h1 : H < 2 ^ 31) : conv2d_out_dim H 1 1 1 = H := by
  have h := conv2d_out_dim_eq H 1 1 1 (by omega) (by omega)
  have e : ((H : Int) + 1 + 1 - 3) / ((1 : Nat) : Int) + 1 = (H : Int) := by
    rw [Nat.cast_one, Int.ediv_one]
    ring
  rw [e] at h
  exact_mod_cast h

/-- C24: for contiguous rank-4 `in` and `out` of the same 8- or 16-bit fixed-point kind, of the
same dims (N, C, H, W) with `H, W ≥ 1` and the same `fp_shift`, a kernel (C, C, 3, 3) holding
`2 ^ fp_k` at `[c, c, 1, 1]` and 0 elsewhere, no bias or a bias holding zeros, no ReLU, stride 1,
dilation 1 and padding 1 on the four sides, `giga_conv2d_` returns `GIGA_Success` and every output
element holds the value of the input element of the same index. -/
theorem conv2d_identity_kernel (w : Nat) (T k_T : CIntType) (params : GIGA_conv2d_t)
    (inT out : GIGA_tensor_t) (m : Mem) (hw : 32 ≤ w)
    (hTi : fixed_CType inT.type = some T) (hty : out.type = inT.type)
    (hTk : fixed_CType params.kernel.type = some k_T)
    (hci : Contiguous inT) (hco : Contiguous out) (hck : Contiguous params.kernel)
    (hri : inT.nb_dims = 4) (hro : out.nb_dims = 4) (hrk : params.kernel.nb_dims = 4)
    (hdims : ∀ i, i < 4 → out.dims i = inT.dims i)
    (hfp : out.fp_shift = inT.fp_shift)
    (hH : 0 < inT.dims 2 ∧ inT.dims 2 < 2 ^ 31) (hW : 0 < inT.dims 3 ∧ inT.dims 3 < 2 ^ 31)
    (hk0 : params.kernel.dims 0 = inT.dims 1) (hk1 : params.kernel.dims 1 = inT.dims 1)
    (hk2 : params.kernel.dims 2 = 3) (hk3 : params.kernel.dims 3 = 3)
    (hK : ∀ co, co < inT.dims 1 → ∀ ci, ci < inT.dims 1 → ∀ ky, ky < 3 → ∀ kx, kx < 3 →
      load_int k_T m (elem_addr params.kernel (idx_of [co, ci, ky, kx]))
        = if co = ci ∧ ky = 1 ∧ kx = 1 then 2 ^ params.kernel.fp_shift else 0)
    (hs0 : params.stride 0 = 1) (hs1 : params.stride 1 = 1)
    (hd0 : params.dilation 0 = 1) (hd1 : params.dilation 1 = 1)
    (hpad : ∀ i, i < 2 → ∀ j, j < 2 → params.padding i j = 1)
    (hrelu : params.b_ReLU = false)
    (hb : ∀ b, params.bias = some b →
      Contiguous b ∧ b.type = params.kernel.type ∧ b.nb_dims = 1 ∧ b.dims 0 = inT.dims 1 ∧
        Separate out b ∧ ∀ co, co < inT.dims 1 → load_int k_T m (elem_addr b (idx_of [co])) = 0)
    (hsi : Separate out inT) (hsk : Separate out params.kernel) :
    ∃ m2, giga_conv2d_ w params inT out m = some (GIGA_Success, m2) ∧
      ∀ n, n < inT.dims 0 → ∀ c, c < inT.dims 1 → ∀ y, y < inT.dims 2 → ∀ x, x < inT.dims 3 →
          load_int T m2 (elem_addr out (idx_of [n, c, y, x]))
            = load_int T m (elem_addr inT (idx_of [n, c, y, x])) := by
  have p00 := hpad 0 (by omega) 0 (by omega)
  have p01 := hpad 0 (by omega) 1 (by omega)
  have p10 := hpad 1 (by omega) 0 (by omega)
  have p11 := hpad 1 (by omega) 1 (by omega)
  have d0 := hdims 0 (by omega)
  have d1 := hdims 1 (by omega)
  have d2 := hdims 2 (by omega)
  have d3 := hdims 3 (by omega)
  obtain ⟨cT, _, _⟩ := fixed_CType_cases _ _ hTi
  obtain ⟨cTk, _, _⟩ := fixed_CType_cases _ _ hTk
  obtain ⟨m2, hm2, hval⟩ := conv2d_formula w T T k_T params inT out m hw hTi (hty ▸ hTi) hTk
    hci hco hck hri hro hrk d0 (hk0.trans d1.symm) hk1 hk2 hk3 (Or.inl hs0) (Or.inl hs1) hd0 hd1
    (by rw [p00]; omega) (by rw [p10]; omega) hH.2 hW.2
    (fun b hbb => ⟨(hb b hbb).1, (hb b hbb).2.1, (hb b hbb).2.2.1, (hb b hbb).2.2.2.1.trans d1.symm⟩)
    (by rw [p00, p01, hs0, d2, out_dim_same _ hH.1 hH.2])
    (by rw [p10, p11, hs1, d3, out_dim_same _ hW.1 hW.2])
    hsi hsk (fun b hbb => (hb b hbb).2.2.2.2.1)
  refine ⟨m2, hm2, fun n hn c hc y hy x hx => ?_⟩
  rw [hval n (d0 ▸ hn) c (d1 ▸ hc) y (d2 ▸ hy) x (d3 ▸ hx)]
  have hbias : conv2d_bias_term w k_T params inT m c = 0 := by
    unfold conv2d_bias_term
    cases hpb : params.bias with
    | none => rfl
    | some b =>
      simp only []
      rw [(hb b hpb).2.2.2.2.2 c hc]
      exact shift_zero w hw _
  have hsum : conv2d_sum T k_T params inT m n c y x
      = 2 ^ params.kernel.fp_shift * load_int T m (elem_addr inT (idx_of [n, c, y, x])) := by
    unfold conv2d_sum
    rw [sum_taps (inT.dims 1) c hc _
      (fun ky kx => if ky = 1 ∧ kx = 1 then
        2 ^ params.kernel.fp_shift * load_int T m (elem_addr inT (idx_of [n, c, y, x])) else 0)]
    · simp [Finset.sum_range_succ]
    · intro ci hci ky hky kx hkx
      rw [hK c hc ci hci ky hky kx hkx, hs0, hs1, p00, p10]
      by_cases h1 : ci = c
      · by_cases h2 : ky = 1 ∧ kx = 1
        · obtain ⟨h3, h4⟩ := h2
          subst h1 h3 h4
          have ey : conv2d_in_coord y 1 1 1 = (y : Int) := by unfold conv2d_in_coord; push_cast; ring
          have ex : conv2d_in_coord x 1 1 1 = (x : Int) := by unfold conv2d_in_coord; push_cast; ring
          rw [ey, ex]
          simp only [Int.toNat_ofNat, and_self, if_true]
          rw [if_pos ⟨by omega, by omega, by omega, by omega⟩]
        · have hz : (if c = ci ∧ ky = 1 ∧ kx = 1 then (2 : Int) ^ params.kernel.fp_shift else 0)
              = 0 := if_neg (fun h => h2 h.2)
          rw [if_pos h1, if_neg h2, hz]
          simp
      · have hz : (if c = ci ∧ ky = 1 ∧ kx = 1 then (2 : Int) ^ params.kernel.fp_shift else 0)
            = 0 := if_neg (fun h => h1 h.1.symm)
        rw [if_neg h1, hz]
        simp
  have hk15 : 0 < inT.dims 1 → params.kernel.fp_shift ≤ 15 := by
    intro hpos
    have h1 := hK 0 hpos 0 hpos 1 (by omega) 1 (by omega)
    rw [if_pos ⟨rfl, rfl, rfl⟩] at h1
    have h2 := (load_int_range k_T cTk m (elem_addr params.kernel (idx_of [0, 0, 1, 1]))).2
    rw [h1] at h2
    by_contra hcon
    have h3 : (2 : Int) ^ 16 ≤ 2 ^ params.kernel.fp_shift := by
      exact_mod_cast Nat.pow_le_pow_right (by decide) (by omega : 16 ≤ params.kernel.fp_shift)
    omega
  obtain ⟨r1, r2⟩ := load_int_range T cT m (elem_addr inT (idx_of [n, c, y, x]))
  unfold conv2d_claimed conv2d_A
  rw [hrelu, hbias, hsum, add_zero, hfp]
  simp only [Bool.false_eq_true, false_and, if_false]
  have es : (inT.fp_shift : Int) - (inT.fp_shift : Int) - (params.kernel.fp_shift : Int)
      = -((params.kernel.fp_shift : Nat) : Int) := by ring
  rw [es]
  have h15 := hk15 (by omega)
  exact unscale w T _ r1 r2 (load_int_wrap_self T cT m _) _ (by omega)

/-- C24 (witness): the 3×3 `SFixed8` image 1 to 9 and the kernel of `fp_shift` 2 holding 4 at
its centre. -/
theorem conv2d_identity_kernel_witness :
    ∃ m2, giga_conv2d_ 32 ident_params conv_in (fresh 4 GIGA_SFixed8 [1, 1, 3, 3] 0 48)
        ident_store = some (GIGA_Success, m2) ∧
      ∀ n, n < conv_in.dims 0 → ∀ c, c < conv_in.dims 1 → ∀ y, y < conv_in.dims 2 →
        ∀ x, x < conv_in.dims 3 →
          load_int ⟨8, true⟩ m2
              (elem_addr (fresh 4 GIGA_SFixed8 [1, 1, 3, 3] 0 48) (idx_of [n, c, y, x]))
            = load_int ⟨8, true⟩ ident_store (elem_addr conv_in (idx_of [n, c, y, x])) :=
  conv2d_identity_kernel 32 ⟨8, true⟩ ⟨8, true⟩ ident_params conv_in
    (fresh 4 GIGA_SFixed8 [1, 1, 3, 3] 0 48) ident_store (by decide) rfl rfl rfl
    (by unfold Contiguous RowMajor; decide) (by unfold Contiguous RowMajor; decide)
    (by unfold Contiguous RowMajor; decide)
    (by decide) (by decide) (by decide) (by decide) (by decide) (by decide) (by decide)
    (by decide) (by decide) (by decide) (by decide) (by decide)
    (by decide) (by decide) (by decide) (by decide) (by decide) (by decide)
    (fun b h => Option.noConfusion h)
    (separate_of_bounds _ _ (by decide)) (separate_of_bounds _ _ (by decide))

/-! ## Upsampling then average pooling -/

theorem forLoop_frame (D : Nat → Prop) (n : Nat) (body : Nat → Mem → Mem)
    (hb : ∀ i, i < n → ∀ m a, ¬ D a → body i m a = m a) :
    ∀ m a, ¬ D a → forLoop n body m a = m a := by
  induction n with
  | zero => exact fun m a _ => rfl
  | succ n ih =>
    intro m a ha
    rw [forLoop_succ, hb n (Nat.lt_succ_self n) _ a ha]
    exact ih (fun i hi => hb i (Nat.lt_succ_of_lt hi)) m a ha

/-- The upsample nest writes inside the output only. -/
theorem upsample_loops_frame (sz pi po N C Ho Wo : Nat)
    (oB oC oH oW iB iC iH iW : Nat) (m : Mem)
    (hoff_o : ∀ n, n < N → ∀ c, c < C → ∀ y x,
      n * oB + c * oC + y * oH + x * oW = ((n * C + c) * Ho + y) * Wo + x)
    (hsize : N * C * Ho * Wo < 2 ^ 32) :
    ∀ a, ¬ (po ≤ a ∧ a < po + N * C * Ho * Wo * sz) →
      upsample_loops sz pi po N C Ho Wo oB oC oH oW iB iC iH iW m a = m a := by
  intro a ha
  unfold upsample_loops
  refine forLoop_frame (fun a => po ≤ a ∧ a < po + N * C * Ho * Wo * sz) N _
    (fun n hn => forLoop_frame (fun a => po ≤ a ∧ a < po + N * C * Ho * Wo * sz) C _
      (fun c hc => forLoop_frame (fun a => po ≤ a ∧ a < po + N * C * Ho * Wo * sz) Ho _
        (fun y hy => forLoop_frame (fun a => po ≤ a ∧ a < po + N * C * Ho * Wo * sz) Wo _
          (fun x hx mem b hb => ?_)))) m a ha
  have hk := ravel4_lt n c y x N C Ho Wo hn hc hy hx
  have h2 := Nat.mul_le_mul_right sz (Nat.succ_le_of_lt hk)
  rw [Nat.succ_mul] at h2
  show store_bytes mem (po + ((n * oB + c * oC + y * oH + x * oW) % 2 ^ 32) * sz) sz _ b = mem b
  rw [hoff_o n hn c hc, Nat.mod_eq_of_lt (by omega)]
  exact store_bytes_out _ _ _ _ _ (fun h => hb ⟨by omega, by omega⟩)

/-- Upsampling leaves every byte outside the output tensor as it was. -/
theorem upsample_frame (params : GIGA_upsample_t) (inT out : GIGA_tensor_t) (m : Mem)
    (hes : sizeof_CType inT.type = element_size_in_bits inT.type / 8)
    (hf : params.factor = 2) (hty : inT.type = out.type)
    (hci : Contiguous inT) (hco : Contiguous out)
    (hr : out.nb_dims = inT.nb_dims) (hr2 : 2 ≤ inT.nb_dims)
    (hlead : ∀ i, i + 2 < inT.nb_dims → out.dims i = inT.dims i)
    (hH : out.dims (inT.nb_dims - 2) = 2 * inT.dims (inT.nb_dims - 2))
    (hW : out.dims (inT.nb_dims - 1) = 2 * inT.dims (inT.nb_dims - 1)) :
    ∀ a, ¬ region out a → (giga_upsample_ params inT out m).2 a = m a := by
  obtain ⟨hei, _, hi4, _, _, _⟩ := hci
  obtain ⟨heo, _, _, hrmo, hsize, hdo⟩ := hco
  have hpos : 0 < sizeof_CType inT.type := by cases inT.type <;> decide
  rw [← hty, ← hes] at hrmo hsize
  have heq := giga_upsample_eq params inT out m hf hei heo hr hr2 hlead hH hW
    (hr ▸ hdo (inT.nb_dims - 2) (by omega)) (hr ▸ hdo (inT.nb_dims - 1) (by omega))
  obtain ⟨go1, go2, _, _⟩ := geom4 out _ hpos (hr ▸ hr2) (hr ▸ hi4) hrmo
  have hN : dimN out = dimN inT := by
    unfold dimN
    rw [hr]
    by_cases h4 : inT.nb_dims = 4
    · simp only [h4, if_true]; exact hlead 0 (by omega)
    · simp only [h4, if_false]
  have hC : dimC out = dimC inT := by
    unfold dimC
    rw [hr]
    by_cases h2 : inT.nb_dims = 2
    · simp only [h2, if_true]
    · simp only [h2, if_false]; exact hlead _ (by omega)
  have hHo : dimH out = 2 * dimH inT := by unfold dimH; rw [hr]; exact hH
  have hWo : dimW out = 2 * dimW inT := by unfold dimW; rw [hr]; exact hW
  simp only [hN, hC, hHo, hWo] at go1 go2
  have hsz1 : dimN inT * dimC inT * (2 * dimH inT) * (2 * dimW inT) < 2 ^ 32 := by
    rw [← go1]
    calc prod_from out.dims out.nb_dims 0
        ≤ sizeof_CType inT.type * prod_from out.dims out.nb_dims 0 :=
          Nat.le_mul_of_pos_left _ hpos
      _ < 2 ^ 32 := by omega
  intro a ha
  rw [heq]
  refine upsample_loops_frame _ _ _ _ _ _ _ _ _ _ _ _ _ _ _ m go2 hsz1 a (fun h => ha ?_)
  unfold region
  rw [← hty, ← hes, go1, Nat.mul_comm]
  exact h

theorem out_dim_half (H : Nat) (h0 : 0 < H) (h1 : 2 * H < 2 ^ 31) :
    conv2d_out_dim (2 * H) 0 1 2 = H := by
  have h := conv2d_out_dim_eq (2 * H) 0 1 2 (by push_cast; omega) (by push_cast; omega)
  have e : (((2 * H : Nat) : Int) + 0 + 1 - 3) / ((2 : Nat) : Int) + 1 = (H : Int) := by
    push_cast
    omega
  rw [e] at h
  exact_mod_cast h

/-- The stored integers of a rank-4 fixed-point tensor after upsampling, with the frame. -/
theorem upsample_values4 (T : CIntType) (up : GIGA_upsample_t) (x u : GIGA_tensor_t) (m : Mem)
    (hTx : fixed_CType x.type = some T) (hf : up.factor = 2) (htu : u.type = x.type)
    (hcx : Contiguous x) (hcu : Contiguous u) (hrx : x.nb_dims = 4) (hru : u.nb_dims = 4)
    (hu0 : u.dims 0 = x.dims 0) (hu1 : u.dims 1 = x.dims 1)
    (hu2 : u.dims 2 = 2 * x.dims 2) (hu3 : u.dims 3 = 2 * x.dims 3)
    (hsep : Separate u x) :
    (giga_upsample_ up x u m).1 = GIGA_Success ∧
    (∀ n, n < x.dims 0 → ∀ c, c < x.dims 1 → ∀ y, y < 2 * x.dims 2 → ∀ xx, xx < 2 * x.dims 3 →
      load_int T (giga_upsample_ up x u m).2 (elem_addr u (idx_of [n, c, y, xx]))
        = load_int T m (elem_addr x (idx_of [n, c, y / 2, xx / 2]))) ∧
    (∀ a, ¬ region u a → (giga_upsample_ up x u m).2 a = m a) := by
  have hsz : sizeof_CType x.type = T.bits / 8 ∧
      sizeof_CType x.type = element_size_in_bits x.type / 8 := by
    cases hx : x.type <;> rw [hx] at hTx <;> simp [fixed_CType] at hTx <;> subst hTx <;> decide
  have hlead : ∀ i, i + 2 < x.nb_dims → u.dims i = x.dims i := by
    intro i hi
    rw [hrx] at hi
    have : i = 0 ∨ i = 1 := by omega
    rcases this with h | h <;> subst h
    · exact hu0
    · exact hu1
  have hH : u.dims (x.nb_dims - 2) = 2 * x.dims (x.nb_dims - 2) := by rw [hrx]; exact hu2
  have hW : u.dims (x.nb_dims - 1) = 2 * x.dims (x.nb_dims - 1) := by rw [hrx]; exact hu3
  obtain ⟨h1, h2⟩ := upsample_main up x u m hsz.2 hf htu.symm hcx hcu (hru.trans hrx.symm)
    (by omega) hlead hH hW hsep
  refine ⟨h1, ?_, upsample_frame up x u m hsz.2 hf htu.symm hcx hcu (hru.trans hrx.symm)
    (by omega) hlead hH hW⟩
  intro n hn c hc y hy xx hxx
  have hb : ∀ i, i < x.nb_dims → idx_of [n, c, y, xx] i < u.dims i := by
    intro i hi
    rw [hrx] at hi
    have : i = 0 ∨ i = 1 ∨ i = 2 ∨ i = 3 := by omega
    rcases this with h | h | h | h <;> subst h <;> simp only [idx_of, List.getD_cons_zero,
      List.getD_cons_succ]
    · rw [hu0]; exact hn
    · rw [hu1]; exact hc
    · rw [hu2]; exact hy
    · rw [hu3]; exact hxx
  have h3 := h2 (idx_of [n, c, y, xx]) hb
  have ea : elem_addr x (fun i => if i + 2 < x.nb_dims then idx_of [n, c, y, xx] i
      else idx_of [n, c, y, xx] i / 2) = elem_addr x (idx_of [n, c, y / 2, xx / 2]) := by
    unfold elem_addr
    simp [hrx, elem_offset, idx_of]
  rw [ea, hsz.1] at h3
  unfold load_int
  rw [h3]

/-- C25: for contiguous rank-4 tensors of one 8- or 16-bit fixed-point kind, `x` of dims
(N, C, H, W) with `H, W ≥ 1`, `u` of dims (N, C, 2H, 2W) and `out` of dims (N, C, H, W) with the
`fp_shift` of `u`, and a kernel (C, C, 3, 3) with `fp_k ≥ 2` holding `2 ^ (fp_k - 2)` at
`[c, c, ky, kx]`, `ky, kx < 2`, and 0 elsewhere, `giga_upsample_` of `x` into `u` returns
`GIGA_Success`, and `giga_conv2d_` of `u` into `out` with stride 2, padding 0 before and 1 after,
no bias and no ReLU then returns `GIGA_Success` and every output element holds the value of the
element of `x` of the same index.  The accumulator `2 ^ fp_k * x` is to fit the signed `w`-bit
compute type: `fp_k + 17 ≤ w`. -/
theorem upsample_then_average (w : Nat) (T k_T : CIntType) (up : GIGA_upsample_t)
    (params : GIGA_conv2d_t) (x u out : GIGA_tensor_t) (m : Mem) (hw : 32 ≤ w)
    (hTx : fixed_CType x.type = some T) (htu : u.type = x.type) (hto : out.type = x.type)
    (hTk : fixed_CType params.kernel.type = some k_T)
    (hcx : Contiguous x) (hcu : Contiguous u) (hco : Contiguous out)
    (hck : Contiguous params.kernel)
    (hrx : x.nb_dims = 4) (hru : u.nb_dims = 4) (hro : out.nb_dims = 4)
    (hrk : params.kernel.nb_dims = 4)
    (hf : up.factor = 2)
    (hu0 : u.dims 0 = x.dims 0) (hu1 : u.dims 1 = x.dims 1)
    (hu2 : u.dims 2 = 2 * x.dims 2) (hu3 : u.dims 3 = 2 * x.dims 3)
    (hdims : ∀ i, i < 4 → out.dims i = x.dims i)
    (hfp : out.fp_shift = u.fp_shift)
    (hH : 0 < x.dims 2 ∧ 2 * x.dims 2 < 2 ^ 31) (hW : 0 < x.dims 3 ∧ 2 * x.dims 3 < 2 ^ 31)
    (hk0 : params.kernel.dims 0 = x.dims 1) (hk1 : params.kernel.dims 1 = x.dims 1)
    (hk2 : params.kernel.dims 2 = 3) (hk3 : params.kernel.dims 3 = 3)
    (hfk : 2 ≤ params.kernel.fp_shift) (hfit : params.kernel.fp_shift + 17 ≤ w)
    (hK : ∀ co, co < x.dims 1 → ∀ ci, ci < x.dims 1 → ∀ ky, ky < 3 → ∀ kx, kx < 3 →
      load_int k_T m (elem_addr params.kernel (idx_of [co, ci, ky, kx]))
        = if co = ci ∧ ky < 2 ∧ kx < 2 then 2 ^ (params.kernel.fp_shift - 2) else 0)
    (hs0 : params.stride 0 = 2) (hs1 : params.stride 1 = 2)
    (hd0 : params.dilation 0 = 1) (hd1 : params.dilation 1 = 1)
    (hpad : ∀ i, i < 2 → params.padding i 0 = 0 ∧ params.padding i 1 = 1)
    (hrelu : params.b_ReLU = false) (hbias : params.bias = none)
    (hsux : Separate u x) (hsuk : Separate u params.kernel)
    (hsou : Separate out u) (hsok : Separate out params.kernel) :
    (giga_upsample_ up x u m).1 = GIGA_Success ∧
    ∃ m2, giga_conv2d_ w params u out (giga_upsample_ up x u m).2 = some (GIGA_Success, m2) ∧
      ∀ n, n < x.dims 0 → ∀ c, c < x.dims 1 → ∀ y, y < x.dims 2 → ∀ xx, xx < x.dims 3 →
          load_int T m2 (elem_addr out (idx_of [n, c, y, xx]))
            = load_int T m (elem_addr x (idx_of [n, c, y, xx])) := by
  obtain ⟨p00, p01⟩ := hpad 0 (by omega)
  obtain ⟨p10, p11⟩ := hpad 1 (by omega)
  have d0 := hdims 0 (by omega)
  have d1 := hdims 1 (by omega)
  have d2 := hdims 2 (by omega)
  have d3 := hdims 3 (by omega)
  obtain ⟨cT, _, _⟩ := fixed_CType_cases _ _ hTx
  obtain ⟨cTk, esk, posk⟩ := fixed_CType_cases _ _ hTk
  obtain ⟨hs, hv, hfr⟩ := upsample_values4 T up x u m hTx hf htu hcx hcu hrx hru hu0 hu1 hu2 hu3
    hsux
  refine ⟨hs, ?_⟩
  generalize (giga_upsample_ up x u m).2 = m1 at hv hfr
  obtain ⟨m2, hm2, hval⟩ := conv2d_formula w T T k_T params u out m1 hw (htu ▸ hTx)
    (hto ▸ hTx) hTk hcu hco hck hru hro hrk (d0.trans hu0.symm) (hk0.trans d1.symm)
    (hk1.trans hu1.symm) hk2 hk3 (Or.inr hs0) (Or.inr hs1) hd0 hd1
    (by rw [p00]; omega) (by rw [p10]; omega) (by rw [hu2]; exact hH.2) (by rw [hu3]; exact hW.2)
    (fun b hbb => by rw [hbias] at hbb; exact Option.noConfusion hbb)
    (by rw [p00, p01, hs0, d2, hu2, out_dim_half _ hH.1 hH.2])
    (by rw [p10, p11, hs1, d3, hu3, out_dim_half _ hW.1 hW.2])
    hsou hsok (fun b hbb => by rw [hbias] at hbb; exact Option.noConfusion hbb)
  refine ⟨m2, hm2, fun n hn c hc y hy xx hxx => ?_⟩
  rw [hval n (d0 ▸ hn) c (d1 ▸ hc) y (d2 ▸ hy) xx (d3 ▸ hxx)]
  have hK1 : ∀ co, co < x.dims 1 → ∀ ci, ci < x.dims 1 → ∀ ky, ky < 3 → ∀ kx, kx < 3 →
      load_int k_T m1 (elem_addr params.kernel (idx_of [co, ci, ky, kx]))
        = if co = ci ∧ ky < 2 ∧ kx < 2 then 2 ^ (params.kernel.fp_shift - 2) else 0 := by
    intro co hco2 ci hci ky hky kx hkx
    rw [← hK co hco2 ci hci ky hky kx hkx]
    refine load_int_congr k_T m1 m _ (fun j hj => hfr _ (fun hreg => hsuk _ hreg ?_))
    obtain ⟨_, _, _, hrmk, _, _⟩ := hck
    rw [← esk] at hrmk
    obtain ⟨gk1, _, gk3⟩ := geom_rank4 params.kernel _ posk hrk hrmk
    rw [gk3]
    exact region_of_ravel4 params.kernel _ _ _ _ _ esk gk1 co ci ky kx j (by omega) (by omega)
      (by omega) (by omega) hj
  have hbt : conv2d_bias_term w k_T params u m1 c = 0 := by
    unfold conv2d_bias_term
    rw [hbias]
  have hsum : conv2d_sum T k_T params u m1 n c y xx
      = 2 ^ params.kernel.fp_shift * load_int T m (elem_addr x (idx_of [n, c, y, xx])) := by
    unfold conv2d_sum
    rw [hu1, sum_taps (x.dims 1) c hc _
      (fun ky kx => if ky < 2 ∧ kx < 2 then
        2 ^ (params.kernel.fp_shift - 2) * load_int T m (elem_addr x (idx_of [n, c, y, xx]))
        else 0)]
    · have e4 : (2 : Int) ^ params.kernel.fp_shift = 4 * 2 ^ (params.kernel.fp_shift - 2) := by
        rw [show (4 : Int) = 2 ^ 2 by norm_num, ← pow_add]
        congr 1
        omega
      rw [e4]
      simp [Finset.sum_range_succ]
      ring
    · intro ci hci ky hky kx hkx
      rw [hK1 c hc ci hci ky hky kx hkx, hs0, hs1, p00, p10, hu2, hu3]
      by_cases h1 : ci = c
      · by_cases h2 : ky < 2 ∧ kx < 2
        · obtain ⟨h3, h4⟩ := h2
          have ey : conv2d_in_coord y 2 0 ky = ((2 * y + ky : Nat) : Int) := by
            unfold conv2d_in_coord; push_cast; ring
          have ex : conv2d_in_coord xx 2 0 kx = ((2 * xx + kx : Nat) : Int) := by
            unfold conv2d_in_coord; push_cast; ring
          have hk : (if c = ci ∧ ky < 2 ∧ kx < 2 then
              (2 : Int) ^ (params.kernel.fp_shift - 2) else 0)
                = 2 ^ (params.kernel.fp_shift - 2) := if_pos ⟨h1.symm, h3, h4⟩
          rw [hk, if_pos h1, ey, ex, Int.toNat_ofNat, Int.toNat_ofNat,
            if_pos (⟨Int.natCast_nonneg _,
              by exact_mod_cast (by omega : 2 * y + ky < 2 * x.dims 2),
              Int.natCast_nonneg _,
              by exact_mod_cast (by omega : 2 * xx + kx < 2 * x.dims 3)⟩ :
              (0 : Int) ≤ ((2 * y + ky : Nat) : Int) ∧
                ((2 * y + ky : Nat) : Int) < ((2 * x.dims 2 : Nat) : Int) ∧
                (0 : Int) ≤ ((2 * xx + kx : Nat) : Int) ∧
                ((2 * xx + kx : Nat) : Int) < ((2 * x.dims 3 : Nat) : Int)),
            if_pos (⟨h3, h4⟩ : ky < 2 ∧ kx < 2),
            hv n hn ci hci (2 * y + ky) (by omega) (2 * xx + kx) (by omega),
            show (2 * y + ky) / 2 = y by omega, show (2 * xx + kx) / 2 = xx by omega, h1]
        · have hz : (if c = ci ∧ ky < 2 ∧ kx < 2 then
              (2 : Int) ^ (params.kernel.fp_shift - 2) else 0) = 0 := if_neg (fun h => h2 h.2)
          rw [if_pos h1, if_neg h2, hz]
          simp
      · have hz : (if c = ci ∧ ky < 2 ∧ kx < 2 then
            (2 : Int) ^ (params.kernel.fp_shift - 2) else 0) = 0 := if_neg (fun h => h1 h.1.symm)
        rw [if_neg h1, hz]
        simp
  obtain ⟨r1, r2⟩ := load_int_range T cT m (elem_addr x (idx_of [n, c, y, xx]))
  unfold conv2d_claimed conv2d_A
  rw [hrelu, hbt, hsum, add_zero, hfp]
  simp only [Bool.false_eq_true, false_and, if_false]
  have es : (u.fp_shift : Int) - (u.fp_shift : Int) - (params.kernel.fp_shift : Int)
      = -((params.kernel.fp_shift : Nat) : Int) := by ring
  rw [es]
  exact unscale w T _ r1 r2 (load_int_wrap_self T cT m _) _ hfit

/-- C25 (witness): the `SFixed8` image (1,1,2,2) holding 1 to 4, upsampled to (1,1,4,4) and
averaged by the kernel of `fp_shift` 2 holding 1 at its four taps. -/
theorem upsample_then_average_witness :
    (giga_upsample_ ⟨2⟩ (fresh 4 GIGA_SFixed8 [1, 1, 2, 2] 0 0)
      (fresh 4 GIGA_SFixed8 [1, 1, 4, 4] 0 16) avg_store).1 = GIGA_Success ∧
    ∃ m2, giga_conv2d_ 32 avg_params (fresh 4 GIGA_SFixed8 [1, 1, 4, 4] 0 16)
        (fresh 4 GIGA_SFixed8 [1, 1, 2, 2] 0 48)
        (giga_upsample_ ⟨2⟩ (fresh 4 GIGA_SFixed8 [1, 1, 2, 2] 0 0)
          (fresh 4 GIGA_SFixed8 [1, 1, 4, 4] 0 16) avg_store).2 = some (GIGA_Success, m2) ∧
      ∀ n, n < (fresh 4 GIGA_SFixed8 [1, 1, 2, 2] 0 0).dims 0 →
        ∀ c, c < (fresh 4 GIGA_SFixed8 [1, 1, 2, 2] 0 0).dims 1 →
        ∀ y, y < (fresh 4 GIGA_SFixed8 [1, 1, 2, 2] 0 0).dims 2 →
        ∀ xx, xx < (fresh 4 GIGA_SFixed8 [1, 1, 2, 2] 0 0).dims 3 →
          load_int ⟨8, true⟩ m2
              (elem_addr (fresh 4 GIGA_SFixed8 [1, 1, 2, 2] 0 48) (idx_of [n, c, y, xx]))
            = load_int ⟨8, true⟩ avg_store
              (elem_addr (fresh 4 GIGA_SFixed8 [1, 1, 2, 2] 0 0) (idx_of [n, c, y, xx])) :=
  upsample_then_average 32 ⟨8, true⟩ ⟨8, true⟩ ⟨2⟩ avg_params
    (fresh 4 GIGA_SFixed8 [1, 1, 2, 2] 0 0) (fresh 4 GIGA_SFixed8 [1, 1, 4, 4] 0 16)
    (fresh 4 GIGA_SFixed8 [1, 1, 2, 2] 0 48) avg_store (by decide) rfl rfl rfl rfl
    (by unfold Contiguous RowMajor; decide) (by unfold Contiguous RowMajor; decide)
    (by unfold Contiguous RowMajor; decide) (by unfold Contiguous RowMajor; decide)
    (by decide) (by decide) (by decide) (by decide) rfl
    (by decide) (by decide) (by decide) (by decide) (by decide) (by decide)
    (by decide) (by decide) (by decide) (by decide) (by decide) (by decide)
    (by decide) (by decide) (by decide)
    (by decide) (by decide) (by decide) (by decide) (by decide) rfl rfl
    (separate_of_bounds _ _ (by decide)) (separate_of_bounds _ _ (by decide))
    (separate_of_bounds _ _ (by decide)) (separate_of_bounds _ _ (by decide))

/-! ## Softmax: the axis and the slices -/

theorem forLoop_fst {α β : Type} (n : Nat) (body : Nat → α × β → α × β) (f : Nat → α → α)
    (h : ∀ i, i < n → ∀ s, (body i s).1 = f i s.1) :
    ∀ s, (forLoop n body s).1 = forLoop n f s.1 := by
  induction n with
  | zero => exact fun s => rfl
  | succ n ih =>
    intro s
    rw [forLoop_succ, forLoop_succ, h n (Nat.lt_succ_self n),
      ih (fun i hi => h i (Nat.lt_succ_of_lt hi))]

theorem accs_loop_eq {F : Type} (add : F → F → F) (v : Nat → F) (n : Nat) (accs : Nat → F)
    (z : F) :
    forLoop n (fun i (s : (Nat → F) × F) => (Function.update s.1 i (v i), add s.2 (v i)))
        (accs, z)
      = (fun i => if i < n then v i else accs i, forLoop n (fun i sum => add sum (v i)) z) := by
  induction n with
  | zero => simp [forLoop_zero]
  | succ n ih =>
    rw [forLoop_succ, forLoop_succ, ih]
    refine Prod.ext ?_ rfl
    funext i
    show Function.update (fun i => if i < n then v i else accs i) n (v n) i
      = if i < n + 1 then v i else accs i
    by_cases h : i = n
    · subst h
      simp
    · rw [Function.update_noteq h]
      show (if i < n then v i else accs i) = _
      by_cases h2 : i < n
      · rw [if_pos h2, if_pos (by omega)]
      · rw [if_neg h2, if_neg (by omega)]

theorem sizeof_CType_pos (k : GIGA_data_type) : 0 < sizeof_CType k := by cases k <;> decide

/-- The store left by the three loops on a slice: every element `c` of the output slice receives
`softmax_value` of the input slice, whatever `accs` held before. -/
theorem softmax_slice_fst {F : Type} (ops : FloatOps F) (i_GT o_GT : GIGA_data_type)
    (pi po io oo iS1 oS1 C : Nat) (hio : io < 2 ^ 32) (s : Mem × (Nat → F)) :
    (softmax_slice ops i_GT o_GT pi po io oo iS1 oS1 C C s).1
      = forLoop C (fun c mem =>
          store_bytes mem (po + ((oo + c * oS1) % 2 ^ 32) * sizeof_CType o_GT)
            (sizeof_CType o_GT)
            (ops.ofFloat o_GT (softmax_value ops
              (fun c' => ops.toFloat i_GT
                (load_bytes s.1 (pi + ((io + c' * iS1) % 2 ^ 32) * sizeof_CType i_GT)
                  (sizeof_CType i_GT))) C c))) s.1 := by
  have hmax : softmax_max ops i_GT s.1 pi io iS1 C
      = slice_max ops (fun c' => ops.toFloat i_GT
          (load_bytes s.1 (pi + ((io + c' * iS1) % 2 ^ 32) * sizeof_CType i_GT)
            (sizeof_CType i_GT))) C := by
    unfold softmax_max slice_max
    simp only [Nat.zero_mul, Nat.add_zero, Nat.mod_eq_of_lt hio]
  unfold softmax_slice softmax_store
  simp only []
  rw [hmax]
  unfold softmax_accs
  simp only []
  rw [accs_loop_eq ops.add]
  simp only []
  refine forLoop_congr C _ _ s.1 (fun c hc mem => ?_)
  simp only [if_pos hc]
  rfl

theorem softmax_value_congr {F : Type} (ops : FloatOps F) (xs ys : Nat → F) (C c : Nat)
    (hc : c < C) (h : ∀ c', c' < C → xs c' = ys c') :
    softmax_value ops xs C c = softmax_value ops ys C c := by
  have hmax : slice_max ops xs C = slice_max ops ys C := by
    unfold slice_max
    rw [h 0 (by omega)]
    exact forLoop_congr _ _ _ _ (fun k hk mv => by rw [h (k + 1) (by omega)])
  have hsum : slice_sum ops xs C = slice_sum ops ys C := by
    unfold slice_sum
    rw [hmax]
    exact forLoop_congr _ _ _ _ (fun k hk acc => by rw [h k hk])
  unfold softmax_value
  rw [hmax, hsum, h c hc]

theorem ravel3_lt (b c l B C L : Nat) (hb : b < B) (hc : c < C) (hl : l < L) :
    (b * C + c) * L + l < B * C * L :=
  mul_add_lt _ l _ L (mul_add_lt b c B C hb hc) hl

/-- A nest over `b`, `l` and `c` that stores the element `(b, c, l)` of a row-major array
(B, C, L) at each step gives the array of the values `V b c l`. -/
theorem store_loop_slices (R : Nat → Prop) (m0 : Mem) (B L C sz base : Nat) (hsz : 0 < sz)
    (V : Nat → Nat → Nat → Nat) (body : Nat → Nat → Mem → Mem)
    (hbody : ∀ b, b < B → ∀ l, l < L → ∀ m, Agree R m m0 →
      body b l m = forLoop C (fun c mem =>
        store_bytes mem (base + ((b * C + c) * L + l) * sz) sz (V b c l)) m)
    (hR : ∀ a, base ≤ a → a < base + B * C * L * sz → ¬ R a) :
    ∀ b, b < B → ∀ c, c < C → ∀ l, l < L → ∀ j, j < sz →
      forLoop B (fun b => forLoop L (fun l => body b l)) m0
          (base + ((b * C + c) * L + l) * sz + j)
        = (V b c l / 256 ^ j) % 256 := by
  obtain ⟨v, hv⟩ : ∃ v : Nat → Nat, ∀ b c l, c < C → l < L → ∀ j, j < sz →
      v (base + ((b * C + c) * L + l) * sz + j) = (V b c l / 256 ^ j) % 256 := by
    refine ⟨fun a => (V ((a - base) / sz / L / C) ((a - base) / sz / L % C)
      ((a - base) / sz % L) / 256 ^ ((a - base) % sz)) % 256, ?_⟩
    intro b c l hc hl j hj
    obtain ⟨h1, h2⟩ := flat_decode base ((b * C + c) * L + l) sz j hsz hj
    obtain ⟨h3, h4⟩ := div_mod_step (b * C + c) l L hl
    obtain ⟨h5, h6⟩ := div_mod_step b c C hc
    simp only [h1, h2, h3, h4, h5, h6]
  have hin : ∀ b, b < B → ∀ l, l < L → ∀ c, c < C → ∀ a,
      (base + ((b * C + c) * L + l) * sz ≤ a ∧ a < base + ((b * C + c) * L + l) * sz + sz) →
        ¬ R a := by
    intro b hb l hl c hc a hd
    obtain ⟨h1, h2⟩ := hd
    have hk := ravel3_lt b c l B C L hb hc hl
    have := Nat.mul_le_mul_right sz (Nat.succ_le_of_lt hk)
    rw [Nat.succ_mul] at this
    exact hR a (by omega) (by omega)
  have hWl : ∀ b, b < B → ∀ l, l < L →
      Writes R m0 (body b l)
        (fun a => ∃ c, c < C ∧ (base + ((b * C + c) * L + l) * sz ≤ a ∧
          a < base + ((b * C + c) * L + l) * sz + sz)) v :=
    fun b hb l hl =>
      writes_of_eq R m0 _ _ _ v (hbody b hb l hl)
        (writes_forLoop R m0 C _ _ v
          (fun c hc => writes_store R m0 _ _ sz (V b c l) v (fun _ _ => rfl)
            (fun j hj => hv b c l hc hl j hj))
          (fun c hc a hd => hin b hb l hl c hc a hd))
  have hWb : ∀ b, b < B →
      Writes R m0 (forLoop L (fun l => body b l))
        (fun a => ∃ l, l < L ∧ ∃ c, c < C ∧ (base + ((b * C + c) * L + l) * sz ≤ a ∧
          a < base + ((b * C + c) * L + l) * sz + sz)) v :=
    fun b hb =>
      writes_forLoop R m0 L _ _ v (fun l hl => hWl b hb l hl)
        (fun l hl a ⟨c, hc, hd⟩ => hin b hb l hl c hc a hd)
  have hWn := writes_forLoop R m0 B (fun b => forLoop L (fun l => body b l)) _ v
    (fun b hb => hWb b hb)
    (fun b hb a ⟨l, hl, c, hc, hd⟩ => hin b hb l hl c hc a hd)
  intro b hb c hc l hl j hj
  rw [(hWn m0 (fun a _ => rfl) _).1 ⟨b, hb, l, hl, c, hc, by omega, by omega⟩]
  exact hv b c l hc hl j hj

/-- The softmax nest on row-major arrays (B, C, L): every output element `(b, c, l)` holds the
softmax of the input slice `(b, ·, l)`. -/
theorem softmax_loops_spec {F : Type} (ops : FloatOps F) (i_GT o_GT : GIGA_data_type)
    (pi po B L C iSL oSL : Nat) (m : Mem) (accs : Nat → F)
    (hSL : ∀ l, l < L → l * iSL = l ∧ l * oSL = l)
    (hsize : B * C * L < 2 ^ 32)
    (hsep : ∀ a, po ≤ a → a < po + B * C * L * sizeof_CType o_GT →
      ¬ (pi ≤ a ∧ a < pi + B * C * L * sizeof_CType i_GT)) :
    ∀ b, b < B → ∀ c, c < C → ∀ l, l < L →
      load_bytes
          (softmax_loops ops i_GT o_GT pi po B L C C (C * L) L iSL (C * L) L oSL (m, accs)).1
          (po + ((b * C + c) * L + l) * sizeof_CType o_GT) (sizeof_CType o_GT)
        = ops.ofFloat o_GT (softmax_value ops (fun c' => ops.toFloat i_GT
            (load_bytes m (pi + ((b * C + c') * L + l) * sizeof_CType i_GT)
              (sizeof_CType i_GT))) C c) % 256 ^ sizeof_CType o_GT := by
  intro b hb c hc l hl
  have hmem : (softmax_loops ops i_GT o_GT pi po B L C C (C * L) L iSL (C * L) L oSL
      (m, accs)).1
      = forLoop B (fun b => forLoop L (fun l mem =>
          forLoop C (fun c mem2 =>
            store_bytes mem2
              (po + ((((b * (C * L)) % 2 ^ 32 + l * oSL) % 2 ^ 32 + c * L) % 2 ^ 32)
                * sizeof_CType o_GT)
              (sizeof_CType o_GT)
              (ops.ofFloat o_GT (softmax_value ops
                (fun c' => ops.toFloat i_GT
                  (load_bytes mem
                    (pi + ((((b * (C * L)) % 2 ^ 32 + l * iSL) % 2 ^ 32 + c' * L) % 2 ^ 32)
                      * sizeof_CType i_GT)
                    (sizeof_CType i_GT))) C c))) mem)) m := by
    unfold softmax_loops
    refine forLoop_fst B _ _ (fun b _ s => forLoop_fst L _ _ (fun l _ s2 => ?_) s) (m, accs)
    exact softmax_slice_fst ops i_GT o_GT pi po _ _ L L C (Nat.mod_lt _ (by positivity)) s2
  rw [hmem]
  have hoff : ∀ b, b < B → ∀ l, l < L → ∀ c, c < C → ∀ S, l * S = l →
      (((b * (C * L)) % 2 ^ 32 + l * S) % 2 ^ 32 + c * L) % 2 ^ 32 = (b * C + c) * L + l := by
    intro b hb l hl c hc S hS
    have h1 := ravel3_lt b c l B C L hb hc hl
    have hX : b * (C * L) + l + c * L = (b * C + c) * L + l := by ring
    rw [hS, Nat.mod_eq_of_lt (by omega : b * (C * L) < 2 ^ 32),
      Nat.mod_eq_of_lt (by omega : b * (C * L) + l < 2 ^ 32), hX, Nat.mod_eq_of_lt (by omega)]
  have hbytes := store_loop_slices
    (fun a => pi ≤ a ∧ a < pi + B * C * L * sizeof_CType i_GT) m B L C (sizeof_CType o_GT) po
    (sizeof_CType_pos o_GT)
    (fun b c l => ops.ofFloat o_GT (softmax_value ops (fun c' => ops.toFloat i_GT
      (load_bytes m (pi + ((b * C + c') * L + l) * sizeof_CType i_GT)
        (sizeof_CType i_GT))) C c))
    (fun b l mem =>
      forLoop C (fun c mem2 =>
        store_bytes mem2
          (po + ((((b * (C * L)) % 2 ^ 32 + l * oSL) % 2 ^ 32 + c * L) % 2 ^ 32)
            * sizeof_CType o_GT)
          (sizeof_CType o_GT)
          (ops.ofFloat o_GT (softmax_value ops
            (fun c' => ops.toFloat i_GT
              (load_bytes mem
                (pi + ((((b * (C * L)) % 2 ^ 32 + l * iSL) % 2 ^ 32 + c' * L) % 2 ^ 32)
                  * sizeof_CType i_GT)
                (sizeof_CType i_GT))) C c))) mem)
    (fun b hb l hl mem hmemA => by
      refine forLoop_congr C _ _ mem (fun c hc mem2 => ?_)
      simp only []
      rw [hoff b hb l hl c hc oSL (hSL l hl).2]
      rw [softmax_value_congr ops _
        (fun c' => ops.toFloat i_GT
          (load_bytes m (pi + ((b * C + c') * L + l) * sizeof_CType i_GT)
            (sizeof_CType i_GT))) C c hc (fun c' hc' => ?_)]
      rw [hoff b hb l hl c' hc' iSL (hSL l hl).1]
      have hk := ravel3_lt b c' l B C L hb hc' hl
      have := Nat.mul_le_mul_right (sizeof_CType i_GT) (Nat.succ_le_of_lt hk)
      rw [Nat.succ_mul] at this
      rw [load_bytes_congr mem m _ _ (fun j hj => hmemA _ ⟨by omega, by omega⟩)])
    hsep b hb c hc l hl
  have h := load_bytes_of_bytes _ (sizeof_CType o_GT)
    (po + ((b * C + c) * L + l) * sizeof_CType o_GT) _ hbytes
  rw [h]

/-- A row-major tensor of rank 2 to 4 as an array (dims 0, dims 1, `slice_len`). -/
theorem geom_slices (t : GIGA_tensor_t) (es : Nat) (hes : 0 < es) (hr2 : 2 ≤ t.nb_dims)
    (hr4 : t.nb_dims ≤ 4) (hrm : RowMajor es t) :
    prod_from t.dims t.nb_dims 0 = t.dims 0 * t.dims 1 * slice_len t ∧
    t.strides 0 / es = t.dims 1 * slice_len t ∧
    t.strides 1 / es = slice_len t ∧
    (3 ≤ t.nb_dims → t.strides (t.nb_dims - 1) / es = 1) ∧
    (∀ idx : Nat → Nat, elem_offset t.strides idx t.nb_dims
      = ((idx 0 * t.dims 1 + idx 1) * slice_len t + slice_pos t idx) * es) ∧
    (∀ idx : Nat → Nat, (∀ i, i < t.nb_dims → idx i < t.dims i) →
      slice_pos t idx < slice_len t) := by
  have hcases : t.nb_dims = 2 ∨ t.nb_dims = 3 ∨ t.nb_dims = 4 := by omega
  unfold RowMajor at hrm
  rcases hcases with h | h | h
  · have s0 := hrm 0 (by omega)
    have s1 := hrm 1 (by omega)
    simp only [h, prod_from, Nat.mul_one] at s0 s1
    simp only [slice_len, slice_pos, h, prod_from, elem_offset]
    norm_num
    refine ⟨?_, ?_, ?_⟩
    · rw [s0, Nat.mul_div_cancel_left _ hes]
    · rw [s1, Nat.div_self hes]
    · intro idx
      rw [s0, s1]
      ring
  · have s0 := hrm 0 (by omega)
    have s1 := hrm 1 (by omega)
    have s2 := hrm 2 (by omega)
    simp only [h, prod_from, Nat.mul_one] at s0 s1 s2
    simp only [slice_len, slice_pos, h, prod_from, elem_offset]
    norm_num
    refine ⟨by ring, ?_, ?_, ?_, ?_, ?_⟩
    · rw [s0, Nat.mul_div_cancel_left _ hes]
    · rw [s1, Nat.mul_div_cancel_left _ hes]
    · rw [s2, Nat.div_self hes]
    · intro idx
      rw [s0, s1, s2]
      ring
    · intro idx hidx
      exact hidx 2 (by omega)
  · have s0 := hrm 0 (by omega)
    have s1 := hrm 1 (by omega)
    have s2 := hrm 2 (by omega)
    have s3 := hrm 3 (by omega)
    simp only [h, prod_from, Nat.mul_one] at s0 s1 s2 s3
    simp only [slice_len, slice_pos, h, prod_from, elem_offset]
    norm_num
    refine ⟨by ring, ?_, ?_, ?_, ?_, ?_⟩
    · rw [s0, Nat.mul_div_cancel_left _ hes]
    · rw [s1, Nat.mul_div_cancel_left _ hes]
    · rw [s3, Nat.div_self hes]
    · intro idx
      rw [s0, s1, s2, s3]
      ring
    · intro idx hidx
      exact mul_add_lt _ _ _ _ (hidx 2 (by omega)) (hidx 3 (by omega))

theorem softmax_dims_same (inT out : GIGA_tensor_t)
    (hdims : ∀ i, i < inT.nb_dims → out.dims i = inT.dims i) :
    softmax_dims_differ inT out = false := by
  unfold softmax_dims_differ
  rw [List.any_eq_false]
  intro i hi
  rw [List.mem_range] at hi
  simp [hdims i hi]

/-- The rank-2 nest is the general nest with one position per batch. -/
theorem softmax_rows_eq {F : Type} (ops : FloatOps F) (i_GT o_GT : GIGA_data_type)
    (pi po B C C2 iS0 iS1 oS0 oS1 : Nat) (s : Mem × (Nat → F)) :
    softmax_rows ops i_GT o_GT pi po B C C2 iS0 iS1 oS0 oS1 s
      = softmax_loops ops i_GT o_GT pi po B 1 C C2 iS0 iS1 0 oS0 oS1 0 s := by
  unfold softmax_rows softmax_loops
  refine forLoop_congr B _ _ s (fun b _ s2 => ?_)
  rw [forLoop_succ, forLoop_zero]
  simp only [Nat.zero_mul, Nat.add_zero, Nat.mod_mod]

/-- On contiguous tensors of rank 2 to 4 with the same positive dims the call succeeds and the
store it leaves is the one of the nest over (dims 0, `slice_len`, dims 1). -/
theorem giga_softmax_eq {F : Type} (ops : FloatOps F) (params : GIGA_softmax_t)
    (inT out : GIGA_tensor_t) (m : Mem)
    (hesi : sizeof_CType inT.type = element_size_in_bits inT.type / 8)
    (heso : sizeof_CType out.type = element_size_in_bits out.type / 8)
    (hci : Contiguous inT) (hco : Contiguous out)
    (hr : out.nb_dims = inT.nb_dims) (hr2 : 2 ≤ inT.nb_dims)
    (hdims : ∀ i, i < inT.nb_dims → out.dims i = inT.dims i)
    (hpos : ∀ i, i < inT.nb_dims → 0 < inT.dims i) :
    ∃ iSL oSL, (∀ l, l < slice_len inT → l * iSL = l ∧ l * oSL = l) ∧
      giga_softmax_ ops params inT out m
        = (GIGA_Success,
          (softmax_loops ops inT.type out.type (get_ptr inT) (get_ptr out) (inT.dims 0)
            (slice_len inT) (inT.dims 1) (inT.dims 1)
            (inT.dims 1 * slice_len inT) (slice_len inT) iSL
            (inT.dims 1 * slice_len inT) (slice_len inT) oSL (m, fun _ => ops.zero)).1) := by
  obtain ⟨hei, _, hi4, hrmi, hszi, hdi⟩ := hci
  obtain ⟨heo, _, ho4, hrmo, hszo, hdo⟩ := hco
  rw [← hesi] at hrmi hszi
  rw [← heso] at hrmo hszo
  have hpi := sizeof_CType_pos inT.type
  have hpo := sizeof_CType_pos out.type
  obtain ⟨gi1, gi2, gi3, gi4, _, _⟩ := geom_slices inT _ hpi hr2 hi4 hrmi
  obtain ⟨go1, go2, go3, go4, _, _⟩ := geom_slices out _ hpo (hr ▸ hr2) ho4 hrmo
  have hLo : slice_len out = slice_len inT := by
    unfold slice_len
    rw [hr]
    by_cases h2 : inT.nb_dims = 2
    · simp only [h2, if_true]
    · by_cases h3 : inT.nb_dims = 3
      · simp only [h3, if_true, if_neg (by decide : ¬ (3 = 2))]
        exact hdims 2 (by omega)
      · simp only [h2, h3, if_false]
        rw [hdims 2 (by omega), hdims 3 (by omega)]
  have hd1 : out.dims 1 = inT.dims 1 := hdims 1 (by omega)
  rw [hLo, hd1] at go2
  rw [hLo] at go3
  have hprod : inT.dims 0 * inT.dims 1 * slice_len inT < 2 ^ 31 := by
    rw [← gi1]
    calc prod_from inT.dims inT.nb_dims 0
        ≤ sizeof_CType inT.type * prod_from inT.dims inT.nb_dims 0 :=
          Nat.le_mul_of_pos_left _ hpi
      _ < 2 ^ 31 := hszi
  have h0 := hpos 0 (by omega)
  have h1 := hpos 1 (by omega)
  have hCL : inT.dims 1 * slice_len inT < 2 ^ 31 := by
    calc inT.dims 1 * slice_len inT ≤ inT.dims 0 * (inT.dims 1 * slice_len inT) :=
          Nat.le_mul_of_pos_left _ h0
      _ = inT.dims 0 * inT.dims 1 * slice_len inT := by ring
      _ < 2 ^ 31 := hprod
  have hL : slice_len inT < 2 ^ 31 := by
    calc slice_len inT ≤ inT.dims 1 * slice_len inT := Nat.le_mul_of_pos_left _ h1
      _ < 2 ^ 31 := hCL
  have hdd := softmax_dims_same inT out hdims
  have hne : ¬ (inT.nb_dims ≠ out.nb_dims) := by rw [hr]; simp
  unfold giga_softmax_ _softmax_impl
  simp only [hei, heo, Bool.not_true, Bool.or_self, Bool.false_eq_true, if_false, if_neg hne,
    hdd, if_neg (by omega : ¬ inT.nb_dims = 1)]
  by_cases h2 : inT.nb_dims = 2
  · refine ⟨0, 0, fun l hl => ?_, ?_⟩
    · have : slice_len inT = 1 := by unfold slice_len; simp [h2]
      rw [this] at hl
      have : l = 0 := by omega
      subst this
      exact ⟨rfl, rfl⟩
    · rw [if_pos h2, softmax_rows_eq, gi2, gi3, go2, go3, hd1,
        Nat.mod_eq_of_lt (by omega : inT.dims 1 * slice_len inT < 2 ^ 32),
        Nat.mod_eq_of_lt (by omega : slice_len inT < 2 ^ 32)]
      have : slice_len inT = 1 := by unfold slice_len; simp [h2]
      rw [this]
  · refine ⟨1, 1, fun l _ => ⟨Nat.mul_one l, Nat.mul_one l⟩, ?_⟩
    have hne2 : (if inT.nb_dims = 3 then inT.dims 2 else (inT.dims 3 * inT.dims 2) % 2 ^ 32)
        = slice_len inT := by
      unfold slice_len
      rw [if_neg h2]
      by_cases h3 : inT.nb_dims = 3
      · rw [if_pos h3, if_pos h3]
      · rw [if_neg h3, if_neg h3, Nat.mul_comm]
        have h4 : slice_len inT = inT.dims 2 * inT.dims 3 := by
          unfold slice_len
          rw [if_neg h2, if_neg h3]
        rw [← h4]
        exact Nat.mod_eq_of_lt (by omega)
    rw [if_neg h2]
    rw [hne2, gi2, gi3, gi4 (by omega), go2, go3, go4 (by omega), hd1,
      Nat.mod_eq_of_lt (by omega : inT.dims 1 * slice_len inT < 2 ^ 32),
      Nat.mod_eq_of_lt (by omega : slice_len inT < 2 ^ 32),
      Nat.mod_eq_of_lt (by norm_num : 1 < 2 ^ 32)]

theorem softmax_status {F : Type} (ops : FloatOps F) (params : GIGA_softmax_t)
    (inT out : GIGA_tensor_t) (m : Mem)
    (hei : check_tensor_exists inT = true) (heo : check_tensor_exists out = true)
    (hr : out.nb_dims = inT.nb_dims)
    (hdims : ∀ i, i < inT.nb_dims → out.dims i = inT.dims i) :
    (giga_softmax_ ops params inT out m).1 = GIGA_Success := by
  have hdd := softmax_dims_same inT out hdims
  have hne : ¬ (inT.nb_dims ≠ out.nb_dims) := by rw [hr]; simp
  unfold giga_softmax_ _softmax_impl
  simp only [hei, heo, Bool.not_true, Bool.or_self, Bool.false_eq_true, if_false, if_neg hne,
    hdd]
  split_ifs <;> rfl

/-- Softmax on contiguous tensors of rank 2 to 4: the call succeeds and the output element of
multi-index `idx` holds the softmax of the input slice along axis 1 through `idx`. -/
theorem softmax_axis1 {F : Type} (ops : FloatOps F) (params : GIGA_softmax_t)
    (inT out : GIGA_tensor_t) (m : Mem)
    (hesi : sizeof_CType inT.type = element_size_in_bits inT.type / 8)
    (heso : sizeof_CType out.type = element_size_in_bits out.type / 8)
    (hci : Contiguous inT) (hco : Contiguous out)
    (hr : out.nb_dims = inT.nb_dims) (hr2 : 2 ≤ inT.nb_dims)
    (hdims : ∀ i, i < inT.nb_dims → out.dims i = inT.dims i)
    (hsep : Separate out inT) :
    (giga_softmax_ ops params inT out m).1 = GIGA_Success ∧
    ∀ idx : Nat → Nat, (∀ i, i < inT.nb_dims → idx i < inT.dims i) →
      load_bytes (giga_softmax_ ops params inT out m).2 (elem_addr out idx)
          (sizeof_CType out.type)
        = ops.ofFloat out.type (softmax_value ops
            (fun c' => ops.toFloat inT.type
              (load_bytes m (elem_addr inT (Function.update idx 1 c'))
                (sizeof_CType inT.type)))
            (inT.dims 1) (idx 1)) % 256 ^ sizeof_CType out.type := by
  refine ⟨softmax_status ops params inT out m hci.1 hco.1 hr hdims, fun idx hidx => ?_⟩
  obtain ⟨iSL, oSL, hSL, heq⟩ := giga_softmax_eq ops params inT out m hesi heso hci hco hr hr2
    hdims (fun i hi => Nat.lt_of_le_of_lt (Nat.zero_le _) (hidx i hi))
  obtain ⟨_, _, hi4, hrmi, hszi, _⟩ := hci
  obtain ⟨_, _, ho4, hrmo, hszo, _⟩ := hco
  rw [← hesi] at hrmi hszi
  rw [← heso] at hrmo hszo
  have hpi := sizeof_CType_pos inT.type
  have hpo := sizeof_CType_pos out.type
  obtain ⟨gi1, _, _, _, gi5, gi6⟩ := geom_slices inT _ hpi hr2 hi4 hrmi
  obtain ⟨go1, _, _, _, go5, _⟩ := geom_slices out _ hpo (hr ▸ hr2) ho4 hrmo
  have hLo : slice_len out = slice_len inT := by
    unfold slice_len
    rw [hr]
    by_cases h2 : inT.nb_dims = 2
    · simp only [h2, if_true]
    · by_cases h3 : inT.nb_dims = 3
      · simp only [h3, if_true, if_neg (by decide : ¬ (3 = 2))]
        exact hdims 2 (by omega)
      · simp only [h2, h3, if_false]
        rw [hdims 2 (by omega), hdims 3 (by omega)]
  have hPo : slice_pos out idx = slice_pos inT idx := by
    unfold slice_pos
    rw [hr]
    by_cases h2 : inT.nb_dims = 2
    · simp only [h2, if_true]
    · by_cases h3 : inT.nb_dims = 3
      · simp only [h3, if_true, if_neg (by decide : ¬ (3 = 2))]
      · simp only [h2, h3, if_false]
        rw [hdims 3 (by omega)]
  have hd1 : out.dims 1 = inT.dims 1 := hdims 1 (by omega)
  have hPu : ∀ c', slice_pos inT (Function.update idx 1 c') = slice_pos inT idx := by
    intro c'
    unfold slice_pos
    rw [Function.update_noteq (by decide : (2 : Nat) ≠ 1),
      Function.update_noteq (by decide : (3 : Nat) ≠ 1)]
  have hao : elem_addr out idx = get_ptr out
      + ((idx 0 * inT.dims 1 + idx 1) * slice_len inT + slice_pos inT idx)
        * sizeof_CType out.type := by
    unfold elem_addr
    rw [go5 idx, hLo, hPo, hd1]
  have hai : ∀ c', elem_addr inT (Function.update idx 1 c') = get_ptr inT
      + ((idx 0 * inT.dims 1 + c') * slice_len inT + slice_pos inT idx)
        * sizeof_CType inT.type := by
    intro c'
    unfold elem_addr
    rw [gi5, hPu, Function.update_noteq (by decide : (0 : Nat) ≠ 1), Function.update_same]
  have hprod : inT.dims 0 * inT.dims 1 * slice_len inT < 2 ^ 32 := by
    rw [← gi1]
    calc prod_from inT.dims inT.nb_dims 0
        ≤ sizeof_CType inT.type * prod_from inT.dims inT.nb_dims 0 :=
          Nat.le_mul_of_pos_left _ hpi
      _ < 2 ^ 32 := by omega
  have hprodo : prod_from out.dims out.nb_dims 0 = inT.dims 0 * inT.dims 1 * slice_len inT := by
    rw [go1, hLo, hd1, hdims 0 (by omega)]
  rw [heq, hao]
  simp only [hai]
  exact softmax_loops_spec ops inT.type out.type (get_ptr inT) (get_ptr out) (inT.dims 0)
    (slice_len inT) (inT.dims 1) iSL oSL m _ hSL hprod
    (fun a h1 h2 h3 => hsep a
      (by
        unfold region
        rw [← heso, hprodo, Nat.mul_comm]
        exact ⟨h1, h2⟩)
      (by
        unfold region
        rw [← hesi, gi1, Nat.mul_comm]
        exact h3))
    (idx 0) (hidx 0 (by omega)) (idx 1) (hidx 1 (by omega)) (slice_pos inT idx) (gi6 idx hidx)

theorem float_sizeof (k : GIGA_data_type) (h : k = GIGA_Float32 ∨ k = GIGA_Float16) :
    sizeof_CType k = element_size_in_bits k / 8 := by
  rcases h with h | h <;> subst h <;> decide

/-- C22: for contiguous float tensors `in` and `out` of rank 2 (N, C) or rank 4 (N, C, H, W)
with the same dims and no common byte, `giga_softmax_` returns `GIGA_Success` and the output
element of multi-index `idx` holds `exp(in[idx] - m) / Σ exp(in[idx'] - m)`, where `idx'` runs
over the multi-indices that differ from `idx` on axis 1 only (the slice of `idx`) and `m` is the
maximum of that slice: `softmax_value` of the slice, which reads no other input element. -/
theorem softmax_along_axis1 {F : Type} (ops : FloatOps F) (params : GIGA_softmax_t)
    (inT out : GIGA_tensor_t) (m : Mem)
    (hfi : inT.type = GIGA_Float32 ∨ inT.type = GIGA_Float16)
    (hfo : out.type = GIGA_Float32 ∨ out.type = GIGA_Float16)
    (hci : Contiguous inT) (hco : Contiguous out)
    (hr : out.nb_dims = inT.nb_dims) (hr24 : inT.nb_dims = 2 ∨ inT.nb_dims = 4)
    (hdims : ∀ i, i < inT.nb_dims → out.dims i = inT.dims i)
    (hsep : Separate out inT) :
    (giga_softmax_ ops params inT out m).1 = GIGA_Success ∧
    ∀ idx : Nat → Nat, (∀ i, i < inT.nb_dims → idx i < inT.dims i) →
      load_bytes (giga_softmax_ ops params inT out m).2 (elem_addr out idx)
          (sizeof_CType out.type)
        = ops.ofFloat out.type (softmax_value ops
            (fun c' => ops.toFloat inT.type
              (load_bytes m (elem_addr inT (Function.update idx 1 c'))
                (sizeof_CType inT.type)))
            (inT.dims 1) (idx 1)) % 256 ^ sizeof_CType out.type :=
  softmax_axis1 ops params inT out m (float_sizeof _ hfi) (float_sizeof _ hfo) hci hco hr
    (by omega) hdims hsep

/-- C21 (amended): for contiguous float tensors `in` and `out` of rank 3 with the same dims
(d0, d1, d2) and no common byte, `giga_softmax_` returns `GIGA_Success` and normalises along
axis 1: the output element `(i0, c, i2)` holds `exp(in[i0,c,i2] - m) / Σ exp(in[i0,c',i2] - m)`
over `c' < d1`, `m` being the maximum of the slice `(i0, ·, i2)`, and reads no other input
element. -/
theorem softmax_rank3_along_axis1 {F : Type} (ops : FloatOps F) (params : GIGA_softmax_t)
    (inT out : GIGA_tensor_t) (m : Mem)
    (hfi : inT.type = GIGA_Float32 ∨ inT.type = GIGA_Float16)
    (hfo : out.type = GIGA_Float32 ∨ out.type = GIGA_Float16)
    (hci : Contiguous inT) (hco : Contiguous out)
    (hr : out.nb_dims = inT.nb_dims) (hr3 : inT.nb_dims = 3)
    (hdims : ∀ i, i < inT.nb_dims → out.dims i = inT.dims i)
    (hsep : Separate out inT) :
    (giga_softmax_ ops params inT out m).1 = GIGA_Success ∧
    ∀ i0, i0 < inT.dims 0 → ∀ c, c < inT.dims 1 → ∀ i2, i2 < inT.dims 2 →
      load_bytes (giga_softmax_ ops params inT out m).2 (elem_addr out (idx_of [i0, c, i2]))
          (sizeof_CType out.type)
        = ops.ofFloat out.type (softmax_value ops
            (fun c' => ops.toFloat inT.type
              (load_bytes m (elem_addr inT (idx_of [i0, c', i2])) (sizeof_CType inT.type)))
            (inT.dims 1) c) % 256 ^ sizeof_CType out.type := by
  obtain ⟨h1, h2⟩ := softmax_axis1 ops params inT out m (float_sizeof _ hfi)
    (float_sizeof _ hfo) hci hco hr (by omega) hdims hsep
  refine ⟨h1, fun i0 h0 c hc i2 hi2 => ?_⟩
  have hb : ∀ i, i < inT.nb_dims → idx_of [i0, c, i2] i < inT.dims i := by
    intro i hi
    rw [hr3] at hi
    have : i = 0 ∨ i = 1 ∨ i = 2 := by omega
    rcases this with h | h | h <;> subst h <;>
      simp only [idx_of, List.getD_cons_zero, List.getD_cons_succ] <;> assumption
  have h3 := h2 (idx_of [i0, c, i2]) hb
  have ea : ∀ c', elem_addr inT (Function.update (idx_of [i0, c, i2]) 1 c')
      = elem_addr inT (idx_of [i0, c', i2]) := by
    intro c'
    unfold elem_addr
    simp [hr3, elem_offset, idx_of, Function.update]
  simp only [ea] at h3
  exact h3

/-- C22 (witness): `Float32` tensors of dims (1,2) holding zeros, with exact arithmetic. -/
theorem softmax_along_axis1_witness :
    (giga_softmax_ exact_ops ⟨0⟩ (fresh 2 GIGA_Float32 [1, 2] 0 0)
      (fresh 2 GIGA_Float32 [1, 2] 0 16) zero_store).1 = GIGA_Success ∧
    ∀ idx : Nat → Nat,
      (∀ i, i < (fresh 2 GIGA_Float32 [1, 2] 0 0).nb_dims →
        idx i < (fresh 2 GIGA_Float32 [1, 2] 0 0).dims i) →
      load_bytes (giga_softmax_ exact_ops ⟨0⟩ (fresh 2 GIGA_Float32 [1, 2] 0 0)
          (fresh 2 GIGA_Float32 [1, 2] 0 16) zero_store).2
          (elem_addr (fresh 2 GIGA_Float32 [1, 2] 0 16) idx)
          (sizeof_CType (fresh 2 GIGA_Float32 [1, 2] 0 16).type)
        = exact_ops.ofFloat (fresh 2 GIGA_Float32 [1, 2] 0 16).type (softmax_value exact_ops
            (fun c' => exact_ops.toFloat (fresh 2 GIGA_Float32 [1, 2] 0 0).type
              (load_bytes zero_store
                (elem_addr (fresh 2 GIGA_Float32 [1, 2] 0 0) (Function.update idx 1 c'))
                (sizeof_CType (fresh 2 GIGA_Float32 [1, 2] 0 0).type)))
            ((fresh 2 GIGA_Float32 [1, 2] 0 0).dims 1) (idx 1))
          % 256 ^ sizeof_CType (fresh 2 GIGA_Float32 [1, 2] 0 16).type :=
  softmax_along_axis1 exact_ops ⟨0⟩ (fresh 2 GIGA_Float32 [1, 2] 0 0)
    (fresh 2 GIGA_Float32 [1, 2] 0 16) zero_store (Or.inl rfl) (Or.inl rfl)
    (by unfold Contiguous RowMajor; decide) (by unfold Contiguous RowMajor; decide)
    (by decide) (Or.inl (by decide)) (by decide) (separate_of_bounds _ _ (by decide))

/-- C21 (witness): `Float32` tensors of dims (1,2,1) holding zeros, with exact arithmetic. -/
theorem softmax_rank3_along_axis1_witness :
    (giga_softmax_ exact_ops ⟨0⟩ (fresh 3 GIGA_Float32 [1, 2, 1] 0 0)
      (fresh 3 GIGA_Float32 [1, 2, 1] 0 16) zero_store).1 = GIGA_Success ∧
    ∀ i0, i0 < (fresh 3 GIGA_Float32 [1, 2, 1] 0 0).dims 0 →
      ∀ c, c < (fresh 3 GIGA_Float32 [1, 2, 1] 0 0).dims 1 →
      ∀ i2, i2 < (fresh 3 GIGA_Float32 [1, 2, 1] 0 0).dims 2 →
      load_bytes (giga_softmax_ exact_ops ⟨0⟩ (fresh 3 GIGA_Float32 [1, 2, 1] 0 0)
          (fresh 3 GIGA_Float32 [1, 2, 1] 0 16) zero_store).2
          (elem_addr (fresh 3 GIGA_Float32 [1, 2, 1] 0 16) (idx_of [i0, c, i2]))
          (sizeof_CType (fresh 3 GIGA_Float32 [1, 2, 1] 0 16).type)
        = exact_ops.ofFloat (fresh 3 GIGA_Float32 [1, 2, 1] 0 16).type
            (softmax_value exact_ops
              (fun c' => exact_ops.toFloat (fresh 3 GIGA_Float32 [1, 2, 1] 0 0).type
                (load_bytes zero_store
                  (elem_addr (fresh 3 GIGA_Float32 [1, 2, 1] 0 0) (idx_of [i0, c', i2]))
                  (sizeof_CType (fresh 3 GIGA_Float32 [1, 2, 1] 0 0).type)))
              ((fresh 3 GIGA_Float32 [1, 2, 1] 0 0).dims 1) c)
          % 256 ^ sizeof_CType (fresh 3 GIGA_Float32 [1, 2, 1] 0 16).type :=
  softmax_rank3_along_axis1 exact_ops ⟨0⟩ (fresh 3 GIGA_Float32 [1, 2, 1] 0 0)
    (fresh 3 GIGA_Float32 [1, 2, 1] 0 16) zero_store (Or.inl rfl) (Or.inl rfl)
    (by unfold Contiguous RowMajor; decide) (by unfold Contiguous RowMajor; decide)
    (by decide) (by decide) (by decide) (separate_of_bounds _ _ (by decide))

theorem load_bytes_zero_store (a n : Nat) : load_bytes zero_store a n = 0 := by
  induction n generalizing a with
  | zero => rfl
  | succ n ih => simp [load_bytes, ih, zero_store]

/-- On a slice of two zeros the softmax is 1/2; on a slice of one zero it is 1. -/
theorem softmax_value_zeros :
    softmax_value exact_ops (fun _ => 0) 2 0 = 1 / 2 ∧
    softmax_value exact_ops (fun _ => 0) 1 0 = 1 := by
  refine ⟨?_, ?_⟩
  · simp [softmax_value, slice_max, slice_sum, forLoop, exact_ops, List.range_succ]
    norm_num
  · simp [softmax_value, slice_max, slice_sum, forLoop, exact_ops, List.range_succ]

/-- C21 (counterexample): `Float32` tensors of dims (1,2,1), the input holding `0.f` twice.
`giga_softmax_` returns `GIGA_Success` and stores the pattern of 0.5 at `[0,0,0]` (it normalises
over the two elements of axis 1), whereas the softmax over axis 0, whose slice through `[0,0,0]`
has the single element `in[0,0,0]`, is 1. -/
theorem softmax_rank3_axis0_refuted :
    (giga_softmax_ exact_ops ⟨0⟩ (fresh 3 GIGA_Float32 [1, 2, 1] 0 0)
      (fresh 3 GIGA_Float32 [1, 2, 1] 0 16) zero_store).1 = GIGA_Success ∧
    load_bytes (giga_softmax_ exact_ops ⟨0⟩ (fresh 3 GIGA_Float32 [1, 2, 1] 0 0)
        (fresh 3 GIGA_Float32 [1, 2, 1] 0 16) zero_store).2
        (elem_addr (fresh 3 GIGA_Float32 [1, 2, 1] 0 16) (idx_of [0, 0, 0])) 4
      = f32_bits (1 / 2) ∧
    f32_bits (softmax_value exact_ops
        (fun c' => f32_value (load_bytes zero_store
          (elem_addr (fresh 3 GIGA_Float32 [1, 2, 1] 0 0) (idx_of [c', 0, 0])) 4))
        ((fresh 3 GIGA_Float32 [1, 2, 1] 0 0).dims 0) 0)
      = f32_bits 1 ∧
    f32_bits (1 / 2) ≠ f32_bits 1 := by
  obtain ⟨h1, h2⟩ := softmax_axis1 exact_ops ⟨0⟩ (fresh 3 GIGA_Float32 [1, 2, 1] 0 0)
    (fresh 3 GIGA_Float32 [1, 2, 1] 0 16) zero_store rfl rfl
    (by unfold Contiguous RowMajor; decide) (by unfold Contiguous RowMajor; decide)
    (by decide) (by decide) (by decide) (separate_of_bounds _ _ (by decide))
  have h3 := h2 (idx_of [0, 0, 0]) (by decide)
  have hz : f32_value 0 = 0 := by simp [f32_value]
  have hd1 : (fresh 3 GIGA_Float32 [1, 2, 1] 0 0).dims 1 = 2 := by decide
  have hd0 : (fresh 3 GIGA_Float32 [1, 2, 1] 0 0).dims 0 = 1 := by decide
  have hs : sizeof_CType (fresh 3 GIGA_Float32 [1, 2, 1] 0 16).type = 4 := rfl
  have hb : f32_bits (1 / 2) = 1056964608 := by simp [f32_bits]
  have hb1 : f32_bits 1 = 1065353216 := by simp [f32_bits]
  refine ⟨h1, ?_, ?_, ?_⟩
  · rw [hs] at h3
    rw [h3]
    simp only [load_bytes_zero_store, hd1]
    show f32_bits (softmax_value exact_ops (fun _ => f32_value 0) 2 0) % 256 ^ 4 = _
    rw [hz, softmax_value_zeros.1, hb]
    norm_num
  · simp only [load_bytes_zero_store, hd0, hz]
    rw [softmax_value_zeros.2]
  · rw [hb, hb1]
    decide

/-! ## The half-precision conversions -/

theorem and_bit15 (x : Nat) : x &&& 0x8000 = (x / 2 ^ 15 % 2) * 2 ^ 15 := by
  apply Nat.eq_of_testBit_eq
  intro i
  rw [Nat.testBit_and]
  have h1 : (0x8000 : Nat) = 2 ^ 15 := by norm_num
  rw [h1, Nat.testBit_two_pow]
  by_cases h : i = 15
  · subst h
    simp [Nat.testBit, Nat.shiftRight_eq_div_pow]
  · rw [Nat.mul_comm, Nat.testBit_mul_pow_two]
    have h2 : decide (15 = i) = false := by simp; omega
    rw [h2, Bool.and_false]
    by_cases h3 : i ≥ 15
    · have h4 : (x / 2 ^ 15 % 2).testBit (i - 15) = false :=
        Nat.testBit_lt_two_pow (lt_of_lt_of_le (Nat.mod_lt _ (by norm_num))
          (by
            calc 2 = 2 ^ 1 := by norm_num
              _ ≤ 2 ^ (i - 15) := Nat.pow_le_pow_right (by norm_num) (by omega)))
      rw [h4, Bool.and_false]
    · simp [h3]

theorem and_mask8 (x : Nat) : x &&& 0xFF = x % 2 ^ 8 :=
  Nat.and_pow_two_sub_one_eq_mod x 8

theorem and_mask10 (x : Nat) : x &&& 0x3FF = x % 2 ^ 10 :=
  Nat.and_pow_two_sub_one_eq_mod x 10

theorem and_mask5 (x : Nat) : x &&& 0x1F = x % 2 ^ 5 :=
  Nat.and_pow_two_sub_one_eq_mod x 5

/-- The bitwise or of fields that do not overlap is their sum. -/
theorem lor_fields (a b k : Nat) (hb : b < 2 ^ k) : a * 2 ^ k ||| b = a * 2 ^ k + b := by
  rw [Nat.mul_comm]
  exact (Nat.mul_add_lt_is_or hb a).symm

theorem lor_three (sb e m : Nat) (he : e < 32) (hm : m < 2 ^ 10) :
    (sb * 2 ^ 15 + m) ||| e * 2 ^ 10 = sb * 2 ^ 15 + e * 2 ^ 10 + m := by
  have h1 : sb * 2 ^ 15 + m = sb * 2 ^ 15 ||| m :=
    (lor_fields sb m 15 (by omega)).symm
  rw [h1, Nat.lor_assoc, Nat.lor_comm m, lor_fields e m 10 hm,
    lor_fields sb (e * 2 ^ 10 + m) 15 (by omega)]
  omega

/-- The constructor in arithmetic: sign `i / 2 ^ 31`, biased exponent `i / 2 ^ 23 % 256`. -/
theorem half_of_float_eq (i : Nat) (hi : i < 2 ^ 32) :
    (half.of_float i).data =
      if i / 2 ^ 23 % 256 < 113 then 0
      else if 142 < i / 2 ^ 23 % 256 then i / 2 ^ 31 * 2 ^ 15 + 31 * 2 ^ 10
      else i / 2 ^ 31 * 2 ^ 15 + (i / 2 ^ 23 % 256 - 112) * 2 ^ 10 + i / 2 ^ 13 % 2 ^ 10 := by
  have hs : i / 2 ^ 16 / 2 ^ 15 % 2 = i / 2 ^ 31 := by omega
  have hE : i / 2 ^ 23 % 2 ^ 8 = i / 2 ^ 23 % 256 := by norm_num
  unfold half.of_float
  simp only [Nat.shiftRight_eq_div_pow, and_mask8, and_mask10, and_bit15, Nat.shiftLeft_eq, hs,
    hE]
  generalize hEE : i / 2 ^ 23 % 256 = E
  have hE256 : E < 256 := by omega
  have hsb : i / 2 ^ 31 < 2 := by omega
  generalize i / 2 ^ 31 = sb at hsb
  have hm : i / 2 ^ 13 % 2 ^ 10 < 2 ^ 10 := Nat.mod_lt _ (by norm_num)
  generalize i / 2 ^ 13 % 2 ^ 10 = m at hm
  by_cases h0 : E = 0
  · subst h0
    simp
  · have c0 : ¬ ((E : Int) = 0) := by omega
    rw [if_neg c0]
    by_cases h1 : E < 113
    · rw [if_pos (by omega : (E : Int) - 127 < -14), if_pos h1]
    · rw [if_neg (by omega : ¬ ((E : Int) - 127 < -14)), if_neg h1]
      by_cases h2 : 142 < E
      · have e1 : (if (E : Int) - 127 > 15 then (31 : Int) else (E : Int) - 127 + 15) = 31 :=
          if_pos (by omega)
        rw [if_pos h2]
        simp only [e1, ne_eq, not_true_eq_false, if_false]
        have e2 : u32 31 = 31 := by decide
        rw [e2, Nat.mod_eq_of_lt (by omega : sb * 2 ^ 15 < 2 ^ 16),
          Nat.mod_eq_of_lt (by norm_num : 31 * 2 ^ 10 < 2 ^ 32), lor_fields sb _ 15 (by norm_num)]
        omega
      · have e1 : (if (E : Int) - 127 > 15 then (31 : Int) else (E : Int) - 127 + 15)
            = ((E - 112 : Nat) : Int) := by
          rw [if_neg (by omega)]
          omega
        have e3 : ((E - 112 : Nat) : Int) ≠ 31 := by omega
        rw [if_neg h2]
        simp only [e1, if_pos e3]
        have e2 : u32 ((E - 112 : Nat) : Int) = E - 112 := by
          unfold u32
          omega
        rw [e2, Nat.mod_eq_of_lt (by omega : sb * 2 ^ 15 < 2 ^ 16), lor_fields sb m 15 (by omega),
          Nat.mod_eq_of_lt (by omega : sb * 2 ^ 15 + m < 2 ^ 16),
          Nat.mod_eq_of_lt (by omega : (E - 112) * 2 ^ 10 < 2 ^ 32),
          lor_three sb (E - 112) m (by omega) hm]
        omega

/-- The conversion to `float` in arithmetic: sign `d / 2 ^ 15`, exponent field `d / 2 ^ 10 % 32`,
mantissa `d % 2 ^ 10`. -/
theorem half_operator_float_eq (d : Nat) (hd : d < 2 ^ 16) :
    half.operator_float ⟨d⟩ =
      if d = 0 then 0
      else if d / 2 ^ 10 % 32 = 31 then d / 2 ^ 15 * 2 ^ 31 + 255 * 2 ^ 23
      else d / 2 ^ 15 * 2 ^ 31 + (d / 2 ^ 10 % 32 + 112) * 2 ^ 23 + d % 2 ^ 10 * 2 ^ 13 := by
  have hs : d / 2 ^ 15 % 2 = d / 2 ^ 15 := by omega
  have hE : d / 2 ^ 10 % 2 ^ 5 = d / 2 ^ 10 % 32 := by norm_num
  unfold half.operator_float
  simp only [Nat.shiftRight_eq_div_pow, and_mask5, and_mask10, and_bit15, Nat.shiftLeft_eq, hs,
    hE]
  by_cases h0 : d = 0
  · rw [if_pos h0, if_pos h0]
  · rw [if_neg h0, if_neg h0]
    generalize hEE : d / 2 ^ 10 % 32 = E
    have hE32 : E < 32 := by omega
    have hsb : d / 2 ^ 15 < 2 := by omega
    generalize d / 2 ^ 15 = sb at hsb
    have hm : d % 2 ^ 10 < 2 ^ 10 := Nat.mod_lt _ (by norm_num)
    generalize d % 2 ^ 10 = m at hm
    have e0 : (E + (127 - 15)) % 2 ^ 32 = E + 112 := by omega
    have e1 : sb * 2 ^ 15 * 2 ^ 16 % 2 ^ 32 = sb * 2 ^ 31 := by omega
    rw [e0, e1]
    by_cases h1 : E = 31
    · rw [if_pos (by omega), if_pos h1, Nat.mod_eq_of_lt (by norm_num : 255 * 2 ^ 23 < 2 ^ 32),
        lor_fields sb _ 31 (by norm_num)]
    · rw [if_neg (by omega), if_neg h1,
        Nat.mod_eq_of_lt (by omega : (E + 112) * 2 ^ 23 < 2 ^ 32),
        Nat.mod_eq_of_lt (by omega : m * 2 ^ 13 < 2 ^ 32),
        lor_fields sb _ 31 (by omega)]
      have e2 : sb * 2 ^ 31 + (E + 112) * 2 ^ 23 = (sb * 256 + (E + 112)) * 2 ^ 23 := by omega
      rw [e2, lor_fields _ _ 23 (by omega)]

/-- C33: for every 32-bit pattern `i` with sign `i / 2 ^ 31`, biased exponent
`E = i / 2 ^ 23 % 256` (unbiased `e = E - 127`) and mantissa `i % 2 ^ 23`, the 16 bits made by
`half::half(float)` are `sign | (e + 15) << 10 | mantissa >> 13` when `-14 ≤ e ≤ 15`, zero when
`e < -14`, and `sign | 0x7C00` when `e > 15`. -/
theorem half_of_float_rounds_and_flushes (i : Nat) (hi : i < 2 ^ 32) :
    (-14 ≤ ((i / 2 ^ 23 % 256 : Nat) : Int) - 127 → ((i / 2 ^ 23 % 256 : Nat) : Int) - 127 ≤ 15 →
      ((half.of_float i).data : Int)
        = (i / 2 ^ 31 : Nat) * 2 ^ 15 + (((i / 2 ^ 23 % 256 : Nat) : Int) - 127 + 15) * 2 ^ 10
          + (i % 2 ^ 23 / 2 ^ 13 : Nat)) ∧
    (((i / 2 ^ 23 % 256 : Nat) : Int) - 127 < -14 → (half.of_float i).data = 0) ∧
    (15 < ((i / 2 ^ 23 % 256 : Nat) : Int) - 127 →
      (half.of_float i).data = i / 2 ^ 31 * 2 ^ 15 + 0x7C00) := by
  have h := half_of_float_eq i hi
  refine ⟨fun h1 h2 => ?_, fun h1 => ?_, fun h1 => ?_⟩
  · rw [h, if_neg (by omega), if_neg (by omega)]
    have e : i % 2 ^ 23 / 2 ^ 13 = i / 2 ^ 13 % 2 ^ 10 := by omega
    rw [e]
    push_cast
    omega
  · rw [h, if_pos (by omega)]
  · rw [h, if_neg (by omega), if_pos (by omega)]
    norm_num

/-- C33 (witness): `1.0f` (`0x3F800000`) gives `0x3C00`. -/
theorem half_of_float_rounds_and_flushes_witness :
    (-14 ≤ ((1065353216 / 2 ^ 23 % 256 : Nat) : Int) - 127 →
      ((1065353216 / 2 ^ 23 % 256 : Nat) : Int) - 127 ≤ 15 →
      ((half.of_float 1065353216).data : Int)
        = (1065353216 / 2 ^ 31 : Nat) * 2 ^ 15
          + (((1065353216 / 2 ^ 23 % 256 : Nat) : Int) - 127 + 15) * 2 ^ 10
          + (1065353216 % 2 ^ 23 / 2 ^ 13 : Nat)) ∧
    (((1065353216 / 2 ^ 23 % 256 : Nat) : Int) - 127 < -14 →
      (half.of_float 1065353216).data = 0) ∧
    (15 < ((1065353216 / 2 ^ 23 % 256 : Nat) : Int) - 127 →
      (half.of_float 1065353216).data = 1065353216 / 2 ^ 31 * 2 ^ 15 + 0x7C00) :=
  half_of_float_rounds_and_flushes 1065353216 (by norm_num)

/-- C34 (failing input): `half::half(float)` on the pattern `0x80000000` of `-0.f` gives the 16
bits `0x0000` and not `0x8000`; `half::operator float` on `0x8000` gives the pattern
`0xB8000000`, the number `-2^-15`, and not `0x80000000`. -/
theorem half_loses_sign_of_zero :
    (half.of_float 0x80000000).data = 0 ∧ half.operator_float ⟨0x8000⟩ = 0xB8000000 := by
  decide

/-- C40: for every 32-bit pattern `f`, `half(float(half(f)))` has the 16 bits of `half(f)`. -/
theorem half_is_idempotent_through_float (f : Nat) (hf : f < 2 ^ 32) :
    half.of_float (half.operator_float (half.of_float f)) = half.of_float f := by
  have h1 := half_of_float_eq f hf
  have hlt : (half.of_float f).data < 2 ^ 16 := by
    rw [h1]
    split_ifs <;> omega
  have h2 := half_operator_float_eq (half.of_float f).data hlt
  have h2lt : half.operator_float (half.of_float f) < 2 ^ 32 := by
    rw [show half.of_float f = ⟨(half.of_float f).data⟩ from rfl, h2]
    split_ifs <;> omega
  have h3 := half_of_float_eq _ h2lt
  have key : (half.of_float (half.operator_float (half.of_float f))).data
      = (half.of_float f).data := by
    rw [h3, show half.of_float f = ⟨(half.of_float f).data⟩ from rfl, h2]
    simp only []
    rw [h1]
    split_ifs <;> omega
  cases hA : half.of_float (half.operator_float (half.of_float f)) with
  | mk a =>
    cases hB : half.of_float f with
    | mk b =>
      rw [hA, hB] at key
      exact congrArg half.mk key

/-- C40 (witness): the pattern of `1.0f`. -/
theorem half_is_idempotent_through_float_witness :
    half.of_float (half.operator_float (half.of_float 1065353216))
      = half.of_float 1065353216 :=
  half_is_idempotent_through_float 1065353216 (by norm_num)

/-! ## Softmax of rank 1: the bound of the first loop -/

/-- C35 (failing input): a fresh rank-1 `Float32` tensor of length 2 whose descriptor entry
`dims[1]` is 0, holding `0.f` and `1.f`: the first loop takes no step and `max_value` is the first
element 0, whereas the maximum of the slice is 1.  With `dims[1] = 3` the loop reads a third
element at 4104, outside the 8 bytes of the tensor: two stores that agree on the tensor give the
`max_value` 0 and 2. -/
theorem softmax_rank1_max_uses_dims1 :
    (fresh 1 GIGA_Float32 [2] 0 0).dims 1 = 0 ∧
    softmax_rank1_max exact_ops GIGA_Float32 (fresh 1 GIGA_Float32 [2] 0 0) store_f32_0_1 = 0 ∧
    slice_max exact_ops
      (fun i => f32_value (load_bytes store_f32_0_1
        (elem_addr (fresh 1 GIGA_Float32 [2] 0 0) (idx_of [i])) 4)) 2 = 1 ∧
    (∀ a, region (fresh 1 GIGA_Float32 [2, 3] 0 0) a → store_f32_2_at_4104 a = zero_store a) ∧
    softmax_rank1_max exact_ops GIGA_Float32 (fresh 1 GIGA_Float32 [2, 3] 0 0) zero_store = 0 ∧
    softmax_rank1_max exact_ops GIGA_Float32 (fresh 1 GIGA_Float32 [2, 3] 0 0)
      store_f32_2_at_4104 = 2 := by
  refine ⟨by decide, ?_, ?_, ?_, ?_, ?_⟩
  · have hd : (fresh 1 GIGA_Float32 [2] 0 0).dims 1 = 0 := by decide
    have hp : get_ptr (fresh 1 GIGA_Float32 [2] 0 0) = 4096 := by decide
    have hl : load_bytes store_f32_0_1 4096 4 = 0 := by decide
    unfold softmax_rank1_max
    simp only [hd, forLoop_zero, hp]
    show f32_value (load_bytes store_f32_0_1 4096 4) = 0
    rw [hl]
    simp [f32_value]
  · have h0 : elem_addr (fresh 1 GIGA_Float32 [2] 0 0) (idx_of [0]) = 4096 := by decide
    have h1 : elem_addr (fresh 1 GIGA_Float32 [2] 0 0) (idx_of [1]) = 4100 := by decide
    have hl0 : load_bytes store_f32_0_1 4096 4 = 0 := by decide
    have hl1 : load_bytes store_f32_0_1 4100 4 = 1065353216 := by decide
    unfold slice_max
    simp only [forLoop, List.range_succ, List.range_zero, List.nil_append, List.foldl_cons,
      List.foldl_nil, h0, h1, hl0, hl1]
    simp [exact_ops, f32_value]
  · intro a ha
    unfold region at ha
    have hp : get_ptr (fresh 1 GIGA_Float32 [2, 3] 0 0) = 4096 := by decide
    have hs : element_size_in_bits (fresh 1 GIGA_Float32 [2, 3] 0 0).type / 8
        * prod_from (fresh 1 GIGA_Float32 [2, 3] 0 0).dims
          (fresh 1 GIGA_Float32 [2, 3] 0 0).nb_dims 0 = 8 := by decide
    rw [hp, hs] at ha
    unfold store_f32_2_at_4104 zero_store
    rw [if_neg (by omega)]
  · have hd : (fresh 1 GIGA_Float32 [2, 3] 0 0).dims 1 = 3 := by decide
    unfold softmax_rank1_max
    simp only [hd, forLoop, List.range_succ, List.range_zero, List.nil_append, List.foldl_cons,
      List.foldl_nil, List.foldl_append, load_bytes_zero_store]
    simp [exact_ops, f32_value]
  · have hd : (fresh 1 GIGA_Float32 [2, 3] 0 0).dims 1 = 3 := by decide
    have hp : get_ptr (fresh 1 GIGA_Float32 [2, 3] 0 0) = 4096 := by decide
    have hs0 : (fresh 1 GIGA_Float32 [2, 3] 0 0).strides 0 = 4 := by decide
    have hsz : sizeof_CType GIGA_Float32 = 4 := rfl
    have hl0 : load_bytes store_f32_2_at_4104 4096 4 = 0 := by decide
    have hl1 : load_bytes store_f32_2_at_4104 4100 4 = 0 := by decide
    have hl2 : load_bytes store_f32_2_at_4104 4104 4 = 1073741824 := by decide
    unfold softmax_rank1_max
    simp only [hd, hp, hs0, hsz, forLoop, List.range_succ, List.range_zero, List.nil_append,
      List.foldl_cons, List.foldl_nil, List.foldl_append]
    norm_num [hl0, hl1, hl2, exact_ops, f32_value]

/-! ## Kernels validate before they write -/

theorem validates_ite (m : Mem) (c : Prop) [Decidable c] (x y : GIGA_error × Mem)
    (hx : ValidatesFirst m x) (hy : ValidatesFirst m y) :
    ValidatesFirst m (if c then x else y) := by
  split_ifs
  · exact hx
  · exact hy

theorem validates_match (m : Mem) (c : Option GIGA_error) (y : GIGA_error × Mem)
    (hy : ValidatesFirst m y) :
    ValidatesFirst m (match c with
      | some e => (e, m)
      | none => y) := by
  cases c with
  | some e => exact Or.inr rfl
  | none => exact hy

theorem validates_error (m : Mem) (e : GIGA_error) : ValidatesFirst m (e, m) := Or.inr rfl

theorem validates_success (m r : Mem) : ValidatesFirst m (GIGA_Success, r) := Or.inl rfl

theorem conv2d_impl_validates (w : Nat) (i_T o_T k_T : CIntType) (params : GIGA_conv2d_t)
    (inT out : GIGA_tensor_t) (m : Mem) :
    ValidatesFirst m (_conv2d_impl w i_T o_T k_T params inT out m) := by
  unfold _conv2d_impl
  refine validates_ite m _ _ _ (validates_error m _) ?_
  refine validates_ite m _ _ _ (validates_error m _) ?_
  refine validates_ite m _ _ _ (validates_error m _) ?_
  conv => zeta
  refine validates_ite m _ _ _ (validates_error m _) ?_
  refine validates_ite m _ _ _ (validates_error m _) ?_
  refine validates_ite m _ _ _ (validates_error m _) ?_
  refine validates_ite m _ _ _ (validates_error m _) ?_
  refine validates_ite m _ _ _ (validates_error m _) ?_
  refine validates_ite m _ _ _ (validates_error m _) ?_
  refine validates_ite m _ _ _ (validates_error m _) ?_
  refine validates_ite m _ _ _ (validates_error m _) ?_
  refine validates_match m _ _ ?_
  refine validates_ite m _ _ _ (validates_error m _) ?_
  refine validates_ite m _ _ _ (validates_error m _) ?_
  exact validates_success m _

theorem dense_impl_validates (w : Nat) (i_T o_T k_T : CIntType) (params : GIGA_dense_t)
    (inT out : GIGA_tensor_t) (m : Mem) :
    ValidatesFirst m (_dense_impl w i_T o_T k_T params inT out m) := by
  unfold _dense_impl
  refine validates_ite m _ _ _ (validates_error m _) ?_
  refine validates_ite m _ _ _ (validates_error m _) ?_
  conv => zeta
  refine validates_ite m _ _ _ (validates_error m _) ?_
  refine validates_ite m _ _ _ (validates_error m _) ?_
  refine validates_ite m _ _ _ (validates_error m _) ?_
  refine validates_match m _ _ ?_
  exact validates_success m _

theorem add_impl_validates (w : Nat) (a_T b_T o_T : CIntType) (a b out : GIGA_tensor_t)
    (m : Mem) : ValidatesFirst m (_add_impl w a_T b_T o_T a b out m) := by
  unfold _add_impl
  conv => zeta
  refine validates_ite m _ _ _ (validates_error m _) ?_
  cases add_dims_loop a b out with
  | none => exact validates_error m _
  | some n => exact validates_success m _

theorem upsample_impl_validates (sz : Nat) (params : GIGA_upsample_t) (inT out : GIGA_tensor_t)
    (m : Mem) : ValidatesFirst m (_giga_upsample_impl sz params inT out m) := by
  unfold _giga_upsample_impl
  refine validates_ite m _ _ _ (validates_error m _) ?_
  refine validates_ite m _ _ _ (validates_error m _) ?_
  refine validates_ite m _ _ _ (validates_error m _) ?_
  refine validates_ite m _ _ _ (validates_error m _) ?_
  refine validates_ite m _ _ _ (validates_error m _) ?_
  refine validates_ite m _ _ _ (validates_error m _) ?_
  conv => zeta
  refine validates_ite m _ _ _ (validates_error m _) ?_
  refine validates_ite m _ _ _ (validates_error m _) ?_
  exact validates_success m _

theorem softmax_impl_validates {F : Type} (ops : FloatOps F) (i_GT o_GT : GIGA_data_type)
    (inT out : GIGA_tensor_t) (m : Mem) :
    ValidatesFirst m (_softmax_impl ops i_GT o_GT inT out m) := by
  unfold _softmax_impl
  refine validates_ite m _ _ _ (validates_error m _) ?_
  refine validates_ite m _ _ _ (validates_error m _) ?_
  refine validates_ite m _ _ _ (validates_success m _) ?_
  refine validates_ite m _ _ _ (validates_success m _) ?_
  exact validates_success m _

theorem validates_some (m : Mem) (r : GIGA_error × Mem) (h : ValidatesFirst m r)
    (e : GIGA_error) (m2 : Mem) (hr : some r = some (e, m2)) (he : e ≠ GIGA_Success) :
    m2 = m := by
  have h2 : r = (e, m2) := Option.some.inj hr
  subst h2
  rcases h with h | h
  · exact absurd h he
  · exact h

theorem add_validates (w : Nat) (a b out : GIGA_tensor_t) (m : Mem) (e : GIGA_error) (m2 : Mem)
    (h : giga_add_ w a b out m = some (e, m2)) (he : e ≠ GIGA_Success) : m2 = m := by
  unfold giga_add_ at h
  split_ifs at h
  · exact validates_some m _ (validates_error m _) e m2 h he
  · split at h
    · exact validates_some m _ (add_impl_validates w _ _ _ a b out m) e m2 h he
    · exact Option.noConfusion h

theorem conv2d_validates (w : Nat) (params : GIGA_conv2d_t) (inT out : GIGA_tensor_t) (m : Mem)
    (e : GIGA_error) (m2 : Mem)
    (h : giga_conv2d_ w params inT out m = some (e, m2)) (he : e ≠ GIGA_Success) : m2 = m := by
  unfold giga_conv2d_ at h
  split_ifs at h
  · exact validates_some m _ (validates_error m _) e m2 h he
  · split at h
    · exact validates_some m _ (conv2d_impl_validates w _ _ _ params inT out m) e m2 h he
    · cases hc : conv2d_checks params inT out with
      | none => rw [hc] at h; exact Option.noConfusion h
      | some e2 =>
        rw [hc] at h
        exact validates_some m _ (validates_error m e2) e m2 h he

theorem dense_validates (w : Nat) (params : GIGA_dense_t) (inT out : GIGA_tensor_t) (m : Mem)
    (e : GIGA_error) (m2 : Mem)
    (h : giga_dense_ w params inT out m = some (e, m2)) (he : e ≠ GIGA_Success) : m2 = m := by
  unfold giga_dense_ at h
  split_ifs at h
  · exact validates_some m _ (validates_error m _) e m2 h he
  · split at h
    · exact validates_some m _ (dense_impl_validates w _ _ _ params inT out m) e m2 h he
    · cases hc : dense_checks params inT out with
      | none => rw [hc] at h; exact Option.noConfusion h
      | some e2 =>
        rw [hc] at h
        exact validates_some m _ (validates_error m e2) e m2 h he

/-! ## The rounding law of the fixed-point addition -/

/-- The shift primitive on the compute type agrees with the exact rescaling modulo `2 ^ w`. -/
theorem shift_modEq_scaled (w : Nat) (hw : 32 ≤ w) (v s : Int) :
    shift ⟨w, true⟩ v s ≡ scaled v s [ZMOD 2 ^ w] := by
  rw [scaled_eq]
  unfold shift
  simp only [promote_wide w hw true, wrap_signed]
  by_cases h0 : s > 0
  · rw [if_pos h0, if_pos (by omega : 0 ≤ s)]
    split_ifs with hneg
    · refine (wrapS_modEq w _).trans ((wrapS_modEq w _).trans ?_)
      have e1 : wrapS w (wrapS w (-v) * 2 ^ s.toNat) ≡ -v * 2 ^ s.toNat [ZMOD 2 ^ w] :=
        (wrapS_modEq w _).trans (Int.ModEq.mul_right _ (wrapS_modEq w _))
      have e2 := Int.ModEq.neg e1
      simpa using e2
    · exact (wrapS_modEq w _).trans (wrapS_modEq w _)
  · rw [if_neg h0]
    refine (wrapS_modEq w _).trans ?_
    by_cases h1 : 0 ≤ s
    · have hs : s = 0 := by omega
      subst hs
      simp
    · rw [if_neg h1]

/-- A value narrowed from the compute type is the exact value when this one fits the kind. -/
theorem narrow_of_modEq (w : Nat) (hw : 32 ≤ w) (T : CIntType)
    (hT : T = ⟨8, true⟩ ∨ T = ⟨16, true⟩ ∨ T = ⟨8, false⟩ ∨ T = ⟨16, false⟩)
    (X S : Int) (h : X ≡ S [ZMOD 2 ^ w]) (hfit : T.wrap S = S) : T.wrap X = S := by
  have hb : T.bits ≤ w := by
    rcases hT with h | h | h | h <;> subst h <;> simp only [] <;> omega
  rw [wrap_congr T X S (modEq_of_pow_le X S T.bits w hb h), hfit]

/-- The exact rescaling of a stored value from `fa` to `fo` fractional bits rounds down by less
than one unit. -/
theorem scaled_bounds (A : Int) (fa fo : Nat) :
    ((scaled A ((fo : Int) - (fa : Int)) : Int) : ℚ) / 2 ^ fo ≤ (A : ℚ) / 2 ^ fa ∧
    (A : ℚ) / 2 ^ fa < (((scaled A ((fo : Int) - (fa : Int)) : Int) : ℚ) + 1) / 2 ^ fo ∧
    (fa ≤ fo → ((scaled A ((fo : Int) - (fa : Int)) : Int) : ℚ) / 2 ^ fo = (A : ℚ) / 2 ^ fa) := by
  have hfo : (0 : ℚ) < 2 ^ fo := by positivity
  have hfa : (0 : ℚ) < 2 ^ fa := by positivity
  by_cases h : fa ≤ fo
  · have hs : scaled A ((fo : Int) - (fa : Int)) = A * 2 ^ (fo - fa) := by
      unfold scaled
      rw [if_pos (by omega)]
      congr 2
      omega
    have e : ((A * 2 ^ (fo - fa) : Int) : ℚ) / 2 ^ fo = (A : ℚ) / 2 ^ fa := by
      push_cast
      rw [div_eq_div_iff (ne_of_gt hfo) (ne_of_gt hfa), mul_assoc, ← pow_add,
        Nat.sub_add_cancel h]
    rw [hs]
    refine ⟨le_of_eq e, ?_, fun _ => e⟩
    rw [add_div, e]
    have : (0 : ℚ) < 1 / 2 ^ fo := by positivity
    linarith
  · have hs : scaled A ((fo : Int) - (fa : Int)) = ⌊(A : ℚ) / 2 ^ (fa - fo)⌋ := by
      unfold scaled
      rw [if_neg (by omega)]
      congr 3
      omega
    have hk : (0 : ℚ) < 2 ^ (fa - fo) := by positivity
    have e : (A : ℚ) / 2 ^ fa = (A : ℚ) / 2 ^ (fa - fo) / 2 ^ fo := by
      rw [div_div, ← pow_add, Nat.sub_add_cancel (by omega)]
    rw [hs, e]
    refine ⟨?_, ?_, fun h2 => absurd h2 h⟩
    · exact div_le_div_of_nonneg_right (Int.floor_le _) (le_of_lt hfo)
    · exact div_lt_div_of_pos_right (Int.lt_floor_add_one _) hfo

/-- C38: for contiguous tensors `a`, `b`, `out` of the same rank, dims and 8- or 16-bit
fixed-point kind, the output sharing no byte with the inputs, `giga_add_` returns `GIGA_Success`
and, at every element where the sum of the two rescaled operands fits the output kind, the stored
result `r` satisfies `r / 2^fp_out ≤ a / 2^fp_a + b / 2^fp_b < (r + 2) / 2^fp_out`, with equality
on the left when `fp_out ≥ fp_a` and `fp_out ≥ fp_b`. -/
theorem add_rounding_law (w : Nat) (T : CIntType) (a b out : GIGA_tensor_t) (m : Mem)
    (hw : 32 ≤ w) (hT : fixed_CType out.type = some T)
    (hka : a.type = out.type) (hkb : b.type = out.type)
    (hca : Contiguous a) (hcb : Contiguous b) (hco : Contiguous out)
    (hra : a.nb_dims = out.nb_dims) (hrb : b.nb_dims = out.nb_dims)
    (hda : ∀ i, i < out.nb_dims → a.dims i = out.dims i)
    (hdb : ∀ i, i < out.nb_dims → b.dims i = out.dims i)
    (hsa : Separate out a) (hsb : Separate out b) :
    ∃ m2, giga_add_ w a b out m = some (GIGA_Success, m2) ∧
      ∀ idx : Nat → Nat, (∀ i, i < out.nb_dims → idx i < out.dims i) →
        T.wrap (scaled (load_int T m (elem_addr a idx)) ((out.fp_shift : Int) - (a.fp_shift : Int))
            + scaled (load_int T m (elem_addr b idx)) ((out.fp_shift : Int) - (b.fp_shift : Int)))
          = scaled (load_int T m (elem_addr a idx)) ((out.fp_shift : Int) - (a.fp_shift : Int))
            + scaled (load_int T m (elem_addr b idx))
              ((out.fp_shift : Int) - (b.fp_shift : Int)) →
        ((load_int T m2 (elem_addr out idx) : ℚ) / 2 ^ out.fp_shift
          ≤ (load_int T m (elem_addr a idx) : ℚ) / 2 ^ a.fp_shift
            + (load_int T m (elem_addr b idx) : ℚ) / 2 ^ b.fp_shift) ∧
        ((load_int T m (elem_addr a idx) : ℚ) / 2 ^ a.fp_shift
            + (load_int T m (elem_addr b idx) : ℚ) / 2 ^ b.fp_shift
          < ((load_int T m2 (elem_addr out idx) : ℚ) + 2) / 2 ^ out.fp_shift) ∧
        (a.fp_shift ≤ out.fp_shift → b.fp_shift ≤ out.fp_shift →
          (load_int T m2 (elem_addr out idx) : ℚ) / 2 ^ out.fp_shift
            = (load_int T m (elem_addr a idx) : ℚ) / 2 ^ a.fp_shift
              + (load_int T m (elem_addr b idx) : ℚ) / 2 ^ b.fp_shift) := by
  obtain ⟨m2, hm2, hval⟩ := add_formula w T a b out m hw hT hka hkb hca hcb hco hra hrb hda hdb
    hsa hsb
  obtain ⟨cT, _, _⟩ := fixed_CType_cases _ _ hT
  refine ⟨m2, hm2, fun idx hidx hfit => ?_⟩
  have hr : load_int T m2 (elem_addr out idx)
      = scaled (load_int T m (elem_addr a idx)) ((out.fp_shift : Int) - (a.fp_shift : Int))
        + scaled (load_int T m (elem_addr b idx))
          ((out.fp_shift : Int) - (b.fp_shift : Int)) := by
    rw [hval idx hidx]
    refine narrow_of_modEq w hw T cT _ _ ?_ hfit
    rw [wrap_signed]
    exact (wrapS_modEq w _).trans
      (Int.ModEq.add (shift_modEq_scaled w hw _ _) (shift_modEq_scaled w hw _ _))
  obtain ⟨a1, a2, a3⟩ := scaled_bounds (load_int T m (elem_addr a idx)) a.fp_shift out.fp_shift
  obtain ⟨b1, b2, b3⟩ := scaled_bounds (load_int T m (elem_addr b idx)) b.fp_shift out.fp_shift
  rw [hr]
  push_cast
  refine ⟨?_, ?_, fun h1 h2 => ?_⟩
  · rw [add_div]
    exact add_le_add a1 b1
  · have e : (((scaled (load_int T m (elem_addr a idx))
          ((out.fp_shift : Int) - (a.fp_shift : Int)) : Int) : ℚ)
        + ((scaled (load_int T m (elem_addr b idx))
          ((out.fp_shift : Int) - (b.fp_shift : Int)) : Int) : ℚ) + 2) / 2 ^ out.fp_shift
        = (((scaled (load_int T m (elem_addr a idx))
            ((out.fp_shift : Int) - (a.fp_shift : Int)) : Int) : ℚ) + 1) / 2 ^ out.fp_shift
          + (((scaled (load_int T m (elem_addr b idx))
            ((out.fp_shift : Int) - (b.fp_shift : Int)) : Int) : ℚ) + 1) / 2 ^ out.fp_shift := by
      rw [← add_div]
      congr 1
      ring
    rw [e]
    exact add_lt_add a2 b2
  · rw [add_div, a3 h1, b3 h2]

/-- C38 (witness): the `SFixed16` tensors of dims (2,3) with `fp_shift` 1, 2 and 0. -/
theorem add_rounding_law_witness :
    ∃ m2, giga_add_ 32 add_a add_b add_out store_1_to_8 = some (GIGA_Success, m2) ∧
      ∀ idx : Nat → Nat, (∀ i, i < add_out.nb_dims → idx i < add_out.dims i) →
        CIntType.wrap ⟨16, true⟩
            (scaled (load_int ⟨16, true⟩ store_1_to_8 (elem_addr add_a idx))
              ((add_out.fp_shift : Int) - (add_a.fp_shift : Int))
            + scaled (load_int ⟨16, true⟩ store_1_to_8 (elem_addr add_b idx))
              ((add_out.fp_shift : Int) - (add_b.fp_shift : Int)))
          = scaled (load_int ⟨16, true⟩ store_1_to_8 (elem_addr add_a idx))
              ((add_out.fp_shift : Int) - (add_a.fp_shift : Int))
            + scaled (load_int ⟨16, true⟩ store_1_to_8 (elem_addr add_b idx))
              ((add_out.fp_shift : Int) - (add_b.fp_shift : Int)) →
        ((load_int ⟨16, true⟩ m2 (elem_addr add_out idx) : ℚ) / 2 ^ add_out.fp_shift
          ≤ (load_int ⟨16, true⟩ store_1_to_8 (elem_addr add_a idx) : ℚ) / 2 ^ add_a.fp_shift
            + (load_int ⟨16, true⟩ store_1_to_8 (elem_addr add_b idx) : ℚ)
              / 2 ^ add_b.fp_shift) ∧
        ((load_int ⟨16, true⟩ store_1_to_8 (elem_addr add_a idx) : ℚ) / 2 ^ add_a.fp_shift
            + (load_int ⟨16, true⟩ store_1_to_8 (elem_addr add_b idx) : ℚ) / 2 ^ add_b.fp_shift
          < ((load_int ⟨16, true⟩ m2 (elem_addr add_out idx) : ℚ) + 2) / 2 ^ add_out.fp_shift) ∧
        (add_a.fp_shift ≤ add_out.fp_shift → add_b.fp_shift ≤ add_out.fp_shift →
          (load_int ⟨16, true⟩ m2 (elem_addr add_out idx) : ℚ) / 2 ^ add_out.fp_shift
            = (load_int ⟨16, true⟩ store_1_to_8 (elem_addr add_a idx) : ℚ) / 2 ^ add_a.fp_shift
              + (load_int ⟨16, true⟩ store_1_to_8 (elem_addr add_b idx) : ℚ)
                / 2 ^ add_b.fp_shift) :=
  add_rounding_law 32 ⟨16, true⟩ add_a add_b add_out store_1_to_8 (by decide) rfl rfl rfl
    (by unfold Contiguous RowMajor; decide) (by unfold Contiguous RowMajor; decide)
    (by unfold Contiguous RowMajor; decide) (by decide) (by decide) (by decide) (by decide)
    (separate_of_bounds _ _ (by decide)) (separate_of_bounds _ _ (by decide))

/-! ## ReLU and the sign of the stored element -/

/-- A value stored with `store_int` and read back with `load_int` is the value converted to the
kind. -/
theorem load_store_int (T : CIntType)
    (hT : T = ⟨8, true⟩ ∨ T = ⟨16, true⟩ ∨ T = ⟨8, false⟩ ∨ T = ⟨16, false⟩) (m : Mem)
    (a : Nat) (x : Int) :
    load_int T (store_int T m a x) a = T.wrap x :=
  load_int_of_bytes T hT _ a x (fun j hj => store_bytes_in m a (T.bits / 8) _ j hj)

theorem scaled_nonneg (x s : Int) (hx : 0 ≤ x) : 0 ≤ scaled x s := by
  rw [scaled_eq]
  split_ifs
  · positivity
  · exact Int.ediv_nonneg hx (by positivity)

/-- C32 (counterexample): with `b_ReLU` set and `SFixed8` tensors, `giga_conv2d` on the input
100 and the kernel tap 2 succeeds and stores −56 (the accumulator 200 converted to 8 bits), and
`giga_dense` on the inputs 100, 100 and the kernel row 2, 2 succeeds and stores −112 (the
accumulator 400 converted to 8 bits). -/
theorem relu_stores_negative_on_overflow :
    (giga_conv2d_ 32 relu_params relu_in relu_out relu_store).map
        (fun r => (r.1, load_int ⟨8, true⟩ r.2 (elem_addr relu_out (idx_of [0, 0, 0, 0]))))
      = some (GIGA_Success, -56) ∧
    (giga_dense_ 32 relu_dense_params relu_dense_in relu_dense_out relu_store).map
        (fun r => (r.1, load_int ⟨8, true⟩ r.2 (elem_addr relu_dense_out (idx_of [0, 0]))))
      = some (GIGA_Success, -112) := by
  refine ⟨by decide, by decide⟩

/-! ## Convolution of integer-valued data -/

theorem wrap_fit_bounds (T : CIntType)
    (hT : T = ⟨8, true⟩ ∨ T = ⟨16, true⟩ ∨ T = ⟨8, false⟩ ∨ T = ⟨16, false⟩) (v : Int)
    (h : T.wrap v = v) : -(2 ^ 15) ≤ v ∧ v < 2 ^ 16 := by
  rcases hT with e | e | e | e <;> subst e <;> simp [CIntType.wrap, wrapS] at h <;> omega

/-- The accumulator `2 ^ k * S` rescaled by `fo - k` is `S * 2 ^ fo`. -/
theorem scaled_pow_mul (S : Int) (k fo : Nat) :
    scaled (2 ^ k * S) ((fo : Int) - (k : Int)) = S * 2 ^ fo := by
  rw [scaled_eq]
  split_ifs with h
  · have hk : k ≤ fo := by omega
    obtain ⟨d, rfl⟩ := Nat.exists_eq_add_of_le hk
    have e : (((k + d : Nat) : Int) - (k : Int)).toNat = d := by omega
    rw [e, pow_add]
    ring
  · have hk : fo ≤ k := by omega
    obtain ⟨d, rfl⟩ := Nat.exists_eq_add_of_le hk
    have e : (-((fo : Int) - ((fo + d : Nat) : Int))).toNat = d := by omega
    have hpos : (0 : Int) < 2 ^ d := by positivity
    have e2 : (2 : Int) ^ (fo + d) * S = 2 ^ d * (S * 2 ^ fo) := by
      rw [pow_add]
      ring
    rw [e, e2, Int.mul_ediv_cancel_left _ (ne_of_gt hpos)]

theorem fit_unscaled (S P : Int) (hP : 1 ≤ P) (h1 : -(2 ^ 15) ≤ S * P) (h2 : S * P < 2 ^ 16) :
    -(2 ^ 15) ≤ S ∧ S < 2 ^ 16 := by
  norm_num at h1 h2 ⊢
  constructor
  · by_contra hc
    have : S * P ≤ S := by nlinarith
    omega
  · by_contra hc
    have : S ≤ S * P := by nlinarith
    omega

theorem acc_fits (Q S Wd : Int) (hQ : 0 < Q) (hp : Q * 2 ^ 16 ≤ Wd) (h1 : -(2 ^ 15) ≤ S)
    (h2 : S < 2 ^ 16) : -Wd ≤ Q * S ∧ Q * S < Wd := by
  norm_num at h1 h2 hp ⊢
  constructor <;> nlinarith

theorem conv2d_sum_integers (i_T k_T : CIntType) (params : GIGA_conv2d_t)
    (inT : GIGA_tensor_t) (m : Mem) (I K : Nat → Nat → Nat → Nat → Int) (n co y x : Nat)
    (hI : ∀ ci, ci < inT.dims 1 → ∀ iy, iy < inT.dims 2 → ∀ ix, ix < inT.dims 3 →
      load_int i_T m (elem_addr inT (idx_of [n, ci, iy, ix])) = I n ci iy ix * 2 ^ inT.fp_shift)
    (hK : ∀ ci, ci < inT.dims 1 → ∀ ky, ky < 3 → ∀ kx, kx < 3 →
      load_int k_T m (elem_addr params.kernel (idx_of [co, ci, ky, kx]))
        = K co ci ky kx * 2 ^ params.kernel.fp_shift) :
    conv2d_sum i_T k_T params inT m n co y x
      = 2 ^ (inT.fp_shift + params.kernel.fp_shift)
        * Finset.sum (Finset.range (inT.dims 1)) fun ci =>
            Finset.sum (Finset.range 3) fun ky =>
              Finset.sum (Finset.range 3) fun kx =>
                if 0 ≤ conv2d_in_coord y (params.stride 0) (params.padding 0 0) ky ∧
                    conv2d_in_coord y (params.stride 0) (params.padding 0 0) ky < inT.dims 2 ∧
                    0 ≤ conv2d_in_coord x (params.stride 1) (params.padding 1 0) kx ∧
                    conv2d_in_coord x (params.stride 1) (params.padding 1 0) kx < inT.dims 3
                then
                  K co ci ky kx
                    * I n ci (conv2d_in_coord y (params.stride 0) (params.padding 0 0) ky).toNat
                        (conv2d_in_coord x (params.stride 1) (params.padding 1 0) kx).toNat
                else 0 := by
  unfold conv2d_sum
  rw [Finset.mul_sum]
  refine Finset.sum_congr rfl (fun ci hci => ?_)
  rw [Finset.mul_sum]
  refine Finset.sum_congr rfl (fun ky hky => ?_)
  rw [Finset.mul_sum]
  refine Finset.sum_congr rfl (fun kx hkx => ?_)
  have hci2 := Finset.mem_range.mp hci
  have hky2 := Finset.mem_range.mp hky
  have hkx2 := Finset.mem_range.mp hkx
  split_ifs with h
  · have hyN : (conv2d_in_coord y (params.stride 0) (params.padding 0 0) ky).toNat
        < inT.dims 2 := by
      have := h.2.1
      omega
    have hxN : (conv2d_in_coord x (params.stride 1) (params.padding 1 0) kx).toNat
        < inT.dims 3 := by
      have := h.2.2.2
      omega
    rw [hK ci hci2 ky hky2 kx hkx2, hI ci hci2 _ hyN _ hxN, pow_add]
    ring
  · rw [mul_zero]

/-- C31: for contiguous rank-4 tensors of 8- or 16-bit fixed-point kinds that pass the checks of
`giga_conv2d_` (bias of rank 1, padding not negative), `out` sharing no byte with the others,
`b_ReLU` false, the elements of `in`, of the kernel and of the bias holding `I · 2 ^ fp_in`,
`K · 2 ^ fp_k` and `B · 2 ^ fp_k` for integers `I`, `K`, `B` (the bias has the kernel's
`fp_shift`), and `fp_in + fp_k + 17 ≤ w` for the width `w` of the compute type: `giga_conv2d_`
returns `GIGA_Success`, and every output element whose value `(Σ K · I + B) · 2 ^ fp_out` is
representable in the output kind holds exactly this value. -/
theorem conv2d_exact_on_integers (w : Nat) (i_T o_T k_T : CIntType) (params : GIGA_conv2d_t)
    (inT out : GIGA_tensor_t) (m : Mem) (I K : Nat → Nat → Nat → Nat → Int) (B : Nat → Int)
    (hw : 32 ≤ w)
    (hTi : fixed_CType inT.type = some i_T) (hTo : fixed_CType out.type = some o_T)
    (hTk : fixed_CType params.kernel.type = some k_T)
    (hci : Contiguous inT) (hco : Contiguous out) (hck : Contiguous params.kernel)
    (hri : inT.nb_dims = 4) (hro : out.nb_dims = 4) (hrk : params.kernel.nb_dims = 4)
    (hN : out.dims 0 = inT.dims 0)
    (hk0 : params.kernel.dims 0 = out.dims 1) (hk1 : params.kernel.dims 1 = inT.dims 1)
    (hk2 : params.kernel.dims 2 = 3) (hk3 : params.kernel.dims 3 = 3)
    (hs0 : params.stride 0 = 1 ∨ params.stride 0 = 2)
    (hs1 : params.stride 1 = 1 ∨ params.stride 1 = 2)
    (hd0 : params.dilation 0 = 1) (hd1 : params.dilation 1 = 1)
    (hp0 : 0 ≤ params.padding 0 0 ∧ params.padding 0 0 < 2 ^ 31)
    (hp1 : 0 ≤ params.padding 1 0 ∧ params.padding 1 0 < 2 ^ 31)
    (hH : inT.dims 2 < 2 ^ 31) (hW : inT.dims 3 < 2 ^ 31)
    (hb : ∀ b, params.bias = some b →
      Contiguous b ∧ b.type = params.kernel.type ∧ b.nb_dims = 1 ∧ b.dims 0 = out.dims 1)
    (hHo : out.dims 2 = conv2d_out_dim (inT.dims 2) (params.padding 0 0) (params.padding 0 1)
      (params.stride 0))
    (hWo : out.dims 3 = conv2d_out_dim (inT.dims 3) (params.padding 1 0) (params.padding 1 1)
      (params.stride 1))
    (hsi : Separate out inT) (hsk : Separate out params.kernel)
    (hsb : ∀ b, params.bias = some b → Separate out b)
    (hrelu : params.b_ReLU = false)
    (hfp : inT.fp_shift + params.kernel.fp_shift + 17 ≤ w)
    (hI : ∀ n, n < inT.dims 0 → ∀ ci, ci < inT.dims 1 → ∀ iy, iy < inT.dims 2 →
      ∀ ix, ix < inT.dims 3 →
        load_int i_T m (elem_addr inT (idx_of [n, ci, iy, ix]))
          = I n ci iy ix * 2 ^ inT.fp_shift)
    (hK : ∀ co, co < out.dims 1 → ∀ ci, ci < inT.dims 1 → ∀ ky, ky < 3 → ∀ kx, kx < 3 →
      load_int k_T m (elem_addr params.kernel (idx_of [co, ci, ky, kx]))
        = K co ci ky kx * 2 ^ params.kernel.fp_shift)
    (hB : ∀ b, params.bias = some b → b.fp_shift = params.kernel.fp_shift ∧
      ∀ co, co < out.dims 1 →
        load_int k_T m (elem_addr b (idx_of [co])) = B co * 2 ^ b.fp_shift) :
    ∃ m2, giga_conv2d_ w params inT out m = some (GIGA_Success, m2) ∧
      ∀ n, n < out.dims 0 → ∀ co, co < out.dims 1 → ∀ y, y < out.dims 2 →
        ∀ x, x < out.dims 3 →
          o_T.wrap (conv2d_integer_sum params inT I K B n co y x * 2 ^ out.fp_shift)
              = conv2d_integer_sum params inT I K B n co y x * 2 ^ out.fp_shift →
            load_int o_T m2 (elem_addr out (idx_of [n, co, y, x]))
              = conv2d_integer_sum params inT I K B n co y x * 2 ^ out.fp_shift := by
  obtain ⟨m2, h1, h2⟩ := conv2d_formula w i_T o_T k_T params inT out m hw hTi hTo hTk hci hco hck
    hri hro hrk hN hk0 hk1 hk2 hk3 hs0 hs1 hd0 hd1 hp0 hp1 hH hW hb hHo hWo hsi hsk hsb
  refine ⟨m2, h1, fun n hn co hco2 y hy x hx hfit => ?_⟩
  obtain ⟨cTo, -, -⟩ := fixed_CType_cases _ _ hTo
  rw [h2 n hn co hco2 y hy x hx]
  unfold conv2d_claimed
  rw [if_neg (by rw [hrelu]; simp)]
  have hsum := conv2d_sum_integers i_T k_T params inT m I K n co y x
    (fun ci hc iy hiy ix hix => hI n (hN ▸ hn) ci hc iy hiy ix hix)
    (fun ci hc ky hky kx hkx => hK co hco2 ci hc ky hky kx hkx)
  have hbias : conv2d_bias_term w k_T params inT m co
      ≡ 2 ^ (inT.fp_shift + params.kernel.fp_shift)
          * (match params.bias with
             | some _ => B co
             | none => 0) [ZMOD 2 ^ w] := by
    unfold conv2d_bias_term
    cases hbb : params.bias with
    | none => simp
    | some b =>
      obtain ⟨hf, hl⟩ := hB b hbb
      simp only []
      rw [hl co hco2, hf]
      refine (shift_modEq_scaled w hw _ _).trans ?_
      rw [scaled_eq, if_pos (by omega)]
      have e : ((inT.fp_shift : Int) + (params.kernel.fp_shift : Int)
          - (params.kernel.fp_shift : Int)).toNat = inT.fp_shift := by omega
      rw [e, pow_add]
      have : B co * 2 ^ params.kernel.fp_shift * 2 ^ inT.fp_shift
          = 2 ^ inT.fp_shift * 2 ^ params.kernel.fp_shift * B co := by ring
      rw [this]
  have hAmod : conv2d_sum i_T k_T params inT m n co y x + conv2d_bias_term w k_T params inT m co
      ≡ 2 ^ (inT.fp_shift + params.kernel.fp_shift)
          * conv2d_integer_sum params inT I K B n co y x [ZMOD 2 ^ w] := by
    unfold conv2d_integer_sum
    rw [mul_add, hsum]
    exact Int.ModEq.add_left _ hbias
  obtain ⟨hv1, hv2⟩ := wrap_fit_bounds o_T cTo _ hfit
  have hA : conv2d_A w i_T k_T params inT m n co y x
      = 2 ^ (inT.fp_shift + params.kernel.fp_shift)
          * conv2d_integer_sum params inT I K B n co y x := by
    unfold conv2d_A
    rw [wrapS_congr w _ _ hAmod]
    have hfo : (1 : Int) ≤ 2 ^ out.fp_shift := by
      have : (0 : Int) < 2 ^ out.fp_shift := by positivity
      omega
    obtain ⟨hS1, hS2⟩ := fit_unscaled _ _ hfo hv1 hv2
    have hp : (2 : Int) ^ (inT.fp_shift + params.kernel.fp_shift) * 2 ^ 16 ≤ 2 ^ (w - 1) := by
      rw [← pow_add]
      exact_mod_cast Nat.pow_le_pow_right (by decide)
        (by omega : inT.fp_shift + params.kernel.fp_shift + 16 ≤ w - 1)
    obtain ⟨hq1, hq2⟩ := acc_fits _ _ _ (by positivity) hp hS1 hS2
    exact wrapS_of_range w _ (by omega) hq1 hq2
  rw [hA]
  refine narrow_of_modEq w hw o_T cTo _ _ (shift_modEq_scaled w hw _ _) ?_ |>.trans ?_
  · have e : (out.fp_shift : Int) - (inT.fp_shift : Int) - (params.kernel.fp_shift : Int)
        = (out.fp_shift : Int) - ((inT.fp_shift + params.kernel.fp_shift : Nat) : Int) := by
      push_cast
      ring
    rw [e, scaled_pow_mul]
    exact hfit
  · have e : (out.fp_shift : Int) - (inT.fp_shift : Int) - (params.kernel.fp_shift : Int)
        = (out.fp_shift : Int) - ((inT.fp_shift + params.kernel.fp_shift : Nat) : Int) := by
      push_cast
      ring
    rw [e, scaled_pow_mul]

/-- C31 (witness): the input 2 at `fp_shift` 1, the centre tap 3 at `fp_shift` 1 and the bias 1
at `fp_shift` 1 give the output `(3 · 2 + 1) · 2 ^ 3 = 56` at `fp_shift` 3. -/
theorem conv2d_exact_on_integers_witness :
    ∃ m2, giga_conv2d_ 32 int_params int_in int_out int_store = some (GIGA_Success, m2) ∧
      load_int ⟨16, true⟩ m2 (elem_addr int_out (idx_of [0, 0, 0, 0])) = 56 := by
  have hd0 : int_in.dims 0 = 1 := by decide
  have hd1 : int_in.dims 1 = 1 := by decide
  have hd2 : int_in.dims 2 = 1 := by decide
  have hd3 : int_in.dims 3 = 1 := by decide
  have ho1 : int_out.dims 1 = 1 := by decide
  obtain ⟨m2, h1, h2⟩ := conv2d_exact_on_integers 32 ⟨8, true⟩ ⟨16, true⟩ ⟨8, true⟩ int_params
    int_in int_out int_store (fun _ _ _ _ => 2) int_K (fun _ => 1) (by decide) rfl rfl rfl
    (by unfold Contiguous RowMajor; decide) (by unfold Contiguous RowMajor; decide)
    (by unfold Contiguous RowMajor; decide)
    (by decide) (by decide) (by decide) (by decide) (by decide) (by decide) (by decide)
    (by decide) (by decide) (by decide) (by decide) (by decide) (by decide) (by decide)
    (by decide) (by decide)
    (fun b h => by
      have hb : int_bias = b := Option.some.inj h
      subst hb
      exact ⟨by unfold Contiguous RowMajor; decide, by decide, by decide, by decide⟩)
    (by decide) (by decide)
    (separate_of_bounds _ _ (by decide)) (separate_of_bounds _ _ (by decide))
    (fun b h => by
      have hb : int_bias = b := Option.some.inj h
      subst hb
      exact separate_of_bounds _ _ (by decide))
    rfl (by decide)
    (fun n hn ci hc iy hy ix hx => by
      obtain rfl : n = 0 := by omega
      obtain rfl : ci = 0 := by omega
      obtain rfl : iy = 0 := by omega
      obtain rfl : ix = 0 := by omega
      decide)
    (fun co hco ci hc ky hky kx hkx => by
      obtain rfl : co = 0 := by omega
      obtain rfl : ci = 0 := by omega
      interval_cases ky <;> interval_cases kx <;> decide)
    (fun b h => by
      have hb : int_bias = b := Option.some.inj h
      subst hb
      refine ⟨by decide, fun co hco => ?_⟩
      obtain rfl : co = 0 := by omega
      decide)
  have hS : conv2d_integer_sum int_params int_in (fun _ _ _ _ => 2) int_K (fun _ => 1) 0 0 0 0
      * 2 ^ int_out.fp_shift = 56 := by decide
  refine ⟨m2, h1, ?_⟩
  rw [h2 0 (by decide) 0 (by decide) 0 (by decide) 0 (by decide) (by rw [hS]; decide), hS]

/-! ## The optimized convolution nest -/

theorem forLoop_traj {α β : Type} (n : Nat) (body : Nat → α × β → α × β) (g : Nat → α → α)
    (traj : Nat → β)
    (h : ∀ i, i < n → ∀ s, body i (s, traj i) = (g i s, traj (i + 1))) (s : α) (p0 : β)
    (hp0 : p0 = traj 0) :
    forLoop n body (s, p0) = (forLoop n g s, traj n) := by
  subst hp0
  induction n with
  | zero => rfl
  | succ n ih =>
    rw [forLoop_succ, forLoop_succ, ih (fun i hi => h i (Nat.lt_succ_of_lt hi)),
      h n (Nat.lt_succ_self n)]

theorem forLoop_traj_modEq {β : Type} (M : Int) (n : Nat) (body : Nat → Int × β → Int × β)
    (t : Nat → Int) (traj : Nat → β)
    (h : ∀ i, i < n → ∀ acc, (body i (acc, traj i)).2 = traj (i + 1) ∧
      (body i (acc, traj i)).1 ≡ acc + t i [ZMOD M]) (a0 : Int) (p0 : β) (hp0 : p0 = traj 0) :
    (forLoop n body (a0, p0)).2 = traj n ∧
      (forLoop n body (a0, p0)).1 ≡ a0 + Finset.sum (Finset.range n) t [ZMOD M] := by
  subst hp0
  induction n with
  | zero => exact ⟨rfl, by simp [forLoop_zero]⟩
  | succ n ih =>
    obtain ⟨i1, i2⟩ := ih (fun i hi => h i (Nat.lt_succ_of_lt hi))
    have e : forLoop n body (a0, traj 0) = ((forLoop n body (a0, traj 0)).1, traj n) :=
      Prod.ext rfl i1
    obtain ⟨h1, h2⟩ := h n (Nat.lt_succ_self n) (forLoop n body (a0, traj 0)).1
    rw [forLoop_succ, e]
    refine ⟨h1, ?_⟩
    rw [Finset.sum_range_succ, ← add_assoc]
    exact h2.trans (Int.ModEq.add_right _ i2)

theorem u32_add_tap (z : Int) (k : Nat) : (u32 z + k) % 2 ^ 32 = u32 (z + (k : Int)) := by
  unfold u32
  norm_num
  omega

theorem u32_signed_tap (z : Int) (k : Nat) : u32 (wrapS 32 z + (k : Int)) = u32 (z + (k : Int)) := by
  unfold u32 wrapS
  norm_num
  omega

theorem signed_tap_eq (z : Int) (k W : Nat) (hk : k < 3) (hW : W ≤ 2 ^ 31)
    (h : u32 (wrapS 32 z + (k : Int)) < W) :
    wrapS 32 z + (k : Int) = ((u32 (wrapS 32 z + (k : Int)) : Nat) : Int) := by
  unfold u32 wrapS at h ⊢
  norm_num at h hW ⊢
  omega

theorem conv2d_acc_modEq_taps (w : Nat) (i_T k_T : CIntType) (mem : Mem)
    (pi pk H W C_in s0 s1 : Nat) (p_y p_x : Int) (iB iC iH iW k0 k1 k2 k3 : Nat)
    (n co y x : Nat) :
    conv2d_acc w i_T k_T mem pi pk H W C_in s0 s1 p_y p_x iB iC iH iW k0 k1 k2 k3 n co y x
      ≡ Finset.sum (Finset.range C_in) (fun ci =>
          Finset.sum (Finset.range 3) (fun ky =>
            Finset.sum (Finset.range 3) (fun kx =>
              conv2d_tap i_T k_T mem pi pk H W s0 s1 p_y p_x iB iC iH iW k0 k1 k2 k3
                n co y x ci ky kx))) [ZMOD 2 ^ w] := by
  have hsum : conv2d_acc w i_T k_T mem pi pk H W C_in s0 s1 p_y p_x iB iC iH iW k0 k1 k2 k3
      n co y x
      ≡ 0 + Finset.sum (Finset.range 3) (fun ky =>
          Finset.sum (Finset.range 3) (fun kx =>
            Finset.sum (Finset.range C_in) (fun ci =>
              conv2d_tap i_T k_T mem pi pk H W s0 s1 p_y p_x iB iC iH iW k0 k1 k2 k3
                n co y x ci ky kx))) [ZMOD 2 ^ w] := by
    unfold conv2d_acc
    apply forLoop_modEq_sum
    intro ky _ acc
    simp only []
    by_cases hcy : u32 (((y * s0 : Nat) : Int) - p_y + (ky : Int)) ≥ H
    · rw [if_pos hcy]
      rw [Finset.sum_eq_zero (fun kx _ => Finset.sum_eq_zero (fun ci _ => by
        unfold conv2d_tap
        rw [if_pos hcy]))]
      simp
    · rw [if_neg hcy]
      apply forLoop_modEq_sum
      intro kx _ acc
      by_cases hcx : u32 (((x * s1 : Nat) : Int) - p_x + (kx : Int)) ≥ W
      · rw [if_pos hcx]
        rw [Finset.sum_eq_zero (fun ci _ => by
          unfold conv2d_tap
          rw [if_neg hcy, if_pos hcx])]
        simp
      · rw [if_neg hcx]
        apply forLoop_modEq_sum
        intro ci _ acc
        simp only [wrap_signed]
        unfold conv2d_tap
        rw [if_neg hcy, if_neg hcx]
        exact mac_modEq w acc _ _
  rw [zero_add] at hsum
  refine hsum.trans ?_
  rw [Finset.sum_congr rfl (fun ky _ => Finset.sum_comm), Finset.sum_comm]

theorem opt_ker_x_spec (w : Nat) (i_T k_T : CIntType) (mem : Mem) (W : Nat) (z : Int)
    (acc : Int) (kp : Nat) (ip : Int) :
    (conv2d_opt_ker_x w i_T k_T mem W (wrapS 32 z) (acc, kp, ip)).2.1 = kp + 3 * (k_T.bits / 8) ∧
    (conv2d_opt_ker_x w i_T k_T mem W (wrapS 32 z) (acc, kp, ip)).1
      ≡ acc + Finset.sum (Finset.range 3) (fun kx =>
          if u32 (z + (kx : Int)) ≥ W then 0
          else load_int k_T mem (kp + kx * (k_T.bits / 8))
            * load_int i_T mem (ip + ((kx * (i_T.bits / 8) : Nat) : Int)).toNat) [ZMOD 2 ^ w] := by
  have h := forLoop_traj_modEq (2 ^ w) 3
    (fun ker_x (s : Int × Nat × Int) =>
      if u32 (wrapS 32 z + (ker_x : Int)) ≥ W then
        (s.1, s.2.1 + k_T.bits / 8, s.2.2 + ((i_T.bits / 8 : Nat) : Int))
      else
        (CIntType.wrap ⟨w, true⟩
          (s.1 + CIntType.wrap ⟨w, true⟩
            (CIntType.wrap ⟨w, true⟩ (load_int k_T mem s.2.1)
              * CIntType.wrap ⟨w, true⟩ (load_int i_T mem s.2.2.toNat))),
          s.2.1 + k_T.bits / 8, s.2.2 + ((i_T.bits / 8 : Nat) : Int)))
    (fun kx =>
      if u32 (z + (kx : Int)) ≥ W then 0
      else load_int k_T mem (kp + kx * (k_T.bits / 8))
        * load_int i_T mem (ip + ((kx * (i_T.bits / 8) : Nat) : Int)).toNat)
    (fun kx => (kp + kx * (k_T.bits / 8), ip + ((kx * (i_T.bits / 8) : Nat) : Int)))
    (fun kx _ a => by
      have e1 : kp + kx * (k_T.bits / 8) + k_T.bits / 8 = kp + (kx + 1) * (k_T.bits / 8) := by
        ring
      have e2 : ip + ((kx * (i_T.bits / 8) : Nat) : Int) + ((i_T.bits / 8 : Nat) : Int)
          = ip + (((kx + 1) * (i_T.bits / 8) : Nat) : Int) := by
        push_cast
        ring
      dsimp only
      rw [u32_signed_tap]
      by_cases hc : u32 (z + (kx : Int)) ≥ W
      · simp only [if_pos hc]
        rw [e1, e2]
        exact ⟨rfl, by simp⟩
      · simp only [if_neg hc, wrap_signed]
        rw [e1, e2]
        exact ⟨rfl, mac_modEq w a _ _⟩)
    acc (kp, ip) (by simp)
  have h1 := h.1
  have h2 := h.2
  refine ⟨?_, h2⟩
  have := congrArg Prod.fst h1
  exact this

theorem opt_ker_y_spec (w : Nat) (i_T k_T : CIntType) (mem : Mem) (H W iH k2 : Nat)
    (Y z : Int) (in_ptr2 : Int) (acc : Int) (kp : Nat) (hk2 : k2 = 3) :
    (conv2d_opt_ker_y w i_T k_T mem H W iH k2 (u32 Y) (wrapS 32 z) in_ptr2 (acc, kp)).2
        = kp + 9 * (k_T.bits / 8) ∧
    (conv2d_opt_ker_y w i_T k_T mem H W iH k2 (u32 Y) (wrapS 32 z) in_ptr2 (acc, kp)).1
      ≡ acc + Finset.sum (Finset.range 3) (fun ky =>
          Finset.sum (Finset.range 3) (fun kx =>
            if u32 (Y + (ky : Int)) ≥ H then 0
            else if u32 (z + (kx : Int)) ≥ W then 0
            else load_int k_T mem (kp + (ky * 3 + kx) * (k_T.bits / 8))
              * load_int i_T mem
                (in_ptr2 + (((u32 (Y + (ky : Int)) * iH) % 2 ^ 32 * (i_T.bits / 8) : Nat) : Int)
                  + ((kx * (i_T.bits / 8) : Nat) : Int)).toNat)) [ZMOD 2 ^ w] := by
  have h := forLoop_traj_modEq (2 ^ w) 3
    (fun ker_y (st : Int × Nat) =>
      if (u32 Y + ker_y) % 2 ^ 32 ≥ H then (st.1, st.2 + k2 * (k_T.bits / 8))
      else
        ((conv2d_opt_ker_x w i_T k_T mem W (wrapS 32 z) (st.1, st.2,
          in_ptr2 + ((((u32 Y + ker_y) % 2 ^ 32 * iH) % 2 ^ 32 * (i_T.bits / 8) : Nat) : Int))).1,
         (conv2d_opt_ker_x w i_T k_T mem W (wrapS 32 z) (st.1, st.2,
          in_ptr2 + ((((u32 Y + ker_y) % 2 ^ 32 * iH) % 2 ^ 32 * (i_T.bits / 8) : Nat) : Int))).2.1))
    (fun ky =>
      Finset.sum (Finset.range 3) (fun kx =>
        if u32 (Y + (ky : Int)) ≥ H then 0
        else if u32 (z + (kx : Int)) ≥ W then 0
        else load_int k_T mem (kp + (ky * 3 + kx) * (k_T.bits / 8))
          * load_int i_T mem
            (in_ptr2 + (((u32 (Y + (ky : Int)) * iH) % 2 ^ 32 * (i_T.bits / 8) : Nat) : Int)
              + ((kx * (i_T.bits / 8) : Nat) : Int)).toNat))
    (fun ky => kp + ky * 3 * (k_T.bits / 8))
    (fun ky _ a => by
      have e1 : kp + ky * 3 * (k_T.bits / 8) + 3 * (k_T.bits / 8)
          = kp + (ky + 1) * 3 * (k_T.bits / 8) := by ring
      dsimp only
      rw [u32_add_tap]
      by_cases hc : u32 (Y + (ky : Int)) ≥ H
      · simp only [if_pos hc]
        rw [hk2, e1]
        exact ⟨rfl, by simp⟩
      · simp only [if_neg hc]
        obtain ⟨x1, x2⟩ := opt_ker_x_spec w i_T k_T mem W z a (kp + ky * 3 * (k_T.bits / 8))
          (in_ptr2 + (((u32 (Y + (ky : Int)) * iH) % 2 ^ 32 * (i_T.bits / 8) : Nat) : Int))
        rw [x1, e1]
        refine ⟨rfl, x2.trans ?_⟩
        have e3 : ∀ kx : Nat, kp + ky * 3 * (k_T.bits / 8) + kx * (k_T.bits / 8)
            = kp + (ky * 3 + kx) * (k_T.bits / 8) := fun kx => by ring
        simp only [e3]
        exact Int.ModEq.refl _)
    acc kp (by simp)
  have e9 : kp + 3 * 3 * (k_T.bits / 8) = kp + 9 * (k_T.bits / 8) := by ring
  rw [← e9]
  exact h

theorem opt_in_address (pi sz n iB ci iC iy iH ix kx : Nat) (sx : Int)
    (hs : sx + (kx : Int) = (ix : Int))
    (hb : n * iB + ci * iC + iy * iH + ix < 2 ^ 32) :
    (((pi + (n * iB) % 2 ^ 32 * sz : Nat) : Int) + sx * ((sz : Nat) : Int)
        + (((ci * iC) % 2 ^ 32 * sz : Nat) : Int) + (((iy * iH) % 2 ^ 32 * sz : Nat) : Int)
        + ((kx * sz : Nat) : Int)).toNat
      = pi + (n * iB + ci * iC + iy * iH + ix * 1) % 2 ^ 32 * sz := by
  rw [Nat.mod_eq_of_lt (by omega : n * iB < 2 ^ 32),
    Nat.mod_eq_of_lt (by omega : ci * iC < 2 ^ 32),
    Nat.mod_eq_of_lt (by omega : iy * iH < 2 ^ 32),
    Nat.mod_eq_of_lt (by omega : n * iB + ci * iC + iy * iH + ix * 1 < 2 ^ 32)]
  have e : ((pi + n * iB * sz : Nat) : Int) + sx * ((sz : Nat) : Int)
        + ((ci * iC * sz : Nat) : Int) + ((iy * iH * sz : Nat) : Int) + ((kx * sz : Nat) : Int)
      = ((pi + (n * iB + ci * iC + iy * iH + ix * 1) * sz : Nat) : Int) := by
    push_cast
    rw [← hs]
    ring
  rw [e, Int.toNat_ofNat]

theorem opt_k_address (pk sz co k0 ci ky kx : Nat) (hky : ky < 3) (hkx : kx < 3)
    (hb : co * k0 + ci * 9 + 8 < 2 ^ 32) :
    pk + (co * k0) % 2 ^ 32 * sz + ci * 9 * sz + (ky * 3 + kx) * sz
      = pk + (co * k0 + ci * 9 + ky * 3 + kx * 1) % 2 ^ 32 * sz := by
  rw [Nat.mod_eq_of_lt (by omega : co * k0 < 2 ^ 32),
    Nat.mod_eq_of_lt (by omega : co * k0 + ci * 9 + ky * 3 + kx * 1 < 2 ^ 32)]
  ring

theorem conv2d_acc_opt_modEq (w : Nat) (i_T k_T : CIntType) (mem : Mem)
    (pi pk H W C_in s0 s1 : Nat) (p_y p_x : Int) (iB iC iH k0 : Nat) (n co y x : Nat)
    (hin : ∀ ci, ci < C_in → ∀ iy, iy < H → W ≤ 2 ^ 31 ∧ ∀ ix, ix < W →
      n * iB + ci * iC + iy * iH + ix < 2 ^ 32)
    (hk : ∀ ci, ci < C_in → co * k0 + ci * 9 + 8 < 2 ^ 32) :
    (conv2d_acc_opt w i_T k_T mem ((pi + (n * iB) % 2 ^ 32 * (i_T.bits / 8) : Nat) : Int)
        (pk + (co * k0) % 2 ^ 32 * (k_T.bits / 8)) H W C_in s0 s1 p_y p_x iC iH 3 y x).1
      ≡ Finset.sum (Finset.range C_in) (fun ci =>
          Finset.sum (Finset.range 3) (fun ky =>
            Finset.sum (Finset.range 3) (fun kx =>
              conv2d_tap i_T k_T mem pi pk H W s0 s1 p_y p_x iB iC iH 1 k0 9 3 1
                n co y x ci ky kx))) [ZMOD 2 ^ w] := by
  unfold conv2d_acc_opt
  dsimp only
  have h := forLoop_traj_modEq (2 ^ w) C_in
    (fun c_in (st : Int × Nat) =>
      conv2d_opt_ker_y w i_T k_T mem H W iH 3 (u32 (((y * s0 : Nat) : Int) - p_y))
        (wrapS 32 (((x * s1 : Nat) : Int) - p_x))
        (((pi + (n * iB) % 2 ^ 32 * (i_T.bits / 8) : Nat) : Int)
          + wrapS 32 (((x * s1 : Nat) : Int) - p_x) * ((i_T.bits / 8 : Nat) : Int)
          + (((c_in * iC) % 2 ^ 32 * (i_T.bits / 8) : Nat) : Int)) st)
    (fun ci =>
      Finset.sum (Finset.range 3) (fun ky =>
        Finset.sum (Finset.range 3) (fun kx =>
          conv2d_tap i_T k_T mem pi pk H W s0 s1 p_y p_x iB iC iH 1 k0 9 3 1
            n co y x ci ky kx)))
    (fun ci => pk + (co * k0) % 2 ^ 32 * (k_T.bits / 8) + ci * 9 * (k_T.bits / 8))
    (fun ci hci a => by
      dsimp only
      obtain ⟨y1, y2⟩ := opt_ker_y_spec w i_T k_T mem H W iH 3 (((y * s0 : Nat) : Int) - p_y)
        (((x * s1 : Nat) : Int) - p_x)
        (((pi + (n * iB) % 2 ^ 32 * (i_T.bits / 8) : Nat) : Int)
          + wrapS 32 (((x * s1 : Nat) : Int) - p_x) * ((i_T.bits / 8 : Nat) : Int)
          + (((ci * iC) % 2 ^ 32 * (i_T.bits / 8) : Nat) : Int)) a
        (pk + (co * k0) % 2 ^ 32 * (k_T.bits / 8) + ci * 9 * (k_T.bits / 8)) rfl
      refine ⟨y1.trans (by ring), y2.trans ?_⟩
      refine Int.ModEq.add_left a ?_
      have e : ∀ ky, ky ∈ Finset.range 3 → ∀ kx, kx ∈ Finset.range 3 →
          (if u32 (((y * s0 : Nat) : Int) - p_y + (ky : Int)) ≥ H then 0
            else if u32 (((x * s1 : Nat) : Int) - p_x + (kx : Int)) ≥ W then 0
            else load_int k_T mem (pk + (co * k0) % 2 ^ 32 * (k_T.bits / 8)
                  + ci * 9 * (k_T.bits / 8) + (ky * 3 + kx) * (k_T.bits / 8))
              * load_int i_T mem
                (((pi + (n * iB) % 2 ^ 32 * (i_T.bits / 8) : Nat) : Int)
                  + wrapS 32 (((x * s1 : Nat) : Int) - p_x) * ((i_T.bits / 8 : Nat) : Int)
                  + (((ci * iC) % 2 ^ 32 * (i_T.bits / 8) : Nat) : Int)
                  + (((u32 (((y * s0 : Nat) : Int) - p_y + (ky : Int)) * iH) % 2 ^ 32
                      * (i_T.bits / 8) : Nat) : Int)
                  + ((kx * (i_T.bits / 8) : Nat) : Int)).toNat)
            = conv2d_tap i_T k_T mem pi pk H W s0 s1 p_y p_x iB iC iH 1 k0 9 3 1
                n co y x ci ky kx := by
        intro ky hky kx hkx
        have hky2 := Finset.mem_range.mp hky
        have hkx2 := Finset.mem_range.mp hkx
        unfold conv2d_tap
        by_cases hcy : u32 (((y * s0 : Nat) : Int) - p_y + (ky : Int)) ≥ H
        · rw [if_pos hcy, if_pos hcy]
        · rw [if_neg hcy, if_neg hcy]
          by_cases hcx : u32 (((x * s1 : Nat) : Int) - p_x + (kx : Int)) ≥ W
          · rw [if_pos hcx, if_pos hcx]
          · rw [if_neg hcx, if_neg hcx]
            obtain ⟨hW, hin2⟩ := hin ci hci (u32 (((y * s0 : Nat) : Int) - p_y + (ky : Int)))
              (Nat.lt_of_not_le hcy)
            have hix : u32 (wrapS 32 (((x * s1 : Nat) : Int) - p_x) + (kx : Int)) < W := by
              rw [u32_signed_tap]
              omega
            have hs := signed_tap_eq _ kx W hkx2 hW hix
            rw [u32_signed_tap] at hs
            rw [opt_k_address pk _ co k0 ci ky kx hky2 hkx2 (hk ci hci),
              opt_in_address pi _ n iB ci iC _ iH _ kx _ hs
                (hin2 (u32 (((x * s1 : Nat) : Int) - p_x + (kx : Int))) (Nat.lt_of_not_le hcx))]
      rw [Finset.sum_congr rfl (fun ky hky =>
        Finset.sum_congr rfl (fun kx hkx => e ky hky kx hkx))])
    0 (pk + (co * k0) % 2 ^ 32 * (k_T.bits / 8)) (by simp)
  have h2 := h.2
  rw [zero_add] at h2
  exact h2

/-- The two nests compute the same element. -/
theorem conv2d_element_opt_eq (w : Nat) (i_T o_T k_T : CIntType) (b_ReLU : Bool)
    (pi po pk H W C_in s0 s1 : Nat) (p_y p_x out_shift bias_reshift : Int)
    (oB oC oH iB iC iH k0 : Nat) (bias : Int) (n co y x : Nat) (mem : Mem)
    (hin : ∀ ci, ci < C_in → ∀ iy, iy < H → W ≤ 2 ^ 31 ∧ ∀ ix, ix < W →
      n * iB + ci * iC + iy * iH + ix < 2 ^ 32)
    (hk : ∀ ci, ci < C_in → co * k0 + ci * 9 + 8 < 2 ^ 32)
    (hout : n * oB + co * oC + y * oH + x < 2 ^ 32) :
    conv2d_element_opt w i_T o_T k_T b_ReLU H W C_in s0 s1 p_y p_x out_shift bias_reshift
        iC iH 3 bias ((pi + (n * iB) % 2 ^ 32 * (i_T.bits / 8) : Nat) : Int)
        (pk + (co * k0) % 2 ^ 32 * (k_T.bits / 8))
        (po + (n * oB) % 2 ^ 32 * (o_T.bits / 8) + (co * oC) % 2 ^ 32 * (o_T.bits / 8)
          + (y * oH) % 2 ^ 32 * (o_T.bits / 8)) y x mem
      = conv2d_element w i_T o_T k_T b_ReLU pi po pk H W C_in s0 s1 p_y p_x out_shift
          bias_reshift oB oC oH 1 iB iC iH 1 k0 9 3 1 bias n co y x mem := by
  unfold conv2d_element_opt conv2d_element
  dsimp only
  have hacc := (conv2d_acc_opt_modEq w i_T k_T mem pi pk H W C_in s0 s1 p_y p_x iB iC iH k0
    n co y x hin hk).trans
    (conv2d_acc_modEq_taps w i_T k_T mem pi pk H W C_in s0 s1 p_y p_x iB iC iH 1 k0 9 3 1
      n co y x).symm
  have hptr : po + (n * oB) % 2 ^ 32 * (o_T.bits / 8) + (co * oC) % 2 ^ 32 * (o_T.bits / 8)
      + (y * oH) % 2 ^ 32 * (o_T.bits / 8) + x * (o_T.bits / 8)
      = po + (n * oB + co * oC + y * oH + x * 1) % 2 ^ 32 * (o_T.bits / 8) := by
    rw [Nat.mod_eq_of_lt (by omega : n * oB < 2 ^ 32),
      Nat.mod_eq_of_lt (by omega : co * oC < 2 ^ 32),
      Nat.mod_eq_of_lt (by omega : y * oH < 2 ^ 32),
      Nat.mod_eq_of_lt (by omega : n * oB + co * oC + y * oH + x * 1 < 2 ^ 32)]
    ring
  rw [hptr]
  simp only [wrap_signed]
  rw [wrapS_congr w _ _ (Int.ModEq.add_right _ hacc)]

theorem conv2d_loops_opt_eq (w : Nat) (i_T o_T k_T : CIntType) (b_ReLU : Bool)
    (bias_ptr : Option Nat) (pi po pk N C_out H_out W_out H W C_in s0 s1 : Nat)
    (p_y p_x out_shift bias_reshift : Int) (bias_stride oB oC oH iB iC iH k0 : Nat) (m : Mem)
    (hin : ∀ n, n < N → ∀ ci, ci < C_in → ∀ iy, iy < H → W ≤ 2 ^ 31 ∧ ∀ ix, ix < W →
      n * iB + ci * iC + iy * iH + ix < 2 ^ 32)
    (hk : ∀ co, co < C_out → ∀ ci, ci < C_in → co * k0 + ci * 9 + 8 < 2 ^ 32)
    (hout : ∀ n, n < N → ∀ co, co < C_out → ∀ y, y < H_out → ∀ x, x < W_out →
      n * oB + co * oC + y * oH + x < 2 ^ 32)
    (hbias : ∀ co, co < C_out → co * bias_stride < 2 ^ 32) :
    conv2d_loops_opt w i_T o_T k_T b_ReLU bias_ptr pi po pk N C_out H_out W_out H W C_in
        s0 s1 p_y p_x out_shift bias_reshift bias_stride oB oC oH iB iC iH k0 3 m
      = conv2d_loops w i_T o_T k_T b_ReLU bias_ptr pi po pk N C_out H_out W_out H W C_in
          s0 s1 p_y p_x out_shift bias_reshift bias_stride oB oC oH 1 iB iC iH 1 k0 9 3 1 m := by
  unfold conv2d_loops_opt conv2d_loops
  refine forLoop_congr N _ _ m (fun n hn m1 => ?_)
  dsimp only
  have h := forLoop_traj C_out
    (fun out_ch (st : Mem × Option Nat) =>
      (forLoop H_out (fun out_y =>
        forLoop W_out (fun out_x mem =>
          conv2d_element_opt w i_T o_T k_T b_ReLU H W C_in s0 s1 p_y p_x out_shift bias_reshift
            iC iH 3
            (match st.2 with
              | some bp => CIntType.wrap ⟨w, true⟩ (load_int k_T st.1 bp)
              | none => 0)
            ((pi + (n * iB) % 2 ^ 32 * (i_T.bits / 8) : Nat) : Int)
            (pk + (out_ch * k0) % 2 ^ 32 * (k_T.bits / 8))
            (po + (n * oB) % 2 ^ 32 * (o_T.bits / 8) + (out_ch * oC) % 2 ^ 32 * (o_T.bits / 8)
              + (out_y * oH) % 2 ^ 32 * (o_T.bits / 8)) out_y out_x mem)) st.1,
        st.2.map (fun bp => bp + bias_stride * (k_T.bits / 8))))
    (fun out_ch mem0 =>
      forLoop H_out (fun out_y =>
        forLoop W_out (fun out_x mem =>
          conv2d_element w i_T o_T k_T b_ReLU pi po pk H W C_in s0 s1 p_y p_x out_shift
            bias_reshift oB oC oH 1 iB iC iH 1 k0 9 3 1
            (conv2d_bias_load w k_T bias_ptr bias_stride out_ch mem0)
            n out_ch out_y out_x mem)) mem0)
    (fun co => bias_ptr.map (fun bp => bp + co * (bias_stride * (k_T.bits / 8))))
    (fun co hco s => by
      dsimp only
      have hb : (match bias_ptr.map (fun bp => bp + co * (bias_stride * (k_T.bits / 8))) with
          | some bp => CIntType.wrap ⟨w, true⟩ (load_int k_T s bp)
          | none => 0) = conv2d_bias_load w k_T bias_ptr bias_stride co s := by
        unfold conv2d_bias_load
        cases bias_ptr with
        | none => rfl
        | some bp =>
          simp only [Option.map_some']
          rw [Nat.mod_eq_of_lt (hbias co hco), Nat.mul_assoc]
      refine Prod.ext ?_ ?_
      · dsimp only
        rw [hb]
        refine forLoop_congr H_out _ _ s (fun y hy m2 => ?_)
        refine forLoop_congr W_out _ _ m2 (fun x hx m3 => ?_)
        exact conv2d_element_opt_eq w i_T o_T k_T b_ReLU pi po pk H W C_in s0 s1 p_y p_x
          out_shift bias_reshift oB oC oH iB iC iH k0 _ n co y x m3 (hin n hn) (hk co hco)
          (hout n hn co hco y hy x hx)
      · dsimp only
        cases bias_ptr with
        | none => rfl
        | some bp =>
          simp only [Option.map_some']
          congr 1
          ring)
    m1 bias_ptr (by cases bias_ptr <;> simp)
  exact congrArg Prod.fst h

theorem conv2d_optimized_nest_rank4 (w : Nat) (i_T o_T k_T : CIntType) (params : GIGA_conv2d_t)
    (inT out : GIGA_tensor_t) (m : Mem) (hri : inT.nb_dims = 4) (hro : out.nb_dims = 4)
    (hb : ∀ b, params.bias = some b → b.nb_dims = 1) :
    conv2d_optimized_nest w i_T o_T k_T params inT out m
      = conv2d_loops_opt w i_T o_T k_T params.b_ReLU (params.bias.map get_ptr)
        (get_ptr inT) (get_ptr out) (get_ptr params.kernel)
        (inT.dims 0) (out.dims 1) (out.dims 2) (out.dims 3) (inT.dims 2) (inT.dims 3)
        (inT.dims 1) (params.stride 0) (params.stride 1) (params.padding 0 0)
        (params.padding 1 0)
        ((out.fp_shift : Int) - ((inT.fp_shift : Int) + (params.kernel.fp_shift : Int)))
        (match params.bias with
          | some bias =>
            -(bias.fp_shift : Int) + ((inT.fp_shift : Int) + (params.kernel.fp_shift : Int))
          | none => 0)
        (match params.bias with
          | some bias => bias.strides 0 / (k_T.bits / 8)
          | none => 0)
        (out.strides 0 / (o_T.bits / 8)) (out.strides 1 / (o_T.bits / 8))
        (out.strides 2 / (o_T.bits / 8))
        (inT.strides 0 / (i_T.bits / 8)) (inT.strides 1 / (i_T.bits / 8))
        (inT.strides 2 / (i_T.bits / 8))
        (params.kernel.strides 0 / (k_T.bits / 8)) (params.kernel.strides 2 / (k_T.bits / 8))
        m := by
  obtain ⟨padding, stride, dilation, relu, kernel, bias⟩ := params
  simp only at hb ⊢
  unfold conv2d_optimized_nest
  cases bias with
  | none => simp [hri, hro]
  | some b =>
    have hu : u32 ((b.nb_dims : Int) - 1) = 0 := by rw [hb b rfl]; rfl
    simp [hri, hro, hu]

theorem strides_rank4 (t : GIGA_tensor_t) (es : Nat) (hes : 0 < es) (h4 : t.nb_dims = 4)
    (hrm : RowMajor es t) :
    t.strides 1 / es = t.dims 2 * t.dims 3 ∧ t.strides 2 / es = t.dims 3 ∧
      t.strides 3 / es = 1 := by
  obtain ⟨_, g2, _⟩ := geom_rank4 t es hes h4 hrm
  have a1 := g2 0 1 0 0
  have a2 := g2 0 0 1 0
  have a3 := g2 0 0 0 1
  simp at a1 a2 a3
  exact ⟨a1, a2, a3⟩

/-- C36: for contiguous rank-4 tensors of 8- or 16-bit fixed-point kinds that pass the checks
of `giga_conv2d_` (bias of rank 1 and contiguous), the store the reference build returns with
`GIGA_Success` is the store the optimized nest (`ENABLE_OPTIMIZATION`, run sequentially)
produces from the same locals: every output element receives the same value, and nothing else
is written differently. -/
theorem conv2d_optimized_refines_reference (w : Nat) (i_T o_T k_T : CIntType)
    (params : GIGA_conv2d_t) (inT out : GIGA_tensor_t) (m : Mem)
    (hTi : fixed_CType inT.type = some i_T) (hTo : fixed_CType out.type = some o_T)
    (hTk : fixed_CType params.kernel.type = some k_T)
    (hci : Contiguous inT) (hco : Contiguous out) (hck : Contiguous params.kernel)
    (hri : inT.nb_dims = 4) (hro : out.nb_dims = 4) (hrk : params.kernel.nb_dims = 4)
    (hN : out.dims 0 = inT.dims 0)
    (hk0 : params.kernel.dims 0 = out.dims 1) (hk1 : params.kernel.dims 1 = inT.dims 1)
    (hk2 : params.kernel.dims 2 = 3) (hk3 : params.kernel.dims 3 = 3)
    (hs0 : params.stride 0 = 1 ∨ params.stride 0 = 2)
    (hs1 : params.stride 1 = 1 ∨ params.stride 1 = 2)
    (hd0 : params.dilation 0 = 1) (hd1 : params.dilation 1 = 1)
    (hb : ∀ b, params.bias = some b →
      Contiguous b ∧ b.type = params.kernel.type ∧ b.nb_dims = 1 ∧ b.dims 0 = out.dims 1)
    (hHo : out.dims 2 = conv2d_out_dim (inT.dims 2) (params.padding 0 0) (params.padding 0 1)
      (params.stride 0))
    (hWo : out.dims 3 = conv2d_out_dim (inT.dims 3) (params.padding 1 0) (params.padding 1 1)
      (params.stride 1)) :
    giga_conv2d_ w params inT out m
      = some (GIGA_Success, conv2d_optimized_nest w i_T o_T k_T params inT out m) := by
  obtain ⟨cTi, esi, posi⟩ := fixed_CType_cases _ _ hTi
  obtain ⟨cTo, eso, poso⟩ := fixed_CType_cases _ _ hTo
  obtain ⟨cTk, esk, posk⟩ := fixed_CType_cases _ _ hTk
  have hci2 := hci
  have hco2 := hco
  have hck2 := hck
  obtain ⟨hei, _, _, hrmi, hszi, hdi⟩ := hci2
  obtain ⟨heo, _, _, hrmo, hszo, hdo⟩ := hco2
  obtain ⟨hek, _, _, hrmk, hszk, hdk⟩ := hck2
  rw [← esi] at hrmi hszi
  rw [← eso] at hrmo hszo
  rw [← esk] at hrmk hszk
  obtain ⟨gi1, gi2, _⟩ := geom_rank4 inT _ posi hri hrmi
  obtain ⟨go1, go2, _⟩ := geom_rank4 out _ poso hro hrmo
  obtain ⟨gk1, gk2, _⟩ := geom_rank4 params.kernel _ posk hrk hrmk
  obtain ⟨_, _, si3⟩ := strides_rank4 inT _ posi hri hrmi
  obtain ⟨_, _, so3⟩ := strides_rank4 out _ poso hro hrmo
  obtain ⟨sk1, sk2, sk3⟩ := strides_rank4 params.kernel _ posk hrk hrmk
  rw [hk2, hk3] at sk1
  rw [hk3] at sk2
  norm_num at sk1
  rw [hk0, hk1, hk2, hk3] at gk1
  simp only [hk1, hk2, hk3, sk1, sk2, sk3] at gk2
  rw [si3] at gi2
  rw [so3] at go2
  have hszo2 : out.dims 0 * out.dims 1 * out.dims 2 * out.dims 3 < 2 ^ 31 := by
    rw [← go1]
    calc prod_from out.dims out.nb_dims 0
        ≤ o_T.bits / 8 * prod_from out.dims out.nb_dims 0 := Nat.le_mul_of_pos_left _ poso
      _ < 2 ^ 31 := hszo
  have hszi2 : inT.dims 0 * inT.dims 1 * inT.dims 2 * inT.dims 3 < 2 ^ 31 := by
    rw [← gi1]
    calc prod_from inT.dims inT.nb_dims 0
        ≤ i_T.bits / 8 * prod_from inT.dims inT.nb_dims 0 := Nat.le_mul_of_pos_left _ posi
      _ < 2 ^ 31 := hszi
  have hszk2 : out.dims 1 * inT.dims 1 * 3 * 3 < 2 ^ 31 := by
    rw [← gk1]
    calc prod_from params.kernel.dims params.kernel.nb_dims 0
        ≤ k_T.bits / 8 * prod_from params.kernel.dims params.kernel.nb_dims 0 :=
          Nat.le_mul_of_pos_left _ posk
      _ < 2 ^ 31 := hszk
  rw [giga_conv2d_eq w i_T o_T k_T params inT out m hTi hTo hTk hei heo hek hri hro hrk hN
    hk0 hk1 hk2 hk3 hs0 hs1 hd0 hd1
    (fun b hbb => ⟨(hb b hbb).1.1, (hb b hbb).2.1, (hb b hbb).2.2.1, (hb b hbb).2.2.2⟩) hHo hWo,
    conv2d_optimized_nest_rank4 w i_T o_T k_T params inT out m hri hro
      (fun b hbb => (hb b hbb).2.2.1),
    si3, so3, sk1, sk2, sk3]
  refine congrArg (fun x => some (GIGA_Success, x)) (Eq.symm ?_)
  refine conv2d_loops_opt_eq w i_T o_T k_T params.b_ReLU _ _ _ _ _ _ _ _ _ _ _ _ _ _ _ _ _ _
    _ _ _ _ _ _ _ m ?_ ?_ ?_ ?_
  · intro n hn ci hc iy hiy
    have hpos : 1 ≤ inT.dims 0 * inT.dims 1 * inT.dims 2 :=
      Nat.succ_le_of_lt (Nat.mul_pos (Nat.mul_pos (by omega) (by omega)) (by omega))
    have hWle : inT.dims 3 ≤ inT.dims 0 * inT.dims 1 * inT.dims 2 * inT.dims 3 :=
      Nat.le_mul_of_pos_left _ hpos
    refine ⟨by omega, fun ix hix => ?_⟩
    have h1 := gi2 n ci iy ix
    have h2 := ravel4_lt n ci iy ix _ _ _ _ hn hc hiy hix
    omega
  · intro co hco2 ci hc
    have h1 := gk2 co ci 2 2
    have h2 := ravel4_lt co ci 2 2 (out.dims 1) (inT.dims 1) 3 3 hco2 hc (by omega) (by omega)
    omega
  · intro n hn co hco2 y hy x hx
    have h1 := go2 n co y x
    have h2 := ravel4_lt n co y x (out.dims 0) _ _ _ (by omega) hco2 hy hx
    omega
  · intro co hco2
    cases hbb : params.bias with
    | none => simp
    | some b =>
      obtain ⟨hc, ht, hr, hd⟩ := hb b hbb
      obtain ⟨_, _, _, hrm, _, hdb⟩ := hc
      have s0 := hrm 0 (by omega)
      simp only [hr, prod_from, Nat.mul_one] at s0
      rw [ht, ← esk] at s0
      have hd1 := hdo 1 (by omega)
      simp only [s0, Nat.div_self posk]
      omega

/-- C36 (witness): the 3×3 `SFixed8` image with padding 1 and stride 1, a bias and ReLU, into a
`SFixed16` output; and, evaluated on their own, the optimized nest and the reference build
store the same element for the 1×1 `SFixed8` image of the ReLU example. -/
theorem conv2d_optimized_refines_reference_witness :
    giga_conv2d_ 32 conv_params conv_in conv_out conv_store
        = some (GIGA_Success, conv2d_optimized_nest 32 ⟨8, true⟩ ⟨16, true⟩ ⟨8, true⟩
            conv_params conv_in conv_out conv_store) ∧
      load_int ⟨8, true⟩ (conv2d_optimized_nest 32 ⟨8, true⟩ ⟨8, true⟩ ⟨8, true⟩ relu_params
        relu_in relu_out relu_store) (elem_addr relu_out (idx_of [0, 0, 0, 0])) = -56 :=
  ⟨conv2d_optimized_refines_reference 32 ⟨8, true⟩ ⟨16, true⟩ ⟨8, true⟩ conv_params conv_in
    conv_out conv_store rfl rfl rfl
    (by unfold Contiguous RowMajor; decide) (by unfold Contiguous RowMajor; decide)
    (by unfold Contiguous RowMajor; decide)
    (by decide) (by decide) (by decide) (by decide) (by decide) (by decide) (by decide)
    (by decide) (by decide) (by decide) (by decide) (by decide)
    (fun b h => by
      have hb : conv_bias = b := Option.some.inj h
      subst hb
      exact ⟨by unfold Contiguous RowMajor; decide, by decide, by decide, by decide⟩)
    (by decide) (by decide), by decide⟩

/-! ## Index safety of the reference convolution nest -/

theorem forLoop_invariant {σ : Type} (Q : σ → Prop) (n : Nat) (body : Nat → σ → σ)
    (h : ∀ i, i < n → ∀ s, Q s → Q (body i s)) (s : σ) (hs : Q s) : Q (forLoop n body s) := by
  induction n with
  | zero => exact hs
  | succ n ih =>
    rw [forLoop_succ]
    exact h n (Nat.lt_succ_self n) _ (ih (fun i hi => h i (Nat.lt_succ_of_lt hi)))

theorem conv2d_acc_traced_fst (w : Nat) (i_T k_T : CIntType) (mem : Mem) (pi pk : Nat)
    (H W C_in s0 s1 : Nat) (p_y p_x : Int) (iB iC iH iW k0 k1 k2 k3 : Nat) (n co y x : Nat) :
    (conv2d_acc_traced w i_T k_T mem pi pk H W C_in s0 s1 p_y p_x iB iC iH iW k0 k1 k2 k3
      n co y x).1
      = conv2d_acc w i_T k_T mem pi pk H W C_in s0 s1 p_y p_x iB iC iH iW k0 k1 k2 k3
          n co y x := by
  unfold conv2d_acc_traced conv2d_acc
  refine forLoop_fst 3 _ _ (fun ky _ s => ?_) (0, [])
  dsimp only
  split_ifs
  · rfl
  · refine forLoop_fst 3 _ _ (fun kx _ s => ?_) s
    dsimp only
    split_ifs
    · rfl
    · exact forLoop_fst C_in _ _ (fun ci _ s => rfl) s

theorem conv2d_loops_traced_fst (w : Nat) (i_T o_T k_T : CIntType) (b_ReLU : Bool)
    (bias_ptr : Option Nat) (pi po pk N C_out H_out W_out H W C_in s0 s1 : Nat)
    (p_y p_x out_shift bias_reshift : Int) (bias_stride oB oC oH oW iB iC iH iW k0 k1 k2 k3 : Nat)
    (m : Mem) :
    (conv2d_loops_traced w i_T o_T k_T b_ReLU bias_ptr pi po pk N C_out H_out W_out H W C_in
      s0 s1 p_y p_x out_shift bias_reshift bias_stride oB oC oH oW iB iC iH iW k0 k1 k2 k3 m).1
      = conv2d_loops w i_T o_T k_T b_ReLU bias_ptr pi po pk N C_out H_out W_out H W C_in
          s0 s1 p_y p_x out_shift bias_reshift bias_stride oB oC oH oW iB iC iH iW k0 k1 k2 k3
          m := by
  unfold conv2d_loops_traced conv2d_loops
  refine forLoop_fst N _ _ (fun n _ s => ?_) (m, [])
  refine forLoop_fst C_out _ _ (fun co _ s0 => ?_) s
  exact forLoop_fst H_out _ _ (fun y _ s1 =>
    forLoop_fst W_out _ _ (fun x _ s2 => rfl) s1) _

theorem conv2d_acc_traced_all (P : Access → Prop) (w : Nat) (i_T k_T : CIntType) (mem : Mem)
    (pi pk : Nat) (H W C_in s0 s1 : Nat) (p_y p_x : Int) (iB iC iH iW k0 k1 k2 k3 : Nat)
    (n co y x : Nat)
    (hin : ∀ c, c < C_in → ∀ iy, iy < H → ∀ ix, ix < W → P ⟨Operand.input, [n, c, iy, ix]⟩)
    (hker : ∀ ci, ci < C_in → ∀ ky, ky < 3 → ∀ kx, kx < 3 →
      P ⟨Operand.kernel, [co, ci, ky, kx]⟩) :
    ∀ a, a ∈ (conv2d_acc_traced w i_T k_T mem pi pk H W C_in s0 s1 p_y p_x iB iC iH iW
      k0 k1 k2 k3 n co y x).2 → P a := by
  unfold conv2d_acc_traced
  refine forLoop_invariant (fun st : Int × List Access => ∀ a, a ∈ st.2 → P a) 3 _
    (fun ky hky s hs => ?_) (0, []) (fun a ha => by simp at ha)
  dsimp only
  split_ifs with hy
  · exact hs
  · refine forLoop_invariant (fun st : Int × List Access => ∀ a, a ∈ st.2 → P a) 3 _
      (fun kx hkx s hs => ?_) s hs
    dsimp only
    split_ifs with hx
    · exact hs
    · refine forLoop_invariant (fun st : Int × List Access => ∀ a, a ∈ st.2 → P a) C_in _
        (fun ci hci s hs => ?_) s hs
      intro a ha
      dsimp only at ha
      rw [List.mem_append] at ha
      rcases ha with ha | ha
      · exact hs a ha
      · simp only [List.mem_cons, List.mem_singleton, List.not_mem_nil, or_false] at ha
        rcases ha with ha | ha
        · rw [ha]
          exact hker ci hci ky hky kx hkx
        · rw [ha]
          exact hin ci hci _ (Nat.lt_of_not_le hy) _ (Nat.lt_of_not_le hx)

theorem conv2d_loops_traced_all (P : Access → Prop) (w : Nat) (i_T o_T k_T : CIntType)
    (b_ReLU : Bool) (bias_ptr : Option Nat) (pi po pk N C_out H_out W_out H W C_in s0 s1 : Nat)
    (p_y p_x out_shift bias_reshift : Int) (bias_stride oB oC oH oW iB iC iH iW k0 k1 k2 k3 : Nat)
    (m : Mem)
    (hin : ∀ n, n < N → ∀ c, c < C_in → ∀ iy, iy < H → ∀ ix, ix < W →
      P ⟨Operand.input, [n, c, iy, ix]⟩)
    (hker : ∀ co, co < C_out → ∀ ci, ci < C_in → ∀ ky, ky < 3 → ∀ kx, kx < 3 →
      P ⟨Operand.kernel, [co, ci, ky, kx]⟩)
    (hbias : bias_ptr ≠ none → ∀ co, co < C_out → P ⟨Operand.bias, [co]⟩)
    (hout : ∀ n, n < N → ∀ co, co < C_out → ∀ y, y < H_out → ∀ x, x < W_out →
      P ⟨Operand.output, [n, co, y, x]⟩) :
    ∀ a, a ∈ (conv2d_loops_traced w i_T o_T k_T b_ReLU bias_ptr pi po pk N C_out H_out W_out
      H W C_in s0 s1 p_y p_x out_shift bias_reshift bias_stride oB oC oH oW iB iC iH iW
      k0 k1 k2 k3 m).2 → P a := by
  unfold conv2d_loops_traced
  refine forLoop_invariant (fun st : Mem × List Access => ∀ a, a ∈ st.2 → P a) N _
    (fun n hn s hs => ?_) (m, []) (fun a ha => by simp at ha)
  refine forLoop_invariant (fun st : Mem × List Access => ∀ a, a ∈ st.2 → P a) C_out _
    (fun co hco s hs => ?_) s hs
  refine forLoop_invariant (fun st : Mem × List Access => ∀ a, a ∈ st.2 → P a) H_out _
    (fun y hy s hs => ?_) _ ?_
  · refine forLoop_invariant (fun st : Mem × List Access => ∀ a, a ∈ st.2 → P a) W_out _
      (fun x hx s hs => ?_) s hs
    intro a ha
    dsimp only at ha
    rw [List.mem_append, List.mem_append] at ha
    rcases ha with (ha | ha) | ha
    · exact hs a ha
    · exact conv2d_acc_traced_all P w i_T k_T _ pi pk H W C_in s0 s1 p_y p_x iB iC iH iW
        k0 k1 k2 k3 n co y x (hin n hn) (hker co hco) a ha
    · rw [List.mem_singleton] at ha
      rw [ha]
      exact hout n hn co hco y hy x hx
  · intro a ha
    dsimp only at ha
    cases hb : bias_ptr with
    | none =>
      rw [hb] at ha
      exact hs a ha
    | some bp =>
      rw [hb] at ha
      dsimp only at ha
      rw [List.mem_append, List.mem_singleton] at ha
      rcases ha with ha | ha
      · exact hs a ha
      · rw [ha]
        exact hbias (by rw [hb]; exact Option.some_ne_none bp) co hco

/-- What the checks of `_conv2d_impl` establish when they all pass. -/
theorem conv2d_checks_pass (params : GIGA_conv2d_t) (inT out : GIGA_tensor_t)
    (h : conv2d_checks params inT out = none) :
    inT.nb_dims = out.nb_dims ∧ 2 ≤ inT.nb_dims ∧
      (inT.nb_dims = 4 → inT.dims 0 = out.dims 0) ∧
      params.kernel.dims 0 = dimC out ∧ params.kernel.dims 1 = dimC inT ∧
      params.kernel.dims 2 = 3 ∧ params.kernel.dims 3 = 3 ∧
      (∀ b, params.bias = some b →
        (b.nb_dims = 1 ∨ b.nb_dims = 2) ∧ b.dims (u32 ((b.nb_dims : Int) - 1)) = dimC out) := by
  unfold conv2d_checks at h
  conv at h => zeta
  by_cases h1 : inT.nb_dims ≠ out.nb_dims
  · rw [if_pos h1] at h; exact Option.noConfusion h
  rw [if_neg h1] at h
  by_cases h2 : inT.nb_dims < 2
  · rw [if_pos h2] at h; exact Option.noConfusion h
  rw [if_neg h2] at h
  by_cases h3 : inT.nb_dims = 4 ∧ inT.dims 0 ≠ out.dims 0
  · rw [if_pos h3] at h; exact Option.noConfusion h
  rw [if_neg h3] at h
  by_cases h4 : params.kernel.nb_dims ≠ 4
  · rw [if_pos h4] at h; exact Option.noConfusion h
  rw [if_neg h4] at h
  by_cases h5 : params.kernel.dims 0 ≠ (if out.nb_dims = 2 then 1 else out.dims (out.nb_dims - 3))
  · rw [if_pos h5] at h; exact Option.noConfusion h
  rw [if_neg h5] at h
  by_cases h6 : params.kernel.dims 1 ≠ (if inT.nb_dims = 2 then 1 else inT.dims (inT.nb_dims - 3))
  · rw [if_pos h6] at h; exact Option.noConfusion h
  rw [if_neg h6] at h
  by_cases h7 : params.kernel.dims 2 ≠ 3
  · rw [if_pos h7] at h; exact Option.noConfusion h
  rw [if_neg h7] at h
  by_cases h8 : params.kernel.dims 3 ≠ 3
  · rw [if_pos h8] at h; exact Option.noConfusion h
  rw [if_neg h8] at h
  by_cases h9 : params.stride 0 > 2 ∨ params.stride 0 < 1
  · rw [if_pos h9] at h; exact Option.noConfusion h
  rw [if_neg h9] at h
  by_cases h10 : params.stride 1 > 2 ∨ params.stride 1 < 1
  · rw [if_pos h10] at h; exact Option.noConfusion h
  rw [if_neg h10] at h
  by_cases h11 : params.dilation 0 ≠ 1 ∨ params.dilation 1 ≠ 1
  · rw [if_pos h11] at h; exact Option.noConfusion h
  rw [if_neg h11] at h
  refine ⟨by omega, by omega, fun e => ?_, ?_, ?_, by omega, by omega, fun b hb => ?_⟩
  · by_contra hc
    exact h3 ⟨e, hc⟩
  · unfold dimC
    exact not_not.mp h5
  · unfold dimC
    exact not_not.mp h6
  · rw [hb] at h
    simp only [] at h
    unfold bias_check at h
    conv at h => zeta
    unfold dimC
    by_cases b1 : (!check_tensor_exists b) = true
    · rw [if_pos b1] at h; exact Option.noConfusion h
    rw [if_neg b1] at h
    by_cases b2 : params.kernel.type ≠ b.type
    · rw [if_pos b2] at h; exact Option.noConfusion h
    rw [if_neg b2, if_pos rfl] at h
    by_cases b3 : ¬ (b.nb_dims = 1 ∨ (b.nb_dims = 2 ∧ b.dims 0 = 1))
    · rw [if_pos b3] at h; exact Option.noConfusion h
    rw [if_neg b3] at h
    by_cases b4 : b.dims (u32 ((b.nb_dims : Int) - 1))
        ≠ (if out.nb_dims = 2 then 1 else out.dims (out.nb_dims - 3))
    · rw [if_pos b4] at h; exact Option.noConfusion h
    have b5 := not_not.mp b3
    exact ⟨by omega, not_not.mp b4⟩

theorem conv2d_impl_of_checks (w : Nat) (i_T o_T k_T : CIntType) (params : GIGA_conv2d_t)
    (inT out : GIGA_tensor_t) (m : Mem) (h : conv2d_checks params inT out = none) :
    _conv2d_impl w i_T o_T k_T params inT out m
      = (GIGA_Success, (conv2d_nest_traced w i_T o_T k_T params inT out m).1) := by
  have hr : (conv2d_nest_traced w i_T o_T k_T params inT out m).1 = _ :=
    conv2d_loops_traced_fst w i_T o_T k_T _ _ _ _ _ _ _ _ _ _ _ _ _ _ _ _ _ _ _ _ _ _ _ _ _ _ _
      _ _ _ _ _
  rw [hr]
  unfold conv2d_checks at h
  unfold _conv2d_impl
  conv at h => zeta
  conv => zeta
  by_cases h1 : inT.nb_dims ≠ out.nb_dims
  · rw [if_pos h1] at h; exact Option.noConfusion h
  rw [if_neg h1] at h ⊢
  by_cases h2 : inT.nb_dims < 2
  · rw [if_pos h2] at h; exact Option.noConfusion h
  rw [if_neg h2] at h ⊢
  by_cases h3 : inT.nb_dims = 4 ∧ inT.dims 0 ≠ out.dims 0
  · rw [if_pos h3] at h; exact Option.noConfusion h
  rw [if_neg h3] at h ⊢
  by_cases h4 : params.kernel.nb_dims ≠ 4
  · rw [if_pos h4] at h; exact Option.noConfusion h
  rw [if_neg h4] at h ⊢
  by_cases h5 : params.kernel.dims 0 ≠ (if out.nb_dims = 2 then 1 else out.dims (out.nb_dims - 3))
  · rw [if_pos h5] at h; exact Option.noConfusion h
  rw [if_neg h5] at h ⊢
  by_cases h6 : params.kernel.dims 1 ≠ (if inT.nb_dims = 2 then 1 else inT.dims (inT.nb_dims - 3))
  · rw [if_pos h6] at h; exact Option.noConfusion h
  rw [if_neg h6] at h ⊢
  by_cases h7 : params.kernel.dims 2 ≠ 3
  · rw [if_pos h7] at h; exact Option.noConfusion h
  rw [if_neg h7] at h ⊢
  by_cases h8 : params.kernel.dims 3 ≠ 3
  · rw [if_pos h8] at h; exact Option.noConfusion h
  rw [if_neg h8] at h ⊢
  by_cases h9 : params.stride 0 > 2 ∨ params.stride 0 < 1
  · rw [if_pos h9] at h; exact Option.noConfusion h
  rw [if_neg h9] at h ⊢
  by_cases h10 : params.stride 1 > 2 ∨ params.stride 1 < 1
  · rw [if_pos h10] at h; exact Option.noConfusion h
  rw [if_neg h10] at h ⊢
  by_cases h11 : params.dilation 0 ≠ 1 ∨ params.dilation 1 ≠ 1
  · rw [if_pos h11] at h; exact Option.noConfusion h
  rw [if_neg h11] at h ⊢
  have fin : ∀ c : Option GIGA_error, ∀ r : Mem,
      (match c with
        | some e => some e
        | none =>
          if out.dims (out.nb_dims - 2) ≠ conv2d_out_dim (inT.dims (inT.nb_dims - 2))
              (params.padding 0 0) (params.padding 0 1) (params.stride 0) then
            some GIGA_Inconsistent_Tensor_Sizes
          else if out.dims (out.nb_dims - 2 + 1) ≠ conv2d_out_dim
              (inT.dims (inT.nb_dims - 2 + 1)) (params.padding 1 0) (params.padding 1 1)
              (params.stride 1) then
            some GIGA_Inconsistent_Tensor_Sizes
          else none) = none →
      (match c with
        | some e => (e, m)
        | none =>
          if out.dims (out.nb_dims - 2) ≠ conv2d_out_dim (inT.dims (inT.nb_dims - 2))
              (params.padding 0 0) (params.padding 0 1) (params.stride 0) then
            (GIGA_Inconsistent_Tensor_Sizes, m)
          else if out.dims (out.nb_dims - 2 + 1) ≠ conv2d_out_dim
              (inT.dims (inT.nb_dims - 2 + 1)) (params.padding 1 0) (params.padding 1 1)
              (params.stride 1) then
            (GIGA_Inconsistent_Tensor_Sizes, m)
          else (GIGA_Success, r)) = (GIGA_Success, r) := by
    intro c r hc
    cases c with
    | some e => exact Option.noConfusion hc
    | none =>
      simp only [] at hc ⊢
      split_ifs at hc ⊢
      rfl
  exact fin _ _ h

/-- C39: when the checks of `_conv2d_impl` pass (tensors of rank 2 to 4, any paddings, strides
1 or 2), the reference build returns `GIGA_Success` with the store of the traced nest, and every
element the nest reads from `in`, the kernel and the bias and every element it writes to `out`
has its coordinates within the dims of that tensor. -/
theorem conv2d_reference_nest_in_bounds (w : Nat) (i_T o_T k_T : CIntType)
    (params : GIGA_conv2d_t) (inT out : GIGA_tensor_t) (m : Mem)
    (h : conv2d_checks params inT out = none) :
    _conv2d_impl w i_T o_T k_T params inT out m
        = (GIGA_Success, (conv2d_nest_traced w i_T o_T k_T params inT out m).1) ∧
      ∀ a, a ∈ (conv2d_nest_traced w i_T o_T k_T params inT out m).2 →
        access_in_dims params inT out a = true := by
  refine ⟨conv2d_impl_of_checks w i_T o_T k_T params inT out m h, ?_⟩
  obtain ⟨c1, c2, c3, c4, c5, c6, c7, c8⟩ := conv2d_checks_pass params inT out h
  have ei : inT.nb_dims - 2 + 1 = inT.nb_dims - 1 := by omega
  have eo : out.nb_dims - 2 + 1 = out.nb_dims - 1 := by omega
  have eN : dimN out = dimN inT := by
    unfold dimN
    by_cases h4 : inT.nb_dims = 4
    · rw [if_pos h4, if_pos (c1 ▸ h4), c3 h4]
    · rw [if_neg h4, if_neg (c1 ▸ h4)]
  unfold conv2d_nest_traced
  dsimp only
  apply conv2d_loops_traced_all (fun a => access_in_dims params inT out a = true)
  · intro n hn c hc iy hiy ix hix
    rw [ei] at hix
    simp only [access_in_dims, coords_in_dims, decide_eq_true_eq]
    exact ⟨hn, hc, hiy, hix⟩
  · intro co hco ci hci ky hky kx hkx
    simp only [access_in_dims, decide_eq_true_eq]
    rw [c4, c5, c6, c7]
    exact ⟨hco, hci, hky, hkx⟩
  · intro hb co hco
    cases hbb : params.bias with
    | none =>
      rw [hbb] at hb
      exact absurd rfl hb
    | some b =>
      obtain ⟨r1, r2⟩ := c8 b hbb
      have eu : u32 ((b.nb_dims : Int) - 1) = b.nb_dims - 1 := by
        unfold u32
        rcases r1 with r | r <;> rw [r] <;> rfl
      rw [eu] at r2
      simp only [access_in_dims, hbb, decide_eq_true_eq]
      rw [r2]
      exact hco
  · intro n hn co hco y hy x hx
    rw [eo] at hx
    simp only [access_in_dims, coords_in_dims, decide_eq_true_eq]
    rw [eN]
    exact ⟨hn, hco, hy, hx⟩

/-- C39 (witness): the 3×3 `SFixed8` image with padding 1 and stride 1 and a bias; and, evaluated
on its own, the log of the 1×1 image of the ReLU example with padding 1: of the nine taps only
the centre one is read, the others (whose input coordinate is 1 or wraps below zero) are
skipped. -/
theorem conv2d_reference_nest_in_bounds_witness :
    conv2d_checks conv_params conv_in conv_out = none ∧
      (∀ a, a ∈ (conv2d_nest_traced 32 ⟨8, true⟩ ⟨16, true⟩ ⟨8, true⟩ conv_params conv_in
        conv_out conv_store).2 → access_in_dims conv_params conv_in conv_out a = true) ∧
      (conv2d_nest_traced 32 ⟨8, true⟩ ⟨8, true⟩ ⟨8, true⟩ relu_params relu_in relu_out
        relu_store).2
        = [⟨Operand.kernel, [0, 0, 1, 1]⟩, ⟨Operand.input, [0, 0, 0, 0]⟩,
            ⟨Operand.output, [0, 0, 0, 0]⟩] :=
  ⟨by decide,
    (conv2d_reference_nest_in_bounds 32 ⟨8, true⟩ ⟨16, true⟩ ⟨8, true⟩ conv_params conv_in
      conv_out conv_store (by decide)).2, by decide⟩

/-! ## ReLU and the sign of the elements of the output -/

theorem dense_element_unfold (w : Nat) (i_T o_T k_T : CIntType) (b_ReLU : Bool)
    (bias_ptr : Option Nat) (pi po pk I : Nat) (s br : Int) (oS0 oS1 iS0 iS1 kS0 kS1 : Nat)
    (n j : Nat) (mem : Mem) :
    dense_element w i_T o_T k_T b_ReLU bias_ptr pi po pk I s br oS0 oS1 iS0 iS1 kS0 kS1 n j mem
      = store_result w o_T b_ReLU
          (dense_acc w i_T k_T
            (store_int o_T mem (po + (n * oS0 + j * oS1) % 2 ^ 32 * (o_T.bits / 8)) 0)
            pi pk I iS0 iS1 kS0 kS1 n j (dense_bias_acc w k_T bias_ptr br j mem))
          s (store_int o_T mem (po + (n * oS0 + j * oS1) % 2 ^ 32 * (o_T.bits / 8)) 0)
          (po + (n * oS0 + j * oS1) % 2 ^ 32 * (o_T.bits / 8)) := rfl

theorem store_bytes_overwrite (m : Mem) (a n v1 v2 : Nat) :
    store_bytes (store_bytes m a n v1) a n v2 = store_bytes m a n v2 := by
  funext x
  simp only [store_bytes]
  split_ifs <;> rfl

theorem dense_acc_congr (w : Nat) (i_T k_T : CIntType) (mem m : Mem) (R : Nat → Prop)
    (pi pk I iS0 iS1 kS0 kS1 n j : Nat) (acc0 : Int) (hmem : Agree R mem m)
    (hRi : ∀ i, i < I → ∀ jj, jj < i_T.bits / 8 →
      R (pi + (n * iS0 + i * iS1) % 2 ^ 32 * (i_T.bits / 8) + jj))
    (hRk : ∀ i, i < I → ∀ jj, jj < k_T.bits / 8 →
      R (pk + (j * kS0 + i * kS1) % 2 ^ 32 * (k_T.bits / 8) + jj)) :
    dense_acc w i_T k_T mem pi pk I iS0 iS1 kS0 kS1 n j acc0
      = dense_acc w i_T k_T m pi pk I iS0 iS1 kS0 kS1 n j acc0 := by
  unfold dense_acc
  refine forLoop_congr I _ _ acc0 (fun i hi acc => ?_)
  dsimp only
  rw [load_int_congr k_T mem m _ (fun jj hjj => hmem _ (hRk i hi jj hjj)),
    load_int_congr i_T mem m _ (fun jj hjj => hmem _ (hRi i hi jj hjj))]

theorem dense_element_eq (w : Nat) (i_T o_T k_T : CIntType) (b_ReLU : Bool)
    (bias_ptr : Option Nat) (pi po pk I : Nat) (s br : Int) (oS0 oS1 iS0 iS1 kS0 kS1 : Nat)
    (n j K : Nat) (mem m : Mem) (R : Nat → Prop) (hmem : Agree R mem m)
    (hout : (n * oS0 + j * oS1) % 2 ^ 32 = K)
    (hsep : ∀ a, po + K * (o_T.bits / 8) ≤ a → a < po + K * (o_T.bits / 8) + o_T.bits / 8 →
      ¬ R a)
    (hRi : ∀ i, i < I → ∀ jj, jj < i_T.bits / 8 →
      R (pi + (n * iS0 + i * iS1) % 2 ^ 32 * (i_T.bits / 8) + jj))
    (hRk : ∀ i, i < I → ∀ jj, jj < k_T.bits / 8 →
      R (pk + (j * kS0 + i * kS1) % 2 ^ 32 * (k_T.bits / 8) + jj))
    (hRb : ∀ bp, bias_ptr = some bp → ∀ jj, jj < k_T.bits / 8 →
      R (bp + j * (k_T.bits / 8) + jj)) :
    dense_element w i_T o_T k_T b_ReLU bias_ptr pi po pk I s br oS0 oS1 iS0 iS1 kS0 kS1 n j mem
      = store_bytes mem (po + K * (o_T.bits / 8)) (o_T.bits / 8)
          ((relu_value w b_ReLU
            (dense_acc w i_T k_T m pi pk I iS0 iS1 kS0 kS1 n j
              (dense_bias_acc w k_T bias_ptr br j m)) s) % 2 ^ o_T.bits).toNat := by
  rw [dense_element_unfold, hout]
  have hb : dense_bias_acc w k_T bias_ptr br j mem = dense_bias_acc w k_T bias_ptr br j m := by
    unfold dense_bias_acc
    cases bias_ptr with
    | none => rfl
    | some bp =>
      dsimp only
      rw [load_int_congr k_T mem m _ (fun jj hjj => hmem _ (hRb bp rfl jj hjj))]
  have hag : Agree R (store_int o_T mem (po + K * (o_T.bits / 8)) 0) m := by
    intro a ha
    unfold store_int
    rw [store_bytes_out _ _ _ _ a (fun hd => hsep a hd.1 hd.2 ha)]
    exact hmem a ha
  rw [dense_acc_congr w i_T k_T _ m R pi pk I iS0 iS1 kS0 kS1 n j _ hag hRi hRk, hb,
    store_result_eq]
  unfold store_int
  rw [store_bytes_overwrite]

theorem forLoop_one {σ : Type} (body : Nat → σ → σ) (s : σ) : forLoop 1 body s = body 0 s := by
  rw [forLoop_succ, forLoop_zero]

theorem dense_loops_spec (w : Nat) (i_T o_T k_T : CIntType)
    (hTo : o_T = ⟨8, true⟩ ∨ o_T = ⟨16, true⟩ ∨ o_T = ⟨8, false⟩ ∨ o_T = ⟨16, false⟩)
    (b_ReLU : Bool) (bias_ptr : Option Nat) (pi po pk N O I : Nat) (s br : Int)
    (oS0 oS1 iS0 iS1 kS0 kS1 : Nat) (m : Mem) (R : Nat → Prop)
    (hosz : 0 < o_T.bits / 8)
    (hoff_o : ∀ n, n < N → ∀ j, j < O → (n * oS0 + j * oS1) % 2 ^ 32 = n * O + j)
    (hRi : ∀ n, n < N → ∀ i, i < I → ∀ jj, jj < i_T.bits / 8 →
      R (pi + (n * iS0 + i * iS1) % 2 ^ 32 * (i_T.bits / 8) + jj))
    (hRk : ∀ j, j < O → ∀ i, i < I → ∀ jj, jj < k_T.bits / 8 →
      R (pk + (j * kS0 + i * kS1) % 2 ^ 32 * (k_T.bits / 8) + jj))
    (hRb : ∀ bp, bias_ptr = some bp → ∀ j, j < O → ∀ jj, jj < k_T.bits / 8 →
      R (bp + j * (k_T.bits / 8) + jj))
    (hsep : ∀ a, po ≤ a → a < po + N * O * (o_T.bits / 8) → ¬ R a) :
    ∀ n, n < N → ∀ j, j < O →
      load_int o_T
          (dense_loops w i_T o_T k_T b_ReLU bias_ptr pi po pk N O I s br oS0 oS1 iS0 iS1 kS0 kS1
            m)
          (po + (n * O + j) * (o_T.bits / 8))
        = o_T.wrap (relu_value w b_ReLU
            (dense_acc w i_T k_T m pi pk I iS0 iS1 kS0 kS1 n j
              (dense_bias_acc w k_T bias_ptr br j m)) s) := by
  intro n hn j hj
  have hbytes := store_loop_slices R m N O 1 (o_T.bits / 8) po hosz
    (fun n _ j => ((relu_value w b_ReLU
        (dense_acc w i_T k_T m pi pk I iS0 iS1 kS0 kS1 n j
          (dense_bias_acc w k_T bias_ptr br j m)) s) % 2 ^ o_T.bits).toNat)
    (fun batch out_i mem =>
      dense_element w i_T o_T k_T b_ReLU bias_ptr pi po pk I s br oS0 oS1 iS0 iS1 kS0 kS1
        batch out_i mem)
    (fun b hb l hl mem hmem => by
      rw [forLoop_one]
      have e : (b * 1 + 0) * O + l = b * O + l := by ring
      rw [e]
      refine dense_element_eq w i_T o_T k_T b_ReLU bias_ptr pi po pk I s br oS0 oS1 iS0 iS1
        kS0 kS1 b l (b * O + l) mem m R hmem (hoff_o b hb l hl) (fun a h1 h2 => ?_)
        (hRi b hb) (hRk l hl) (fun bp hbp => hRb bp hbp l hl)
      have hk : b * O + l < N * O := by
        calc b * O + l < b * O + O := by omega
          _ = (b + 1) * O := by ring
          _ ≤ N * O := Nat.mul_le_mul_right O hb
      have h3 := Nat.mul_le_mul_right (o_T.bits / 8) (Nat.succ_le_of_lt hk)
      rw [Nat.succ_mul] at h3
      exact hsep a (by omega) (by omega))
    (fun a h1 h2 => hsep a h1 (by rw [Nat.mul_one] at h2; exact h2))
    n hn 0 (by omega) j hj
  have e : (n * 1 + 0) * O + j = n * O + j := by ring
  simp only [e] at hbytes
  exact load_int_of_bytes o_T hTo _ _ _ hbytes

theorem u32_wrapS32 (x : Nat) (h : x < 2 ^ 32) : u32 (wrapS 32 (x : Int)) = x := by
  unfold u32 wrapS
  norm_num at h ⊢
  omega

theorem bias_check_dense_ok (kernel bias : GIGA_tensor_t) (nb_out : Nat)
    (he : check_tensor_exists bias = true) (ht : bias.type = kernel.type)
    (hr : bias.nb_dims = 1) (hd : bias.dims 0 = nb_out) :
    bias_check false kernel bias nb_out = none := by
  unfold bias_check
  simp [he, ht, hr, hd]

theorem giga_dense_eq (w : Nat) (i_T o_T k_T : CIntType) (params : GIGA_dense_t)
    (inT out : GIGA_tensor_t) (m : Mem)
    (hTi : fixed_CType inT.type = some i_T) (hTo : fixed_CType out.type = some o_T)
    (hTk : fixed_CType params.kernel.type = some k_T)
    (hei : check_tensor_exists inT = true) (heo : check_tensor_exists out = true)
    (hek : check_tensor_exists params.kernel = true)
    (hri : inT.nb_dims = 2) (hN : out.dims 0 = inT.dims 0) (hN32 : inT.dims 0 < 2 ^ 32)
    (hrk : params.kernel.nb_dims = 2)
    (hk0 : params.kernel.dims 0 = out.dims 1) (hk1 : params.kernel.dims 1 = inT.dims 1)
    (hbc : ∀ b, params.bias = some b →
      check_tensor_exists b = true ∧ b.type = params.kernel.type ∧ b.nb_dims = 1 ∧
        b.dims 0 = out.dims 1) :
    giga_dense_ w params inT out m = some (GIGA_Success,
      dense_loops w i_T o_T k_T params.b_ReLU (params.bias.map get_ptr)
        (get_ptr inT) (get_ptr out) (get_ptr params.kernel)
        (inT.dims 0) (out.dims 1) (inT.dims 1)
        ((out.fp_shift : Int) - ((inT.fp_shift : Int) + (params.kernel.fp_shift : Int)))
        (match params.bias with
          | some bias =>
            -(bias.fp_shift : Int) + ((inT.fp_shift : Int) + (params.kernel.fp_shift : Int))
          | none => 0)
        (out.strides 0 / (o_T.bits / 8)) (out.strides 1 / (o_T.bits / 8))
        (inT.strides 0 / (i_T.bits / 8)) (inT.strides 1 / (i_T.bits / 8))
        (params.kernel.strides 0 / (k_T.bits / 8)) (params.kernel.strides 1 / (k_T.bits / 8))
        m) := by
  obtain ⟨relu, kernel, bias⟩ := params
  simp only at hTk hek hrk hk0 hk1 hbc ⊢
  have hu := u32_wrapS32 (inT.dims 0) hN32
  unfold giga_dense_
  simp only [hei, heo, hek, Bool.not_true, Bool.or_self, Bool.false_eq_true, if_false, hTi, hTo,
    hTk]
  unfold _dense_impl
  cases bias with
  | none =>
    simp [hri, hrk, hN, hk0, hk1, hu]
  | some b =>
    obtain ⟨b1, b2, b3, b4⟩ := hbc b rfl
    have hb := bias_check_dense_ok kernel b (out.dims 1) b1 b2 b3 b4
    simp [hri, hrk, hN, hk0, hk1, hu, hb]

theorem geom_rank2 (t : GIGA_tensor_t) (es : Nat) (hes : 0 < es) (h2 : t.nb_dims = 2)
    (hrm : RowMajor es t) :
    prod_from t.dims t.nb_dims 0 = t.dims 0 * t.dims 1 ∧
    t.strides 0 / es = t.dims 1 ∧ t.strides 1 / es = 1 ∧
    (∀ n j, elem_addr t (idx_of [n, j]) = get_ptr t + (n * t.dims 1 + j) * es) := by
  unfold RowMajor at hrm
  have s0 := hrm 0 (by omega)
  have s1 := hrm 1 (by omega)
  simp only [h2, prod_from, Nat.mul_one] at s0 s1
  norm_num at s0 s1
  refine ⟨?_, ?_, ?_, ?_⟩
  · simp only [h2, prod_from]
    ring
  · rw [s0, Nat.mul_div_cancel_left _ hes]
  · rw [s1, Nat.div_self hes]
  · intro n j
    unfold elem_addr
    simp only [h2, elem_offset, idx_of, List.getD_cons_zero, List.getD_cons_succ, s0, s1]
    ring

/-- The dense kernel on contiguous rank-2 fixed-point tensors that pass the checks: success, and
every stored element is the accumulator `dense_A` shifted (0 under ReLU when it is not
positive) and converted to the output kind. -/
theorem dense_formula (w : Nat) (i_T o_T k_T : CIntType) (params : GIGA_dense_t)
    (inT out : GIGA_tensor_t) (m : Mem)
    (hTi : fixed_CType inT.type = some i_T) (hTo : fixed_CType out.type = some o_T)
    (hTk : fixed_CType params.kernel.type = some k_T)
    (hci : Contiguous inT) (hco : Contiguous out) (hck : Contiguous params.kernel)
    (hri : inT.nb_dims = 2) (hro : out.nb_dims = 2) (hrk : params.kernel.nb_dims = 2)
    (hN : out.dims 0 = inT.dims 0)
    (hk0 : params.kernel.dims 0 = out.dims 1) (hk1 : params.kernel.dims 1 = inT.dims 1)
    (hb : ∀ b, params.bias = some b →
      Contiguous b ∧ b.type = params.kernel.type ∧ b.nb_dims = 1 ∧ b.dims 0 = out.dims 1)
    (hsi : Separate out inT) (hsk : Separate out params.kernel)
    (hsb : ∀ b, params.bias = some b → Separate out b) :
    ∃ m2, giga_dense_ w params inT out m = some (GIGA_Success, m2) ∧
      ∀ n, n < out.dims 0 → ∀ j, j < out.dims 1 →
        load_int o_T m2 (elem_addr out (idx_of [n, j]))
          = o_T.wrap (relu_value w params.b_ReLU (dense_A w i_T k_T params inT m n j)
              ((out.fp_shift : Int) - ((inT.fp_shift : Int) + (params.kernel.fp_shift : Int)))) := by
  obtain ⟨cTi, esi, posi⟩ := fixed_CType_cases _ _ hTi
  obtain ⟨cTo, eso, poso⟩ := fixed_CType_cases _ _ hTo
  obtain ⟨cTk, esk, posk⟩ := fixed_CType_cases _ _ hTk
  have hci2 := hci
  have hco2 := hco
  have hck2 := hck
  obtain ⟨hei, _, _, hrmi, hszi, hdi⟩ := hci2
  obtain ⟨heo, _, _, hrmo, hszo, hdo⟩ := hco2
  obtain ⟨hek, _, _, hrmk, hszk, hdk⟩ := hck2
  rw [← esi] at hrmi hszi
  rw [← eso] at hrmo hszo
  rw [← esk] at hrmk hszk
  obtain ⟨gi1, gi2, gi3, _⟩ := geom_rank2 inT _ posi hri hrmi
  obtain ⟨go1, go2, go3, go4⟩ := geom_rank2 out _ poso hro hrmo
  obtain ⟨gk1, gk2, gk3, _⟩ := geom_rank2 params.kernel _ posk hrk hrmk
  rw [hk0, hk1] at gk1
  rw [hk1] at gk2
  rw [hN] at go1
  rw [giga_dense_eq w i_T o_T k_T params inT out m hTi hTo hTk hei heo hek hri hN
    (hdi 0 (by omega)) hrk hk0 hk1
    (fun b hbb => ⟨(hb b hbb).1.1, (hb b hbb).2.1, (hb b hbb).2.2.1, (hb b hbb).2.2.2⟩)]
  refine ⟨_, rfl, ?_⟩
  intro n hn j hj
  rw [hN] at hn
  have hszo2 : inT.dims 0 * out.dims 1 < 2 ^ 31 := by
    rw [← go1]
    calc prod_from out.dims out.nb_dims 0
        ≤ o_T.bits / 8 * prod_from out.dims out.nb_dims 0 := Nat.le_mul_of_pos_left _ poso
      _ < 2 ^ 31 := hszo
  have hszi2 : inT.dims 0 * inT.dims 1 < 2 ^ 31 := by
    rw [← gi1]
    calc prod_from inT.dims inT.nb_dims 0
        ≤ i_T.bits / 8 * prod_from inT.dims inT.nb_dims 0 := Nat.le_mul_of_pos_left _ posi
      _ < 2 ^ 31 := hszi
  have hszk2 : out.dims 1 * inT.dims 1 < 2 ^ 31 := by
    rw [← gk1]
    calc prod_from params.kernel.dims params.kernel.nb_dims 0
        ≤ k_T.bits / 8 * prod_from params.kernel.dims params.kernel.nb_dims 0 :=
          Nat.le_mul_of_pos_left _ posk
      _ < 2 ^ 31 := hszk
  have ravel2 : ∀ a b A B : Nat, a < A → b < B → a * B + b < A * B := by
    intro a b A B ha hb2
    calc a * B + b < a * B + B := by omega
      _ = (a + 1) * B := by ring
      _ ≤ A * B := Nat.mul_le_mul_right B ha
  have hreg : ∀ (t : GIGA_tensor_t) (es A B : Nat), es = element_size_in_bits t.type / 8 →
      prod_from t.dims t.nb_dims 0 = A * B → ∀ a b jj, a < A → b < B → jj < es →
      region t (get_ptr t + (a * B + b) * es + jj) := by
    intro t es A B hes hprod a b jj ha hb2 hjj
    unfold region
    rw [hprod, ← hes]
    have h1 := ravel2 a b A B ha hb2
    have h2 := Nat.mul_le_mul_right es (Nat.succ_le_of_lt h1)
    rw [Nat.succ_mul, Nat.mul_comm (A * B) es] at h2
    exact ⟨by omega, by omega⟩
  unfold dense_A
  rw [go4, gi2, gi3, go2, go3, gk2, gk3]
  have hspec := dense_loops_spec w i_T o_T k_T cTo params.b_ReLU (params.bias.map get_ptr)
    (get_ptr inT) (get_ptr out) (get_ptr params.kernel) (inT.dims 0) (out.dims 1) (inT.dims 1)
    ((out.fp_shift : Int) - ((inT.fp_shift : Int) + (params.kernel.fp_shift : Int)))
    (match params.bias with
      | some bias =>
        -(bias.fp_shift : Int) + ((inT.fp_shift : Int) + (params.kernel.fp_shift : Int))
      | none => 0)
    (out.dims 1) 1 (inT.dims 1) 1 (inT.dims 1) 1 m
    (fun a => region inT a ∨ region params.kernel a ∨
      ∃ b, params.bias = some b ∧ region b a)
    poso
    (fun n hn j hj => by
      have := ravel2 n j _ _ hn hj
      rw [Nat.mul_one, Nat.mod_eq_of_lt (by omega)])
    (fun n hn i hi jj hjj => by
      have := ravel2 n i _ _ hn hi
      rw [Nat.mul_one, Nat.mod_eq_of_lt (by omega)]
      exact Or.inl (hreg inT _ _ _ esi gi1 n i jj hn hi hjj))
    (fun j hj i hi jj hjj => by
      have := ravel2 j i _ _ hj hi
      rw [Nat.mul_one, Nat.mod_eq_of_lt (by omega)]
      exact Or.inr (Or.inl (hreg params.kernel _ _ _ esk gk1 j i jj hj hi hjj)))
    (fun bp hbp j hj jj hjj => by
      cases hbb : params.bias with
      | none => rw [hbb] at hbp; simp at hbp
      | some b =>
        rw [hbb] at hbp
        simp only [Option.map_some', Option.some.injEq] at hbp
        obtain ⟨hc, ht, hr, hd⟩ := hb b hbb
        refine Or.inr (Or.inr ⟨b, rfl, ?_⟩)
        unfold region
        simp only [hr, prod_from, Nat.mul_one]
        rw [ht, ← esk, hd, ← hbp]
        have h2 := Nat.mul_le_mul_right (k_T.bits / 8) (Nat.succ_le_of_lt hj)
        rw [Nat.succ_mul, Nat.mul_comm (out.dims 1)] at h2
        exact ⟨by omega, by omega⟩)
    (fun a h1 h2 hR => by
      have hro2 : region out a := by
        unfold region
        rw [go1, ← eso, Nat.mul_comm]
        exact ⟨h1, h2⟩
      rcases hR with h | h | ⟨b, hbb, h⟩
      · exact hsi a hro2 h
      · exact hsk a hro2 h
      · exact hsb b hbb a hro2 h)
    n hn j hj
  exact hspec

/-- The value converted to a signed output kind under ReLU: 0 for an accumulator that is not
positive, the converted shifted accumulator otherwise, and not negative when the rescaled
accumulator is representable. -/
theorem relu_wrap_nonneg (w : Nat) (hw : 32 ≤ w) (o_T : CIntType)
    (ho : o_T = ⟨8, true⟩ ∨ o_T = ⟨16, true⟩) (A s : Int) :
    o_T.wrap (relu_value w true A s)
        = (if A ≤ 0 then 0 else o_T.wrap (shift ⟨w, true⟩ A s)) ∧
      (o_T.wrap (scaled A s) = scaled A s → 0 ≤ o_T.wrap (relu_value w true A s)) := by
  have hT : o_T = ⟨8, true⟩ ∨ o_T = ⟨16, true⟩ ∨ o_T = ⟨8, false⟩ ∨ o_T = ⟨16, false⟩ := by
    rcases ho with h | h
    · exact Or.inl h
    · exact Or.inr (Or.inl h)
  have hv : o_T.wrap (relu_value w true A s)
      = (if A ≤ 0 then 0 else o_T.wrap (shift ⟨w, true⟩ A s)) := by
    rw [relu_value_eq w o_T hT]
    simp
  refine ⟨hv, fun hfit => ?_⟩
  rw [hv]
  by_cases h : A ≤ 0
  · rw [if_pos h]
  · rw [if_neg h, narrow_of_modEq w hw o_T hT _ _ (shift_modEq_scaled w hw A s) hfit]
    exact scaled_nonneg A s (by omega)

/-- C32 (amended): with `b_ReLU` set and a signed 8- or 16-bit output kind, `giga_conv2d_` and
`giga_dense_` on contiguous separate fixed-point tensors that pass the checks succeed, and every
element of the output tensor read from the final store is 0 when the accumulator of the element
is not positive and the shifted accumulator converted to the output kind otherwise; the element
is not negative whenever the accumulator rescaled by `out_shift = fp_out - fp_in - fp_k` is
representable in the output kind. -/
theorem relu_output_nonneg_when_representable (w : Nat) (hw : 32 ≤ w) (i_T o_T k_T : CIntType)
    (ho : o_T = ⟨8, true⟩ ∨ o_T = ⟨16, true⟩) :
    (∀ (params : GIGA_conv2d_t) (inT out : GIGA_tensor_t) (m : Mem),
      params.b_ReLU = true →
      fixed_CType inT.type = some i_T → fixed_CType out.type = some o_T →
      fixed_CType params.kernel.type = some k_T →
      Contiguous inT → Contiguous out → Contiguous params.kernel →
      inT.nb_dims = 4 → out.nb_dims = 4 → params.kernel.nb_dims = 4 →
      out.dims 0 = inT.dims 0 →
      params.kernel.dims 0 = out.dims 1 → params.kernel.dims 1 = inT.dims 1 →
      params.kernel.dims 2 = 3 → params.kernel.dims 3 = 3 →
      (params.stride 0 = 1 ∨ params.stride 0 = 2) →
      (params.stride 1 = 1 ∨ params.stride 1 = 2) →
      params.dilation 0 = 1 → params.dilation 1 = 1 →
      (0 ≤ params.padding 0 0 ∧ params.padding 0 0 < 2 ^ 31) →
      (0 ≤ params.padding 1 0 ∧ params.padding 1 0 < 2 ^ 31) →
      inT.dims 2 < 2 ^ 31 → inT.dims 3 < 2 ^ 31 →
      (∀ b, params.bias = some b →
        Contiguous b ∧ b.type = params.kernel.type ∧ b.nb_dims = 1 ∧ b.dims 0 = out.dims 1) →
      out.dims 2 = conv2d_out_dim (inT.dims 2) (params.padding 0 0) (params.padding 0 1)
        (params.stride 0) →
      out.dims 3 = conv2d_out_dim (inT.dims 3) (params.padding 1 0) (params.padding 1 1)
        (params.stride 1) →
      Separate out inT → Separate out params.kernel →
      (∀ b, params.bias = some b → Separate out b) →
      ∃ m2, giga_conv2d_ w params inT out m = some (GIGA_Success, m2) ∧
        ∀ n, n < out.dims 0 → ∀ co, co < out.dims 1 → ∀ y, y < out.dims 2 →
          ∀ x, x < out.dims 3 →
            load_int o_T m2 (elem_addr out (idx_of [n, co, y, x]))
                = (if conv2d_A w i_T k_T params inT m n co y x ≤ 0 then 0
                  else o_T.wrap (shift ⟨w, true⟩ (conv2d_A w i_T k_T params inT m n co y x)
                    ((out.fp_shift : Int) - (inT.fp_shift : Int)
                      - (params.kernel.fp_shift : Int)))) ∧
              (o_T.wrap (scaled (conv2d_A w i_T k_T params inT m n co y x)
                    ((out.fp_shift : Int) - (inT.fp_shift : Int)
                      - (params.kernel.fp_shift : Int)))
                  = scaled (conv2d_A w i_T k_T params inT m n co y x)
                    ((out.fp_shift : Int) - (inT.fp_shift : Int)
                      - (params.kernel.fp_shift : Int)) →
                0 ≤ load_int o_T m2 (elem_addr out (idx_of [n, co, y, x])))) ∧
    (∀ (params : GIGA_dense_t) (inT out : GIGA_tensor_t) (m : Mem),
      params.b_ReLU = true →
      fixed_CType inT.type = some i_T → fixed_CType out.type = some o_T →
      fixed_CType params.kernel.type = some k_T →
      Contiguous inT → Contiguous out → Contiguous params.kernel →
      inT.nb_dims = 2 → out.nb_dims = 2 → params.kernel.nb_dims = 2 →
      out.dims 0 = inT.dims 0 →
      params.kernel.dims 0 = out.dims 1 → params.kernel.dims 1 = inT.dims 1 →
      (∀ b, params.bias = some b →
        Contiguous b ∧ b.type = params.kernel.type ∧ b.nb_dims = 1 ∧ b.dims 0 = out.dims 1) →
      Separate out inT → Separate out params.kernel →
      (∀ b, params.bias = some b → Separate out b) →
      ∃ m2, giga_dense_ w params inT out m = some (GIGA_Success, m2) ∧
        ∀ n, n < out.dims 0 → ∀ j, j < out.dims 1 →
          load_int o_T m2 (elem_addr out (idx_of [n, j]))
              = (if dense_A w i_T k_T params inT m n j ≤ 0 then 0
                else o_T.wrap (shift ⟨w, true⟩ (dense_A w i_T k_T params inT m n j)
                  ((out.fp_shift : Int) - ((inT.fp_shift : Int)
                    + (params.kernel.fp_shift : Int))))) ∧
            (o_T.wrap (scaled (dense_A w i_T k_T params inT m n j)
                  ((out.fp_shift : Int) - ((inT.fp_shift : Int)
                    + (params.kernel.fp_shift : Int))))
                = scaled (dense_A w i_T k_T params inT m n j)
                  ((out.fp_shift : Int) - ((inT.fp_shift : Int)
                    + (params.kernel.fp_shift : Int))) →
              0 ≤ load_int o_T m2 (elem_addr out (idx_of [n, j])))) := by
  have hT : o_T = ⟨8, true⟩ ∨ o_T = ⟨16, true⟩ ∨ o_T = ⟨8, false⟩ ∨ o_T = ⟨16, false⟩ := by
    rcases ho with h | h
    · exact Or.inl h
    · exact Or.inr (Or.inl h)
  constructor
  · intro params inT out m hrelu hTi hTo hTk hci hco hck hri hro hrk hN hk0 hk1 hk2 hk3 hs0 hs1
      hd0 hd1 hp0 hp1 hH hW hb hHo hWo hsi hsk hsb
    obtain ⟨m2, h1, h2⟩ := conv2d_formula w i_T o_T k_T params inT out m hw hTi hTo hTk hci hco
      hck hri hro hrk hN hk0 hk1 hk2 hk3 hs0 hs1 hd0 hd1 hp0 hp1 hH hW hb hHo hWo hsi hsk hsb
    refine ⟨m2, h1, ?_⟩
    intro n hn co hco2 y hy x hx
    have hv := h2 n hn co hco2 y hy x hx
    have hr := relu_wrap_nonneg w hw o_T ho (conv2d_A w i_T k_T params inT m n co y x)
      ((out.fp_shift : Int) - (inT.fp_shift : Int) - (params.kernel.fp_shift : Int))
    rw [relu_value_eq w o_T hT] at hr
    have hc : load_int o_T m2 (elem_addr out (idx_of [n, co, y, x]))
        = if true = true ∧ conv2d_A w i_T k_T params inT m n co y x ≤ 0 then 0
          else o_T.wrap (shift ⟨w, true⟩ (conv2d_A w i_T k_T params inT m n co y x)
            ((out.fp_shift : Int) - (inT.fp_shift : Int) - (params.kernel.fp_shift : Int))) := by
      rw [hv]
      unfold conv2d_claimed
      rw [hrelu]
    rw [hc]
    exact hr
  · intro params inT out m hrelu hTi hTo hTk hci hco hck hri hro hrk hN hk0 hk1 hb hsi hsk hsb
    obtain ⟨m2, h1, h2⟩ := dense_formula w i_T o_T k_T params inT out m hTi hTo hTk hci hco
      hck hri hro hrk hN hk0 hk1 hb hsi hsk hsb
    refine ⟨m2, h1, ?_⟩
    intro n hn j hj
    rw [h2 n hn j hj, hrelu]
    exact relu_wrap_nonneg w hw o_T ho _ _

/-- C32 (witness): `giga_conv2d_` on the 3×3 `SFixed8` image with bias and ReLU into the
`SFixed16` output, and `giga_dense_` with ReLU on the inputs 100, 100 and the kernel row 2, 2
into a `SFixed16` output, where the accumulator 400 is representable and the element stored is
400. -/
theorem relu_output_nonneg_when_representable_witness :
    (32 ≤ 32 ∧ ((⟨16, true⟩ : CIntType) = ⟨8, true⟩ ∨ (⟨16, true⟩ : CIntType) = ⟨16, true⟩)) ∧
    (∃ m2, giga_conv2d_ 32 conv_params conv_in conv_out conv_store = some (GIGA_Success, m2) ∧
      ∀ n, n < conv_out.dims 0 → ∀ co, co < conv_out.dims 1 → ∀ y, y < conv_out.dims 2 →
        ∀ x, x < conv_out.dims 3 →
          load_int ⟨16, true⟩ m2 (elem_addr conv_out (idx_of [n, co, y, x]))
              = (if conv2d_A 32 ⟨8, true⟩ ⟨8, true⟩ conv_params conv_in conv_store n co y x ≤ 0
                then 0
                else CIntType.wrap ⟨16, true⟩ (shift ⟨32, true⟩
                  (conv2d_A 32 ⟨8, true⟩ ⟨8, true⟩ conv_params conv_in conv_store n co y x)
                  ((conv_out.fp_shift : Int) - (conv_in.fp_shift : Int)
                    - (conv_params.kernel.fp_shift : Int)))) ∧
            (CIntType.wrap ⟨16, true⟩ (scaled
                  (conv2d_A 32 ⟨8, true⟩ ⟨8, true⟩ conv_params conv_in conv_store n co y x)
                  ((conv_out.fp_shift : Int) - (conv_in.fp_shift : Int)
                    - (conv_params.kernel.fp_shift : Int)))
                = scaled
                  (conv2d_A 32 ⟨8, true⟩ ⟨8, true⟩ conv_params conv_in conv_store n co y x)
                  ((conv_out.fp_shift : Int) - (conv_in.fp_shift : Int)
                    - (conv_params.kernel.fp_shift : Int)) →
              0 ≤ load_int ⟨16, true⟩ m2 (elem_addr conv_out (idx_of [n, co, y, x])))) ∧
    (∃ m2, giga_dense_ 32 relu_dense_params relu_dense_in relu_dense_out16 relu_store
        = some (GIGA_Success, m2) ∧
      load_int ⟨16, true⟩ m2 (elem_addr relu_dense_out16 (idx_of [0, 0])) = 400 ∧
      0 ≤ load_int ⟨16, true⟩ m2 (elem_addr relu_dense_out16 (idx_of [0, 0]))) := by
  have h := relu_output_nonneg_when_representable 32 (le_refl 32) ⟨8, true⟩ ⟨16, true⟩ ⟨8, true⟩
    (Or.inr rfl)
  refine ⟨⟨le_refl 32, Or.inr rfl⟩, ?_, ?_⟩
  · exact h.1 conv_params conv_in conv_out conv_store rfl rfl rfl rfl
      (by unfold Contiguous RowMajor; decide) (by unfold Contiguous RowMajor; decide)
      (by unfold Contiguous RowMajor; decide)
      (by decide) (by decide) (by decide) (by decide) (by decide) (by decide) (by decide)
      (by decide) (by decide) (by decide) (by decide) (by decide) (by decide) (by decide)
      (by decide) (by decide)
      (fun b h => by
        have hb : conv_bias = b := Option.some.inj h
        subst hb
        exact ⟨by unfold Contiguous RowMajor; decide, by decide, by decide, by decide⟩)
      (by decide) (by decide)
      (separate_of_bounds _ _ (by decide)) (separate_of_bounds _ _ (by decide))
      (fun b h => by
        have hb : conv_bias = b := Option.some.inj h
        subst hb
        exact separate_of_bounds _ _ (by decide))
  · obtain ⟨m2, h1, h2⟩ := h.2 relu_dense_params relu_dense_in relu_dense_out16 relu_store
      rfl rfl rfl rfl
      (by unfold Contiguous RowMajor; decide) (by unfold Contiguous RowMajor; decide)
      (by unfold Contiguous RowMajor; decide)
      (by decide) (by decide) (by decide) (by decide) (by decide) (by decide)
      (fun b h => Option.noConfusion h)
      (separate_of_bounds _ _ (by decide)) (separate_of_bounds _ _ (by decide))
      (fun b h => Option.noConfusion h)
    have hA : dense_A 32 ⟨8, true⟩ ⟨8, true⟩ relu_dense_params relu_dense_in relu_store 0 0
        = 400 := by decide
    obtain ⟨h3, h4⟩ := h2 0 (by decide) 0 (by decide)
    rw [hA] at h3 h4
    refine ⟨m2, h1, ?_, h4 (by decide)⟩
    rw [h3]
    decide

/-! ## The addition for every triple of kinds -/

theorem int_CType_of_fixed (k : GIGA_data_type) (T : CIntType) (h : fixed_CType k = some T) :
    int_CType k = some T ∧ sizeof_CType k = T.bits / 8 ∧ ∀ w, compute_CType w k = some ⟨w, true⟩ := by
  cases k <;> simp only [fixed_CType, Option.some.injEq] at h <;> try exact Option.noConfusion h
  all_goals subst h
  all_goals exact ⟨rfl, rfl, fun _ => rfl⟩

/-- On the 8- and 16-bit fixed-point kinds the addition for every triple of kinds is the
addition `giga_add_` of the integer instantiations. -/
theorem giga_add_all_agrees {F : Type} (ops : FloatOps F) (cv : FloatConv F) (w : Nat)
    (hw : 32 ≤ w) (a b out : GIGA_tensor_t) (m : Mem) (r : GIGA_error × Mem)
    (h : giga_add_ w a b out m = some r) : giga_add_all ops cv w a b out m = r := by
  unfold giga_add_ at h
  unfold giga_add_all
  split_ifs at h ⊢ with h1
  · exact Option.some.inj h
  · cases hi : fixed_CType a.type with
    | none => simp only [hi] at h; exact Option.noConfusion h
    | some a_T =>
      cases hb : fixed_CType b.type with
      | none => simp only [hi, hb] at h; exact Option.noConfusion h
      | some b_T =>
        cases ho : fixed_CType out.type with
        | none => simp only [hi, hb, ho] at h; exact Option.noConfusion h
        | some o_T =>
          simp only [hi, hb, ho] at h
          rw [← Option.some.inj h]
          obtain ⟨a1, _, _⟩ := int_CType_of_fixed _ _ hi
          obtain ⟨b1, _, _⟩ := int_CType_of_fixed _ _ hb
          obtain ⟨o1, _, o3⟩ := int_CType_of_fixed _ _ ho
          unfold _add_impl_all _add_impl add_loop
          have hbody : add_element ops cv w a.type b.type out.type
              ((out.fp_shift : Int) - (a.fp_shift : Int))
              ((out.fp_shift : Int) - (b.fp_shift : Int)) (get_ptr a) (get_ptr b) (get_ptr out)
              = fun elt_i mem =>
                store_int o_T mem (get_ptr out + elt_i * (o_T.bits / 8))
                  (CIntType.wrap ⟨w, true⟩
                    (shift ⟨w, true⟩
                        (CIntType.wrap ⟨w, true⟩
                          (load_int a_T mem (get_ptr a + elt_i * (a_T.bits / 8))))
                        ((out.fp_shift : Int) - (a.fp_shift : Int))
                      + shift ⟨w, true⟩
                        (CIntType.wrap ⟨w, true⟩
                          (load_int b_T mem (get_ptr b + elt_i * (b_T.bits / 8))))
                        ((out.fp_shift : Int) - (b.fp_shift : Int)))) := by
            funext elt_i mem
            unfold add_element add_operand
            simp only [a1, b1, o1, o3 w, promote_wide w hw true]
          simp only [hbody]
          try rfl

theorem add_element_comm {F : Type} (ops : FloatOps F) (cv : FloatConv F) (w : Nat)
    (hcomm : ∀ x y, ops.add x y = ops.add y x)
    (a_GT b_GT o_GT : GIGA_data_type) (ashift bshift : Int) (a_base b_base out_base : Nat) :
    add_element ops cv w a_GT b_GT o_GT ashift bshift a_base b_base out_base
      = add_element ops cv w b_GT a_GT o_GT bshift ashift b_base a_base out_base := by
  funext elt_i mem
  unfold add_element
  cases compute_CType w o_GT <;> cases int_CType o_GT <;> simp only [] <;>
    first
      | rw [hcomm]
      | rw [Int.add_comm]

theorem add_impl_all_comm {F : Type} (ops : FloatOps F) (cv : FloatConv F) (w : Nat)
    (hcomm : ∀ x y, ops.add x y = ops.add y x)
    (a_GT b_GT o_GT : GIGA_data_type) (a b out : GIGA_tensor_t) (m : Mem) :
    _add_impl_all ops cv w a_GT b_GT o_GT a b out m
      = _add_impl_all ops cv w b_GT a_GT o_GT b a out m := by
  unfold _add_impl_all
  by_cases hr : a.nb_dims = b.nb_dims ∧ a.nb_dims = out.nb_dims
  · obtain ⟨h1, h2⟩ := hr
    have hl : add_dims_loop a b out = add_dims_loop b a out := by
      unfold add_dims_loop
      rw [← h1]
      exact add_dims_loop_comm a b out a.nb_dims
    simp only []
    rw [if_neg (fun h => h.elim (fun g => g h1) (fun g => g h2)),
      if_neg (fun h => h.elim (fun g => g h1.symm) (fun g => g (h1.symm.trans h2))), hl]
    cases add_dims_loop b a out with
    | none => rfl
    | some k =>
      simp only []
      rw [add_element_comm ops cv w hcomm]
  · simp only []
    rw [if_pos (by omega), if_pos (by omega)]

theorem add_impl_all_validates {F : Type} (ops : FloatOps F) (cv : FloatConv F) (w : Nat)
    (a_GT b_GT o_GT : GIGA_data_type) (a b out : GIGA_tensor_t) (m : Mem) :
    ValidatesFirst m (_add_impl_all ops cv w a_GT b_GT o_GT a b out m) := by
  unfold _add_impl_all
  conv => zeta
  refine validates_ite m _ _ _ (validates_error m _) ?_
  cases add_dims_loop a b out with
  | none => exact validates_error m _
  | some n => exact validates_success m _

/-! ## Error returns leave the store as it was -/

theorem conv2d_error_unchanged (w : Nat) (params : GIGA_conv2d_t) (inT out : GIGA_tensor_t)
    (m : Mem) (hs : giga_conv2d_status params inT out ≠ GIGA_Success) :
    giga_conv2d_ w params inT out m = some (giga_conv2d_status params inT out, m) := by
  cases hg : giga_conv2d_ w params inT out m with
  | none =>
    exfalso
    apply hs
    unfold giga_conv2d_ at hg
    unfold giga_conv2d_status
    split_ifs at hg ⊢ with h1
    cases hc : conv2d_checks params inT out with
    | none => rfl
    | some e =>
      cases hi : fixed_CType inT.type <;> cases ho : fixed_CType out.type <;>
        cases hk : fixed_CType params.kernel.type <;> simp [hi, ho, hk, hc] at hg
  | some r =>
    have h1 := giga_conv2d_status_eq w params inT out m r hg
    have h2 := conv2d_validates w params inT out m r.1 r.2 hg (by rw [h1]; exact hs)
    rw [← h1, ← h2]

theorem dense_error_unchanged (w : Nat) (params : GIGA_dense_t) (inT out : GIGA_tensor_t)
    (m : Mem) (hs : giga_dense_status params inT out ≠ GIGA_Success) :
    giga_dense_ w params inT out m = some (giga_dense_status params inT out, m) := by
  cases hg : giga_dense_ w params inT out m with
  | none =>
    exfalso
    apply hs
    unfold giga_dense_ at hg
    unfold giga_dense_status
    split_ifs at hg ⊢ with h1
    cases hc : dense_checks params inT out with
    | none => rfl
    | some e =>
      cases hi : fixed_CType inT.type <;> cases ho : fixed_CType out.type <;>
        cases hk : fixed_CType params.kernel.type <;> simp [hi, ho, hk, hc] at hg
  | some r =>
    have h1 := giga_dense_status_eq w params inT out m r hg
    have h2 := dense_validates w params inT out m r.1 r.2 hg (by rw [h1]; exact hs)
    rw [← h1, ← h2]

/-! ## Commutativity of the addition for every kind -/

/-- C23: `giga_add_` on (a, b, out) and on (b, a, out) return the same code and the same store,
for every kind of the three tensors (the float and the 4-bit kinds included), every shape and
every `fp_shift`: the checks are symmetric in `a` and `b`, and each element is the conversion of
the sum of the two shifted operands, a sum of integers for an integer output kind and a sum of
`float`s for a float output kind, the addition of `float` being commutative. -/
theorem add_commutative_all_kinds {F : Type} (ops : FloatOps F) (cv : FloatConv F) (w : Nat)
    (hcomm : ∀ x y, ops.add x y = ops.add y x) (a b out : GIGA_tensor_t) (m : Mem) :
    giga_add_all ops cv w a b out m = giga_add_all ops cv w b a out m := by
  unfold giga_add_all
  have hex : (!check_tensor_exists a || !check_tensor_exists b || !check_tensor_exists out)
      = (!check_tensor_exists b || !check_tensor_exists a || !check_tensor_exists out) := by
    cases check_tensor_exists a <;> cases check_tensor_exists b <;> rfl
  rw [hex]
  split_ifs
  · rfl
  · exact add_impl_all_comm ops cv w hcomm _ _ _ a b out m

/-- C23 (witness): `Float32` tensors of dims (2) holding 0, with the exact addition of the
rationals. -/
theorem add_commutative_all_kinds_witness :
    (∀ x y, exact_ops.add x y = exact_ops.add y x) ∧
    (giga_add_all exact_ops exact_conv 32 add_f32_a add_f32_b add_f32_out zero_store).1
      = GIGA_Success ∧
    giga_add_all exact_ops exact_conv 32 add_f32_a add_f32_b add_f32_out zero_store
      = giga_add_all exact_ops exact_conv 32 add_f32_b add_f32_a add_f32_out zero_store :=
  ⟨fun x y => add_comm x y, by decide,
    add_commutative_all_kinds exact_ops exact_conv 32 (fun x y => add_comm x y)
      add_f32_a add_f32_b add_f32_out zero_store⟩

/-- C37: when `giga_add_`, `giga_conv2d_`, `giga_dense_`, `giga_upsample_` or `giga_softmax_`
returns a code other than `GIGA_Success`, the store after the call is the store before it, byte
for byte, for every kind of the tensors: the addition, the upsampling and the softmax are taken
for every triple or pair of kinds, and conv2d and dense return a code other than `GIGA_Success`
only from their checks, with the store as it was. -/
theorem kernels_validate_before_write {F : Type} (w : Nat) (ops : FloatOps F)
    (cv : FloatConv F) (conv_p : GIGA_conv2d_t) (dense_p : GIGA_dense_t)
    (up_p : GIGA_upsample_t) (soft_p : GIGA_softmax_t) (a b inT out : GIGA_tensor_t) (m : Mem) :
    ((giga_add_all ops cv w a b out m).1 ≠ GIGA_Success →
      (giga_add_all ops cv w a b out m).2 = m) ∧
    (∀ e m2, giga_add_ w a b out m = some (e, m2) → e ≠ GIGA_Success → m2 = m) ∧
    (giga_conv2d_status conv_p inT out ≠ GIGA_Success →
      giga_conv2d_ w conv_p inT out m = some (giga_conv2d_status conv_p inT out, m)) ∧
    (∀ e m2, giga_conv2d_ w conv_p inT out m = some (e, m2) →
      e = giga_conv2d_status conv_p inT out ∧ (e ≠ GIGA_Success → m2 = m)) ∧
    (giga_dense_status dense_p inT out ≠ GIGA_Success →
      giga_dense_ w dense_p inT out m = some (giga_dense_status dense_p inT out, m)) ∧
    (∀ e m2, giga_dense_ w dense_p inT out m = some (e, m2) →
      e = giga_dense_status dense_p inT out ∧ (e ≠ GIGA_Success → m2 = m)) ∧
    ((giga_upsample_ up_p inT out m).1 ≠ GIGA_Success → (giga_upsample_ up_p inT out m).2 = m) ∧
    ((giga_softmax_ ops soft_p inT out m).1 ≠ GIGA_Success →
      (giga_softmax_ ops soft_p inT out m).2 = m) := by
  refine ⟨fun h => ?_, add_validates w a b out m, conv2d_error_unchanged w conv_p inT out m,
    fun e m2 h => ⟨giga_conv2d_status_eq w conv_p inT out m (e, m2) h,
      conv2d_validates w conv_p inT out m e m2 h⟩,
    dense_error_unchanged w dense_p inT out m,
    fun e m2 h => ⟨giga_dense_status_eq w dense_p inT out m (e, m2) h,
      dense_validates w dense_p inT out m e m2 h⟩, fun h => ?_, fun h => ?_⟩
  · have hv : ValidatesFirst m (giga_add_all ops cv w a b out m) := by
      unfold giga_add_all
      exact validates_ite m _ _ _ (validates_error m _)
        (add_impl_all_validates ops cv w _ _ _ a b out m)
    exact hv.resolve_left h
  · have hv : ValidatesFirst m (giga_upsample_ up_p inT out m) := by
      unfold giga_upsample_
      exact validates_ite m _ _ _ (validates_error m _) (upsample_impl_validates _ up_p inT out m)
    exact hv.resolve_left h
  · have hv : ValidatesFirst m (giga_softmax_ ops soft_p inT out m) := by
      unfold giga_softmax_
      exact validates_ite m _ _ _ (validates_error m _)
        (softmax_impl_validates ops _ _ inT out m)
    exact hv.resolve_left h

/-- C37 (witness): on `Float32` tensors, the addition of operands of dims (2) and (3) is refused
with `GIGA_Inconsistent_Tensor_Sizes`, conv2d with stride 3 with `GIGA_Incorrect_Parameter` and
dense on an input of rank 4 with `GIGA_Inconsistent_Number_Of_Dimensions`; on `SFixed8` tensors
conv2d with stride 3 is refused with `GIGA_Incorrect_Parameter`; each call leaves the store as
it was. -/
theorem kernels_validate_before_write_witness :
    giga_add_all exact_ops exact_conv 32 add_f32_a add_f32_b3 add_f32_out conv_store
      = (GIGA_Inconsistent_Tensor_Sizes, conv_store) ∧
    giga_conv2d_ 32 conv_f32_params_stride3 conv_f32_in conv_f32_out conv_store
      = some (GIGA_Incorrect_Parameter, conv_store) ∧
    giga_dense_ 32 dense_f32_params conv_f32_in conv_f32_out conv_store
      = some (GIGA_Inconsistent_Number_Of_Dimensions, conv_store) ∧
    giga_conv2d_ 32 conv_params_stride3 conv_in conv_out conv_store
      = some (GIGA_Incorrect_Parameter, conv_store) := by
  have h0 := kernels_validate_before_write 32 exact_ops exact_conv conv_f32_params_stride3
    dense_f32_params ⟨2⟩ ⟨0⟩ add_f32_a add_f32_b3 conv_f32_in add_f32_out conv_store
  have h := kernels_validate_before_write 32 exact_ops exact_conv conv_f32_params_stride3
    dense_f32_params ⟨2⟩ ⟨0⟩ add_f32_a add_f32_b3 conv_f32_in conv_f32_out conv_store
  have h2 := kernels_validate_before_write 32 exact_ops exact_conv conv_params_stride3
    dense_params ⟨2⟩ ⟨0⟩ add_f32_a add_f32_b3 conv_in conv_out conv_store
  have e1 : (giga_add_all exact_ops exact_conv 32 add_f32_a add_f32_b3 add_f32_out conv_store).1
      = GIGA_Inconsistent_Tensor_Sizes := by decide
  have e2 : giga_conv2d_status conv_f32_params_stride3 conv_f32_in conv_f32_out
      = GIGA_Incorrect_Parameter := by decide
  have e3 : giga_dense_status dense_f32_params conv_f32_in conv_f32_out
      = GIGA_Inconsistent_Number_Of_Dimensions := by decide
  have e4 : giga_conv2d_status conv_params_stride3 conv_in conv_out
      = GIGA_Incorrect_Parameter := by decide
  refine ⟨?_, ?_, ?_, ?_⟩
  · exact Prod.ext e1 (h0.1 (by rw [e1]; decide))
  · rw [← e2]
    exact h.2.2.1 (by rw [e2]; decide)
  · rw [← e3]
    exact h.2.2.2.2.1 (by rw [e3]; decide)
  · rw [← e4]
    exact h2.2.2.1 (by rw [e4]; decide)

/-! ## The copies for every pair of kinds -/

theorem fixed_not_float (k : GIGA_data_type) (T : CIntType) (h : fixed_CType k = some T) :
    (decide (k = GIGA_Float32) || decide (k = GIGA_Float16)) = false := by
  cases k <;> simp only [fixed_CType] at h <;> first | rfl | exact Option.noConfusion h

/-- On the 8- and 16-bit fixed-point kinds the copy to a tensor for every pair of kinds is
`giga_copy_to_tensor_`. -/
theorem giga_copy_to_tensor_all_agrees {F : Type} (ops : FloatOps F) (cv : FloatConv F)
    (user : Mem) (source_type : GIGA_data_type) (fp_shift : Nat) (tensor : GIGA_tensor_t)
    (m : Mem) (r : GIGA_error × Mem)
    (h : giga_copy_to_tensor_ user source_type fp_shift tensor m = some r) :
    giga_copy_to_tensor_all ops cv user source_type fp_shift tensor m = r := by
  unfold giga_copy_to_tensor_ at h
  unfold giga_copy_to_tensor_all
  simp only [] at h ⊢
  split_ifs at h with h1 h2
  · rw [if_pos h1]
    exact Option.some.inj h
  · rw [if_neg h1, if_pos h2]
    exact Option.some.inj h
  · rw [if_neg h1, if_neg h2]
    cases hs : fixed_CType source_type with
    | none => simp only [hs] at h; exact Option.noConfusion h
    | some S =>
      cases ht : fixed_CType tensor.type with
      | none => simp only [hs, ht] at h; exact Option.noConfusion h
      | some T =>
        simp only [hs, ht] at h
        rw [← Option.some.inj h]
        obtain ⟨s1, s2, _⟩ := int_CType_of_fixed _ _ hs
        obtain ⟨t1, t2, _⟩ := int_CType_of_fixed _ _ ht
        simp only [fixed_not_float _ _ ht, Bool.false_eq_true, if_false, cast_to_all, s1, t1, s2,
          t2, store_int, load_int]

/-- On the 8- and 16-bit fixed-point kinds the copy from a tensor for every pair of kinds is
`giga_copy_from_tensor_`. -/
theorem giga_copy_from_tensor_all_agrees {F : Type} (ops : FloatOps F) (cv : FloatConv F)
    (user : Mem) (target_type : GIGA_data_type) (fp_shift : Nat) (tensor : GIGA_tensor_t)
    (m : Mem) (r : GIGA_error × Mem)
    (h : giga_copy_from_tensor_ user target_type fp_shift tensor m = some r) :
    giga_copy_from_tensor_all ops cv user target_type fp_shift tensor m = r := by
  unfold giga_copy_from_tensor_ at h
  unfold giga_copy_from_tensor_all
  simp only [] at h ⊢
  split_ifs at h with h1 h2
  · rw [if_pos h1]
    exact Option.some.inj h
  · rw [if_neg h1, if_pos h2]
    exact Option.some.inj h
  · rw [if_neg h1, if_neg h2]
    cases hs : fixed_CType target_type with
    | none => simp only [hs] at h; exact Option.noConfusion h
    | some S =>
      cases ht : fixed_CType tensor.type with
      | none => simp only [hs, ht] at h; exact Option.noConfusion h
      | some T =>
        simp only [hs, ht] at h
        rw [← Option.some.inj h]
        obtain ⟨s1, s2, _⟩ := int_CType_of_fixed _ _ hs
        obtain ⟨t1, t2, _⟩ := int_CType_of_fixed _ _ ht
        simp only [fixed_not_float _ _ hs, Bool.false_eq_true, if_false, cast_to_all, s1, t1, s2,
          t2, store_int, load_int]

/-- The element `1.f` times the factor `float(n)`, converted to `int8_t`, for `n` 8 and 16. -/
theorem cast_one_times (n : Int) (hn : n = 8 ∨ n = 16) :
    exact_kind_ops.ofFloat GIGA_SFixed8 (exact_kind_ops.mul
      (exact_kind_ops.toFloat GIGA_Float32 1065353216) (exact_conv.ofInt n)) = n.toNat := by
  have h1 : exact_kind_ops.toFloat GIGA_Float32 1065353216 = 1 := by
    simp [exact_kind_ops, int_CType, f32_value]
  rw [h1]
  rcases hn with h | h <;> subst h <;>
  simp [exact_kind_ops, exact_ops, exact_conv, int_CType]

/-- C29 (failing input): the `Float32` element `1.f` copied into a `SFixed8` element of
`fp_shift` 4.  `giga_copy_to_tensor_` from a buffer passed with the `fp_shift` argument 1 succeeds
and stores 8, and from the same buffer passed with the argument 0 it stores 16;
`giga_copy_from_tensor_` into a `SFixed8` buffer of `fp_shift` 4 stores 8 from a `Float32` tensor
whose descriptor has `fp_shift` 1 and 16 from one whose descriptor has `fp_shift` 0.  The claimed
delta is 4 in the four cases, and the integer part of `1 · 2^4` is 16. -/
theorem copy_float_source_fp_shift_used :
    ((giga_copy_to_tensor_all exact_kind_ops exact_conv (f32_one_at 0) GIGA_Float32 1 copy_s8_fp4
          zero_store).1 = GIGA_Success ∧
      load_int ⟨8, true⟩ (giga_copy_to_tensor_all exact_kind_ops exact_conv (f32_one_at 0)
          GIGA_Float32 1 copy_s8_fp4 zero_store).2 (elem_addr copy_s8_fp4 (idx_of [0])) = 8 ∧
      load_int ⟨8, true⟩ (giga_copy_to_tensor_all exact_kind_ops exact_conv (f32_one_at 0)
          GIGA_Float32 0 copy_s8_fp4 zero_store).2 (elem_addr copy_s8_fp4 (idx_of [0])) = 16) ∧
    ((giga_copy_from_tensor_all exact_kind_ops exact_conv zero_store GIGA_SFixed8 4 copy_f32_fp1
          (f32_one_at 4096)).1 = GIGA_Success ∧
      load_int ⟨8, true⟩ (giga_copy_from_tensor_all exact_kind_ops exact_conv zero_store
          GIGA_SFixed8 4 copy_f32_fp1 (f32_one_at 4096)).2 0 = 8 ∧
      load_int ⟨8, true⟩ (giga_copy_from_tensor_all exact_kind_ops exact_conv zero_store
          GIGA_SFixed8 4 copy_f32_fp0 (f32_one_at 4096)).2 0 = 16) ∧
    (claimed_delta (is_float GIGA_SFixed8) 4 (is_float GIGA_Float32) 1 = 4 ∧
      claimed_delta (is_float GIGA_SFixed8) 4 (is_float GIGA_Float32) 0 = 4 ∧
      exact_conv.toInt (f32_value (load_bytes (f32_one_at 0) 0 4)
        * 2 ^ (claimed_delta (is_float GIGA_SFixed8) 4 (is_float GIGA_Float32) 1).toNat)
        = 16) := by
  have a1 : (giga_copy_to_tensor_all exact_kind_ops exact_conv (f32_one_at 0) GIGA_Float32 1
      copy_s8_fp4 zero_store).2 = store_bytes zero_store 4096 1
        (exact_kind_ops.ofFloat GIGA_SFixed8 (exact_kind_ops.mul
          (exact_kind_ops.toFloat GIGA_Float32 1065353216) (exact_conv.ofInt 8))) := rfl
  have a0 : (giga_copy_to_tensor_all exact_kind_ops exact_conv (f32_one_at 0) GIGA_Float32 0
      copy_s8_fp4 zero_store).2 = store_bytes zero_store 4096 1
        (exact_kind_ops.ofFloat GIGA_SFixed8 (exact_kind_ops.mul
          (exact_kind_ops.toFloat GIGA_Float32 1065353216) (exact_conv.ofInt 16))) := rfl
  have b1 : (giga_copy_from_tensor_all exact_kind_ops exact_conv zero_store GIGA_SFixed8 4
      copy_f32_fp1 (f32_one_at 4096)).2 = store_bytes zero_store 0 1
        (exact_kind_ops.ofFloat GIGA_SFixed8 (exact_kind_ops.mul
          (exact_kind_ops.toFloat GIGA_Float32 1065353216) (exact_conv.ofInt 8))) := rfl
  have b0 : (giga_copy_from_tensor_all exact_kind_ops exact_conv zero_store GIGA_SFixed8 4
      copy_f32_fp0 (f32_one_at 4096)).2 = store_bytes zero_store 0 1
        (exact_kind_ops.ofFloat GIGA_SFixed8 (exact_kind_ops.mul
          (exact_kind_ops.toFloat GIGA_Float32 1065353216) (exact_conv.ofInt 16))) := rfl
  have c8 := cast_one_times 8 (Or.inl rfl)
  have c16 := cast_one_times 16 (Or.inr rfl)
  rw [a1, a0, b1, b0, c8, c16]
  refine ⟨⟨by decide, by decide, by decide⟩, ⟨by decide, by decide, by decide⟩, by decide,
    by decide, ?_⟩
  have hl : load_bytes (f32_one_at 0) 0 4 = 1065353216 := by decide
  have hd : claimed_delta (is_float GIGA_SFixed8) 4 (is_float GIGA_Float32) 1 = 4 := by decide
  rw [hl, hd]
  simp [f32_value, exact_conv]

end Giga
